import Mathlib

/-!
# Access planning of the parameter-server solver (`Solver<float>::InitPs`)

A shallow embedding of `src/src/caffe/solver.cpp` and of the records of
`src/include/caffe/solver.hpp`: the planning in `InitPs`, the iteration
`ForwardBackwardUsingPs`, the construction of a solver by `GetSolver`, the training
loop `Step` with `Test` and `Snapshot`, and the update rules `ComputeUpdateValue` of the
SGD and the Nesterov solver.

Conventions of the embedding.

* `int` identifiers and element counts are natural numbers: they index vectors and
  no arithmetic on them can go below zero.
* `std::map<int, FetchKeep>` (the source's `IntSet`) is an association list kept in
  ascending key order, which is the order a `std::map` is iterated in.
* The parallel vectors `layers_`, `layer_types_`, `layer_need_backward_`,
  `bottom_id_vecs_` and `top_id_vecs_` of a `Net` always have one entry per layer;
  they are bundled into one list of `Layer` records.
* A failed `CHECK` ends the process; the embedding returns `Except.error`.  Indexing
  a vector outside its bounds is undefined in the source; the embedding stops with
  `Fatal.outOfRange` there.
* The program is embedded as it is compiled: `MULTI_TABLE` is defined and
  `LOCAL_DATA_IN_PS` is not, so the blocks under `#if defined(LOCAL_DATA_IN_PS)`
  are not part of it.
* The size reports written to `cout`/`cerr` (lines 309-330, 393-578, 745-798) are output
  only and are not embedded; with no stage at all they index `layer_infos_` outside its
  bounds, and the embedding does not follow them there.
-/

namespace Caffe

/-! ## Records of `solver.hpp` -/

/-- The record `FetchKeep`: the (fetch, keep) policy of one buffer at one stage. -/
structure FetchKeep where
  fetch : Bool := false
  keep : Bool := false
deriving DecidableEq, Repr, Inhabited

/-- The record `ImbInfo`: one entry of an access or release list. -/
structure ImbInfo where
  global_imb_id : Nat
  fetch : Bool := false
  keep : Bool := false
deriving DecidableEq, Repr, Inhabited

/-- The record `RowAccessInfo`: rows and residency flag of one intermediate buffer. -/
structure RowAccessInfo where
  row_ids : List Nat := []
  num_vals : Nat := 0
  data_in_mem : Bool := false
  data_handle : Int := -1
deriving DecidableEq, Repr, Inhabited

/-- The record `ParamInfo`. -/
structure ParamInfo where
  global_param_id : Nat := 0
  val_offset : Nat := 0
deriving DecidableEq, Repr, Inhabited

/-- The source's `IntSet`, a `std::map<int, FetchKeep>`: entries in ascending key order. -/
structure IntSet where
  entries : List (Nat × FetchKeep) := []
deriving DecidableEq, Repr, Inhabited

/-- Ordered insertion with overwrite into the entries of a map. -/
def insertEntry (k : Nat) (v : FetchKeep) : List (Nat × FetchKeep) → List (Nat × FetchKeep)
  | [] => [(k, v)]
  | (k', v') :: rest =>
    if k < k' then (k, v) :: (k', v') :: rest
    else if k = k' then (k, v) :: rest
    else (k', v') :: insertEntry k v rest

namespace IntSet

/-- The assignment `m[k] = v` of a `std::map`. -/
def assign (m : IntSet) (k : Nat) (v : FetchKeep) : IntSet :=
  ⟨insertEntry k v m.entries⟩

/-- The test `m.count(k)` of a `std::map`, as a boolean. -/
def count (m : IntSet) (k : Nat) : Bool :=
  m.entries.any (fun e => e.1 == k)

/-- The value stored under a key, if any. -/
def find (m : IntSet) (k : Nat) : Option FetchKeep :=
  (m.entries.find? (fun e => e.1 == k)).map Prod.snd

/-- The keys of a map in iteration order. -/
def keys (m : IntSet) : List Nat :=
  m.entries.map Prod.fst

end IntSet

/-- The record `LayerHandles`: the handles of one stage in one slot.  A handle that
was never assigned is `none`. -/
structure LayerHandles where
  read_handle : Option Int := none
  postread_handle : Option Int := none
  bw_read_handle : Option Int := none
  bw_postread_handle : Option Int := none
  prewrite_handle : Option Int := none
  write_handle : Option Int := none
  history_access_handle : Option Int := none
  history_postaccess_handle : Option Int := none
  imbs_to_access_fw : List Int := []
  imbs_to_release_fw : List Int := []
  imb_diffs_to_access_fw : List Int := []
  imb_diffs_to_release_fw : List Int := []
  imbs_to_access_bw : List Int := []
  imbs_to_release_bw : List Int := []
  imb_diffs_to_access_bw : List Int := []
  imb_diffs_to_release_bw : List Int := []
deriving DecidableEq, Repr, Inhabited

/-- The record `LayerInfo`.  The six timing counters hold clock ticks; the fields
`param_size` and `imb_size`, which no function reads or writes, are left out. -/
structure LayerInfo where
  table_id : Nat := 0
  row_ids : List Nat := []
  history_data_row_ids : List Nat := []
  num_vals : Nat := 0
  param_infos : List ParamInfo := []
  imbs_used_fw : IntSet := {}
  imb_diffs_used_fw : IntSet := {}
  imbs_used_bw : IntSet := {}
  imb_diffs_used_bw : IntSet := {}
  imbs_to_access_fw : List ImbInfo := []
  imbs_to_release_fw : List ImbInfo := []
  imb_diffs_to_access_fw : List ImbInfo := []
  imb_diffs_to_release_fw : List ImbInfo := []
  imbs_to_access_bw : List ImbInfo := []
  imbs_to_release_bw : List ImbInfo := []
  imb_diffs_to_access_bw : List ImbInfo := []
  imb_diffs_to_release_bw : List ImbInfo := []
  layer_handles : List LayerHandles := []
  fw_read_time : Int := 0
  fw_compute_time : Int := 0
  fw_write_time : Int := 0
  bw_read_time : Int := 0
  bw_compute_time : Int := 0
  bw_write_time : Int := 0
deriving DecidableEq, Repr, Inhabited

/-- The record `PsConfig` (the table-service configuration is opaque to the solver). -/
structure PsConfig where
  no_ps : Bool := false
  worker_id : Int := 0
  num_workers : Int := 1
  slack : Int := 0
  batches_per_clock : Nat := 1
deriving DecidableEq, Repr, Inhabited

/-! ## The part of `Net` that `InitPs` reads -/

/-- One stage of the graph: `layer_types_[i]`, `layer_need_backward_[i]`, the element
counts of `layers_[i]->blobs()`, `bottom_id_vecs_[i]` and `top_id_vecs_[i]`. -/
structure Layer where
  type : String
  need_backward : Bool := true
  blobs : List Nat := []
  bottom_ids : List Nat := []
  top_ids : List Nat := []
deriving DecidableEq, Repr, Inhabited

/-- The graph: its stages, the element counts of `params_` and of `blobs_`, and
`net_output_blob_indices_`. -/
structure Net where
  layers : List Layer := []
  params : List Nat := []
  blobs : List Nat := []
  net_output_blob_indices : List Nat := []
deriving DecidableEq, Repr, Inhabited

/-- The ways a run can stop: a failed `CHECK`, an index outside a vector, a call on the
client that was never created, and `LOG(FATAL)`. -/
inductive Fatal where
  | checkFailed
  | outOfRange
  | nullClient
  | logFatal
deriving DecidableEq, Repr, Inhabited

/-! ## Usage sets (solver.cpp lines 333-392) -/

/-- Lines 334-337: the set of designated net outputs. -/
def netOutputSet (net_output_blob_indices : List Nat) : IntSet :=
  net_output_blob_indices.foldl (fun s i => s.assign i {}) {}

/-- Lines 346-365, the body of the loop over the bottoms of a stage. -/
def bottomStep (net_output_set : IntSet) (layer_type : String)
    (layer_info : LayerInfo) (blob_id : Nat) : LayerInfo :=
  if net_output_set.count blob_id then layer_info
  else
    let l1 := { layer_info with
      imbs_used_fw := layer_info.imbs_used_fw.assign blob_id ⟨true, true⟩ }
    let l2 := if layer_type != "Data" then
        { l1 with imbs_used_bw := l1.imbs_used_bw.assign blob_id ⟨true, false⟩ }
      else l1
    if layer_type != "Data" then
      { l2 with imb_diffs_used_bw := l2.imb_diffs_used_bw.assign blob_id ⟨false, true⟩ }
    else l2

/-- Lines 366-392, the body of the loop over the tops of a stage. -/
def topStep (net_output_set : IntSet) (layer_type : String)
    (layer_info : LayerInfo) (blob_id : Nat) : LayerInfo :=
  if net_output_set.count blob_id then layer_info
  else
    let l1 := { layer_info with
      imbs_used_fw := layer_info.imbs_used_fw.assign blob_id ⟨false, true⟩ }
    let l2 := if layer_type == "SoftmaxWithLoss" then
        { l1 with imb_diffs_used_fw := l1.imb_diffs_used_fw.assign blob_id ⟨false, true⟩ }
      else l1
    let l3 := if layer_type == "ReLU" || layer_type == "LRN" ||
          layer_type == "Pooling" || layer_type == "SoftmaxWithLoss" then
        { l2 with imbs_used_bw := l2.imbs_used_bw.assign blob_id ⟨true, false⟩ }
      else l2
    if layer_type != "Data" then
      { l3 with imb_diffs_used_bw := l3.imb_diffs_used_bw.assign blob_id ⟨true, false⟩ }
    else l3

/-- Lines 339-392, the usage sets of one stage: the bottoms first, then the tops. -/
def layerUsage (net_output_set : IntSet) (layer : Layer) (layer_info : LayerInfo) :
    LayerInfo :=
  layer.top_ids.foldl (topStep net_output_set layer.type)
    (layer.bottom_ids.foldl (bottomStep net_output_set layer.type) layer_info)

/-- Lines 338-399: the usage sets of every stage. -/
def computeUsage (net : Net) (layer_infos : List LayerInfo) : List LayerInfo :=
  List.zipWith (layerUsage (netOutputSet net.net_output_blob_indices))
    net.layers layer_infos

/-! ## Row keys (solver.cpp lines 235-307) -/

/-- The solver fields `InitPs` fills in. -/
structure Solver where
  ps_config_ : PsConfig := {}
  imb_data_infos_ : List RowAccessInfo := []
  imb_diff_infos_ : List RowAccessInfo := []
  layer_infos_ : List LayerInfo := []
deriving DecidableEq, Repr, Inhabited

/-- The local counters of lines 236-240. -/
structure RowCounters where
  total_num_params : Nat := 0
  table_id : Nat := 0
  row_id : Nat := 0
  local_store_row_id : Nat := 0
  global_param_id : Nat := 0
deriving DecidableEq, Repr, Inhabited

/-- Lines 253-258: offsets and global ids of the parameters of one stage, from the
running `num_vals` and `global_param_id`; returns the final values of both. -/
def assignParams : List Nat → Nat → Nat → List ParamInfo × Nat × Nat
  | [], num_vals, global_param_id => ([], num_vals, global_param_id)
  | count :: rest, num_vals, global_param_id =>
    let r := assignParams rest (num_vals + count) (global_param_id + 1)
    ({ global_param_id := global_param_id, val_offset := num_vals } :: r.1, r.2.1, r.2.2)

/-- Lines 245-274, the body of the loop that decides the row keys of the parameters. -/
def paramRowsStep (ROW_DATA_SIZE : Nat) (c : RowCounters) (layer : Layer) :
    LayerInfo × RowCounters :=
  let num_params := layer.blobs.length
  if 0 < num_params then
    let r := assignParams layer.blobs 0 c.global_param_id
    let num_vals := r.2.1
    let num_rows := (num_vals + ROW_DATA_SIZE - 1) / ROW_DATA_SIZE
    ({ table_id := c.table_id
       row_ids := List.range' c.row_id num_rows
       history_data_row_ids := List.range' c.local_store_row_id num_rows
       num_vals := num_vals
       param_infos := r.1 },
     { total_num_params := c.total_num_params + num_params
       table_id := c.table_id + 1
       row_id := 0
       local_store_row_id := c.local_store_row_id + num_rows
       global_param_id := r.2.2 })
  else ({}, c)

/-- Lines 244-275: the loop over the stages. -/
def assignParamRows (ROW_DATA_SIZE : Nat) : List Layer → RowCounters →
    List LayerInfo × RowCounters
  | [], c => ([], c)
  | layer :: rest, c =>
    let r := paramRowsStep ROW_DATA_SIZE c layer
    let rs := assignParamRows ROW_DATA_SIZE rest r.2
    (r.1 :: rs.1, rs.2)

/-- Lines 284-295 and 298-307: rows of the data, or of the gradients, of the
intermediate buffers, from the running `local_store_row_id`. -/
def assignImbRows (ROW_DATA_SIZE : Nat) : List Nat → Nat → List RowAccessInfo × Nat
  | [], local_store_row_id => ([], local_store_row_id)
  | count :: rest, local_store_row_id =>
    let num_rows := (count + ROW_DATA_SIZE - 1) / ROW_DATA_SIZE
    let r := assignImbRows ROW_DATA_SIZE rest (local_store_row_id + num_rows)
    ({ row_ids := List.range' local_store_row_id num_rows
       num_vals := count
       data_in_mem := false
       data_handle := -1 } :: r.1, r.2)

/-! ## Access and release lists (solver.cpp lines 580-743) -/

/-- Lines 588-597 (data) and 598-608 (gradients), also 665-674 and 676-686: every
buffer of the usage set that is not resident becomes resident and gets an access entry
with the fetch flag of its policy. -/
def accessLoop : List (Nat × FetchKeep) → List RowAccessInfo → List ImbInfo →
    Except Fatal (List RowAccessInfo × List ImbInfo)
  | [], infos, to_access => .ok (infos, to_access)
  | (imb_id, fk) :: rest, infos, to_access =>
    match infos[imb_id]? with
    | none => .error .outOfRange
    | some info =>
      if !info.data_in_mem then
        accessLoop rest (infos.set imb_id { info with data_in_mem := true })
          (to_access ++ [{ global_imb_id := imb_id, fetch := fk.fetch }])
      else accessLoop rest infos to_access

/-- Lines 616-626 (data) and 630-641 (gradients), also 702-712 and 724-735: every
buffer of the usage set that the lookahead set does not hold must be resident, stops
being resident and gets a release entry with the keep flag of its policy. -/
def releaseLoop (used_next_layer : IntSet) : List (Nat × FetchKeep) →
    List RowAccessInfo → List ImbInfo → Except Fatal (List RowAccessInfo × List ImbInfo)
  | [], infos, to_release => .ok (infos, to_release)
  | (imb_id, fk) :: rest, infos, to_release =>
    if !used_next_layer.count imb_id then
      match infos[imb_id]? with
      | none => .error .outOfRange
      | some info =>
        if info.data_in_mem then
          releaseLoop used_next_layer rest (infos.set imb_id { info with data_in_mem := false })
            (to_release ++ [{ global_imb_id := imb_id, keep := fk.keep }])
        else .error .checkFailed
    else releaseLoop used_next_layer rest infos to_release

/-- Lines 582-641, the body of the forward loop at stage `layer_id` of `num_layers`. -/
def forwardLayer (num_layers : Nat) (s : Solver) (layer_id : Nat) : Except Fatal Solver :=
  match s.layer_infos_[layer_id]? with
  | none => .error .outOfRange
  | some layer_info => do
    let a ← accessLoop layer_info.imbs_used_fw.entries s.imb_data_infos_
      layer_info.imbs_to_access_fw
    let b ← accessLoop layer_info.imb_diffs_used_fw.entries s.imb_diff_infos_
      layer_info.imb_diffs_to_access_fw
    let imbs_used_next_layer :=
      if layer_id < num_layers - 1 then (s.layer_infos_.getD (layer_id + 1) {}).imbs_used_fw
      else layer_info.imbs_used_bw
    let c ← releaseLoop imbs_used_next_layer layer_info.imbs_used_fw.entries a.1
      layer_info.imbs_to_release_fw
    let imb_diffs_used_next_layer :=
      if layer_id < num_layers - 1 then
        (s.layer_infos_.getD (layer_id + 1) {}).imb_diffs_used_fw
      else layer_info.imb_diffs_used_bw
    let d ← releaseLoop imb_diffs_used_next_layer layer_info.imb_diffs_used_fw.entries b.1
      layer_info.imb_diffs_to_release_fw
    pure { s with
      imb_data_infos_ := c.1
      imb_diff_infos_ := d.1
      layer_infos_ := s.layer_infos_.set layer_id { layer_info with
        imbs_to_access_fw := a.2
        imb_diffs_to_access_fw := b.2
        imbs_to_release_fw := c.2
        imb_diffs_to_release_fw := d.2 } }

/-- Lines 692-700 and 714-722: the search, downwards from `layer_id - 1`, for the
closest stage that needs backward. -/
def nextBackwardLayer (layer_need_backward : List Bool) : Nat → Option Nat
  | 0 => none
  | next_layer_id + 1 =>
    if layer_need_backward.getD next_layer_id false then some next_layer_id
    else nextBackwardLayer layer_need_backward next_layer_id

/-- Lines 690-701 and 713-723: the lookahead set of the backward release, the empty
set when no lower stage needs backward. -/
def backwardLookahead (layer_need_backward : List Bool) (layer_infos : List LayerInfo)
    (layer_id : Nat) : Option LayerInfo :=
  match nextBackwardLayer layer_need_backward layer_id with
  | none => none
  | some next_layer_id => some (layer_infos.getD next_layer_id {})

/-- Lines 654-735, the body of the backward loop at stage `layer_id`. -/
def backwardLayer (layer_need_backward : List Bool) (s : Solver) (layer_id : Nat) :
    Except Fatal Solver :=
  if !layer_need_backward.getD layer_id false then pure s
  else
    match s.layer_infos_[layer_id]? with
    | none => .error .outOfRange
    | some layer_info => do
      let a ← accessLoop layer_info.imbs_used_bw.entries s.imb_data_infos_
        layer_info.imbs_to_access_bw
      let b ← accessLoop layer_info.imb_diffs_used_bw.entries s.imb_diff_infos_
        layer_info.imb_diffs_to_access_bw
      let imbs_used_next_layer :=
        match backwardLookahead layer_need_backward s.layer_infos_ layer_id with
        | none => ({} : IntSet)
        | some next => next.imbs_used_bw
      let c ← releaseLoop imbs_used_next_layer layer_info.imbs_used_bw.entries a.1
        layer_info.imbs_to_release_bw
      let imb_diffs_used_next_layer :=
        match backwardLookahead layer_need_backward s.layer_infos_ layer_id with
        | none => ({} : IntSet)
        | some next => next.imb_diffs_used_bw
      let d ← releaseLoop imb_diffs_used_next_layer layer_info.imb_diffs_used_bw.entries b.1
        layer_info.imb_diffs_to_release_bw
      pure { s with
        imb_data_infos_ := c.1
        imb_diff_infos_ := d.1
        layer_infos_ := s.layer_infos_.set layer_id { layer_info with
          imbs_to_access_bw := a.2
          imb_diffs_to_access_bw := b.2
          imbs_to_release_bw := c.2
          imb_diffs_to_release_bw := d.2 } }

/-- Lines 581-642: the forward loop, stages `0 .. num_layers - 1`. -/
def forwardPass (num_layers : Nat) (s : Solver) : Except Fatal Solver :=
  (List.range num_layers).foldlM (forwardLayer num_layers) s

/-- Lines 653-736: the backward loop, stages `layer_infos_.size() - 1 .. 0`. -/
def backwardPass (layer_need_backward : List Bool) (s : Solver) : Except Fatal Solver :=
  (List.range s.layer_infos_.length).reverse.foldlM (backwardLayer layer_need_backward) s

/-- Lines 737-743: no residency flag may still be set. -/
def allReleased (s : Solver) : Bool :=
  s.imb_data_infos_.all (fun i => !i.data_in_mem) &&
    s.imb_diff_infos_.all (fun i => !i.data_in_mem)

/-! ## The table-service client as `InitPs` sees it -/

/-- The calls `InitPs`, `ForwardBackwardUsingPs` and `Step` make on the table-service
client `ps_`, with their arguments.
A handle argument is the handle field passed, `none` when that field was never
assigned. -/
inductive PsCall where
  | create (worker_id : Int) (num_tables : Nat)
  | thread_start
  | virtual_read_batch (table_id : Nat) (row_ids : List Nat) (slack : Int) (num_vals : Nat)
  | virtual_postread_batch (prestep_handle : Option Int)
  | virtual_prewrite_batch (table_id : Nat) (row_ids : List Nat) (num_vals : Nat)
  | virtual_write_batch (prestep_handle : Option Int)
  | virtual_localaccess_batch (row_ids : List Nat) (num_vals : Nat) (fetch : Bool)
  | virtual_postlocalaccess_batch (prestep_handle : Option Int) (keep : Bool)
  | virtual_clock
  | finish_virtual_iteration
  | preinc_batch (handle : Option Int)
  | inc_batch (handle : Option Int)
  | read_batch (handle : Option Int)
  | postread_batch (handle : Option Int)
  | localaccess_batch (handle : Option Int)
  | postlocalaccess_batch (handle : Option Int)
  | iterate
  | start_opseq
  | json_stats
deriving DecidableEq, Repr, Inhabited

/-- The place a call is made from: outside the loops over the stages, in the forward or
in the backward part of a slot (of the virtual iteration in `InitPs`, of an iteration in
`ForwardBackwardUsingPs`), or in the initial write of a stage. -/
inductive Site where
  | global
  | forward (batch_id layer_id : Nat)
  | backward (batch_id layer_id : Nat)
  | initial (layer_id : Nat)
deriving DecidableEq, Repr, Inhabited

/-- One call on the client: where it was made, the call, and the handle the client
returned (for the calls that return one). -/
structure PsOp where
  site : Site
  call : PsCall
  handle : Option Int := none
deriving DecidableEq, Repr, Inhabited

/-- Modelled from the spec: the table-service client (`LazyTableModule`, declared in
`lazy-table-module.hpp`) is not part of the sources; the handle it returns for a
registration is an opaque token, here any function of the calls made so far and of
the registration. -/
abbrev HandleAlloc := List PsOp → PsCall → Int

/-- A registration call: the client returns a handle and the call is recorded. -/
def register (alloc : HandleAlloc) (trace : List PsOp) (site : Site) (call : PsCall) :
    Int × List PsOp :=
  let h := alloc trace call
  (h, trace ++ [{ site := site, call := call, handle := some h }])

/-- Lines 803-817: every stage gets `batches_per_clock` slots whose handle vectors
have the sizes of the stage's lists. -/
def resizeHandles (batches_per_clock : Nat) (layer_info : LayerInfo) : LayerInfo :=
  { layer_info with
    layer_handles := List.replicate batches_per_clock
      { imbs_to_access_fw := List.replicate layer_info.imbs_to_access_fw.length 0
        imbs_to_release_fw := List.replicate layer_info.imbs_to_release_fw.length 0
        imb_diffs_to_access_fw := List.replicate layer_info.imb_diffs_to_access_fw.length 0
        imb_diffs_to_release_fw := List.replicate layer_info.imb_diffs_to_release_fw.length 0
        imbs_to_access_bw := List.replicate layer_info.imbs_to_access_bw.length 0
        imbs_to_release_bw := List.replicate layer_info.imbs_to_release_bw.length 0
        imb_diffs_to_access_bw := List.replicate layer_info.imb_diffs_to_access_bw.length 0
        imb_diffs_to_release_bw :=
          List.replicate layer_info.imb_diffs_to_release_bw.length 0 } }

/-- Lines 830-898, the forward part of the virtual iteration at one stage of one slot:
the stage's parameters are read and released. -/
def virtualForwardLayer (alloc : HandleAlloc) (cfg : PsConfig) (batch_id : Nat)
    (st : List LayerInfo × List PsOp) (layer_id : Nat) : List LayerInfo × List PsOp :=
  match st.1[layer_id]? with
  | none => st
  | some layer_info =>
    match layer_info.layer_handles[batch_id]? with
    | none => st
    | some layer_handles =>
      if layer_info.param_infos.length ≠ 0 then
        let r := register alloc st.2 (.forward batch_id layer_id)
          (.virtual_read_batch layer_info.table_id layer_info.row_ids cfg.slack
            layer_info.num_vals)
        let h1 := { layer_handles with read_handle := some r.1 }
        let p := register alloc r.2 (.forward batch_id layer_id)
          (.virtual_postread_batch h1.read_handle)
        let h2 := { h1 with postread_handle := some p.1 }
        (st.1.set layer_id
          { layer_info with layer_handles := layer_info.layer_handles.set batch_id h2 }, p.2)
      else st

/-- Lines 902-989, the backward part of the virtual iteration at one stage of one slot:
a stage that needs no backward is passed over; otherwise the stage's parameters are
prewritten, read, their history accessed, then written and released. -/
def virtualBackwardLayer (alloc : HandleAlloc) (cfg : PsConfig)
    (layer_need_backward : List Bool) (batch_id : Nat)
    (st : List LayerInfo × List PsOp) (layer_id : Nat) : List LayerInfo × List PsOp :=
  if !layer_need_backward.getD layer_id false then st
  else
    match st.1[layer_id]? with
    | none => st
    | some layer_info =>
      match layer_info.layer_handles[batch_id]? with
      | none => st
      | some layer_handles =>
        if layer_info.param_infos.length ≠ 0 then
          let site := Site.backward batch_id layer_id
          let w := register alloc st.2 site
            (.virtual_prewrite_batch layer_info.table_id layer_info.row_ids
              layer_info.num_vals)
          let h1 := { layer_handles with prewrite_handle := some w.1 }
          let r := register alloc w.2 site
            (.virtual_read_batch layer_info.table_id layer_info.row_ids cfg.slack
              layer_info.num_vals)
          let h2 := { h1 with bw_read_handle := some r.1 }
          let a := register alloc r.2 site
            (.virtual_localaccess_batch layer_info.history_data_row_ids
              layer_info.num_vals true)
          let h3 := { h2 with history_access_handle := some a.1 }
          let w2 := register alloc a.2 site (.virtual_write_batch h3.prewrite_handle)
          let h4 := { h3 with write_handle := some w2.1 }
          let r2 := register alloc w2.2 site (.virtual_postread_batch h4.bw_read_handle)
          let h5 := { h4 with bw_postread_handle := some r2.1 }
          let a2 := register alloc r2.2 site
            (.virtual_postlocalaccess_batch h5.history_access_handle true)
          let h6 := { h5 with history_postaccess_handle := some a2.1 }
          (st.1.set layer_id
            { layer_info with layer_handles := layer_info.layer_handles.set batch_id h6 },
            a2.2)
        else st

/-- Lines 827-991, one slot of the virtual iteration: the forward part over the stages
`0 .. n - 1`, then the backward part over the stages `n - 1 .. 0`. -/
def virtualBatch (alloc : HandleAlloc) (cfg : PsConfig) (layer_need_backward : List Bool)
    (st : List LayerInfo × List PsOp) (batch_id : Nat) : List LayerInfo × List PsOp :=
  let fw := (List.range st.1.length).foldl (virtualForwardLayer alloc cfg batch_id) st
  (List.range fw.1.length).reverse.foldl
    (virtualBackwardLayer alloc cfg layer_need_backward batch_id) fw

/-- Lines 826-993: the virtual iteration over all slots, then the clock end and the
end of the registration. -/
def virtualIteration (alloc : HandleAlloc) (cfg : PsConfig)
    (layer_need_backward : List Bool) (st : List LayerInfo × List PsOp) :
    List LayerInfo × List PsOp :=
  let r := (List.range cfg.batches_per_clock).foldl
    (virtualBatch alloc cfg layer_need_backward) st
  (r.1, r.2 ++ [{ site := .global, call := .virtual_clock },
    { site := .global, call := .finish_virtual_iteration }])

/-- Lines 1001-1039, the body of the loop that writes the initial parameter values:
the stage's slot 0 is taken, and a stage with parameters is pre-written and written
through the handles of that slot. -/
def initialValuesStep (layer_infos : List LayerInfo) (trace : List PsOp) (layer_id : Nat) :
    Except Fatal (List PsOp) :=
  match layer_infos[layer_id]? with
  | none => .error .outOfRange
  | some layer_info =>
    match layer_info.layer_handles[0]? with
    | none => .error .outOfRange
    | some layer_handles =>
      if layer_info.param_infos.length ≠ 0 then
        .ok (trace ++
          [{ site := .initial layer_id, call := .preinc_batch layer_handles.prewrite_handle },
           { site := .initial layer_id, call := .inc_batch layer_handles.write_handle }])
      else .ok trace

/-- Lines 1000-1040: the initial values are written by worker 0 only. -/
def setInitialValues (cfg : PsConfig) (layer_infos : List LayerInfo) (trace : List PsOp) :
    List PsOp × Except Fatal Unit :=
  if cfg.worker_id = 0 then
    (List.range layer_infos.length).foldl
      (fun (acc : List PsOp × Except Fatal Unit) layer_id =>
        match acc.2 with
        | .error e => (acc.1, .error e)
        | .ok _ =>
          match initialValuesStep layer_infos acc.1 layer_id with
          | .error e => (acc.1, .error e)
          | .ok t => (t, .ok ()))
      (trace, .ok ())
  else (trace, .ok ())

/-! ## `InitPs` -/

/-- Lines 231-399 of `InitPs`: the row keys of the parameters with the check of the
parameter count, the row keys of the intermediate buffers, and the usage sets.  Returns
the solver and the number of tables. -/
def initialState (ROW_DATA_SIZE : Nat) (cfg : PsConfig) (net : Net) :
    Except Fatal (Solver × Nat) :=
  let p := assignParamRows ROW_DATA_SIZE net.layers {}
  if p.2.total_num_params ≠ net.params.length then .error .checkFailed
  else
    let num_tables := if p.2.row_id = 0 then p.2.table_id else p.2.table_id + 1
    let d := assignImbRows ROW_DATA_SIZE net.blobs p.2.local_store_row_id
    let g := assignImbRows ROW_DATA_SIZE net.blobs d.2
    .ok ({ ps_config_ := cfg
           imb_data_infos_ := d.1
           imb_diff_infos_ := g.1
           layer_infos_ := computeUsage net p.1 }, num_tables)

/-- Lines 580-736 of `InitPs`: the forward loop, then the backward loop. -/
def buildLists (net : Net) (s0 : Solver) : Except Fatal Solver :=
  match forwardPass net.layers.length s0 with
  | .error e => .error e
  | .ok s1 => backwardPass (net.layers.map Layer.need_backward) s1

/-- Lines 231-743 of `InitPs`, up to the final check of the residency flags. -/
def listsOf (ROW_DATA_SIZE : Nat) (cfg : PsConfig) (net : Net) : Except Fatal (Solver × Nat) :=
  match initialState ROW_DATA_SIZE cfg net with
  | .error e => .error e
  | .ok (s0, num_tables) =>
    match buildLists net s0 with
    | .error e => .error e
    | .ok s2 => .ok (s2, num_tables)

/-- Lines 231-817 of `InitPs`: the row keys, the usage sets, the access and release
lists with their final check (lines 737-743), and the sizing of the handle vectors
(lines 803-817).  No call on the table service is made in this part. -/
def plan (ROW_DATA_SIZE : Nat) (cfg : PsConfig) (net : Net) : Except Fatal (Solver × Nat) :=
  match listsOf ROW_DATA_SIZE cfg net with
  | .error e => .error e
  | .ok (s2, num_tables) =>
    if allReleased s2 then
      .ok ({ s2 with
        layer_infos_ := s2.layer_infos_.map (resizeHandles cfg.batches_per_clock) },
        num_tables)
    else .error .checkFailed

/-- What a run of `InitPs` leaves: the calls made on the table service, in order, and
either the solver or the fatal stop. -/
structure Run where
  trace : List PsOp := []
  outcome : Except Fatal Solver
deriving Repr

/-- The function `Solver<float>::InitPs` (lines 225-1045). -/
def InitPs (ROW_DATA_SIZE : Nat) (alloc : HandleAlloc) (cfg : PsConfig) (net : Net) : Run :=
  if cfg.no_ps then { trace := [], outcome := .ok { ps_config_ := cfg } }
  else
    match plan ROW_DATA_SIZE cfg net with
    | .error e => { trace := [], outcome := .error e }
    | .ok (s, num_tables) =>
      let t0 : List PsOp :=
        [{ site := .global, call := .create cfg.worker_id num_tables },
         { site := .global, call := .thread_start }]
      let v := virtualIteration alloc cfg (net.layers.map Layer.need_backward)
        (s.layer_infos_, t0)
      let i := setInitialValues cfg v.1 v.2
      match i.2 with
      | .error e => { trace := i.1, outcome := .error e }
      | .ok _ =>
        { trace := i.1 ++ [{ site := .global, call := .iterate },
            { site := .global, call := .start_opseq }],
          outcome := .ok { s with layer_infos_ := v.1 } }

/-! ## `ForwardBackwardUsingPs` (solver.cpp lines 1047-1384) -/

/-- What a call of `ForwardBackwardUsingPs` leaves: the calls made on the table service,
in order, and whether it returned or stopped. -/
structure Iteration where
  trace : List PsOp := []
  outcome : Except Fatal Unit := .ok ()
deriving Repr

/-- The next stage of a loop: after a fatal stop nothing more happens; otherwise the calls
of the stage are made, or the stage stops the run. -/
def Iteration.run (acc : Iteration) (r : Except Fatal (List PsOp)) : Iteration :=
  match acc.outcome with
  | .error _ => acc
  | .ok _ =>
    match r with
    | .ok ops => { trace := acc.trace ++ ops, outcome := .ok () }
    | .error e => { trace := acc.trace, outcome := .error e }

/-- Lines 1071-1188, one stage of the forward part of a slot: the parameters of the stage
are read through `read_handle` and, after the forward computation, released through
`postread_handle`. -/
def forwardStage (s : Solver) (net : Net) (batch_id layer_id : Nat) :
    Except Fatal (List PsOp) :=
  if ¬ layer_id < net.layers.length then .error .checkFailed
  else
    match s.layer_infos_[layer_id]? with
    | none => .error .outOfRange
    | some layer_info =>
      match layer_info.layer_handles[batch_id]? with
      | none => .error .outOfRange
      | some layer_handles =>
        if layer_info.param_infos.length ≠ 0 then
          .ok [{ site := .forward batch_id layer_id,
                 call := .read_batch layer_handles.read_handle },
               { site := .forward batch_id layer_id,
                 call := .postread_batch layer_handles.postread_handle }]
        else .ok []

/-- Lines 1194-1378, one stage of the backward part of a slot: in training a stage that
needs no backward is passed over; otherwise the parameters of the stage are pre-written,
read, their history accessed and, after the backward computation and the update rule,
written, released, and the history released. -/
def backwardStage (s : Solver) (net : Net) (test : Bool) (batch_id layer_id : Nat) :
    Except Fatal (List PsOp) :=
  if ¬ layer_id < net.layers.length then .error .checkFailed
  else if !test && !(net.layers.map Layer.need_backward).getD layer_id false then .ok []
  else
    match s.layer_infos_[layer_id]? with
    | none => .error .outOfRange
    | some layer_info =>
      match layer_info.layer_handles[batch_id]? with
      | none => .error .outOfRange
      | some layer_handles =>
        if layer_info.param_infos.length ≠ 0 then
          .ok [{ site := .backward batch_id layer_id,
                 call := .preinc_batch layer_handles.prewrite_handle },
               { site := .backward batch_id layer_id,
                 call := .read_batch layer_handles.bw_read_handle },
               { site := .backward batch_id layer_id,
                 call := .localaccess_batch layer_handles.history_access_handle },
               { site := .backward batch_id layer_id,
                 call := .inc_batch layer_handles.write_handle },
               { site := .backward batch_id layer_id,
                 call := .postread_batch layer_handles.bw_postread_handle },
               { site := .backward batch_id layer_id,
                 call := .postlocalaccess_batch layer_handles.history_postaccess_handle }]
        else .ok []

/-- Lines 1069-1380, one slot: the forward part over the stages `0 .. n - 1`, then the
backward part over the stages `n - 1 .. 0`. -/
def runBatch (s : Solver) (net : Net) (test : Bool) (acc : Iteration) (batch_id : Nat) :
    Iteration :=
  let fw := (List.range s.layer_infos_.length).foldl
    (fun a layer_id => a.run (forwardStage s net batch_id layer_id)) acc
  (List.range s.layer_infos_.length).reverse.foldl
    (fun a layer_id => a.run (backwardStage s net test batch_id layer_id)) fw

/-- The function `SGDSolver<float>::ForwardBackwardUsingPs` (lines 1047-1384) on the graph
`net`: the slots one after the other, then the clock is advanced (`ps_->iterate()`).  The
client `ps_` exists only when `InitPs` created it, that is when `no_ps` is false. -/
def ForwardBackwardUsingPs (s : Solver) (net : Net) (test : Bool) : Iteration :=
  let it := (List.range s.ps_config_.batches_per_clock).foldl (runBatch s net test) {}
  match it.outcome with
  | .error _ => it
  | .ok _ =>
    if s.ps_config_.no_ps then { trace := it.trace, outcome := .error .nullClient }
    else { trace := it.trace ++ [{ site := .global, call := .iterate }], outcome := .ok () }

/-! ## The solver `ForwardBackwardUsingPs` leaves

The only assignments `ForwardBackwardUsingPs` makes to the fields of the solver are the
additions to the timing counters of the stage records. -/

/-- The durations `ForwardBackwardUsingPs` measures with `tbb::tick_count`, in clock
ticks: the `i`-th duration measured at a site. -/
abbrev Timer := Site → Nat → Int

/-- Lines 1130-1132, 1142-1144 and 1186-1188: in training a forward stage adds the
durations it measured to its read, compute and write counters; in a test it adds nothing. -/
def forwardTimes (timer : Timer) (test : Bool) (batch_id layer_id : Nat)
    (layer_info : LayerInfo) : LayerInfo :=
  if test then layer_info
  else
    { layer_info with
      fw_read_time := layer_info.fw_read_time + timer (.forward batch_id layer_id) 0
      fw_compute_time := layer_info.fw_compute_time + timer (.forward batch_id layer_id) 1
      fw_write_time := layer_info.fw_write_time + timer (.forward batch_id layer_id) 2 }

/-- Lines 1277-1279, 1281-1294, 1326-1328, 1350-1352 and 1375-1377: in training a backward
stage adds the durations it measured to its read, compute and write counters, and a stage
with parameters adds the durations of the update and of the write-back as well; in a test
it adds nothing. -/
def backwardTimes (timer : Timer) (test : Bool) (batch_id layer_id : Nat)
    (layer_info : LayerInfo) : LayerInfo :=
  if test then layer_info
  else
    let first : LayerInfo :=
      { layer_info with
        bw_read_time := layer_info.bw_read_time + timer (.backward batch_id layer_id) 0
        bw_compute_time := layer_info.bw_compute_time + timer (.backward batch_id layer_id) 1
        bw_write_time := layer_info.bw_write_time + timer (.backward batch_id layer_id) 2 }
    if layer_info.param_infos.length ≠ 0 then
      { first with
        bw_compute_time := first.bw_compute_time + timer (.backward batch_id layer_id) 3
        bw_write_time := first.bw_write_time + timer (.backward batch_id layer_id) 4 }
    else first

/-- Lines 1071-1188, what one stage of the forward part of a slot does to the solver. -/
def forwardStageSolver (timer : Timer) (net : Net) (test : Bool) (batch_id : Nat)
    (s : Solver) (layer_id : Nat) : Except Fatal Solver :=
  if ¬ layer_id < net.layers.length then .error .checkFailed
  else
    match s.layer_infos_[layer_id]? with
    | none => .error .outOfRange
    | some layer_info =>
      match layer_info.layer_handles[batch_id]? with
      | none => .error .outOfRange
      | some _ =>
        let timed := forwardTimes timer test batch_id layer_id layer_info
        .ok { s with layer_infos_ := s.layer_infos_.set layer_id timed }

/-- Lines 1194-1378, what one stage of the backward part of a slot does to the solver. -/
def backwardStageSolver (timer : Timer) (net : Net) (test : Bool) (batch_id : Nat)
    (s : Solver) (layer_id : Nat) : Except Fatal Solver :=
  if ¬ layer_id < net.layers.length then .error .checkFailed
  else if !test && !(net.layers.map Layer.need_backward).getD layer_id false then .ok s
  else
    match s.layer_infos_[layer_id]? with
    | none => .error .outOfRange
    | some layer_info =>
      match layer_info.layer_handles[batch_id]? with
      | none => .error .outOfRange
      | some _ =>
        let timed := backwardTimes timer test batch_id layer_id layer_info
        .ok { s with layer_infos_ := s.layer_infos_.set layer_id timed }

/-- Lines 1069-1380, what one slot does to the solver. -/
def runBatchSolver (timer : Timer) (net : Net) (test : Bool) (s : Solver) (batch_id : Nat) :
    Except Fatal Solver :=
  match (List.range s.layer_infos_.length).foldlM
      (forwardStageSolver timer net test batch_id) s with
  | .error e => .error e
  | .ok fw =>
    (List.range fw.layer_infos_.length).reverse.foldlM
      (backwardStageSolver timer net test batch_id) fw

/-- The solver a call of `ForwardBackwardUsingPs` (lines 1047-1384) leaves when it
returns. -/
def ForwardBackwardUsingPs.solver (timer : Timer) (s : Solver) (net : Net) (test : Bool) :
    Except Fatal Solver :=
  match (List.range s.ps_config_.batches_per_clock).foldlM
      (runBatchSolver timer net test) s with
  | .error e => .error e
  | .ok s' => if s'.ps_config_.no_ps then .error .nullClient else .ok s'

/-! ## Solver parameters and construction (solver.hpp lines 258-429, solver.cpp lines 46-223)

The protocol buffer `SolverParameter` and the class `Net` are declared outside the sources:
the fields read are taken as a record, and the graphs the constructor of `Net` builds from
them are given with the process state. -/

/-- The values of `SolverParameter_SolverType` that solver.hpp names; `other` is any other
value of the enumeration. -/
inductive SolverType where
  | SGD
  | NESTEROV
  | ADAGRAD
  | RMSPROP
  | ADADELTA
  | ADAM
  | other (value : Int)
deriving DecidableEq, Repr, Inhabited

/-- The values of `SolverParameter_SnapshotFormat` that `Snapshot` names. -/
inductive SnapshotFormat where
  | BINARYPROTO
  | HDF5
  | other (value : Int)
deriving DecidableEq, Repr, Inhabited

/-- The fields of `SolverParameter` that the constructors, `Init`, `Step`, `Test` and
`Snapshot` read. -/
structure SolverParameter where
  solver_type : SolverType := .SGD
  momentum : Rat := 0
  rms_decay : Rat := 0
  average_loss : Int := 1
  has_net : Bool := false
  has_net_param : Bool := false
  has_train_net : Bool := false
  has_train_net_param : Bool := true
  test_net_param_size : Nat := 0
  test_net_size : Nat := 0
  test_iter : List Nat := []
  test_state_size : Nat := 0
  test_interval : Int := 0
  test_initialization : Bool := true
  iter_size : Int := 1
  snapshot : Int := 0
  snapshot_format : SnapshotFormat := .BINARYPROTO
deriving DecidableEq, Repr, Inhabited

/-- The solver classes that solver.hpp derives from `Solver`. -/
inductive SolverClass where
  | SGDSolver
  | NesterovSolver
  | AdaGradSolver
  | RMSPropSolver
  | AdaDeltaSolver
  | AdamSolver
deriving DecidableEq, Repr, Inhabited

/-- What a constructor finds outside the solver: `Caffe::root_solver()`, and the graphs the
constructor of `Net` builds for the training net and for the `i`-th test net. -/
structure Scaffold where
  root_solver : Bool := true
  train_net : Net := {}
  test_net : Nat → Net := fun _ => {}

/-- An object of a solver class: its class, the plan `InitPs` left, and the members
`param_`, `net_`, `test_nets_`, `iter_` and `requested_early_exit_`. -/
structure SolverObject where
  solver_class : SolverClass := .SGDSolver
  plan : Solver := {}
  param_ : SolverParameter := {}
  net_ : Net := {}
  test_nets_ : List Net := []
  iter_ : Int := 0
  requested_early_exit_ : Bool := false
deriving Repr, Inhabited

/-- What a construction leaves: the calls made on the table service, in order, and either
the object or the fatal stop. -/
structure Construction where
  trace : List PsOp := []
  outcome : Except Fatal SolverObject

/-- The function `Solver::InitTrainNet` (lines 98-141) up to the construction of the net:
exactly one of the four fields that name a training net is set. -/
def InitTrainNet (param : SolverParameter) : Except Fatal Unit :=
  let num_train_nets := param.has_net.toNat + param.has_net_param.toNat +
    param.has_train_net.toNat + param.has_train_net_param.toNat
  if ¬ 1 ≤ num_train_nets then .error .checkFailed
  else if ¬ num_train_nets ≤ 1 then .error .checkFailed
  else .ok ()

/-- The function `Solver::InitTestNets` (lines 143-223) up to the construction of the
nets: its checks, and the number of test nets it builds. -/
def InitTestNets (root_solver : Bool) (param : SolverParameter) : Except Fatal Nat :=
  if ¬ root_solver then .error .checkFailed
  else
    let num_generic_nets := param.has_net_param.toNat + param.has_net.toNat
    if ¬ num_generic_nets ≤ 1 then .error .checkFailed
    else
      let num_test_nets := param.test_net_param_size + param.test_net_size
      if (if num_generic_nets ≠ 0 then ¬ num_test_nets ≤ param.test_iter.length
          else ¬ param.test_iter.length = num_test_nets) then .error .checkFailed
      else
        let num_test_net_instances := param.test_iter.length
        if param.test_state_size ≠ 0 ∧ ¬ param.test_state_size = num_test_net_instances then
          .error .checkFailed
        else if num_test_net_instances ≠ 0 ∧ ¬ 0 < param.test_interval then
          .error .checkFailed
        else .ok num_test_net_instances

/-- The constructor `Solver::Solver(param, ps_config)` (lines 46-54) with `Init` (lines
74-96), for a solver without a root solver: the checks of `Init`, the scaffolding, then
`InitPs`. -/
def Init (ROW_DATA_SIZE : Nat) (alloc : HandleAlloc) (env : Scaffold)
    (param : SolverParameter) (ps_config : PsConfig) : Construction :=
  if ¬ env.root_solver then { outcome := .error .checkFailed }
  else if ¬ 1 ≤ param.average_loss then { outcome := .error .checkFailed }
  else
    match InitTrainNet param with
    | .error e => { outcome := .error e }
    | .ok _ =>
      match InitTestNets env.root_solver param with
      | .error e => { outcome := .error e }
      | .ok num_test_net_instances =>
        let run := InitPs ROW_DATA_SIZE alloc ps_config env.train_net
        match run.outcome with
        | .error e => { trace := run.trace, outcome := .error e }
        | .ok plan =>
          { trace := run.trace,
            outcome := .ok { plan := plan, param_ := param, net_ := env.train_net,
                             test_nets_ := (List.range num_test_net_instances).map env.test_net,
                             iter_ := 0, requested_early_exit_ := false } }

/-- The checks a derived class makes in the body of its constructor, after the
constructors of its base classes have run: `constructor_sanity_check` of `AdaGradSolver`
(solver.hpp lines 318-321) and of `RMSPropSolver` (lines 337-344). -/
def constructor_sanity_check (solver_class : SolverClass) (param : SolverParameter) :
    Except Fatal Unit :=
  match solver_class with
  | .AdaGradSolver => if ¬ (0 : Rat) = param.momentum then .error .checkFailed else .ok ()
  | .RMSPropSolver =>
    if ¬ (0 : Rat) = param.momentum then .error .checkFailed
    else if ¬ 0 ≤ param.rms_decay then .error .checkFailed
    else if ¬ param.rms_decay < 1 then .error .checkFailed
    else .ok ()
  | _ => .ok ()

/-- The constructor of a solver class with a `PsConfig` (solver.hpp lines 261-262, 295-297,
310-312, 330-331, 352-353, 375-376): the constructor of `Solver`, then `PreSolve`, which
only allocates the history, then the body of the constructor of the class. -/
def construct (ROW_DATA_SIZE : Nat) (alloc : HandleAlloc) (env : Scaffold)
    (solver_class : SolverClass) (param : SolverParameter) (ps_config : PsConfig) :
    Construction :=
  let base := Init ROW_DATA_SIZE alloc env param ps_config
  match base.outcome with
  | .error _ => base
  | .ok obj =>
    match constructor_sanity_check solver_class param with
    | .error e => { trace := base.trace, outcome := .error e }
    | .ok _ => { trace := base.trace, outcome := .ok { obj with solver_class := solver_class } }

/-- The function `GetSolver(param, ps_config)` (solver.hpp lines 387-403). -/
def GetSolver (ROW_DATA_SIZE : Nat) (alloc : HandleAlloc) (env : Scaffold)
    (param : SolverParameter) (ps_config : PsConfig) : Construction :=
  match param.solver_type with
  | .SGD => construct ROW_DATA_SIZE alloc env .SGDSolver param ps_config
  | .NESTEROV => construct ROW_DATA_SIZE alloc env .NesterovSolver param ps_config
  | .ADAGRAD => construct ROW_DATA_SIZE alloc env .AdaGradSolver param ps_config
  | _ => { outcome := .error .logFatal }

/-- The function `GetSolver(param)` (solver.hpp lines 405-429): the local `PsConfig` has
`no_ps` set, the values of its constructor for `slack` and `batches_per_clock`, and
whatever `worker_id` and `num_workers` happen to hold, as they are never initialised. -/
def GetSolver.withoutPsConfig (ROW_DATA_SIZE : Nat) (alloc : HandleAlloc) (env : Scaffold)
    (param : SolverParameter) (worker_id num_workers : Int) : Construction :=
  let ps_config : PsConfig :=
    { no_ps := true, worker_id := worker_id, num_workers := num_workers, slack := 0,
      batches_per_clock := 1 }
  match param.solver_type with
  | .SGD => construct ROW_DATA_SIZE alloc env .SGDSolver param ps_config
  | .NESTEROV => construct ROW_DATA_SIZE alloc env .NesterovSolver param ps_config
  | .ADAGRAD => construct ROW_DATA_SIZE alloc env .AdaGradSolver param ps_config
  | .RMSPROP => construct ROW_DATA_SIZE alloc env .RMSPropSolver param ps_config
  | .ADADELTA => construct ROW_DATA_SIZE alloc env .AdaDeltaSolver param ps_config
  | .ADAM => construct ROW_DATA_SIZE alloc env .AdamSolver param ps_config
  | .other _ => { outcome := .error .logFatal }

/-! ## Training steps (solver.cpp lines 37-44 and 1399-1675)

The action callback, the losses the nets compute and the snapshot files are outside the
sources: the callback is given by the answers it returns, the losses by the iteration
they are computed in, and a snapshot is recorded by the value of `iter_` it is taken at.
The log lines, the members of `callbacks_` and the timing counters, which only the log
lines read, are left out. -/

/-- The enumeration `SolverAction::Enum` (solver.hpp lines 107-113). -/
inductive SolverAction where
  | NONE
  | STOP
  | SNAPSHOT
deriving DecidableEq, Repr, Inhabited

/-- A solver at work: the object, the answers `action_request_function_` still has to
give (`NONE` from then on, as when no callback is set), the calls made on the table
service, the values of `iter_` at which `Snapshot` wrote its files, and the fatal stop
once there is one. -/
structure Training where
  solver : SolverObject := {}
  requests : List SolverAction := []
  trace : List PsOp := []
  snapshots : List Int := []
  fatal : Option Fatal := none
deriving Repr, Inhabited

/-- The function `Solver::GetRequestedAction` (lines 37-44). -/
def GetRequestedAction (t : Training) : SolverAction × Training :=
  match t.requests with
  | [] => (.NONE, t)
  | request :: rest => (request, { t with requests := rest })

/-- The function `Solver::Snapshot` (lines 1659-1675). -/
def Snapshot (root_solver : Bool) (t : Training) : Training :=
  if ¬ root_solver then { t with fatal := some .checkFailed }
  else
    match t.solver.param_.snapshot_format with
    | .BINARYPROTO => { t with snapshots := t.snapshots ++ [t.solver.iter_] }
    | .HDF5 => { t with snapshots := t.snapshots ++ [t.solver.iter_] }
    | .other _ => { t with fatal := some .logFatal }

/-- The loop `while (request != SolverAction::NONE)` of `Test` (lines 1598-1605); the
first argument bounds the number of turns, one for each answer still to come and one
more. -/
def Test.poll (root_solver : Bool) : Nat → SolverAction → Training → Training
  | 0, _, t => t
  | fuel + 1, request, t =>
    if request = .NONE then t
    else
      let acted :=
        if request = .SNAPSHOT then Snapshot root_solver t
        else if request = .STOP then
          { t with solver := { t.solver with requested_early_exit_ := true } }
        else t
      if acted.fatal.isSome then acted
      else
        let next := GetRequestedAction acted
        Test.poll root_solver fuel next.1 next.2

/-- The loop over the test iterations in `Test` (lines 1595-1631); the first argument is
the number of iterations still to run. -/
def Test.loop (root_solver : Bool) (test_net : Net) : Nat → Training → Training
  | 0, t => t
  | n + 1, t =>
    let first := GetRequestedAction t
    let polled := Test.poll root_solver (first.2.requests.length + 2) first.1 first.2
    if polled.fatal.isSome then polled
    else if polled.solver.requested_early_exit_ then polled
    else
      let it := ForwardBackwardUsingPs polled.solver.plan test_net true
      let ran := { polled with trace := polled.trace ++ it.trace }
      match it.outcome with
      | .error e => { ran with fatal := some e }
      | .ok _ => Test.loop root_solver test_net n ran

/-- The function `Solver::Test` (lines 1583-1657). -/
def Test (root_solver : Bool) (test_net_id : Nat) (t : Training) : Training :=
  if ¬ root_solver then { t with fatal := some .checkFailed }
  else
    match t.solver.test_nets_[test_net_id]?, t.solver.param_.test_iter[test_net_id]? with
    | some test_net, some test_iter => Test.loop root_solver test_net test_iter t
    | _, _ => { t with fatal := some .outOfRange }

/-- The function `Solver::TestAll` (lines 1574-1581). -/
def TestAll (root_solver : Bool) (t : Training) : Training :=
  (List.range t.solver.test_nets_.length).foldl
    (fun acc test_net_id =>
      if acc.fatal.isSome then acc
      else if acc.solver.requested_early_exit_ then acc
      else Test root_solver test_net_id acc) t

/-- The locals of `Step` that live across its iterations, with the solver. -/
structure StepFrame where
  run : Training := {}
  losses : List Rat := []
  smoothed_loss : Rat := 0
deriving Repr, Inhabited

/-- Lines 1438-1447 of `Step`: the smoothed loss after an iteration with loss `loss`; an
index outside `losses` is fatal. -/
def Step.smooth (average_loss : Int) (iter_ start_iter : Int) (loss : Rat) (f : StepFrame) :
    Except Fatal (List Rat × Rat) :=
  if (f.losses.length : Int) < average_loss then
    let losses := f.losses ++ [loss]
    let size : Int := losses.length
    .ok (losses, (f.smoothed_loss * ((size - 1 : Int) : Rat) + loss) / (size : Rat))
  else
    let idx := (iter_ - start_iter).tmod average_loss
    if idx < 0 then .error .outOfRange
    else
      match f.losses[idx.toNat]? with
      | none => .error .outOfRange
      | some old =>
        .ok (f.losses.set idx.toNat loss,
             f.smoothed_loss + (loss - old) / (average_loss : Rat))

/-- Lines 1425-1521 of `Step`, the training part of one turn of the loop, from the frame
`f` at the head of the turn and the solver `tested` the test part left: the frame the turn
leaves, and whether the loop goes on (it does not after a fatal stop).  The loss of the
iteration that starts at `iter_` is `loss iter_`. -/
def Step.iteration (root_solver : Bool) (loss : Int → Rat) (average_loss start_iter : Int)
    (f : StepFrame) (tested : Training) : StepFrame × Bool :=
  let param_ := tested.solver.param_
  if ¬ param_.iter_size = 1 then
    ({ f with run := { tested with fatal := some .checkFailed } }, false)
  else
    let it := ForwardBackwardUsingPs tested.solver.plan tested.solver.net_ false
    let ran := { tested with trace := tested.trace ++ it.trace }
    match it.outcome with
    | .error e => ({ f with run := { ran with fatal := some e } }, false)
    | .ok _ =>
      match Step.smooth average_loss ran.solver.iter_ start_iter (loss ran.solver.iter_) f with
      | .error e => ({ f with run := { ran with fatal := some e } }, false)
      | .ok smoothed =>
        let counted :=
          { ran with solver := { ran.solver with iter_ := ran.solver.iter_ + 1 } }
        let asked := GetRequestedAction counted
        let request := asked.1
        let saved :=
          if (decide (param_.snapshot ≠ 0) &&
              decide ((asked.2.solver.iter_).tmod param_.snapshot = 0) && root_solver) ||
             decide (request = .SNAPSHOT) then Snapshot root_solver asked.2
          else asked.2
        ({ run := saved, losses := smoothed.1, smoothed_loss := smoothed.2 },
          !saved.fatal.isSome)

/-- Lines 1415-1521 of `Step`, one turn of the loop: the test part (lines 1415-1423), which
leaves the loop after a fatal stop and when a stop was requested while testing, then the
training part. -/
def Step.turn (root_solver : Bool) (loss : Int → Rat) (average_loss start_iter : Int)
    (f : StepFrame) : StepFrame × Bool :=
  let param_ := f.run.solver.param_
  let testing : Bool := decide (param_.test_interval ≠ 0) &&
    decide ((f.run.solver.iter_).tmod param_.test_interval = 0) &&
    (decide (0 < f.run.solver.iter_) || param_.test_initialization) && root_solver
  let tested := if testing then TestAll root_solver f.run else f.run
  if tested.fatal.isSome then ({ f with run := tested }, false)
  else if testing && tested.solver.requested_early_exit_ then ({ f with run := tested }, false)
  else Step.iteration root_solver loss average_loss start_iter f tested

/-- The loop `while (iter_ < stop_iter)` of `Step` (lines 1414-1522), with the locals
`average_loss`, `start_iter` and `stop_iter` of lines 1401-1403; the argument before the
frame bounds the number of turns, and every turn after which the loop goes on adds one to
`iter_`. -/
def Step.loop (root_solver : Bool) (loss : Int → Rat) (average_loss : Int)
    (start_iter stop_iter : Int) : Nat → StepFrame → StepFrame
  | 0, f => f
  | fuel + 1, f =>
    if ¬ f.run.solver.iter_ < stop_iter then f
    else
      let r := Step.turn root_solver loss average_loss start_iter f
      if r.2 then Step.loop root_solver loss average_loss start_iter stop_iter fuel r.1
      else r.1

/-- The function `Solver::Step` (lines 1399-1528): the loop, then the statistics of the
table service are read when `no_ps` is not set. -/
def Step (root_solver : Bool) (loss : Int → Rat) (iters : Int) (t : Training) : StepFrame :=
  let start_iter := t.solver.iter_
  let stop_iter := t.solver.iter_ + iters
  let average_loss := t.solver.param_.average_loss
  let f := Step.loop root_solver loss average_loss start_iter stop_iter iters.toNat
    { run := t }
  if f.run.fatal.isSome then f
  else if ¬ f.run.solver.plan.ps_config_.no_ps then
    let stats : PsOp := { site := .global, call := .json_stats }
    { f with run := { f.run with trace := f.run.trace ++ [stats] } }
  else f

/-! ## Update rules (solver.cpp lines 1920-1956 and 2062-2121)

The blobs are vectors of numbers in exact arithmetic.  The branches for the CPU and for the
GPU make the same calls, on the CPU and on the GPU copy of the blobs; one is embedded. -/

/-- Modelled from the spec: the library function `caffe_cpu_axpby(n, alpha, X, beta, Y)`
(`math_functions.hpp`, not part of the sources) stores `alpha * X + beta * Y` in `Y`,
element by element. -/
def caffe_cpu_axpby (alpha : Rat) (X : List Rat) (beta : Rat) (Y : List Rat) : List Rat :=
  List.zipWith (fun x y => alpha * x + beta * y) X Y

/-- Modelled from the spec: the library function `caffe_copy(n, X, Y)`
(`math_functions.hpp`, not part of the sources) stores `X` in `Y`. -/
def caffe_copy (X : List Rat) : List Rat := X

/-- The blobs an update rule works on for one parameter: the gradient
`net_params[param_id]->diff`, and the data of `history_[param_id]` and of
`update_[param_id]`. -/
structure UpdateBlobs where
  diff : List Rat := []
  history : List Rat := []
  update : List Rat := []
deriving DecidableEq, Repr, Inhabited

/-- The function `SGDSolver::ComputeUpdateValue` (lines 1920-1956); `lr_mult` is
`net_params_lr[param_id]`. -/
def SGDSolver.ComputeUpdateValue (momentum : Rat) (lr_mult : Rat) (rate : Rat)
    (b : UpdateBlobs) : UpdateBlobs :=
  let local_rate := -rate * lr_mult
  let history := caffe_cpu_axpby local_rate b.diff momentum b.history
  { b with history := history, diff := caffe_copy history }

/-- The function `NesterovSolver::ComputeUpdateValue` (lines 2062-2121). -/
def NesterovSolver.ComputeUpdateValue (root_solver : Bool) (momentum : Rat) (lr_mult : Rat)
    (rate : Rat) (b : UpdateBlobs) : Except Fatal UpdateBlobs :=
  if ¬ root_solver then .error .checkFailed
  else
    let local_rate := rate * lr_mult
    let saved := caffe_copy b.history
    let history := caffe_cpu_axpby local_rate b.diff momentum b.history
    let update := caffe_cpu_axpby (1 + momentum) history (-momentum) saved
    .ok { history := history, update := update, diff := caffe_copy update }

/-! ## Definitions used to state the properties -/

/-- In the words of the specification: the release entries of a stage are the buffers of
its usage set that the lookahead set does not hold, in the order of the usage set, each
with the keep flag of the stage's policy. -/
def releaseEntries (used lookahead : IntSet) : List ImbInfo :=
  (used.entries.filter (fun e => !lookahead.count e.1)).map
    (fun e => { global_imb_id := e.1, keep := e.2.keep })

/-- Residency of buffer `b` as a number: 1 when its flag is set, 0 otherwise. -/
def resident (infos : List RowAccessInfo) (b : Nat) : Nat :=
  if (infos[b]?.map RowAccessInfo.data_in_mem) = some true then 1 else 0

/-- The ids of a list of entries. -/
def ids (l : List ImbInfo) : List Nat := l.map ImbInfo.global_imb_id

/-- The layer record at an index (the default record outside the vector). -/
def layerAt (s : Solver) (j : Nat) : LayerInfo := s.layer_infos_.getD j {}

/-- A layer record without its forward lists. -/
def clearFw (li : LayerInfo) : LayerInfo :=
  { li with imbs_to_access_fw := [], imbs_to_release_fw := [],
            imb_diffs_to_access_fw := [], imb_diffs_to_release_fw := [] }

/-- A layer record without its backward lists. -/
def clearBw (li : LayerInfo) : LayerInfo :=
  { li with imbs_to_access_bw := [], imbs_to_release_bw := [],
            imb_diffs_to_access_bw := [], imb_diffs_to_release_bw := [] }

/-- The lookahead sets of the forward release at stage `k` of `n`: data and gradients. -/
def fwLookahead (n : Nat) (s : Solver) (k : Nat) : IntSet × IntSet :=
  if k < n - 1 then ((layerAt s (k + 1)).imbs_used_fw, (layerAt s (k + 1)).imb_diffs_used_fw)
  else ((layerAt s k).imbs_used_bw, (layerAt s k).imb_diffs_used_bw)

/-- The lookahead sets of the backward release at stage `k`: data and gradients. -/
def bwLookahead (nb : List Bool) (s : Solver) (k : Nat) : IntSet × IntSet :=
  match nextBackwardLayer nb k with
  | none => ({}, {})
  | some j => ((layerAt s j).imbs_used_bw, (layerAt s j).imb_diffs_used_bw)

/-- The data access entries of a stage, both directions. -/
def dataAccess (li : LayerInfo) : List ImbInfo := li.imbs_to_access_fw ++ li.imbs_to_access_bw
/-- The data release entries of a stage, both directions. -/
def dataRelease (li : LayerInfo) : List ImbInfo :=
  li.imbs_to_release_fw ++ li.imbs_to_release_bw
/-- The gradient access entries of a stage, both directions. -/
def diffAccess (li : LayerInfo) : List ImbInfo :=
  li.imb_diffs_to_access_fw ++ li.imb_diffs_to_access_bw
/-- The gradient release entries of a stage, both directions. -/
def diffRelease (li : LayerInfo) : List ImbInfo :=
  li.imb_diffs_to_release_fw ++ li.imb_diffs_to_release_bw

/-- The number of entries for buffer `b` in the selected lists of all stages. -/
def total (infos : List LayerInfo) (sel : LayerInfo → List ImbInfo) (b : Nat) : Nat :=
  (infos.map (fun li => (ids (sel li)).count b)).sum

/-- Accesses and releases are balanced up to residency: every buffer has as many access
entries as release entries, plus one while it is resident. -/
def Balanced (s : Solver) : Prop :=
  ∀ b, total s.layer_infos_ dataAccess b =
        total s.layer_infos_ dataRelease b + resident s.imb_data_infos_ b ∧
      total s.layer_infos_ diffAccess b =
        total s.layer_infos_ diffRelease b + resident s.imb_diff_infos_ b

/-- What the forward loop over the stages `is` does to the forward lists of stage `k`. -/
def FwListsOf (n : Nat) (s s' : Solver) (k : Nat) : Prop :=
  (layerAt s' k).imbs_to_release_fw = (layerAt s k).imbs_to_release_fw ++
    releaseEntries (layerAt s k).imbs_used_fw (fwLookahead n s k).1 ∧
  (layerAt s' k).imb_diffs_to_release_fw = (layerAt s k).imb_diffs_to_release_fw ++
    releaseEntries (layerAt s k).imb_diffs_used_fw (fwLookahead n s k).2 ∧
  (∃ extra, (layerAt s' k).imbs_to_access_fw = (layerAt s k).imbs_to_access_fw ++ extra ∧
    (ids extra).Sublist (layerAt s k).imbs_used_fw.keys) ∧
  (∃ extra, (layerAt s' k).imb_diffs_to_access_fw =
      (layerAt s k).imb_diffs_to_access_fw ++ extra ∧
    (ids extra).Sublist (layerAt s k).imb_diffs_used_fw.keys)

/-- What the backward loop does to the backward lists of stage `k`. -/
def BwListsOf (nb : List Bool) (s s' : Solver) (k : Nat) : Prop :=
  (layerAt s' k).imbs_to_release_bw = (layerAt s k).imbs_to_release_bw ++
    releaseEntries (layerAt s k).imbs_used_bw (bwLookahead nb s k).1 ∧
  (layerAt s' k).imb_diffs_to_release_bw = (layerAt s k).imb_diffs_to_release_bw ++
    releaseEntries (layerAt s k).imb_diffs_used_bw (bwLookahead nb s k).2 ∧
  (∃ extra, (layerAt s' k).imbs_to_access_bw = (layerAt s k).imbs_to_access_bw ++ extra ∧
    (ids extra).Sublist (layerAt s k).imbs_used_bw.keys) ∧
  (∃ extra, (layerAt s' k).imb_diffs_to_access_bw =
      (layerAt s k).imb_diffs_to_access_bw ++ extra ∧
    (ids extra).Sublist (layerAt s k).imb_diffs_used_bw.keys)

/-- A layer record reduced to its four usage sets. -/
def usagePart (li : LayerInfo) : LayerInfo :=
  { imbs_used_fw := li.imbs_used_fw, imb_diffs_used_fw := li.imb_diffs_used_fw,
    imbs_used_bw := li.imbs_used_bw, imb_diffs_used_bw := li.imb_diffs_used_bw }

/-- A layer record without its usage sets. -/
def restPart (li : LayerInfo) : LayerInfo :=
  { li with imbs_used_fw := {}, imb_diffs_used_fw := {}, imbs_used_bw := {},
            imb_diffs_used_bw := {} }

/-- A layer record without its handles. -/
def planPart (li : LayerInfo) : LayerInfo := { li with layer_handles := [] }

/-- The usage sets `InitPs` computes for a stage of a graph. -/
def usageOf (net : Net) (layer : Layer) : LayerInfo :=
  layerUsage (netOutputSet net.net_output_blob_indices) layer {}

/-- A layer record as the row assignment leaves it: no usage set, no list, no handle. -/
def Fresh (li : LayerInfo) : Prop :=
  usagePart li = {} ∧ clearFw li = li ∧ clearBw li = li ∧ planPart li = li

/-- Every call recorded from the backward part of the virtual iteration belongs to a
stage that needs backward. -/
def BackwardSitesNeed (nb : List Bool) (trace : List PsOp) : Prop :=
  ∀ op ∈ trace, ∀ b k, op.site = Site.backward b k → nb.getD k false = true

/-- The virtual iteration changes handles only: same stages, same plan. -/
def SamePlan (l0 l : List LayerInfo) : Prop :=
  l.length = l0.length ∧ ∀ j, planPart (l.getD j {}) = planPart (l0.getD j {})

/-- The lists of stage `k` of a graph in the solver `s` that `InitPs` leaves. -/
structure LayerFacts (net : Net) (s : Solver) (k : Nat) (layer : Layer) : Prop where
  inRange : k < s.layer_infos_.length
  usage : usagePart (layerAt s k) = usageOf net layer
  release_fw : (layerAt s k).imbs_to_release_fw =
    releaseEntries (layerAt s k).imbs_used_fw (fwLookahead net.layers.length s k).1
  diff_release_fw : (layerAt s k).imb_diffs_to_release_fw =
    releaseEntries (layerAt s k).imb_diffs_used_fw (fwLookahead net.layers.length s k).2
  access_fw : (ids (layerAt s k).imbs_to_access_fw).Sublist (layerAt s k).imbs_used_fw.keys
  diff_access_fw : (ids (layerAt s k).imb_diffs_to_access_fw).Sublist
    (layerAt s k).imb_diffs_used_fw.keys
  release_bw : layer.need_backward = true → (layerAt s k).imbs_to_release_bw =
    releaseEntries (layerAt s k).imbs_used_bw
      (bwLookahead (net.layers.map Layer.need_backward) s k).1
  diff_release_bw : layer.need_backward = true → (layerAt s k).imb_diffs_to_release_bw =
    releaseEntries (layerAt s k).imb_diffs_used_bw
      (bwLookahead (net.layers.map Layer.need_backward) s k).2
  access_bw : (ids (layerAt s k).imbs_to_access_bw).Sublist (layerAt s k).imbs_used_bw.keys
  diff_access_bw : (ids (layerAt s k).imb_diffs_to_access_bw).Sublist
    (layerAt s k).imb_diffs_used_bw.keys
  skipped : layer.need_backward = false →
    (layerAt s k).imbs_to_access_bw = [] ∧ (layerAt s k).imbs_to_release_bw = [] ∧
    (layerAt s k).imb_diffs_to_access_bw = [] ∧ (layerAt s k).imb_diffs_to_release_bw = []

/-- A loop that assigns one policy to every blob of a list that a guard lets through. -/
def foldAssign (guard : Nat → Bool) (v : FetchKeep) (bs : List Nat) (m : IntSet) : IntSet :=
  bs.foldl (fun m b => if guard b then m else m.assign b v) m

/-- The layer types whose top data is used in the backward pass (lines 381-384). -/
def usesTopBackward (t : String) : Bool :=
  t == "ReLU" || t == "LRN" || t == "Pooling" || t == "SoftmaxWithLoss"

/-- Whether stage `i` of a graph takes part in the backward pass. -/
def needsBackward (net : Net) (i : Nat) : Bool :=
  (net.layers.map Layer.need_backward).getD i false

/-- The scenario graph: a data stage, a stage with parameters, a loss stage. -/
def scenarioNet : Net :=
  { layers := [ { type := "Data", need_backward := false, top_ids := [0, 1] },
                { type := "InnerProduct", blobs := [6, 2], bottom_ids := [0], top_ids := [2] },
                { type := "SoftmaxWithLoss", bottom_ids := [2, 1], top_ids := [3] } ],
    params := [6, 2], blobs := [8, 2, 4, 1], net_output_blob_indices := [3] }

/-- A client that numbers its handles in the order of the calls. -/
def countingAlloc : HandleAlloc := fun trace _ => trace.length

/-- The solver a run leaves, the empty solver after a fatal stop. -/
def Run.solver (r : Run) : Solver :=
  match r.outcome with
  | .ok s => s
  | .error _ => {}

/-- A graph whose last stage needs no backward although it reads its inputs backward: a
data stage followed by an accuracy stage. -/
def stuckNet : Net :=
  { layers := [ { type := "Data", need_backward := false, top_ids := [0, 1] },
                { type := "Accuracy", need_backward := false, bottom_ids := [0, 1],
                  top_ids := [2] } ],
    params := [], blobs := [8, 2, 1], net_output_blob_indices := [2] }

/-- A graph with an in-place stage: the ReLU stage (2) reads and writes buffer 2. -/
def inPlaceNet : Net :=
  { layers := [ { type := "Data", need_backward := false, top_ids := [0, 1] },
                { type := "Convolution", blobs := [6, 2], bottom_ids := [0], top_ids := [2] },
                { type := "ReLU", bottom_ids := [2], top_ids := [2] },
                { type := "InnerProduct", blobs := [8, 2], bottom_ids := [2], top_ids := [3] },
                { type := "SoftmaxWithLoss", bottom_ids := [3, 1], top_ids := [4] } ],
    params := [6, 2, 8, 2], blobs := [8, 2, 4, 2, 1], net_output_blob_indices := [4] }

/-- A graph whose loss output is consumed by a further stage, so that it is not a net
output. -/
def lossFeedNet : Net :=
  { layers := [ { type := "Data", need_backward := false, top_ids := [0, 1] },
                { type := "InnerProduct", blobs := [6, 2], bottom_ids := [0], top_ids := [2] },
                { type := "SoftmaxWithLoss", bottom_ids := [2, 1], top_ids := [3] },
                { type := "Power", bottom_ids := [3], top_ids := [4] } ],
    params := [6, 2], blobs := [8, 2, 4, 1, 1], net_output_blob_indices := [4] }

/-- Whether a stage has parameters (`layer->blobs().size() > 0`). -/
def hasParams (layer : Layer) : Bool := decide (0 < layer.blobs.length)

/-- The number of rows line 259 gives a stage: none without parameters. -/
def stageRows (R : Nat) (layer : Layer) : Nat :=
  if 0 < layer.blobs.length then (layer.blobs.sum + R - 1) / R else 0

/-- The number of rows lines 288 and 301 give an intermediate buffer of `count` elements. -/
def imbRows (R : Nat) (count : Nat) : Nat := (count + R - 1) / R

/-- The rows and the element count of a buffer record. -/
def rowsOnly (i : RowAccessInfo) : List Nat × Nat := (i.row_ids, i.num_vals)

/-- A layer record reduced to its table, rows, element count and parameter offsets. -/
def rowPart (li : LayerInfo) : LayerInfo :=
  { table_id := li.table_id, row_ids := li.row_ids,
    history_data_row_ids := li.history_data_row_ids, num_vals := li.num_vals,
    param_infos := li.param_infos }

/-- The rows of the intermediate buffers of a solver, data and gradients. -/
def imbRowsOf (s : Solver) : List (List Nat × Nat) × List (List Nat × Nat) :=
  (s.imb_data_infos_.map rowsOnly, s.imb_diff_infos_.map rowsOnly)

/-- A graph whose declared parameter count (1) is not the number of parameter blobs of
its stages (2). -/
def miscountedNet : Net :=
  { layers := [ { type := "Data", need_backward := false, top_ids := [0, 1] },
                { type := "InnerProduct", blobs := [6, 2], bottom_ids := [0], top_ids := [2] },
                { type := "SoftmaxWithLoss", bottom_ids := [2, 1], top_ids := [3] } ],
    params := [6], blobs := [8, 2, 4, 1], net_output_blob_indices := [3] }

/-- In the words of the specification: `r` is `ceil(n / R)`, the least number of rows of
capacity `R` that hold `n` elements. -/
def IsCeil (R n r : Nat) : Prop := n ≤ r * R ∧ ∀ r', n ≤ r' * R → r ≤ r'

/-- The groups of rows of the local store, in the order of their assignment: the history
rows of every stage, the data rows of every intermediate buffer, the gradient rows of every
intermediate buffer. -/
def localGroups (s : Solver) : List (List Nat) :=
  s.layer_infos_.map LayerInfo.history_data_row_ids ++
    s.imb_data_infos_.map RowAccessInfo.row_ids ++
    s.imb_diff_infos_.map RowAccessInfo.row_ids

/-- In the words of the specification: the (table, row, offset) triple of element `i` of
parameter `j` of stage `k`, the element at offset `val_offset + i` of the rows of the
stage, which hold `R` elements each. -/
def paramTriple (R : Nat) (s : Solver) (k j i : Nat) : Option (Nat × Nat × Nat) :=
  match s.layer_infos_[k]? with
  | none => none
  | some li =>
    match li.param_infos[j]? with
    | none => none
    | some p =>
      match li.row_ids[(p.val_offset + i) / R]? with
      | none => none
      | some row => some (li.table_id, row, (p.val_offset + i) % R)

/-- Element `i` of parameter `j` of stage `k` exists in the graph. -/
def IsParamElement (net : Net) (k j i : Nat) : Prop :=
  ∃ layer count, net.layers[k]? = some layer ∧ layer.blobs[j]? = some count ∧ i < count

/-- The slot of a site of the virtual iteration or of an iteration, none outside the
slots. -/
def slotOf : Site → Option Nat
  | .forward b _ => some b
  | .backward b _ => some b
  | _ => none

/-- The sites of one slot in the order the loops visit them: the forward part over the
stages `0 .. n - 1`, then the backward part over the stages `n - 1 .. 0`. -/
def batchSites (n b : Nat) : List Site :=
  (List.range n).map (Site.forward b) ++ (List.range n).reverse.map (Site.backward b)

/-- The sites of all slots in the order the loops visit them. -/
def slotSites (n B : Nat) : List Site := (List.range B).flatMap (batchSites n)

/-- The step of the virtual iteration at a site. -/
def virtualStep (alloc : HandleAlloc) (cfg : PsConfig) (nb : List Bool)
    (st : List LayerInfo × List PsOp) : Site → List LayerInfo × List PsOp
  | .forward b k => virtualForwardLayer alloc cfg b st k
  | .backward b k => virtualBackwardLayer alloc cfg nb b st k
  | _ => st

/-- The call of an iteration that corresponds to a registration of the virtual iteration,
made with the handle `h`. -/
def realCall : PsCall → Option Int → PsCall
  | .virtual_read_batch _ _ _ _, h => .read_batch h
  | .virtual_postread_batch _, h => .postread_batch h
  | .virtual_prewrite_batch _ _ _, h => .preinc_batch h
  | .virtual_write_batch _, h => .inc_batch h
  | .virtual_localaccess_batch _ _ _, h => .localaccess_batch h
  | .virtual_postlocalaccess_batch _ _, h => .postlocalaccess_batch h
  | c, _ => c

/-- The counterpart of a registration in an iteration: the corresponding call at the same
site (same slot, same stage, same direction), made with the handle the registration
returned. -/
def counterpart (op : PsOp) : PsOp :=
  { site := op.site, call := realCall op.call op.handle }

/-- A call without the handle it consumes: what is left is its kind and, for a
registration, the table, rows and counts it names. -/
def eraseCall : PsCall → PsCall
  | .virtual_postread_batch _ => .virtual_postread_batch none
  | .virtual_write_batch _ => .virtual_write_batch none
  | .virtual_postlocalaccess_batch _ keep => .virtual_postlocalaccess_batch none keep
  | .preinc_batch _ => .preinc_batch none
  | .inc_batch _ => .inc_batch none
  | .read_batch _ => .read_batch none
  | .postread_batch _ => .postread_batch none
  | .localaccess_batch _ => .localaccess_batch none
  | .postlocalaccess_batch _ => .postlocalaccess_batch none
  | c => c

/-- A call without the handles it consumes and returns. -/
def eraseHandles (op : PsOp) : PsOp := { site := op.site, call := eraseCall op.call }

/-- The number of parameters of stage `k` and the handles of its slot `b`. -/
def handlesAt (l : List LayerInfo) (k b : Nat) : Option (Nat × LayerHandles) :=
  match l[k]? with
  | none => none
  | some li =>
    match li.layer_handles[b]? with
    | none => none
    | some lh => some (li.param_infos.length, lh)

/-- The calls of the forward part of an iteration at a stage with parameters. -/
def forwardOps (b k : Nat) (lh : LayerHandles) : List PsOp :=
  [{ site := .forward b k, call := .read_batch lh.read_handle },
   { site := .forward b k, call := .postread_batch lh.postread_handle }]

/-- The calls of the backward part of an iteration at a stage with parameters. -/
def backwardOps (b k : Nat) (lh : LayerHandles) : List PsOp :=
  [{ site := .backward b k, call := .preinc_batch lh.prewrite_handle },
   { site := .backward b k, call := .read_batch lh.bw_read_handle },
   { site := .backward b k, call := .localaccess_batch lh.history_access_handle },
   { site := .backward b k, call := .inc_batch lh.write_handle },
   { site := .backward b k, call := .postread_batch lh.bw_postread_handle },
   { site := .backward b k, call := .postlocalaccess_batch lh.history_postaccess_handle }]

/-- The calls of a training iteration at a site, read off the stage records. -/
def siteOps (l : List LayerInfo) (nb : List Bool) : Site → List PsOp
  | .forward b k =>
    match handlesAt l k b with
    | none => []
    | some (n, lh) => if n ≠ 0 then forwardOps b k lh else []
  | .backward b k =>
    if !nb.getD k false then []
    else
      match handlesAt l k b with
      | none => []
      | some (n, lh) => if n ≠ 0 then backwardOps b k lh else []
  | _ => []

/-- The handles of a slot without the eight parameter handles. -/
def slotFrame (lh : LayerHandles) : LayerHandles :=
  { lh with read_handle := none, postread_handle := none, bw_read_handle := none,
            bw_postread_handle := none, prewrite_handle := none, write_handle := none,
            history_access_handle := none, history_postaccess_handle := none }

/-- A stage record without the parameter handles of its slots. -/
def staticPart (li : LayerInfo) : LayerInfo :=
  { li with layer_handles := li.layer_handles.map slotFrame }

/-- The registrations of the forward part at a stage with parameters, handles erased. -/
def forwardShape (cfg : PsConfig) (b k : Nat) (li : LayerInfo) : List PsOp :=
  [{ site := .forward b k,
     call := .virtual_read_batch li.table_id li.row_ids cfg.slack li.num_vals },
   { site := .forward b k, call := .virtual_postread_batch none }]

/-- The registrations of the backward part at a stage with parameters, handles erased. -/
def backwardShape (cfg : PsConfig) (b k : Nat) (li : LayerInfo) : List PsOp :=
  [{ site := .backward b k,
     call := .virtual_prewrite_batch li.table_id li.row_ids li.num_vals },
   { site := .backward b k,
     call := .virtual_read_batch li.table_id li.row_ids cfg.slack li.num_vals },
   { site := .backward b k,
     call := .virtual_localaccess_batch li.history_data_row_ids li.num_vals true },
   { site := .backward b k, call := .virtual_write_batch none },
   { site := .backward b k, call := .virtual_postread_batch none },
   { site := .backward b k, call := .virtual_postlocalaccess_batch none true }]

/-- The registrations at a site, handles erased, read off the stage records. -/
def siteShape (cfg : PsConfig) (l : List LayerInfo) (nb : List Bool) : Site → List PsOp
  | .forward b k =>
    match l[k]? with
    | none => []
    | some li =>
      if b < li.layer_handles.length ∧ li.param_infos.length ≠ 0 then forwardShape cfg b k li
      else []
  | .backward b k =>
    if !nb.getD k false then []
    else
      match l[k]? with
      | none => []
      | some li =>
        if b < li.layer_handles.length ∧ li.param_infos.length ≠ 0 then
          backwardShape cfg b k li
        else []
  | _ => []

/-- What the step of the virtual iteration at the site `σ` does from the state `st` to the
state `st1`: it appends registrations whose counterparts are the calls of an iteration at
`σ` and whose shape is that of the stage, and it leaves the calls of the other sites and
everything but the parameter handles as they were. -/
def StepSpec (cfg : PsConfig) (nb : List Bool) (σ : Site)
    (st st1 : List LayerInfo × List PsOp) : Prop :=
  ∃ ops, st1.2 = st.2 ++ ops ∧
    ops.map counterpart = siteOps st1.1 nb σ ∧
    ops.map eraseHandles = siteShape cfg (st.1.map staticPart) nb σ ∧
    (∀ σ', σ' ≠ σ → siteOps st1.1 nb σ' = siteOps st.1 nb σ') ∧
    st1.1.map staticPart = st.1.map staticPart

/-- The calls of an iteration at a site, or the fatal stop there. -/
def stageOps (s : Solver) (net : Net) (test : Bool) : Site → Except Fatal (List PsOp)
  | .forward b k => forwardStage s net b k
  | .backward b k => backwardStage s net test b k
  | _ => .ok []

/-- The calls of a trace made inside the slots: for the trace of `InitPs`, the
registrations of the virtual iteration. -/
def registrations (t : List PsOp) : List PsOp := t.filter (fun op => (slotOf op.site).isSome)

/-- The calls of a trace made in slot `b`. -/
def slotOps (b : Nat) (t : List PsOp) : List PsOp := t.filter (fun op => slotOf op.site == some b)

/-- Two sites in slot order: the slot of the first is not after the slot of the second
(sites outside the slots are not constrained). -/
def SlotLe (σ1 σ2 : Site) : Prop :=
  ∀ b1 b2, slotOf σ1 = some b1 → slotOf σ2 = some b2 → b1 ≤ b2

/-- The calls of a trace come slot by slot: a call of a slot is never followed by a call of
an earlier slot. -/
def SlotOrdered (t : List PsOp) : Prop := t.Pairwise (fun o1 o2 => SlotLe o1.site o2.site)

/-- The calls a stage makes when it does not stop the run. -/
def opsOf (r : Except Fatal (List PsOp)) : List PsOp :=
  match r with
  | .ok ops => ops
  | .error _ => []

/-- A site without its slot: the direction and the stage. -/
def stageSite : Site → Site
  | .forward _ k => .forward 0 k
  | .backward _ k => .backward 0 k
  | σ => σ

/-- The shape of a registration: its kind, its stage and direction, and the table, rows and
counts it names; the slot and the handles are left out. -/
def shapeOf (op : PsOp) : PsOp := { site := stageSite op.site, call := eraseCall op.call }

/-- The eight handle vectors of a slot have the lengths of the lists of the stage. -/
def HandleListsMatch (li : LayerInfo) (lh : LayerHandles) : Prop :=
  lh.imbs_to_access_fw.length = li.imbs_to_access_fw.length ∧
  lh.imbs_to_release_fw.length = li.imbs_to_release_fw.length ∧
  lh.imb_diffs_to_access_fw.length = li.imb_diffs_to_access_fw.length ∧
  lh.imb_diffs_to_release_fw.length = li.imb_diffs_to_release_fw.length ∧
  lh.imbs_to_access_bw.length = li.imbs_to_access_bw.length ∧
  lh.imbs_to_release_bw.length = li.imbs_to_release_bw.length ∧
  lh.imb_diffs_to_access_bw.length = li.imb_diffs_to_access_bw.length ∧
  lh.imb_diffs_to_release_bw.length = li.imb_diffs_to_release_bw.length

/-- The registrations of the virtual iteration: the six `virtual_..._batch` calls. -/
def isRegistration : PsCall → Bool
  | .virtual_read_batch _ _ _ _ => true
  | .virtual_postread_batch _ => true
  | .virtual_prewrite_batch _ _ _ => true
  | .virtual_write_batch _ => true
  | .virtual_localaccess_batch _ _ _ => true
  | .virtual_postlocalaccess_batch _ _ => true
  | _ => false

/-- The real store operations: the calls that read, write or release rows through a
handle, and the clock advance. -/
def isRealOp : PsCall → Bool
  | .preinc_batch _ => true
  | .inc_batch _ => true
  | .read_batch _ => true
  | .postread_batch _ => true
  | .localaccess_batch _ => true
  | .postlocalaccess_batch _ => true
  | .iterate => true
  | _ => false

/-- Whether planning (lines 231-817 of `InitPs`) passes all its checks. -/
def planned (R : Nat) (cfg : PsConfig) (net : Net) : Bool :=
  match plan R cfg net with
  | .ok _ => true
  | .error _ => false

/-- The initial write of stage `k`: the pre-write and the write through the handles of
slot 0, for a stage with parameters. -/
def initialOps (layer_infos : List LayerInfo) (k : Nat) : List PsOp :=
  match layer_infos[k]? with
  | none => []
  | some li =>
    match li.layer_handles[0]? with
    | none => []
    | some lh =>
      if li.param_infos.length ≠ 0 then
        [{ site := .initial k, call := .preinc_batch lh.prewrite_handle },
         { site := .initial k, call := .inc_batch lh.write_handle }]
      else []

/-- The fold of lines 1000-1040 over a list of stages. -/
def initialFold (layer_infos : List LayerInfo) (l : List Nat)
    (acc : List PsOp × Except Fatal Unit) : List PsOp × Except Fatal Unit :=
  l.foldl (fun (acc : List PsOp × Except Fatal Unit) layer_id =>
    match acc.2 with
    | .error e => (acc.1, .error e)
    | .ok _ =>
      match initialValuesStep layer_infos acc.1 layer_id with
      | .error e => (acc.1, .error e)
      | .ok t => (t, .ok ())) acc

/-- Whether a site is an initial write. -/
def isInitialSite : Site → Bool
  | .initial _ => true
  | _ => false

/-- In the words of the specification: the initialization write of worker 0, one
pre-write and write pair per stage with parameters, in stage order, through the handles of
slot 0 of the stage. -/
def initialWrites (s : Solver) (net : Net) : List PsOp :=
  (List.range net.layers.length).flatMap (fun k =>
    if (net.layers.map hasParams).getD k false then
      [{ site := .initial k,
         call := .preinc_batch
           ((s.layer_infos_.getD k {}).layer_handles.getD 0 {}).prewrite_handle },
       { site := .initial k,
         call := .inc_batch ((s.layer_infos_.getD k {}).layer_handles.getD 0 {}).write_handle }]
    else [])

/-- Every forward access entry carries the fetch flag of the policy its stage has for the
buffer, for the data and for the gradients. -/
def FetchByPolicy (s : Solver) : Prop :=
  ∀ j, (∀ e ∈ (layerAt s j).imbs_to_access_fw, ∃ fk,
      (e.global_imb_id, fk) ∈ (layerAt s j).imbs_used_fw.entries ∧ e.fetch = fk.fetch) ∧
    (∀ e ∈ (layerAt s j).imb_diffs_to_access_fw, ∃ fk,
      (e.global_imb_id, fk) ∈ (layerAt s j).imb_diffs_used_fw.entries ∧ e.fetch = fk.fetch)

/-- A solver with another configuration record. -/
def withConfig (c : PsConfig) (s : Solver) : Solver := { s with ps_config_ := c }

/-- A registration call without the staleness bound it passes. -/
def eraseSlack : PsCall → PsCall
  | .virtual_read_batch table_id row_ids _ num_vals =>
    .virtual_read_batch table_id row_ids 0 num_vals
  | c => c

/-- What a registration is apart from the handles and the staleness bound: its kind, its
stage, direction and slot, and the table, rows and counts it names. -/
def regShape (op : PsOp) : PsOp :=
  { site := op.site, call := eraseSlack (eraseCall op.call) }

/-- The fatal stop of a construction, if it stopped. -/
def Construction.fatal (c : Construction) : Option Fatal :=
  match c.outcome with
  | .ok _ => none
  | .error e => some e

/-- The object a construction returns, if it returns. -/
def Construction.returned (c : Construction) : Option SolverObject :=
  match c.outcome with
  | .ok o => some o
  | .error _ => none

/-- The process state of a root solver whose training net is the scenario graph. -/
def scenarioScaffold : Scaffold := { train_net := scenarioNet }

/-- Parameters that ask for AdaGrad with momentum 1. -/
def adagradWithMomentum : SolverParameter := { solver_type := .ADAGRAD, momentum := 1 }

/-- The class `GetSolver(param)` constructs for a solver type, none for a type it does
not name. -/
def classOfType : SolverType → Option SolverClass
  | .SGD => some .SGDSolver
  | .NESTEROV => some .NesterovSolver
  | .ADAGRAD => some .AdaGradSolver
  | .RMSPROP => some .RMSPropSolver
  | .ADADELTA => some .AdaDeltaSolver
  | .ADAM => some .AdamSolver
  | .other _ => none

/-- The configuration `GetSolver(param)` builds: `no_ps` set, the other fields as its
local `PsConfig` holds them. -/
def localConfig (worker_id num_workers : Int) : PsConfig :=
  { no_ps := true, worker_id := worker_id, num_workers := num_workers, slack := 0,
    batches_per_clock := 1 }

/-- The solver types `GetSolver(param, ps_config)` names. -/
def typesWithPsConfig : List SolverType := [.SGD, .NESTEROV, .ADAGRAD]

/-- The solver types `GetSolver(param)` names. -/
def typesWithoutPsConfig : List SolverType :=
  [.SGD, .NESTEROV, .ADAGRAD, .RMSPROP, .ADADELTA, .ADAM]

/-- Parameters that ask for SGD with `average_loss` 0, which `Init` refuses. -/
def sgdAverageZero : SolverParameter := { solver_type := .SGD, average_loss := 0 }

/-- Parameters that ask for Adam. -/
def adamParameter : SolverParameter := { solver_type := .ADAM }

/-- The training that starts on the solver a construction returned, with the answers
the action callback will give; the calls are counted from there. -/
def Training.start (c : Construction) (requests : List SolverAction) : Training :=
  match c.outcome with
  | .ok o => { solver := o, requests := requests }
  | .error e => { fatal := some e }

/-- The clock advances among the calls of a trace. -/
def clockAdvances (trace : List PsOp) : Nat :=
  trace.countP (fun op => decide (op.call = .iterate))

/-- Two iterations of `Step` on the scenario graph, every loss 1, with a callback that
answers STOP when it is asked after the first iteration. -/
def stopAfterFirst : StepFrame :=
  Step true (fun _ => 1) 2
    (Training.start (GetSolver 4 countingAlloc scenarioScaffold {} {}) [.STOP])

/-- One iteration of `Step` on the solver `GetSolver(param)` builds for the scenario
graph, with `no_ps` set. -/
def stepWithoutPs : StepFrame :=
  Step true (fun _ => 1) 1
    (Training.start (GetSolver.withoutPsConfig 4 countingAlloc scenarioScaffold {} 0 1) [])

/-- The global ids of the parameters of a list of stage records, in stage-then-parameter
order. -/
def globalParamIds (l : List LayerInfo) : List Nat :=
  l.flatMap (fun li => li.param_infos.map ParamInfo.global_param_id)

/-- A graph with two stages with parameters around a stage without: the global ids run
through both. -/
def twoParamNet : Net :=
  { layers := [ { type := "Data", need_backward := false, top_ids := [0, 1] },
                { type := "Convolution", blobs := [6, 2], bottom_ids := [0], top_ids := [2] },
                { type := "ReLU", bottom_ids := [2], top_ids := [3] },
                { type := "InnerProduct", blobs := [8, 2, 3], bottom_ids := [3], top_ids := [4] },
                { type := "SoftmaxWithLoss", bottom_ids := [4, 1], top_ids := [5] } ],
    params := [6, 2, 8, 2, 3], blobs := [8, 2, 4, 4, 2, 1], net_output_blob_indices := [5] }

/-- The blobs of a parameter with gradient `g` before the first update: the history and
the update are zero. -/
def freshBlobs (g : List Rat) : UpdateBlobs :=
  { diff := g, history := List.replicate g.length 0, update := List.replicate g.length 0 }

/-- The diff `NesterovSolver::ComputeUpdateValue` leaves, none after a fatal stop. -/
def nesterovDiff (root_solver : Bool) (momentum lr_mult rate : Rat) (b : UpdateBlobs) :
    Option (List Rat) :=
  match NesterovSolver.ComputeUpdateValue root_solver momentum lr_mult rate b with
  | .ok r => some r.diff
  | .error _ => none

/-- A graph whose first stage with parameters takes no part in the backward pass, as when
its parameters are frozen and the stages above it are trained: data, inner product without
backward, inner product, loss. -/
def frozenNet : Net :=
  { layers := [ { type := "Data", need_backward := false, top_ids := [0, 1] },
                { type := "InnerProduct", need_backward := false, blobs := [6, 2],
                  bottom_ids := [0], top_ids := [2] },
                { type := "InnerProduct", blobs := [8, 2], bottom_ids := [2], top_ids := [3] },
                { type := "SoftmaxWithLoss", bottom_ids := [3, 1], top_ids := [4] } ],
    params := [6, 2, 8, 2], blobs := [8, 2, 4, 4, 1], net_output_blob_indices := [4] }

/-- The solver `InitPs` leaves on the graph with the frozen stage. -/
def frozenSolver : Solver := (InitPs 4 countingAlloc {} frozenNet).solver

/-- The calls of a trace made at a site. -/
def callsAt (σ : Site) (t : List PsOp) : List PsCall :=
  (t.filter (fun op => decide (op.site = σ))).map PsOp.call

/-- What `Test`, `TestAll` and `Snapshot` leave of the solver object: everything but the
early-exit flag. -/
def SameObject (t t' : Training) : Prop :=
  t'.solver.iter_ = t.solver.iter_ ∧ t'.solver.param_ = t.solver.param_ ∧
  t'.solver.plan = t.solver.plan ∧ t'.solver.net_ = t.solver.net_ ∧
  t'.solver.test_nets_ = t.solver.test_nets_

/-- The sum of the losses of the last `min n A` of the first `n` iterations of a call of
`Step` that started at `start_iter`: the iterations `n - min n A .. n - 1`, counted from 0,
the iteration `m` being the one that starts with `iter_ = start_iter + m`. -/
def lastLosses (loss : Int → Rat) (start_iter : Int) (n A : Nat) : List Rat :=
  (List.range' (n - min n A) (min n A)).map (fun (m : Nat) => loss (start_iter + (m : Int)))

/-- In the words of the specification: the arithmetic mean of the losses of the last
`min n A` iterations, after `n` iterations of a call of `Step`. -/
def meanOfLast (loss : Int → Rat) (start_iter : Int) (n A : Nat) : Rat :=
  (lastLosses loss start_iter n A).sum / ((min n A : Nat) : Rat)

/-- The locals `losses` and `smoothed_loss` of `Step` after `n` iterations: the vector
holds the losses of the last `min n A` iterations, iteration `m` at index `m % A`, and the
smoothed loss times their number is their sum. -/
def Smoothed (loss : Int → Rat) (start_iter : Int) (A n : Nat) (losses : List Rat)
    (smoothed_loss : Rat) : Prop :=
  losses.length = min n A ∧
  (∀ m, n - min n A ≤ m → m < n → losses[m % A]? = some (loss (start_iter + (m : Int)))) ∧
  smoothed_loss * ((min n A : Nat) : Rat) = (lastLosses loss start_iter n A).sum

/-- The invariant of the loop of `Step`: `iter_` is `start_iter` plus the number `n` of
iterations made, and `losses` and `smoothed_loss` are as after `n` iterations. -/
def StepInv (loss : Int → Rat) (start_iter : Int) (A : Nat) (f : StepFrame) : Prop :=
  ∃ n : Nat, f.run.solver.iter_ = start_iter + (n : Int) ∧
    Smoothed loss start_iter A n f.losses f.smoothed_loss

/-- A training on the scenario graph with `average_loss` 2. -/
def smoothingRun : Training :=
  Training.start (GetSolver 4 countingAlloc scenarioScaffold { average_loss := 2 } {}) []

/-- In the words of the specification: the access entries of a stage are the buffers of
its usage set that the usage set of the stage before does not hold, in the order of the
usage set, each with the fetch flag of the stage's policy. -/
def accessEntries (used previous : IntSet) : List ImbInfo :=
  (used.entries.filter (fun e => !previous.count e.1)).map
    (fun e => { global_imb_id := e.1, fetch := e.2.fetch })

/-- The residency flags after the access and release loops of a stage with usage set
`used` and lookahead set `next`, from the flags `before`: a buffer is resident when it was
resident or is used, unless it is used and the lookahead set does not hold it. -/
def StageResidency (used next : IntSet) (before after : List RowAccessInfo) : Prop :=
  ∀ b, resident after b = 1 ↔
    ((used.count b = true ∨ resident before b = 1) ∧
      ¬ (used.count b = true ∧ next.count b = false))

/-- The entries the access loop of a stage adds: the buffers of the usage set that are
not resident, in the order of the usage set, with the fetch flag of the policy. -/
def firstAccesses (used : IntSet) (before : List RowAccessInfo) : List ImbInfo :=
  (used.entries.filter (fun e => resident before e.1 == 0)).map
    (fun e => { global_imb_id := e.1, fetch := e.2.fetch })

/-- The keys of the four usage sets of a stage record are pairwise distinct. -/
def DistinctKeys (li : LayerInfo) : Prop :=
  li.imbs_used_fw.keys.Nodup ∧ li.imb_diffs_used_fw.keys.Nodup ∧
  li.imbs_used_bw.keys.Nodup ∧ li.imb_diffs_used_bw.keys.Nodup

/-- The keys of the four usage sets of a stage record are below `n`. -/
def KeysBelow (n : Nat) (li : LayerInfo) : Prop :=
  (∀ b ∈ li.imbs_used_fw.keys, b < n) ∧ (∀ b ∈ li.imb_diffs_used_fw.keys, b < n) ∧
  (∀ b ∈ li.imbs_used_bw.keys, b < n) ∧ (∀ b ∈ li.imb_diffs_used_bw.keys, b < n)

/-- The buffer ids of a graph are valid: every bottom and every top of every stage is a
buffer of the graph. -/
def ValidIds (net : Net) : Prop :=
  ∀ layer ∈ net.layers, ∀ b ∈ layer.bottom_ids ++ layer.top_ids, b < net.blobs.length

/-- The states of the list-building passes that start from `s0`: the stages, their usage
sets and the number of buffers stay as they are. -/
def PassState (s0 s : Solver) : Prop :=
  s.layer_infos_.length = s0.layer_infos_.length ∧
  (∀ j, usagePart (layerAt s j) = usagePart (layerAt s0 j)) ∧
  s.imb_data_infos_.length = s0.imb_data_infos_.length ∧
  s.imb_diff_infos_.length = s0.imb_diff_infos_.length

/-- The buffers, data and gradients, that are resident before forward stage `k` of `n`:
none before stage 0; before stage `k + 1` those that stage `k` uses and does not release,
its lookahead set holding them. -/
def fwResident (n : Nat) (s0 : Solver) : Nat → (Nat → Bool) × (Nat → Bool)
  | 0 => (fun _ => false, fun _ => false)
  | k + 1 =>
    (fun b => (layerAt s0 k).imbs_used_fw.count b && (fwLookahead n s0 k).1.count b,
     fun b => (layerAt s0 k).imb_diffs_used_fw.count b && (fwLookahead n s0 k).2.count b)

/-- The forward usage sets, data and gradients, of the stage before stage `k`; for stage 0
the empty sets. -/
def fwPrevious (s0 : Solver) : Nat → IntSet × IntSet
  | 0 => ({}, {})
  | k + 1 => ((layerAt s0 k).imbs_used_fw, (layerAt s0 k).imb_diffs_used_fw)

/-- The state of the forward pass before stage `k`, from the state `s0` at its start. -/
def FwInv (n : Nat) (s0 : Solver) (k : Nat) (s : Solver) : Prop :=
  PassState s0 s ∧
  (∀ j, clearFw (layerAt s j) = clearFw (layerAt s0 j)) ∧
  (∀ j, k ≤ j → layerAt s j = layerAt s0 j) ∧
  (∀ b, resident s.imb_data_infos_ b = 1 ↔ (fwResident n s0 k).1 b = true) ∧
  (∀ b, resident s.imb_diff_infos_ b = 1 ↔ (fwResident n s0 k).2 b = true) ∧
  (∀ j, j < k →
    (layerAt s j).imbs_to_access_fw =
      accessEntries (layerAt s0 j).imbs_used_fw (fwPrevious s0 j).1 ∧
    (layerAt s j).imb_diffs_to_access_fw =
      accessEntries (layerAt s0 j).imb_diffs_used_fw (fwPrevious s0 j).2)

/-- The state of the backward pass before stage `k - 1`, the stages from `k` on done, from
the state `s1` at its start: every resident buffer is in the backward usage set of the
closest stage below `k` that needs backward, and none is resident when there is no such
stage. -/
def BwInv (nb : List Bool) (s1 : Solver) (k : Nat) (s : Solver) : Prop :=
  PassState s1 s ∧
  (∀ b, resident s.imb_data_infos_ b = 1 → (bwLookahead nb s1 k).1.count b = true) ∧
  (∀ b, resident s.imb_diff_infos_ b = 1 → (bwLookahead nb s1 k).2.count b = true)

/-- The solver and the number of tables lines 231-743 of `InitPs` leave on the scenario
graph. -/
def scenarioLists : Solver × Nat :=
  match listsOf 4 {} scenarioNet with
  | .ok p => p
  | .error _ => ({}, 0)

/-- Lines 588-608 of `InitPs`: the residency flags of the data and of the gradients at the
compute point of the forward stage `layer_id`, after the access loops of the stage and
before its release loops. -/
def forwardComputePoint (s : Solver) (layer_id : Nat) :
    Except Fatal (List RowAccessInfo × List RowAccessInfo) :=
  match s.layer_infos_[layer_id]? with
  | none => .error .outOfRange
  | some layer_info =>
    match accessLoop layer_info.imbs_used_fw.entries s.imb_data_infos_
        layer_info.imbs_to_access_fw with
    | .error e => .error e
    | .ok a =>
      match accessLoop layer_info.imb_diffs_used_fw.entries s.imb_diff_infos_
          layer_info.imb_diffs_to_access_fw with
      | .error e => .error e
      | .ok b => .ok (a.1, b.1)

/-- Lines 665-686 of `InitPs`: the residency flags of the data and of the gradients at the
compute point of the backward stage `layer_id`, a stage that needs backward, after the
access loops of the stage and before its release loops. -/
def backwardComputePoint (s : Solver) (layer_id : Nat) :
    Except Fatal (List RowAccessInfo × List RowAccessInfo) :=
  match s.layer_infos_[layer_id]? with
  | none => .error .outOfRange
  | some layer_info =>
    match accessLoop layer_info.imbs_used_bw.entries s.imb_data_infos_
        layer_info.imbs_to_access_bw with
    | .error e => .error e
    | .ok a =>
      match accessLoop layer_info.imb_diffs_used_bw.entries s.imb_diff_infos_
          layer_info.imb_diffs_to_access_bw with
      | .error e => .error e
      | .ok b => .ok (a.1, b.1)

/-- The state the forward pass of `InitPs` has reached on the scenario graph before
stage `k`. -/
def scenarioForwardState (k : Nat) : Solver :=
  match initialState 4 {} scenarioNet with
  | .error _ => {}
  | .ok (s0, _) =>
    match (List.range k).foldlM (forwardLayer scenarioNet.layers.length) s0 with
    | .error _ => {}
    | .ok sk => sk

/-- The residency flags at the compute point of forward stage 2 of the scenario graph. -/
def scenarioComputePoint : List RowAccessInfo × List RowAccessInfo :=
  match forwardComputePoint (scenarioForwardState 2) 2 with
  | .error _ => ([], [])
  | .ok p => p

/-- The residency of a buffer after a sequence of events on it, `true` an access and
`false` a release, starting from residency `r`: none when an access comes while the buffer
is resident or a release while it is not. -/
def alternate : Bool → List Bool → Option Bool
  | r, [] => some r
  | r, e :: rest => if e = r then none else alternate e rest

/-- The sequence of `n` events that starts with `e` and changes kind at every event. -/
def alternating : Bool → Nat → List Bool
  | _, 0 => []
  | e, n + 1 => e :: alternating (!e) n

/-- The events of one stage in one direction: all its access entries, then all its release
entries, each with the buffer id; `true` marks an access. -/
def stageEvents (access release : List ImbInfo) : List (Nat × Bool) :=
  access.map (fun e => (e.global_imb_id, true)) ++
    release.map (fun e => (e.global_imb_id, false))

/-- The kinds of the events of buffer `b` in a sequence of events, in their order. -/
def eventsOf (b : Nat) (events : List (Nat × Bool)) : List Bool :=
  (events.filter (fun e => e.1 == b)).map Prod.snd

/-- Whether the residency flag of buffer `b` is set. -/
def isResident (infos : List RowAccessInfo) (b : Nat) : Bool := resident infos b == 1

/-- The events on the data buffers of a stage in the forward direction. -/
def fwDataEvents (li : LayerInfo) : List (Nat × Bool) :=
  stageEvents li.imbs_to_access_fw li.imbs_to_release_fw

/-- The events on the gradient buffers of a stage in the forward direction. -/
def fwDiffEvents (li : LayerInfo) : List (Nat × Bool) :=
  stageEvents li.imb_diffs_to_access_fw li.imb_diffs_to_release_fw

/-- The events on the data buffers of a stage in the backward direction. -/
def bwDataEvents (li : LayerInfo) : List (Nat × Bool) :=
  stageEvents li.imbs_to_access_bw li.imbs_to_release_bw

/-- The events on the gradient buffers of a stage in the backward direction. -/
def bwDiffEvents (li : LayerInfo) : List (Nat × Bool) :=
  stageEvents li.imb_diffs_to_access_bw li.imb_diffs_to_release_bw

/-- In the words of the specification: the planned order of the events on the data buffers,
stages `0 .. N - 1` forward, then the stages that take part in the backward pass,
`N - 1 .. 0`; within a stage all accesses before all releases. -/
def dataEvents (net : Net) (s : Solver) : List (Nat × Bool) :=
  (List.range net.layers.length).flatMap (fun k => fwDataEvents (layerAt s k)) ++
    ((List.range net.layers.length).reverse.filter (fun k => needsBackward net k)).flatMap
      (fun k => bwDataEvents (layerAt s k))

/-- In the words of the specification: the planned order of the events on the gradient
buffers, as for the data buffers. -/
def diffEvents (net : Net) (s : Solver) : List (Nat × Bool) :=
  (List.range net.layers.length).flatMap (fun k => fwDiffEvents (layerAt s k)) ++
    ((List.range net.layers.length).reverse.filter (fun k => needsBackward net k)).flatMap
      (fun k => bwDiffEvents (layerAt s k))

/-! ## Lemmas and theorems -/

theorem foldlM_ok_cons {σ ι : Type} (f : σ → ι → Except Fatal σ) (i : ι) (l : List ι)
    (s s' : σ) :
    (i :: l).foldlM f s = .ok s' ↔ ∃ s1, f s i = .ok s1 ∧ l.foldlM f s1 = .ok s' := by
  simp only [List.foldlM_cons, bind, Except.bind]
  cases h : f s i with
  | error e => simp
  | ok s1 => simp

theorem foldlM_ok_nil {σ ι : Type} (f : σ → ι → Except Fatal σ) (s s' : σ) :
    ([] : List ι).foldlM f s = .ok s' ↔ s = s' := by
  simp [List.foldlM_nil, pure, Except.pure]

theorem foldlM_ok_append {σ ι : Type} (f : σ → ι → Except Fatal σ) (l1 l2 : List ι)
    (s s' : σ) :
    (l1 ++ l2).foldlM f s = .ok s' ↔
      ∃ s1, l1.foldlM f s = .ok s1 ∧ l2.foldlM f s1 = .ok s' := by
  induction l1 generalizing s with
  | nil =>
    simp only [List.nil_append, foldlM_ok_nil]
    constructor
    · intro h; exact ⟨s, rfl, h⟩
    · rintro ⟨s1, rfl, h⟩; exact h
  | cons i l1 ih =>
    simp only [List.cons_append, foldlM_ok_cons, ih]
    constructor
    · rintro ⟨s1, h1, s2, h2, h3⟩; exact ⟨s2, ⟨s1, h1, h2⟩, h3⟩
    · rintro ⟨s2, ⟨s1, h1, h2⟩, h3⟩; exact ⟨s1, h1, s2, h2, h3⟩

theorem resident_set (infos : List RowAccessInfo) (i b : Nat) (x : RowAccessInfo)
    (hi : i < infos.length) :
    resident (infos.set i x) b = if b = i then (if x.data_in_mem then 1 else 0)
      else resident infos b := by
  unfold resident
  by_cases hb : b = i
  · subst hb
    simp [List.getElem?_set, hi]
  · have : i ≠ b := fun h => hb h.symm
    simp [List.getElem?_set, hb, this]

theorem accessLoop_append (used : List (Nat × FetchKeep)) (infos : List RowAccessInfo)
    (acc : List ImbInfo) (r : List RowAccessInfo × List ImbInfo)
    (h : accessLoop used infos acc = .ok r) :
    ∃ extra, r.2 = acc ++ extra ∧ (ids extra).Sublist (used.map Prod.fst) ∧
      (∀ e ∈ extra, e.keep = false ∧
        ∃ fk, (e.global_imb_id, fk) ∈ used ∧ e.fetch = fk.fetch) ∧
      r.1.length = infos.length := by
  induction used generalizing infos acc with
  | nil =>
    simp only [accessLoop, Except.ok.injEq] at h
    subst h
    exact ⟨[], by simp, by simp [ids], by simp, rfl⟩
  | cons p rest ih =>
    obtain ⟨imb_id, fk⟩ := p
    simp only [accessLoop] at h
    split at h
    · cases h
    · rename_i info hinfo
      split at h
      · obtain ⟨extra, h1, h2, h3, h4⟩ := ih _ _ h
        refine ⟨{ global_imb_id := imb_id, fetch := fk.fetch } :: extra, ?_, ?_, ?_, ?_⟩
        · simp [h1]
        · simpa [ids] using h2
        · intro e he
          rcases List.mem_cons.1 he with rfl | he
          · exact ⟨rfl, fk, by simp, rfl⟩
          · obtain ⟨hk, fk', hm, hf⟩ := h3 e he
            exact ⟨hk, fk', List.mem_cons_of_mem _ hm, hf⟩
        · simpa using h4
      · obtain ⟨extra, h1, h2, h3, h4⟩ := ih _ _ h
        refine ⟨extra, h1, ?_, ?_, h4⟩
        · exact List.Sublist.cons _ h2
        · intro e he
          obtain ⟨hk, fk', hm, hf⟩ := h3 e he
          exact ⟨hk, fk', List.mem_cons_of_mem _ hm, hf⟩

theorem accessLoop_count (used : List (Nat × FetchKeep)) (infos : List RowAccessInfo)
    (acc : List ImbInfo) (r : List RowAccessInfo × List ImbInfo)
    (h : accessLoop used infos acc = .ok r) (b : Nat) :
    (ids r.2).count b + resident infos b = (ids acc).count b + resident r.1 b := by
  induction used generalizing infos acc with
  | nil =>
    simp only [accessLoop, Except.ok.injEq] at h
    subst h; rfl
  | cons p rest ih =>
    obtain ⟨imb_id, fk⟩ := p
    simp only [accessLoop] at h
    split at h
    · cases h
    · rename_i info hinfo
      have hlt : imb_id < infos.length := by
        rcases List.getElem?_eq_some_iff.1 hinfo with ⟨hl, _⟩; exact hl
      split at h
      · rename_i hmem
        have := ih _ _ h
        rw [resident_set _ _ _ _ hlt] at this
        simp only [ids, List.map_append, List.map_cons, List.map_nil, List.count_append,
          List.count_cons, List.count_nil] at this ⊢
        by_cases hb : b = imb_id
        · subst hb
          have hr : resident infos b = 0 := by
            unfold resident; simp [hinfo]; simpa using hmem
          simp at this
          omega
        · have hb' : ¬ (imb_id = b) := fun h => hb h.symm
          simp [hb, hb'] at this
          omega
      · exact ih _ _ h

theorem releaseLoop_eq (next : IntSet) (used : List (Nat × FetchKeep))
    (infos : List RowAccessInfo) (acc : List ImbInfo)
    (r : List RowAccessInfo × List ImbInfo)
    (h : releaseLoop next used infos acc = .ok r) :
    r.2 = acc ++ releaseEntries ⟨used⟩ next ∧ r.1.length = infos.length := by
  induction used generalizing infos acc with
  | nil =>
    simp only [releaseLoop, Except.ok.injEq] at h
    subst h; simp [releaseEntries]
  | cons p rest ih =>
    obtain ⟨imb_id, fk⟩ := p
    simp only [releaseLoop] at h
    split at h
    · rename_i hc
      split at h
      · cases h
      · split at h
        · obtain ⟨h1, h2⟩ := ih _ _ h
          refine ⟨?_, by simpa using h2⟩
          rw [h1]
          simp only [releaseEntries] at hc ⊢
          simp [List.filter_cons, hc]
        · cases h
    · rename_i hc
      obtain ⟨h1, h2⟩ := ih _ _ h
      refine ⟨?_, h2⟩
      rw [h1]
      simp only [releaseEntries] at hc ⊢
      simp [List.filter_cons, hc]

theorem releaseLoop_count (next : IntSet) (used : List (Nat × FetchKeep))
    (infos : List RowAccessInfo) (acc : List ImbInfo)
    (r : List RowAccessInfo × List ImbInfo)
    (h : releaseLoop next used infos acc = .ok r) (b : Nat) :
    (ids r.2).count b + resident r.1 b = (ids acc).count b + resident infos b := by
  induction used generalizing infos acc with
  | nil =>
    simp only [releaseLoop, Except.ok.injEq] at h
    subst h; rfl
  | cons p rest ih =>
    obtain ⟨imb_id, fk⟩ := p
    simp only [releaseLoop] at h
    split at h
    · split at h
      · cases h
      · rename_i info hinfo
        have hlt : imb_id < infos.length := by
          rcases List.getElem?_eq_some_iff.1 hinfo with ⟨hl, _⟩; exact hl
        split at h
        · rename_i hmem
          have := ih _ _ h
          rw [resident_set _ _ _ _ hlt] at this
          simp only [ids, List.map_append, List.map_cons, List.map_nil, List.count_append,
            List.count_cons, List.count_nil] at this ⊢
          by_cases hb : b = imb_id
          · subst hb
            have hr : resident infos b = 1 := by
              unfold resident; simp [hinfo, hmem]
            simp at this
            omega
          · have hb' : ¬ (imb_id = b) := fun h => hb h.symm
            simp [hb, hb'] at this
            omega
        · cases h
    · exact ih _ _ h

theorem forwardLayer_ok (n : Nat) (s s' : Solver) (i : Nat)
    (h : forwardLayer n s i = .ok s') :
    ∃ li a b c d, s.layer_infos_[i]? = some li ∧
      accessLoop li.imbs_used_fw.entries s.imb_data_infos_ li.imbs_to_access_fw = .ok a ∧
      accessLoop li.imb_diffs_used_fw.entries s.imb_diff_infos_
        li.imb_diffs_to_access_fw = .ok b ∧
      releaseLoop (fwLookahead n s i).1 li.imbs_used_fw.entries a.1
        li.imbs_to_release_fw = .ok c ∧
      releaseLoop (fwLookahead n s i).2 li.imb_diffs_used_fw.entries b.1
        li.imb_diffs_to_release_fw = .ok d ∧
      s' = { s with
        imb_data_infos_ := c.1
        imb_diff_infos_ := d.1
        layer_infos_ := s.layer_infos_.set i { li with
          imbs_to_access_fw := a.2
          imb_diffs_to_access_fw := b.2
          imbs_to_release_fw := c.2
          imb_diffs_to_release_fw := d.2 } } := by
  unfold forwardLayer at h
  split at h
  · cases h
  · rename_i li hli
    have hget : layerAt s i = li := by
      simp [layerAt, List.getD_eq_getElem?_getD, hli]
    simp only [bind, Except.bind, pure, Except.pure] at h
    split at h
    · cases h
    · rename_i a ha
      split at h
      · cases h
      · rename_i b hb
        split at h
        · cases h
        · rename_i c hc
          split at h
          · cases h
          · rename_i d hd
            refine ⟨li, a, b, c, d, hli, ha, hb, ?_, ?_, ?_⟩
            · rw [← hc]; unfold fwLookahead layerAt; rw [← hget]; split <;> rfl
            · rw [← hd]; unfold fwLookahead layerAt; rw [← hget]; split <;> rfl
            · cases h; rfl

theorem layerAt_of_getElem? (s : Solver) (j : Nat) (li : LayerInfo)
    (h : s.layer_infos_[j]? = some li) : layerAt s j = li := by
  simp [layerAt, List.getD_eq_getElem?_getD, h]

theorem getElem?_of_lt (s : Solver) (j : Nat) (h : j < s.layer_infos_.length) :
    s.layer_infos_[j]? = some (layerAt s j) := by
  simp [layerAt, List.getD_eq_getElem?_getD, List.getElem?_eq_getElem h]

theorem sum_map_set {α : Type} (f : α → Nat) (l : List α) (i : Nat) (a a' : α)
    (h : l[i]? = some a) :
    ((l.set i a').map f).sum + f a = (l.map f).sum + f a' := by
  induction l generalizing i with
  | nil => simp at h
  | cons x xs ih =>
    cases i with
    | zero =>
      simp only [List.getElem?_cons_zero, Option.some.injEq] at h
      subst h
      simp only [List.set_cons_zero, List.map_cons, List.sum_cons]
      omega
    | succ i =>
      simp only [List.getElem?_cons_succ] at h
      have := ih i h
      simp only [List.set_cons_succ, List.map_cons, List.sum_cons]
      omega

theorem total_set (infos : List LayerInfo) (sel : LayerInfo → List ImbInfo) (b i : Nat)
    (li li' : LayerInfo) (h : infos[i]? = some li) :
    total (infos.set i li') sel b + (ids (sel li)).count b =
      total infos sel b + (ids (sel li')).count b :=
  sum_map_set (fun li => (ids (sel li)).count b) infos i li li' h

theorem ids_append (l1 l2 : List ImbInfo) : ids (l1 ++ l2) = ids l1 ++ ids l2 := by
  simp [ids]

theorem forwardLayer_frame (n : Nat) (s s' : Solver) (i : Nat)
    (h : forwardLayer n s i = .ok s') :
    s'.layer_infos_.length = s.layer_infos_.length ∧
    i < s.layer_infos_.length ∧
    (∀ j, j ≠ i → layerAt s' j = layerAt s j) ∧
    clearFw (layerAt s' i) = clearFw (layerAt s i) ∧
    s'.ps_config_ = s.ps_config_ := by
  obtain ⟨li, a, b, c, d, hli, -, -, -, -, rfl⟩ := forwardLayer_ok n s s' i h
  have hlt : i < s.layer_infos_.length := (List.getElem?_eq_some_iff.1 hli).1
  refine ⟨by simp, hlt, ?_, ?_, rfl⟩
  · intro j hj
    have : i ≠ j := fun h => hj h.symm
    simp [layerAt, List.getD_eq_getElem?_getD, List.getElem?_set, this]
  · simp [layerAt, List.getD_eq_getElem?_getD, List.getElem?_set, hlt, hli, clearFw]

theorem forwardLayer_lists (n : Nat) (s s' : Solver) (i : Nat)
    (h : forwardLayer n s i = .ok s') :
    (layerAt s' i).imbs_to_release_fw = (layerAt s i).imbs_to_release_fw ++
      releaseEntries (layerAt s i).imbs_used_fw (fwLookahead n s i).1 ∧
    (layerAt s' i).imb_diffs_to_release_fw = (layerAt s i).imb_diffs_to_release_fw ++
      releaseEntries (layerAt s i).imb_diffs_used_fw (fwLookahead n s i).2 ∧
    (∃ extra, (layerAt s' i).imbs_to_access_fw = (layerAt s i).imbs_to_access_fw ++ extra ∧
      (ids extra).Sublist (layerAt s i).imbs_used_fw.keys) ∧
    (∃ extra, (layerAt s' i).imb_diffs_to_access_fw =
        (layerAt s i).imb_diffs_to_access_fw ++ extra ∧
      (ids extra).Sublist (layerAt s i).imb_diffs_used_fw.keys) := by
  obtain ⟨li, a, b, c, d, hli, ha, hb, hc, hd, rfl⟩ := forwardLayer_ok n s s' i h
  have hlt : i < s.layer_infos_.length := (List.getElem?_eq_some_iff.1 hli).1
  have hat : layerAt s i = li := layerAt_of_getElem? s i li hli
  obtain ⟨ea, ha1, ha2, -, -⟩ := accessLoop_append _ _ _ _ ha
  obtain ⟨eb, hb1, hb2, -, -⟩ := accessLoop_append _ _ _ _ hb
  have hc1 := (releaseLoop_eq _ _ _ _ _ hc).1
  have hd1 := (releaseLoop_eq _ _ _ _ _ hd).1
  rw [hat]
  simp only [layerAt, List.getD_eq_getElem?_getD, List.getElem?_set, hlt, if_true,
    Option.getD_some]
  exact ⟨hc1, hd1, ⟨ea, ha1, ha2⟩, ⟨eb, hb1, hb2⟩⟩

theorem forwardLayer_balanced (n : Nat) (s s' : Solver) (i : Nat)
    (h : forwardLayer n s i = .ok s') (hs : Balanced s) : Balanced s' := by
  obtain ⟨li, a, b, c, d, hli, ha, hb, hc, hd, rfl⟩ := forwardLayer_ok n s s' i h
  intro x
  obtain ⟨h1, h2⟩ := hs x
  have ha' := accessLoop_count _ _ _ _ ha x
  have hb' := accessLoop_count _ _ _ _ hb x
  have hc' := releaseLoop_count _ _ _ _ _ hc x
  have hd' := releaseLoop_count _ _ _ _ _ hd x
  have t1 := total_set s.layer_infos_ dataAccess x i li
    { li with imbs_to_access_fw := a.2, imb_diffs_to_access_fw := b.2,
              imbs_to_release_fw := c.2, imb_diffs_to_release_fw := d.2 } hli
  have t2 := total_set s.layer_infos_ dataRelease x i li
    { li with imbs_to_access_fw := a.2, imb_diffs_to_access_fw := b.2,
              imbs_to_release_fw := c.2, imb_diffs_to_release_fw := d.2 } hli
  have t3 := total_set s.layer_infos_ diffAccess x i li
    { li with imbs_to_access_fw := a.2, imb_diffs_to_access_fw := b.2,
              imbs_to_release_fw := c.2, imb_diffs_to_release_fw := d.2 } hli
  have t4 := total_set s.layer_infos_ diffRelease x i li
    { li with imbs_to_access_fw := a.2, imb_diffs_to_access_fw := b.2,
              imbs_to_release_fw := c.2, imb_diffs_to_release_fw := d.2 } hli
  simp only [dataAccess, dataRelease, diffAccess, diffRelease, ids_append,
    List.count_append] at t1 t2 t3 t4 h1 h2 ⊢
  constructor <;> omega

theorem backwardLayer_skip (nb : List Bool) (s : Solver) (i : Nat)
    (h : nb.getD i false = false) : backwardLayer nb s i = .ok s := by
  unfold backwardLayer
  simp only [h, Bool.not_false, if_true]
  rfl

theorem backwardLayer_ok (nb : List Bool) (s s' : Solver) (i : Nat)
    (hnb : nb.getD i false = true) (h : backwardLayer nb s i = .ok s') :
    ∃ li a b c d, s.layer_infos_[i]? = some li ∧
      accessLoop li.imbs_used_bw.entries s.imb_data_infos_ li.imbs_to_access_bw = .ok a ∧
      accessLoop li.imb_diffs_used_bw.entries s.imb_diff_infos_
        li.imb_diffs_to_access_bw = .ok b ∧
      releaseLoop (bwLookahead nb s i).1 li.imbs_used_bw.entries a.1
        li.imbs_to_release_bw = .ok c ∧
      releaseLoop (bwLookahead nb s i).2 li.imb_diffs_used_bw.entries b.1
        li.imb_diffs_to_release_bw = .ok d ∧
      s' = { s with
        imb_data_infos_ := c.1
        imb_diff_infos_ := d.1
        layer_infos_ := s.layer_infos_.set i { li with
          imbs_to_access_bw := a.2
          imb_diffs_to_access_bw := b.2
          imbs_to_release_bw := c.2
          imb_diffs_to_release_bw := d.2 } } := by
  unfold backwardLayer at h
  simp only [hnb, Bool.not_true, Bool.false_eq_true, if_false] at h
  split at h
  · cases h
  · rename_i li hli
    simp only [bind, Except.bind, pure, Except.pure] at h
    split at h
    · cases h
    · rename_i a ha
      split at h
      · cases h
      · rename_i b hb
        split at h
        · cases h
        · rename_i c hc
          split at h
          · cases h
          · rename_i d hd
            refine ⟨li, a, b, c, d, hli, ha, hb, ?_, ?_, ?_⟩
            · rw [← hc]; unfold bwLookahead backwardLookahead layerAt
              cases nextBackwardLayer nb i <;> rfl
            · rw [← hd]; unfold bwLookahead backwardLookahead layerAt
              cases nextBackwardLayer nb i <;> rfl
            · cases h; rfl

theorem backwardLayer_frame (nb : List Bool) (s s' : Solver) (i : Nat)
    (h : backwardLayer nb s i = .ok s') :
    s'.layer_infos_.length = s.layer_infos_.length ∧
    (∀ j, j ≠ i → layerAt s' j = layerAt s j) ∧
    clearBw (layerAt s' i) = clearBw (layerAt s i) ∧
    (nb.getD i false = false → s' = s) ∧
    s'.ps_config_ = s.ps_config_ := by
  cases hnb : nb.getD i false with
  | false =>
    rw [backwardLayer_skip nb s i hnb] at h
    cases h
    simp
  | true =>
    obtain ⟨li, a, b, c, d, hli, -, -, -, -, rfl⟩ := backwardLayer_ok nb s s' i hnb h
    have hlt : i < s.layer_infos_.length := (List.getElem?_eq_some_iff.1 hli).1
    refine ⟨by simp, ?_, ?_, by simp, rfl⟩
    · intro j hj
      have : i ≠ j := fun h => hj h.symm
      simp [layerAt, List.getD_eq_getElem?_getD, List.getElem?_set, this]
    · simp [layerAt, List.getD_eq_getElem?_getD, List.getElem?_set, hlt, hli, clearBw]

theorem backwardLayer_lists (nb : List Bool) (s s' : Solver) (i : Nat)
    (hnb : nb.getD i false = true) (h : backwardLayer nb s i = .ok s') :
    (layerAt s' i).imbs_to_release_bw = (layerAt s i).imbs_to_release_bw ++
      releaseEntries (layerAt s i).imbs_used_bw (bwLookahead nb s i).1 ∧
    (layerAt s' i).imb_diffs_to_release_bw = (layerAt s i).imb_diffs_to_release_bw ++
      releaseEntries (layerAt s i).imb_diffs_used_bw (bwLookahead nb s i).2 ∧
    (∃ extra, (layerAt s' i).imbs_to_access_bw = (layerAt s i).imbs_to_access_bw ++ extra ∧
      (ids extra).Sublist (layerAt s i).imbs_used_bw.keys) ∧
    (∃ extra, (layerAt s' i).imb_diffs_to_access_bw =
        (layerAt s i).imb_diffs_to_access_bw ++ extra ∧
      (ids extra).Sublist (layerAt s i).imb_diffs_used_bw.keys) := by
  obtain ⟨li, a, b, c, d, hli, ha, hb, hc, hd, rfl⟩ := backwardLayer_ok nb s s' i hnb h
  have hlt : i < s.layer_infos_.length := (List.getElem?_eq_some_iff.1 hli).1
  have hat : layerAt s i = li := layerAt_of_getElem? s i li hli
  obtain ⟨ea, ha1, ha2, -, -⟩ := accessLoop_append _ _ _ _ ha
  obtain ⟨eb, hb1, hb2, -, -⟩ := accessLoop_append _ _ _ _ hb
  have hc1 := (releaseLoop_eq _ _ _ _ _ hc).1
  have hd1 := (releaseLoop_eq _ _ _ _ _ hd).1
  rw [hat]
  simp only [layerAt, List.getD_eq_getElem?_getD, List.getElem?_set, hlt, if_true,
    Option.getD_some]
  exact ⟨hc1, hd1, ⟨ea, ha1, ha2⟩, ⟨eb, hb1, hb2⟩⟩

theorem backwardLayer_balanced (nb : List Bool) (s s' : Solver) (i : Nat)
    (h : backwardLayer nb s i = .ok s') (hs : Balanced s) : Balanced s' := by
  cases hnb : nb.getD i false with
  | false =>
    rw [backwardLayer_skip nb s i hnb] at h
    cases h
    exact hs
  | true =>
    obtain ⟨li, a, b, c, d, hli, ha, hb, hc, hd, rfl⟩ := backwardLayer_ok nb s s' i hnb h
    intro x
    obtain ⟨h1, h2⟩ := hs x
    have ha' := accessLoop_count _ _ _ _ ha x
    have hb' := accessLoop_count _ _ _ _ hb x
    have hc' := releaseLoop_count _ _ _ _ _ hc x
    have hd' := releaseLoop_count _ _ _ _ _ hd x
    have t1 := total_set s.layer_infos_ dataAccess x i li
      { li with imbs_to_access_bw := a.2, imb_diffs_to_access_bw := b.2,
                imbs_to_release_bw := c.2, imb_diffs_to_release_bw := d.2 } hli
    have t2 := total_set s.layer_infos_ dataRelease x i li
      { li with imbs_to_access_bw := a.2, imb_diffs_to_access_bw := b.2,
                imbs_to_release_bw := c.2, imb_diffs_to_release_bw := d.2 } hli
    have t3 := total_set s.layer_infos_ diffAccess x i li
      { li with imbs_to_access_bw := a.2, imb_diffs_to_access_bw := b.2,
                imbs_to_release_bw := c.2, imb_diffs_to_release_bw := d.2 } hli
    have t4 := total_set s.layer_infos_ diffRelease x i li
      { li with imbs_to_access_bw := a.2, imb_diffs_to_access_bw := b.2,
                imbs_to_release_bw := c.2, imb_diffs_to_release_bw := d.2 } hli
    simp only [dataAccess, dataRelease, diffAccess, diffRelease, ids_append,
      List.count_append] at t1 t2 t3 t4 h1 h2 ⊢
    constructor <;> omega

theorem fwLookahead_congr (n : Nat) (s s1 : Solver) (k : Nat)
    (h : ∀ j, clearFw (layerAt s1 j) = clearFw (layerAt s j)) :
    fwLookahead n s1 k = fwLookahead n s k := by
  have e1 := congrArg LayerInfo.imbs_used_fw (h (k + 1))
  have e2 := congrArg LayerInfo.imb_diffs_used_fw (h (k + 1))
  have e3 := congrArg LayerInfo.imbs_used_bw (h k)
  have e4 := congrArg LayerInfo.imb_diffs_used_bw (h k)
  simp only [clearFw] at e1 e2 e3 e4
  simp only [fwLookahead, e1, e2, e3, e4]

theorem bwLookahead_congr (nb : List Bool) (s s1 : Solver) (k : Nat)
    (h : ∀ j, clearBw (layerAt s1 j) = clearBw (layerAt s j)) :
    bwLookahead nb s1 k = bwLookahead nb s k := by
  unfold bwLookahead
  cases nextBackwardLayer nb k with
  | none => rfl
  | some j =>
    have e3 := congrArg LayerInfo.imbs_used_bw (h j)
    have e4 := congrArg LayerInfo.imb_diffs_used_bw (h j)
    simp only [clearBw] at e3 e4
    simp only [e3, e4]

theorem forwardLayer_static (n : Nat) (s s' : Solver) (i : Nat)
    (h : forwardLayer n s i = .ok s') (j : Nat) :
    clearFw (layerAt s' j) = clearFw (layerAt s j) := by
  obtain ⟨-, -, h3, h4, -⟩ := forwardLayer_frame n s s' i h
  by_cases hj : j = i
  · subst hj; exact h4
  · rw [h3 j hj]

theorem backwardLayer_static (nb : List Bool) (s s' : Solver) (i : Nat)
    (h : backwardLayer nb s i = .ok s') (j : Nat) :
    clearBw (layerAt s' j) = clearBw (layerAt s j) := by
  obtain ⟨-, h3, h4, -, -⟩ := backwardLayer_frame nb s s' i h
  by_cases hj : j = i
  · subst hj; exact h4
  · rw [h3 j hj]

theorem forwardFold (n : Nat) (is : List Nat) (s s' : Solver)
    (h : is.foldlM (forwardLayer n) s = .ok s') (hnd : is.Nodup) :
    s'.layer_infos_.length = s.layer_infos_.length ∧
    s'.ps_config_ = s.ps_config_ ∧
    (∀ j, clearFw (layerAt s' j) = clearFw (layerAt s j)) ∧
    (∀ k, k ∉ is → layerAt s' k = layerAt s k) ∧
    (∀ k, k ∈ is → FwListsOf n s s' k) ∧
    (Balanced s → Balanced s') := by
  induction is generalizing s with
  | nil =>
    rw [foldlM_ok_nil] at h
    subst h
    exact ⟨rfl, rfl, fun _ => rfl, fun _ _ => rfl, fun _ hk => by simp at hk, id⟩
  | cons i is ih =>
    rw [foldlM_ok_cons] at h
    obtain ⟨s1, h1, h2⟩ := h
    have hnd' := (List.nodup_cons.1 hnd)
    obtain ⟨l2, c2, st2, fr2, li2, b2⟩ := ih s1 h2 hnd'.2
    obtain ⟨l1, -, fr1, -, c1⟩ := forwardLayer_frame n s s1 i h1
    have st1 := forwardLayer_static n s s1 i h1
    refine ⟨l2.trans l1, c2.trans c1, fun j => (st2 j).trans (st1 j), ?_, ?_, ?_⟩
    · intro k hk
      have hk' : k ≠ i ∧ k ∉ is := by
        simpa [List.mem_cons, not_or] using hk
      rw [fr2 k hk'.2, fr1 k hk'.1]
    · intro k hk
      by_cases hki : k = i
      · subst hki
        unfold FwListsOf
        rw [fr2 k hnd'.1]
        exact forwardLayer_lists n s s1 k h1
      · have hk' : k ∈ is := by
          rcases List.mem_cons.1 hk with h | h
          · exact absurd h hki
          · exact h
        have := li2 k hk'
        unfold FwListsOf at this ⊢
        rw [fwLookahead_congr n s s1 k st1, fr1 k hki] at this
        exact this
    · intro hb
      exact b2 (forwardLayer_balanced n s s1 i h1 hb)

theorem backwardFold (nb : List Bool) (is : List Nat) (s s' : Solver)
    (h : is.foldlM (backwardLayer nb) s = .ok s') (hnd : is.Nodup) :
    s'.layer_infos_.length = s.layer_infos_.length ∧
    s'.ps_config_ = s.ps_config_ ∧
    (∀ j, clearBw (layerAt s' j) = clearBw (layerAt s j)) ∧
    (∀ k, (k ∉ is ∨ nb.getD k false = false) → layerAt s' k = layerAt s k) ∧
    (∀ k, k ∈ is → nb.getD k false = true → BwListsOf nb s s' k) ∧
    (Balanced s → Balanced s') := by
  induction is generalizing s with
  | nil =>
    rw [foldlM_ok_nil] at h
    subst h
    exact ⟨rfl, rfl, fun _ => rfl, fun _ _ => rfl, fun _ hk => by simp at hk, id⟩
  | cons i is ih =>
    rw [foldlM_ok_cons] at h
    obtain ⟨s1, h1, h2⟩ := h
    have hnd' := (List.nodup_cons.1 hnd)
    obtain ⟨l2, c2, st2, fr2, li2, b2⟩ := ih s1 h2 hnd'.2
    obtain ⟨l1, fr1, -, sk1, c1⟩ := backwardLayer_frame nb s s1 i h1
    have st1 := backwardLayer_static nb s s1 i h1
    refine ⟨l2.trans l1, c2.trans c1, fun j => (st2 j).trans (st1 j), ?_, ?_, ?_⟩
    · intro k hk
      rcases hk with hk | hk
      · have hk' : k ≠ i ∧ k ∉ is := by
          simpa [List.mem_cons, not_or] using hk
        rw [fr2 k (Or.inl hk'.2), fr1 k hk'.1]
      · rw [fr2 k (Or.inr hk)]
        by_cases hki : k = i
        · subst hki; rw [sk1 hk]
        · exact fr1 k hki
    · intro k hk hnbk
      by_cases hki : k = i
      · subst hki
        unfold BwListsOf
        rw [fr2 k (Or.inl hnd'.1)]
        exact backwardLayer_lists nb s s1 k hnbk h1
      · have hk' : k ∈ is := by
          rcases List.mem_cons.1 hk with h | h
          · exact absurd h hki
          · exact h
        have := li2 k hk' hnbk
        unfold BwListsOf at this ⊢
        rw [bwLookahead_congr nb s s1 k st1, fr1 k hki] at this
        exact this
    · intro hb
      exact b2 (backwardLayer_balanced nb s s1 i h1 hb)

theorem bottomStep_usagePart (nos : IntSet) (t : String) (li : LayerInfo) (b : Nat) :
    usagePart (bottomStep nos t li b) = bottomStep nos t (usagePart li) b := by
  unfold bottomStep
  split
  · rfl
  · simp only []
    split <;> rfl

theorem bottomStep_restPart (nos : IntSet) (t : String) (li : LayerInfo) (b : Nat) :
    restPart (bottomStep nos t li b) = restPart li := by
  unfold bottomStep
  split
  · rfl
  · simp only []
    split <;> rfl

theorem topStep_usagePart (nos : IntSet) (t : String) (li : LayerInfo) (b : Nat) :
    usagePart (topStep nos t li b) = topStep nos t (usagePart li) b := by
  unfold topStep
  split
  · rfl
  · simp only []
    split <;> split <;> split <;> rfl

theorem topStep_restPart (nos : IntSet) (t : String) (li : LayerInfo) (b : Nat) :
    restPart (topStep nos t li b) = restPart li := by
  unfold topStep
  split
  · rfl
  · simp only []
    split <;> split <;> split <;> rfl

theorem foldl_bottom_parts (nos : IntSet) (t : String) (bs : List Nat) (li : LayerInfo) :
    usagePart (bs.foldl (bottomStep nos t) li) = bs.foldl (bottomStep nos t) (usagePart li) ∧
    restPart (bs.foldl (bottomStep nos t) li) = restPart li := by
  induction bs generalizing li with
  | nil => exact ⟨rfl, rfl⟩
  | cons b bs ih =>
    simp only [List.foldl_cons]
    obtain ⟨h1, h2⟩ := ih (bottomStep nos t li b)
    exact ⟨by rw [h1, bottomStep_usagePart], by rw [h2, bottomStep_restPart]⟩

theorem foldl_top_parts (nos : IntSet) (t : String) (bs : List Nat) (li : LayerInfo) :
    usagePart (bs.foldl (topStep nos t) li) = bs.foldl (topStep nos t) (usagePart li) ∧
    restPart (bs.foldl (topStep nos t) li) = restPart li := by
  induction bs generalizing li with
  | nil => exact ⟨rfl, rfl⟩
  | cons b bs ih =>
    simp only [List.foldl_cons]
    obtain ⟨h1, h2⟩ := ih (topStep nos t li b)
    exact ⟨by rw [h1, topStep_usagePart], by rw [h2, topStep_restPart]⟩

theorem layerUsage_parts (nos : IntSet) (layer : Layer) (li : LayerInfo) :
    usagePart (layerUsage nos layer li) = layerUsage nos layer (usagePart li) ∧
    restPart (layerUsage nos layer li) = restPart li := by
  unfold layerUsage
  obtain ⟨h1, h2⟩ := foldl_top_parts nos layer.type layer.top_ids
    (layer.bottom_ids.foldl (bottomStep nos layer.type) li)
  obtain ⟨h3, h4⟩ := foldl_bottom_parts nos layer.type layer.bottom_ids li
  exact ⟨by rw [h1, h3], by rw [h2, h4]⟩

theorem paramRowsStep_fresh (R : Nat) (c : RowCounters) (layer : Layer) :
    Fresh (paramRowsStep R c layer).1 := by
  unfold paramRowsStep
  simp only []
  split <;> exact ⟨rfl, rfl, rfl, rfl⟩

theorem assignParamRows_spec (R : Nat) (layers : List Layer) (c : RowCounters) :
    (assignParamRows R layers c).1.length = layers.length ∧
    ∀ li ∈ (assignParamRows R layers c).1, Fresh li := by
  induction layers generalizing c with
  | nil => simp [assignParamRows]
  | cons l ls ih =>
    obtain ⟨h1, h2⟩ := ih (paramRowsStep R c l).2
    simp only [assignParamRows, List.length_cons, h1, List.mem_cons, true_and]
    rintro li (rfl | h)
    · exact paramRowsStep_fresh R c l
    · exact h2 li h

theorem initialState_ok (R : Nat) (cfg : PsConfig) (net : Net) (s0 : Solver) (nt : Nat)
    (h : initialState R cfg net = .ok (s0, nt)) :
    s0.layer_infos_.length = net.layers.length ∧ s0.ps_config_ = cfg ∧
    ∀ k layer, net.layers[k]? = some layer →
      ∃ li0, Fresh li0 ∧ layerAt s0 k =
        layerUsage (netOutputSet net.net_output_blob_indices) layer li0 := by
  unfold initialState at h
  simp only [] at h
  split at h
  · cases h
  · simp only [Except.ok.injEq, Prod.mk.injEq] at h
    obtain ⟨rfl, -⟩ := h
    obtain ⟨h1, h2⟩ := assignParamRows_spec R net.layers {}
    refine ⟨by simp [computeUsage, h1], rfl, ?_⟩
    intro k layer hk
    have hlt : k < net.layers.length := (List.getElem?_eq_some_iff.1 hk).1
    have hlt' : k < (assignParamRows R net.layers {}).1.length := by rw [h1]; exact hlt
    refine ⟨(assignParamRows R net.layers {}).1[k], h2 _ (List.getElem_mem _), ?_⟩
    simp only [layerAt, computeUsage, List.getD_eq_getElem?_getD, List.getElem?_zipWith, hk,
      List.getElem?_eq_getElem hlt']
    rfl

theorem foldl_invariant {σ ι : Type} (Inv : σ → Prop) (f : σ → ι → σ)
    (hf : ∀ st i, Inv st → Inv (f st i)) (l : List ι) (st : σ) (h : Inv st) :
    Inv (l.foldl f st) := by
  induction l generalizing st with
  | nil => exact h
  | cons i l ih => exact ih (f st i) (hf st i h)

theorem samePlan_set (l0 l : List LayerInfo) (i : Nat) (li : LayerInfo) (hs : List LayerHandles)
    (h : SamePlan l0 l) (hli : l[i]? = some li) :
    SamePlan l0 (l.set i { li with layer_handles := hs }) := by
  obtain ⟨h1, h2⟩ := h
  have hlt : i < l.length := (List.getElem?_eq_some_iff.1 hli).1
  refine ⟨by simp [h1], ?_⟩
  intro j
  rw [← h2 j]
  by_cases hj : i = j
  · subst hj
    simp [List.getD_eq_getElem?_getD, List.getElem?_set, hlt, hli, planPart]
  · simp [List.getD_eq_getElem?_getD, List.getElem?_set, hj]

theorem virtualForwardLayer_inv (alloc : HandleAlloc) (cfg : PsConfig) (nb : List Bool)
    (l0 : List LayerInfo) (batch_id : Nat) (st : List LayerInfo × List PsOp) (i : Nat)
    (h : SamePlan l0 st.1 ∧ BackwardSitesNeed nb st.2) :
    SamePlan l0 (virtualForwardLayer alloc cfg batch_id st i).1 ∧
      BackwardSitesNeed nb (virtualForwardLayer alloc cfg batch_id st i).2 := by
  unfold virtualForwardLayer
  split
  · exact h
  · rename_i li hli
    split
    · exact h
    · split
      · refine ⟨samePlan_set l0 st.1 i li _ h.1 hli, ?_⟩
        intro op hop b k hs
        simp only [register, List.mem_append, List.mem_singleton] at hop
        rcases hop with (hop | rfl) | rfl
        · exact h.2 op hop b k hs
        · cases hs
        · cases hs
      · exact h

theorem virtualBackwardLayer_inv (alloc : HandleAlloc) (cfg : PsConfig) (nb : List Bool)
    (l0 : List LayerInfo) (batch_id : Nat) (st : List LayerInfo × List PsOp) (i : Nat)
    (h : SamePlan l0 st.1 ∧ BackwardSitesNeed nb st.2) :
    SamePlan l0 (virtualBackwardLayer alloc cfg nb batch_id st i).1 ∧
      BackwardSitesNeed nb (virtualBackwardLayer alloc cfg nb batch_id st i).2 := by
  unfold virtualBackwardLayer
  split
  · exact h
  · rename_i hnb
    have hnb' : nb.getD i false = true := by simpa using hnb
    split
    · exact h
    · rename_i li hli
      split
      · exact h
      · split
        · refine ⟨samePlan_set l0 st.1 i li _ h.1 hli, ?_⟩
          intro op hop b k hs
          simp only [register, List.mem_append, List.mem_singleton] at hop
          rcases hop with (((((hop | rfl) | rfl) | rfl) | rfl) | rfl) | rfl
          · exact h.2 op hop b k hs
          all_goals
            simp only [Site.backward.injEq] at hs
            rw [← hs.2]; exact hnb'
        · exact h

theorem virtualBatch_inv (alloc : HandleAlloc) (cfg : PsConfig) (nb : List Bool)
    (l0 : List LayerInfo) (st : List LayerInfo × List PsOp) (batch_id : Nat)
    (h : SamePlan l0 st.1 ∧ BackwardSitesNeed nb st.2) :
    SamePlan l0 (virtualBatch alloc cfg nb st batch_id).1 ∧
      BackwardSitesNeed nb (virtualBatch alloc cfg nb st batch_id).2 := by
  unfold virtualBatch
  simp only []
  exact foldl_invariant (fun st => SamePlan l0 st.1 ∧ BackwardSitesNeed nb st.2) _
    (fun st i hst => virtualBackwardLayer_inv alloc cfg nb l0 batch_id st i hst) _ _
    (foldl_invariant (fun st => SamePlan l0 st.1 ∧ BackwardSitesNeed nb st.2) _
      (fun st i hst => virtualForwardLayer_inv alloc cfg nb l0 batch_id st i hst) _ _ h)

theorem virtualIteration_inv (alloc : HandleAlloc) (cfg : PsConfig) (nb : List Bool)
    (st : List LayerInfo × List PsOp) (h : BackwardSitesNeed nb st.2) :
    SamePlan st.1 (virtualIteration alloc cfg nb st).1 ∧
      BackwardSitesNeed nb (virtualIteration alloc cfg nb st).2 := by
  have := foldl_invariant (fun x => SamePlan st.1 x.1 ∧ BackwardSitesNeed nb x.2)
    (virtualBatch alloc cfg nb)
    (fun x i hx => virtualBatch_inv alloc cfg nb st.1 x i hx)
    (List.range cfg.batches_per_clock) st ⟨⟨rfl, fun _ => rfl⟩, h⟩
  unfold virtualIteration
  refine ⟨this.1, ?_⟩
  intro op hop b k hs
  simp only [List.mem_append, List.mem_cons, List.mem_singleton, List.not_mem_nil,
    or_false] at hop
  rcases hop with hop | rfl | rfl
  · exact this.2 op hop b k hs
  · cases hs
  · cases hs

theorem setInitialValues_sites (cfg : PsConfig) (nb : List Bool) (l : List LayerInfo)
    (trace : List PsOp) (h : BackwardSitesNeed nb trace) :
    BackwardSitesNeed nb (setInitialValues cfg l trace).1 := by
  unfold setInitialValues
  split
  · apply foldl_invariant (fun (acc : List PsOp × Except Fatal Unit) =>
      BackwardSitesNeed nb acc.1)
    · intro acc i hacc
      split
      · exact hacc
      · split
        · exact hacc
        · rename_i t ht
          simp only []
          unfold initialValuesStep at ht
          split at ht
          · cases ht
          · split at ht
            · cases ht
            · split at ht
              · simp only [Except.ok.injEq] at ht
                subst ht
                intro op hop b k hs
                simp only [List.mem_append, List.mem_cons, List.mem_singleton,
                  List.not_mem_nil, or_false] at hop
                rcases hop with hop | rfl | rfl
                · exact hacc op hop b k hs
                · cases hs
                · cases hs
              · simp only [Except.ok.injEq] at ht
                subst ht
                exact hacc
    · exact h
  · exact h

theorem samePlan_resize (n : Nat) (l : List LayerInfo) :
    SamePlan l (l.map (resizeHandles n)) := by
  refine ⟨by simp, ?_⟩
  intro j
  simp only [List.getD_eq_getElem?_getD, List.getElem?_map]
  cases l[j]? with
  | none => rfl
  | some li => rfl

theorem samePlan_trans (l0 l1 l2 : List LayerInfo) (h1 : SamePlan l0 l1)
    (h2 : SamePlan l1 l2) : SamePlan l0 l2 :=
  ⟨h2.1.trans h1.1, fun j => (h2.2 j).trans (h1.2 j)⟩

theorem InitPs_ok (R : Nat) (alloc : HandleAlloc) (cfg : PsConfig) (net : Net) (s : Solver)
    (hno : cfg.no_ps = false) (h : (InitPs R alloc cfg net).outcome = .ok s) :
    ∃ s0 s1 s2 nt, initialState R cfg net = .ok (s0, nt) ∧
      forwardPass net.layers.length s0 = .ok s1 ∧
      backwardPass (net.layers.map Layer.need_backward) s1 = .ok s2 ∧
      allReleased s2 = true ∧
      s.imb_data_infos_ = s2.imb_data_infos_ ∧ s.imb_diff_infos_ = s2.imb_diff_infos_ ∧
      SamePlan s2.layer_infos_ s.layer_infos_ := by
  unfold InitPs at h
  simp only [hno, Bool.false_eq_true, if_false] at h
  split at h
  · cases h
  · rename_i sp nt hp
    split at h
    · cases h
    · simp only [Except.ok.injEq] at h
      subst h
      unfold plan at hp
      split at hp
      · cases hp
      · rename_i s2 nt2 hl
        split at hp
        · rename_i hall
          simp only [Except.ok.injEq, Prod.mk.injEq] at hp
          obtain ⟨rfl, rfl⟩ := hp
          unfold listsOf at hl
          split at hl
          · cases hl
          · rename_i s0 nt0 h0
            split at hl
            · cases hl
            · rename_i s2' hb
              simp only [Except.ok.injEq, Prod.mk.injEq] at hl
              obtain ⟨rfl, rfl⟩ := hl
              unfold buildLists at hb
              split at hb
              · cases hb
              · rename_i s1 hf
                refine ⟨s0, s1, s2', nt0, h0, hf, hb, hall, rfl, rfl, ?_⟩
                have hv := (virtualIteration_inv alloc cfg (net.layers.map Layer.need_backward)
                  (s2'.layer_infos_.map (resizeHandles cfg.batches_per_clock),
                    [{ site := .global, call := .create cfg.worker_id nt0 },
                     { site := .global, call := .thread_start }])
                  (by
                    intro op hop b k hs
                    simp only [List.mem_cons, List.mem_singleton, List.not_mem_nil,
                      or_false] at hop
                    rcases hop with rfl | rfl <;> cases hs)).1
                exact samePlan_trans _ _ _ (samePlan_resize _ _) hv
        · cases hp

theorem InitPs_sites (R : Nat) (alloc : HandleAlloc) (cfg : PsConfig) (net : Net) :
    BackwardSitesNeed (net.layers.map Layer.need_backward) (InitPs R alloc cfg net).trace := by
  unfold InitPs
  split
  · intro op hop; simp at hop
  · split
    · intro op hop; simp at hop
    · rename_i sp nt hp
      have hv := (virtualIteration_inv alloc cfg (net.layers.map Layer.need_backward)
        (sp.layer_infos_,
          [{ site := .global, call := .create cfg.worker_id nt },
           { site := .global, call := .thread_start }])
        (by
          intro op hop b k hs
          simp only [List.mem_cons, List.mem_singleton, List.not_mem_nil,
            or_false] at hop
          rcases hop with rfl | rfl <;> cases hs)).2
      have hi := setInitialValues_sites cfg _ (virtualIteration alloc cfg
        (net.layers.map Layer.need_backward) (sp.layer_infos_,
          [{ site := .global, call := .create cfg.worker_id nt },
           { site := .global, call := .thread_start }])).1 _ hv
      simp only []
      split
      · exact hi
      · intro op hop b k hs
        simp only [List.mem_append, List.mem_cons, List.mem_singleton, List.not_mem_nil,
          or_false] at hop
        rcases hop with hop | rfl | rfl
        · exact hi op hop b k hs
        · cases hs
        · cases hs

theorem fwLookahead_usage (n : Nat) (s s1 : Solver) (k : Nat)
    (h : ∀ j, usagePart (layerAt s1 j) = usagePart (layerAt s j)) :
    fwLookahead n s1 k = fwLookahead n s k := by
  have e1 := congrArg LayerInfo.imbs_used_fw (h (k + 1))
  have e2 := congrArg LayerInfo.imb_diffs_used_fw (h (k + 1))
  have e3 := congrArg LayerInfo.imbs_used_bw (h k)
  have e4 := congrArg LayerInfo.imb_diffs_used_bw (h k)
  simp only [usagePart] at e1 e2 e3 e4
  simp only [fwLookahead, e1, e2, e3, e4]

theorem bwLookahead_usage (nb : List Bool) (s s1 : Solver) (k : Nat)
    (h : ∀ j, usagePart (layerAt s1 j) = usagePart (layerAt s j)) :
    bwLookahead nb s1 k = bwLookahead nb s k := by
  unfold bwLookahead
  cases nextBackwardLayer nb k with
  | none => rfl
  | some j =>
    have e3 := congrArg LayerInfo.imbs_used_bw (h j)
    have e4 := congrArg LayerInfo.imb_diffs_used_bw (h j)
    simp only [usagePart] at e3 e4
    simp only [e3, e4]

theorem fresh_layerUsage (nos : IntSet) (layer : Layer) (li0 : LayerInfo) (h : Fresh li0) :
    usagePart (layerUsage nos layer li0) = layerUsage nos layer {} ∧
    clearFw (layerUsage nos layer li0) = layerUsage nos layer li0 ∧
    clearBw (layerUsage nos layer li0) = layerUsage nos layer li0 := by
  obtain ⟨h1, h2, h3, -⟩ := h
  obtain ⟨u, r⟩ := layerUsage_parts nos layer li0
  refine ⟨by rw [u, h1], ?_, ?_⟩
  · have a1 := congrArg LayerInfo.imbs_to_access_fw r
    have a2 := congrArg LayerInfo.imbs_to_release_fw r
    have a3 := congrArg LayerInfo.imb_diffs_to_access_fw r
    have a4 := congrArg LayerInfo.imb_diffs_to_release_fw r
    have b1 := congrArg LayerInfo.imbs_to_access_fw h2
    have b2 := congrArg LayerInfo.imbs_to_release_fw h2
    have b3 := congrArg LayerInfo.imb_diffs_to_access_fw h2
    have b4 := congrArg LayerInfo.imb_diffs_to_release_fw h2
    simp only [restPart, clearFw] at a1 a2 a3 a4 b1 b2 b3 b4
    have c1 := a1.trans b1.symm
    have c2 := a2.trans b2.symm
    have c3 := a3.trans b3.symm
    have c4 := a4.trans b4.symm
    revert c1 c2 c3 c4
    generalize layerUsage nos layer li0 = x
    intro c1 c2 c3 c4
    cases x
    simp only at c1 c2 c3 c4
    subst c1 c2 c3 c4
    rfl
  · have a1 := congrArg LayerInfo.imbs_to_access_bw r
    have a2 := congrArg LayerInfo.imbs_to_release_bw r
    have a3 := congrArg LayerInfo.imb_diffs_to_access_bw r
    have a4 := congrArg LayerInfo.imb_diffs_to_release_bw r
    have b1 := congrArg LayerInfo.imbs_to_access_bw h3
    have b2 := congrArg LayerInfo.imbs_to_release_bw h3
    have b3 := congrArg LayerInfo.imb_diffs_to_access_bw h3
    have b4 := congrArg LayerInfo.imb_diffs_to_release_bw h3
    simp only [restPart, clearBw] at a1 a2 a3 a4 b1 b2 b3 b4
    have c1 := a1.trans b1.symm
    have c2 := a2.trans b2.symm
    have c3 := a3.trans b3.symm
    have c4 := a4.trans b4.symm
    revert c1 c2 c3 c4
    generalize layerUsage nos layer li0 = x
    intro c1 c2 c3 c4
    cases x
    simp only at c1 c2 c3 c4
    subst c1 c2 c3 c4
    rfl

theorem samePlan_layerAt (s2 s : Solver) (h : SamePlan s2.layer_infos_ s.layer_infos_)
    (j : Nat) : planPart (layerAt s j) = planPart (layerAt s2 j) := h.2 j

theorem needBackward_getD (net : Net) (k : Nat) (layer : Layer)
    (hk : net.layers[k]? = some layer) :
    (net.layers.map Layer.need_backward).getD k false = layer.need_backward := by
  simp [List.getD_eq_getElem?_getD, List.getElem?_map, hk]

theorem planPart_fields (a b : LayerInfo) (h : planPart a = planPart b) :
    usagePart a = usagePart b ∧
    a.imbs_to_access_fw = b.imbs_to_access_fw ∧ a.imbs_to_release_fw = b.imbs_to_release_fw ∧
    a.imb_diffs_to_access_fw = b.imb_diffs_to_access_fw ∧
    a.imb_diffs_to_release_fw = b.imb_diffs_to_release_fw ∧
    a.imbs_to_access_bw = b.imbs_to_access_bw ∧ a.imbs_to_release_bw = b.imbs_to_release_bw ∧
    a.imb_diffs_to_access_bw = b.imb_diffs_to_access_bw ∧
    a.imb_diffs_to_release_bw = b.imb_diffs_to_release_bw := by
  have e0 := congrArg usagePart h
  have e1 := congrArg LayerInfo.imbs_to_access_fw h
  have e2 := congrArg LayerInfo.imbs_to_release_fw h
  have e3 := congrArg LayerInfo.imb_diffs_to_access_fw h
  have e4 := congrArg LayerInfo.imb_diffs_to_release_fw h
  have e5 := congrArg LayerInfo.imbs_to_access_bw h
  have e6 := congrArg LayerInfo.imbs_to_release_bw h
  have e7 := congrArg LayerInfo.imb_diffs_to_access_bw h
  have e8 := congrArg LayerInfo.imb_diffs_to_release_bw h
  exact ⟨e0, e1, e2, e3, e4, e5, e6, e7, e8⟩

theorem clearBw_fields (a b : LayerInfo) (h : clearBw a = clearBw b) :
    usagePart a = usagePart b ∧
    a.imbs_to_access_fw = b.imbs_to_access_fw ∧ a.imbs_to_release_fw = b.imbs_to_release_fw ∧
    a.imb_diffs_to_access_fw = b.imb_diffs_to_access_fw ∧
    a.imb_diffs_to_release_fw = b.imb_diffs_to_release_fw := by
  have e0 := congrArg usagePart h
  have e1 := congrArg LayerInfo.imbs_to_access_fw h
  have e2 := congrArg LayerInfo.imbs_to_release_fw h
  have e3 := congrArg LayerInfo.imb_diffs_to_access_fw h
  have e4 := congrArg LayerInfo.imb_diffs_to_release_fw h
  exact ⟨e0, e1, e2, e3, e4⟩

theorem clearFw_fields (a b : LayerInfo) (h : clearFw a = clearFw b) :
    usagePart a = usagePart b ∧
    a.imbs_to_access_bw = b.imbs_to_access_bw ∧ a.imbs_to_release_bw = b.imbs_to_release_bw ∧
    a.imb_diffs_to_access_bw = b.imb_diffs_to_access_bw ∧
    a.imb_diffs_to_release_bw = b.imb_diffs_to_release_bw := by
  have e0 := congrArg usagePart h
  have e5 := congrArg LayerInfo.imbs_to_access_bw h
  have e6 := congrArg LayerInfo.imbs_to_release_bw h
  have e7 := congrArg LayerInfo.imb_diffs_to_access_bw h
  have e8 := congrArg LayerInfo.imb_diffs_to_release_bw h
  exact ⟨e0, e5, e6, e7, e8⟩

theorem usagePart_fields (a b : LayerInfo) (h : usagePart a = usagePart b) :
    a.imbs_used_fw = b.imbs_used_fw ∧ a.imb_diffs_used_fw = b.imb_diffs_used_fw ∧
    a.imbs_used_bw = b.imbs_used_bw ∧ a.imb_diffs_used_bw = b.imb_diffs_used_bw := by
  have e1 := congrArg LayerInfo.imbs_used_fw h
  have e2 := congrArg LayerInfo.imb_diffs_used_fw h
  have e3 := congrArg LayerInfo.imbs_used_bw h
  have e4 := congrArg LayerInfo.imb_diffs_used_bw h
  exact ⟨e1, e2, e3, e4⟩

theorem clearFw_self (a : LayerInfo) (h : clearFw a = a) :
    a.imbs_to_access_fw = [] ∧ a.imbs_to_release_fw = [] ∧
    a.imb_diffs_to_access_fw = [] ∧ a.imb_diffs_to_release_fw = [] := by
  have e1 := congrArg LayerInfo.imbs_to_access_fw h
  have e2 := congrArg LayerInfo.imbs_to_release_fw h
  have e3 := congrArg LayerInfo.imb_diffs_to_access_fw h
  have e4 := congrArg LayerInfo.imb_diffs_to_release_fw h
  exact ⟨e1.symm, e2.symm, e3.symm, e4.symm⟩

theorem clearBw_self (a : LayerInfo) (h : clearBw a = a) :
    a.imbs_to_access_bw = [] ∧ a.imbs_to_release_bw = [] ∧
    a.imb_diffs_to_access_bw = [] ∧ a.imb_diffs_to_release_bw = [] := by
  have e1 := congrArg LayerInfo.imbs_to_access_bw h
  have e2 := congrArg LayerInfo.imbs_to_release_bw h
  have e3 := congrArg LayerInfo.imb_diffs_to_access_bw h
  have e4 := congrArg LayerInfo.imb_diffs_to_release_bw h
  exact ⟨e1.symm, e2.symm, e3.symm, e4.symm⟩

theorem InitPs_layer (R : Nat) (alloc : HandleAlloc) (cfg : PsConfig) (net : Net) (s : Solver)
    (hno : cfg.no_ps = false) (h : (InitPs R alloc cfg net).outcome = .ok s)
    (k : Nat) (layer : Layer) (hk : net.layers[k]? = some layer) :
    LayerFacts net s k layer := by
  obtain ⟨s0, s1, s2, nt, h0, hf, hb, -, -, -, sp⟩ := InitPs_ok R alloc cfg net s hno h
  obtain ⟨len0, -, lay0⟩ := initialState_ok R cfg net s0 nt h0
  obtain ⟨lenF, -, stF, -, liF, -⟩ :=
    forwardFold net.layers.length _ s0 s1 hf (List.nodup_range _)
  obtain ⟨lenB, -, stB, frB, liB, -⟩ :=
    backwardFold (net.layers.map Layer.need_backward) _ s1 s2 hb
      (List.nodup_reverse.2 (List.nodup_range _))
  have hlt : k < net.layers.length := (List.getElem?_eq_some_iff.1 hk).1
  have hnb := needBackward_getD net k layer hk
  obtain ⟨li0, fresh, hF0⟩ := lay0 k layer hk
  obtain ⟨u0, cf0, cb0⟩ := fresh_layerUsage (netOutputSet net.net_output_blob_indices)
    layer li0 fresh
  rw [← hF0] at u0 cf0 cb0
  have pl := samePlan_layerAt s2 s sp
  -- usage sets never change
  have U : ∀ j, usagePart (layerAt s j) = usagePart (layerAt s0 j) := fun j =>
    (planPart_fields _ _ (pl j)).1.trans
      ((clearBw_fields _ _ (stB j)).1.trans (clearFw_fields _ _ (stF j)).1)
  have U1 : ∀ j, usagePart (layerAt s j) = usagePart (layerAt s1 j) := fun j =>
    (planPart_fields _ _ (pl j)).1.trans (clearBw_fields _ _ (stB j)).1
  obtain ⟨ufw, udfw, -, -⟩ := usagePart_fields _ _ (U k)
  obtain ⟨-, -, ubw, udbw⟩ := usagePart_fields _ _ (U1 k)
  -- the forward lists are those of the forward loop
  obtain ⟨-, p3, p1, p4, p2, g3, g1, g4, g2⟩ := planPart_fields _ _ (pl k)
  obtain ⟨-, c3, c1, c4, c2⟩ := clearBw_fields _ _ (stB k)
  have f1 := p1.trans c1
  have f2 := p2.trans c2
  have f3 := p3.trans c3
  have f4 := p4.trans c4
  obtain ⟨z3, z1, z4, z2⟩ := clearFw_self _ cf0
  obtain ⟨r1, r2, ⟨x3, r3, q3⟩, ⟨x4, r4, q4⟩⟩ := liF k (List.mem_range.2 hlt)
  rw [z1, List.nil_append] at r1
  rw [z2, List.nil_append] at r2
  rw [z3, List.nil_append] at r3
  rw [z4, List.nil_append] at r4
  have lookF := fwLookahead_usage net.layers.length s0 s k U
  -- the backward lists are those of the backward loop
  obtain ⟨w3, w1, w4, w2⟩ := clearBw_self _ cb0
  obtain ⟨-, v3, v1, v4, v2⟩ := clearFw_fields _ _ (stF k)
  have y1 := v1.trans w1
  have y2 := v2.trans w2
  have y3 := v3.trans w3
  have y4 := v4.trans w4
  have lookB := bwLookahead_usage (net.layers.map Layer.need_backward) s1 s k U1
  have hk1 : k ∈ (List.range s1.layer_infos_.length).reverse := by
    rw [List.mem_reverse, List.mem_range, lenF, len0]; exact hlt
  have bwCase : layer.need_backward = true →
      BwListsOf (net.layers.map Layer.need_backward) s1 s2 k :=
    fun hT => liB k hk1 (hnb.trans hT)
  have skipCase : layer.need_backward = false → layerAt s2 k = layerAt s1 k :=
    fun hF => frB k (Or.inr (hnb.trans hF))
  refine
    { inRange := by rw [sp.1, lenB, lenF, len0]; exact hlt
      usage := (U k).trans u0
      release_fw := by rw [f1, r1, ufw, lookF]
      diff_release_fw := by rw [f2, r2, udfw, lookF]
      access_fw := by rw [f3, r3, ufw]; exact q3
      diff_access_fw := by rw [f4, r4, udfw]; exact q4
      release_bw := ?_
      diff_release_bw := ?_
      access_bw := ?_
      diff_access_bw := ?_
      skipped := ?_ }
  · intro hT
    obtain ⟨b1, -, -, -⟩ := bwCase hT
    rw [y1, List.nil_append] at b1
    rw [g1, b1, ubw, lookB]
  · intro hT
    obtain ⟨-, b2, -, -⟩ := bwCase hT
    rw [y2, List.nil_append] at b2
    rw [g2, b2, udbw, lookB]
  · cases hT : layer.need_backward with
    | true =>
      obtain ⟨-, -, ⟨x, b3, q⟩, -⟩ := bwCase hT
      rw [y3, List.nil_append] at b3
      rw [g3, b3, ubw]; exact q
    | false =>
      rw [g3, skipCase hT, y3]; simp [ids]
  · cases hT : layer.need_backward with
    | true =>
      obtain ⟨-, -, -, ⟨x, b4, q⟩⟩ := bwCase hT
      rw [y4, List.nil_append] at b4
      rw [g4, b4, udbw]; exact q
    | false =>
      rw [g4, skipCase hT, y4]; simp [ids]
  · intro hF
    rw [g1, g2, g3, g4, skipCase hF]
    exact ⟨y3, y1, y4, y2⟩

theorem mem_insertEntry_keys (k : Nat) (v : FetchKeep) (l : List (Nat × FetchKeep)) (y : Nat) :
    y ∈ (insertEntry k v l).map Prod.fst ↔ y = k ∨ y ∈ l.map Prod.fst := by
  induction l with
  | nil => simp [insertEntry]
  | cons p rest ih =>
    obtain ⟨k', v'⟩ := p
    unfold insertEntry
    split
    · simp
    · split
      · rename_i hk; subst hk; simp
      · simp only [List.map_cons, List.mem_cons, ih]
        tauto

theorem sorted_insertEntry (k : Nat) (v : FetchKeep) (l : List (Nat × FetchKeep))
    (h : (l.map Prod.fst).Pairwise (· < ·)) :
    ((insertEntry k v l).map Prod.fst).Pairwise (· < ·) := by
  induction l with
  | nil => simp [insertEntry]
  | cons p rest ih =>
    obtain ⟨k', v'⟩ := p
    simp only [List.map_cons, List.pairwise_cons] at h
    unfold insertEntry
    split
    · rename_i hlt
      simp only [List.map_cons, List.pairwise_cons, List.mem_cons]
      refine ⟨?_, h.1, h.2⟩
      rintro y (rfl | hy)
      · exact hlt
      · exact Nat.lt_trans hlt (h.1 y hy)
    · split
      · rename_i hk; subst hk
        simpa only [List.map_cons, List.pairwise_cons] using h
      · rename_i h1 h2
        simp only [List.map_cons, List.pairwise_cons]
        refine ⟨?_, ih h.2⟩
        intro y hy
        rcases (mem_insertEntry_keys k v rest y).1 hy with rfl | hy
        · omega
        · exact h.1 y hy

theorem find_insertEntry (k : Nat) (v : FetchKeep) (l : List (Nat × FetchKeep)) (x : Nat) :
    ((insertEntry k v l).find? (fun e => e.1 == x)).map Prod.snd =
      if x = k then some v else (l.find? (fun e => e.1 == x)).map Prod.snd := by
  induction l with
  | nil =>
    by_cases hx : x = k
    · subst hx; simp [insertEntry]
    · have : ¬ k = x := fun h => hx h.symm
      simp [insertEntry, hx, this]
  | cons p rest ih =>
    obtain ⟨k', v'⟩ := p
    unfold insertEntry
    split
    · rename_i hlt
      by_cases hx : x = k
      · subst hx; simp
      · have : ¬ k = x := fun h => hx h.symm
        simp [List.find?_cons, hx, this]
    · split
      · rename_i hk; subst hk
        by_cases hx : x = k
        · subst hx; simp
        · have : ¬ k = x := fun h => hx h.symm
          simp [List.find?_cons, hx, this]
      · rename_i h1 h2
        by_cases hx : x = k
        · subst hx
          have : ¬ k' = x := fun h => h2 h.symm
          simp [List.find?_cons, this, ih]
        · simp only [List.find?_cons]
          cases hkx : (k' == x) <;> simp [ih, hx]

theorem find_assign (m : IntSet) (k : Nat) (v : FetchKeep) (x : Nat) :
    (m.assign k v).find x = if x = k then some v else m.find x :=
  find_insertEntry k v m.entries x

theorem count_eq_isSome (m : IntSet) (x : Nat) : m.count x = (m.find x).isSome := by
  unfold IntSet.count IntSet.find
  induction m.entries with
  | nil => rfl
  | cons p rest ih =>
    by_cases hp : p.1 = x
    · simp [List.find?_cons, hp]
    · have hp' : (p.1 == x) = false := by simpa using hp
      simp only [List.any_cons, List.find?_cons, hp', Bool.false_or]
      exact ih

theorem mem_keys_iff (m : IntSet) (x : Nat) : x ∈ m.keys ↔ m.count x = true := by
  simp [IntSet.keys, IntSet.count]

theorem find_foldAssign (guard : Nat → Bool) (v : FetchKeep) (bs : List Nat) (m : IntSet)
    (x : Nat) :
    (foldAssign guard v bs m).find x =
      if x ∈ bs ∧ guard x = false then some v else m.find x := by
  induction bs generalizing m with
  | nil => simp [foldAssign]
  | cons b bs ih =>
    have hstep : foldAssign guard v (b :: bs) m =
        foldAssign guard v bs (if guard b then m else m.assign b v) := rfl
    rw [hstep, ih]
    by_cases hx : x ∈ bs ∧ guard x = false
    · rw [if_pos hx, if_pos ⟨List.mem_cons_of_mem _ hx.1, hx.2⟩]
    · rw [if_neg hx]
      by_cases hg : guard b = true
      · rw [if_pos hg, if_neg]
        rintro ⟨h1, h2⟩
        rcases List.mem_cons.1 h1 with rfl | h1
        · rw [hg] at h2; cases h2
        · exact hx ⟨h1, h2⟩
      · rw [if_neg hg, find_assign]
        by_cases hxb : x = b
        · subst hxb
          rw [if_pos rfl, if_pos ⟨List.mem_cons_self _ _, by simpa using hg⟩]
        · rw [if_neg hxb, if_neg]
          rintro ⟨h1, h2⟩
          rcases List.mem_cons.1 h1 with rfl | h1
          · exact hxb rfl
          · exact hx ⟨h1, h2⟩

theorem sorted_foldAssign (guard : Nat → Bool) (v : FetchKeep) (bs : List Nat) (m : IntSet)
    (h : m.keys.Pairwise (· < ·)) : (foldAssign guard v bs m).keys.Pairwise (· < ·) := by
  induction bs generalizing m with
  | nil => exact h
  | cons b bs ih =>
    simp only [foldAssign, List.foldl_cons]
    apply ih
    split
    · exact h
    · exact sorted_insertEntry b v m.entries h

theorem netOutputSet_eq (idxs : List Nat) :
    netOutputSet idxs = foldAssign (fun _ => false) {} idxs {} := by
  simp [netOutputSet, foldAssign]

theorem netOutputSet_count (idxs : List Nat) (x : Nat) :
    (netOutputSet idxs).count x = true ↔ x ∈ idxs := by
  rw [count_eq_isSome, netOutputSet_eq, find_foldAssign]
  by_cases hx : x ∈ idxs
  · simp [hx]
  · simp [hx, IntSet.find]

theorem foldl_field (step : LayerInfo → Nat → LayerInfo) (F : LayerInfo → IntSet)
    (g : Nat → Bool) (v : FetchKeep)
    (h : ∀ li b, F (step li b) = if g b then F li else (F li).assign b v)
    (bs : List Nat) (li : LayerInfo) :
    F (bs.foldl step li) = foldAssign g v bs (F li) := by
  induction bs generalizing li with
  | nil => rfl
  | cons b bs ih =>
    simp only [List.foldl_cons, foldAssign]
    rw [ih, h]
    rfl

theorem foldAssign_skip (g : Nat → Bool) (v : FetchKeep) (bs : List Nat) (m : IntSet)
    (h : ∀ b, g b = true) : foldAssign g v bs m = m := by
  induction bs generalizing m with
  | nil => rfl
  | cons b bs ih =>
    simp only [foldAssign, List.foldl_cons, h b, if_true]
    exact ih m

theorem bottomStep_fw (nos : IntSet) (t : String) (li : LayerInfo) (b : Nat) :
    (bottomStep nos t li b).imbs_used_fw =
      if nos.count b then li.imbs_used_fw else li.imbs_used_fw.assign b ⟨true, true⟩ := by
  cases h1 : nos.count b <;> cases h2 : (t == "Data") <;> simp [bottomStep, h1, h2, bne]

theorem bottomStep_diff_fw (nos : IntSet) (t : String) (li : LayerInfo) (b : Nat) :
    (bottomStep nos t li b).imb_diffs_used_fw =
      if (fun _ => true) b then li.imb_diffs_used_fw
      else li.imb_diffs_used_fw.assign b ⟨false, false⟩ := by
  cases h1 : nos.count b <;> cases h2 : (t == "Data") <;> simp [bottomStep, h1, h2, bne]

theorem bottomStep_bw (nos : IntSet) (t : String) (li : LayerInfo) (b : Nat) :
    (bottomStep nos t li b).imbs_used_bw =
      if (fun b => nos.count b || t == "Data") b then li.imbs_used_bw
      else li.imbs_used_bw.assign b ⟨true, false⟩ := by
  cases h1 : nos.count b <;> cases h2 : (t == "Data") <;> simp [bottomStep, h1, h2, bne]

theorem bottomStep_diff_bw (nos : IntSet) (t : String) (li : LayerInfo) (b : Nat) :
    (bottomStep nos t li b).imb_diffs_used_bw =
      if (fun b => nos.count b || t == "Data") b then li.imb_diffs_used_bw
      else li.imb_diffs_used_bw.assign b ⟨false, true⟩ := by
  cases h1 : nos.count b <;> cases h2 : (t == "Data") <;> simp [bottomStep, h1, h2, bne]

theorem topStep_fw (nos : IntSet) (t : String) (li : LayerInfo) (b : Nat) :
    (topStep nos t li b).imbs_used_fw =
      if nos.count b then li.imbs_used_fw else li.imbs_used_fw.assign b ⟨false, true⟩ := by
  cases h1 : nos.count b <;> cases h2 : (t == "Data") <;>
    cases h3 : (t == "SoftmaxWithLoss") <;> cases h4 : (t == "ReLU") <;>
    cases h5 : (t == "LRN") <;> cases h6 : (t == "Pooling") <;>
    simp [topStep, h1, h2, h3, h4, h5, h6, bne]

theorem topStep_diff_fw (nos : IntSet) (t : String) (li : LayerInfo) (b : Nat) :
    (topStep nos t li b).imb_diffs_used_fw =
      if (fun b => nos.count b || !(t == "SoftmaxWithLoss")) b then li.imb_diffs_used_fw
      else li.imb_diffs_used_fw.assign b ⟨false, true⟩ := by
  cases h1 : nos.count b <;> cases h2 : (t == "Data") <;>
    cases h3 : (t == "SoftmaxWithLoss") <;> cases h4 : (t == "ReLU") <;>
    cases h5 : (t == "LRN") <;> cases h6 : (t == "Pooling") <;>
    simp [topStep, h1, h2, h3, h4, h5, h6, bne]

theorem topStep_bw (nos : IntSet) (t : String) (li : LayerInfo) (b : Nat) :
    (topStep nos t li b).imbs_used_bw =
      if (fun b => nos.count b || !(usesTopBackward t)) b then li.imbs_used_bw
      else li.imbs_used_bw.assign b ⟨true, false⟩ := by
  cases h1 : nos.count b <;> cases h2 : (t == "Data") <;>
    cases h3 : (t == "SoftmaxWithLoss") <;> cases h4 : (t == "ReLU") <;>
    cases h5 : (t == "LRN") <;> cases h6 : (t == "Pooling") <;>
    simp [topStep, usesTopBackward, h1, h2, h3, h4, h5, h6, bne]

theorem topStep_diff_bw (nos : IntSet) (t : String) (li : LayerInfo) (b : Nat) :
    (topStep nos t li b).imb_diffs_used_bw =
      if (fun b => nos.count b || t == "Data") b then li.imb_diffs_used_bw
      else li.imb_diffs_used_bw.assign b ⟨true, false⟩ := by
  cases h1 : nos.count b <;> cases h2 : (t == "Data") <;>
    cases h3 : (t == "SoftmaxWithLoss") <;> cases h4 : (t == "ReLU") <;>
    cases h5 : (t == "LRN") <;> cases h6 : (t == "Pooling") <;>
    simp [topStep, h1, h2, h3, h4, h5, h6, bne]

theorem layerUsage_fw (nos : IntSet) (layer : Layer) (li : LayerInfo) :
    (layerUsage nos layer li).imbs_used_fw =
      foldAssign nos.count ⟨false, true⟩ layer.top_ids
        (foldAssign nos.count ⟨true, true⟩ layer.bottom_ids li.imbs_used_fw) := by
  unfold layerUsage
  rw [foldl_field _ LayerInfo.imbs_used_fw _ _ (topStep_fw nos layer.type),
    foldl_field _ LayerInfo.imbs_used_fw _ _ (bottomStep_fw nos layer.type)]

theorem layerUsage_diff_fw (nos : IntSet) (layer : Layer) (li : LayerInfo) :
    (layerUsage nos layer li).imb_diffs_used_fw =
      foldAssign (fun b => nos.count b || !(layer.type == "SoftmaxWithLoss")) ⟨false, true⟩
        layer.top_ids li.imb_diffs_used_fw := by
  unfold layerUsage
  rw [foldl_field _ LayerInfo.imb_diffs_used_fw _ _ (topStep_diff_fw nos layer.type),
    foldl_field _ LayerInfo.imb_diffs_used_fw _ _ (bottomStep_diff_fw nos layer.type),
    foldAssign_skip _ _ layer.bottom_ids _ (fun _ => rfl)]

theorem layerUsage_bw (nos : IntSet) (layer : Layer) (li : LayerInfo) :
    (layerUsage nos layer li).imbs_used_bw =
      foldAssign (fun b => nos.count b || !(usesTopBackward layer.type)) ⟨true, false⟩
        layer.top_ids
        (foldAssign (fun b => nos.count b || layer.type == "Data") ⟨true, false⟩
          layer.bottom_ids li.imbs_used_bw) := by
  unfold layerUsage
  rw [foldl_field _ LayerInfo.imbs_used_bw _ _ (topStep_bw nos layer.type),
    foldl_field _ LayerInfo.imbs_used_bw _ _ (bottomStep_bw nos layer.type)]

theorem layerUsage_diff_bw (nos : IntSet) (layer : Layer) (li : LayerInfo) :
    (layerUsage nos layer li).imb_diffs_used_bw =
      foldAssign (fun b => nos.count b || layer.type == "Data") ⟨true, false⟩ layer.top_ids
        (foldAssign (fun b => nos.count b || layer.type == "Data") ⟨false, true⟩
          layer.bottom_ids li.imb_diffs_used_bw) := by
  unfold layerUsage
  rw [foldl_field _ LayerInfo.imb_diffs_used_bw _ _ (topStep_diff_bw nos layer.type),
    foldl_field _ LayerInfo.imb_diffs_used_bw _ _ (bottomStep_diff_bw nos layer.type)]

theorem InitPs_length (R : Nat) (alloc : HandleAlloc) (cfg : PsConfig) (net : Net) (s : Solver)
    (hno : cfg.no_ps = false) (h : (InitPs R alloc cfg net).outcome = .ok s) :
    s.layer_infos_.length = net.layers.length := by
  obtain ⟨s0, s1, s2, nt, h0, hf, hb, -, -, -, sp⟩ := InitPs_ok R alloc cfg net s hno h
  obtain ⟨len0, -, -⟩ := initialState_ok R cfg net s0 nt h0
  obtain ⟨lenF, -, -, -, -, -⟩ :=
    forwardFold net.layers.length _ s0 s1 hf (List.nodup_range _)
  obtain ⟨lenB, -, -, -, -, -⟩ :=
    backwardFold (net.layers.map Layer.need_backward) _ s1 s2 hb
      (List.nodup_reverse.2 (List.nodup_range _))
  rw [sp.1, lenB, lenF, len0]

theorem ids_releaseEntries (used next : IntSet) :
    (ids (releaseEntries used next)).Sublist used.keys := by
  unfold ids releaseEntries IntSet.keys
  rw [List.map_map]
  have : (ImbInfo.global_imb_id ∘ fun (e : Nat × FetchKeep) =>
      ({ global_imb_id := e.1, keep := e.2.keep } : ImbInfo)) = Prod.fst := rfl
  rw [this]
  exact (List.filter_sublist _).map _

theorem usageOf_sorted (net : Net) (layer : Layer) :
    (usageOf net layer).imbs_used_fw.keys.Pairwise (· < ·) ∧
    (usageOf net layer).imb_diffs_used_fw.keys.Pairwise (· < ·) ∧
    (usageOf net layer).imbs_used_bw.keys.Pairwise (· < ·) ∧
    (usageOf net layer).imb_diffs_used_bw.keys.Pairwise (· < ·) := by
  have h0 : (({} : LayerInfo).imbs_used_fw).keys.Pairwise (· < ·) := List.Pairwise.nil
  unfold usageOf
  rw [layerUsage_fw, layerUsage_diff_fw, layerUsage_bw, layerUsage_diff_bw]
  exact ⟨sorted_foldAssign _ _ _ _ (sorted_foldAssign _ _ _ _ h0),
    sorted_foldAssign _ _ _ _ h0,
    sorted_foldAssign _ _ _ _ (sorted_foldAssign _ _ _ _ h0),
    sorted_foldAssign _ _ _ _ (sorted_foldAssign _ _ _ _ h0)⟩

theorem layerFacts_usage (net : Net) (s : Solver) (k : Nat) (layer : Layer)
    (f : LayerFacts net s k layer) :
    (layerAt s k).imbs_used_fw = (usageOf net layer).imbs_used_fw ∧
    (layerAt s k).imb_diffs_used_fw = (usageOf net layer).imb_diffs_used_fw ∧
    (layerAt s k).imbs_used_bw = (usageOf net layer).imbs_used_bw ∧
    (layerAt s k).imb_diffs_used_bw = (usageOf net layer).imb_diffs_used_bw := by
  have e := f.usage
  have e1 := congrArg LayerInfo.imbs_used_fw e
  have e2 := congrArg LayerInfo.imb_diffs_used_fw e
  have e3 := congrArg LayerInfo.imbs_used_bw e
  have e4 := congrArg LayerInfo.imb_diffs_used_bw e
  exact ⟨e1, e2, e3, e4⟩

theorem nextBackwardLayer_some (nb : List Bool) (L j : Nat) :
    nextBackwardLayer nb L = some j ↔
      j < L ∧ nb.getD j false = true ∧ ∀ i, j < i → i < L → nb.getD i false = false := by
  induction L with
  | zero => simp [nextBackwardLayer]
  | succ n ih =>
    unfold nextBackwardLayer
    split
    · rename_i hn
      constructor
      · intro h
        simp only [Option.some.injEq] at h
        subst h
        exact ⟨Nat.lt_succ_self _, hn, fun i h1 h2 => by omega⟩
      · rintro ⟨h1, h2, h3⟩
        by_cases hj : j = n
        · rw [hj]
        · have := h3 n (by omega) (Nat.lt_succ_self _)
          rw [hn] at this; cases this
    · rename_i hn
      have hn' : nb.getD n false = false := by simpa using hn
      rw [ih]
      constructor
      · rintro ⟨h1, h2, h3⟩
        refine ⟨by omega, h2, ?_⟩
        intro i hi1 hi2
        by_cases hin : i = n
        · rw [hin]; exact hn'
        · exact h3 i hi1 (by omega)
      · rintro ⟨h1, h2, h3⟩
        have hjn : j ≠ n := by
          intro hj; rw [hj, hn'] at h2; cases h2
        exact ⟨by omega, h2, fun i hi1 hi2 => h3 i hi1 (by omega)⟩

theorem nextBackwardLayer_none (nb : List Bool) (L : Nat) :
    nextBackwardLayer nb L = none ↔ ∀ i, i < L → nb.getD i false = false := by
  induction L with
  | zero => simp [nextBackwardLayer]
  | succ n ih =>
    unfold nextBackwardLayer
    split
    · rename_i hn
      constructor
      · intro h; cases h
      · intro h
        have := h n (Nat.lt_succ_self _)
        rw [hn] at this; cases this
    · rename_i hn
      have hn' : nb.getD n false = false := by simpa using hn
      rw [ih]
      constructor
      · intro h i hi
        by_cases hin : i = n
        · rw [hin]; exact hn'
        · exact h i (by omega)
      · intro h i hi
        exact h i (by omega)

/-- Claim C3. After `InitPs` the forward release list of every stage `k` is the list of
the buffers of `k`'s forward usage set that are absent from the lookahead set (the forward
usage set of stage `k + 1`, or for the last stage its own backward usage set), each with
the keep flag of `k`'s policy, in ascending buffer id; likewise for the gradients. -/
theorem C3_forward_release_lists (R : Nat) (alloc : HandleAlloc) (cfg : PsConfig) (net : Net)
    (s : Solver) (hno : cfg.no_ps = false) (h : (InitPs R alloc cfg net).outcome = .ok s)
    (k : Nat) (li : LayerInfo) (hli : s.layer_infos_[k]? = some li) :
    (∀ next, k + 1 < net.layers.length → s.layer_infos_[k + 1]? = some next →
      li.imbs_to_release_fw = releaseEntries li.imbs_used_fw next.imbs_used_fw ∧
      li.imb_diffs_to_release_fw =
        releaseEntries li.imb_diffs_used_fw next.imb_diffs_used_fw) ∧
    (k + 1 = net.layers.length →
      li.imbs_to_release_fw = releaseEntries li.imbs_used_fw li.imbs_used_bw ∧
      li.imb_diffs_to_release_fw =
        releaseEntries li.imb_diffs_used_fw li.imb_diffs_used_bw) ∧
    (ids li.imbs_to_release_fw).Pairwise (· < ·) ∧
    (ids li.imb_diffs_to_release_fw).Pairwise (· < ·) := by
  have hlen := InitPs_length R alloc cfg net s hno h
  have hlt : k < net.layers.length := by
    rw [← hlen]; exact (List.getElem?_eq_some_iff.1 hli).1
  have hk : net.layers[k]? = some net.layers[k] := List.getElem?_eq_getElem hlt
  have f := InitPs_layer R alloc cfg net s hno h k _ hk
  have hat := layerAt_of_getElem? s k li hli
  obtain ⟨u1, u2, -, -⟩ := layerFacts_usage net s k _ f
  obtain ⟨s1, s2, -, -⟩ := usageOf_sorted net net.layers[k]
  have r1 := f.release_fw
  have r2 := f.diff_release_fw
  rw [hat] at r1 r2 u1 u2
  refine ⟨?_, ?_, ?_, ?_⟩
  · intro next h1 hn
    have hnext := layerAt_of_getElem? s (k + 1) next hn
    have hc : k < net.layers.length - 1 := by omega
    simp only [fwLookahead, hc, if_true, hnext] at r1 r2
    exact ⟨r1, r2⟩
  · intro h1
    have hc : ¬ k < net.layers.length - 1 := by omega
    simp only [fwLookahead, hc, if_false, hat] at r1 r2
    exact ⟨r1, r2⟩
  · rw [r1]
    exact List.Pairwise.sublist (ids_releaseEntries _ _) (by rw [u1]; exact s1)
  · rw [r2]
    exact List.Pairwise.sublist (ids_releaseEntries _ _) (by rw [u2]; exact s2)

/-- Claim C3 on the scenario graph: stage 0 releases, of its outputs 0 and 1, the one
that stage 1 does not use. -/
theorem C3_forward_release_lists_witness :
    (layerAt (InitPs 4 countingAlloc {} scenarioNet).solver 0).imbs_to_release_fw =
      releaseEntries (layerAt (InitPs 4 countingAlloc {} scenarioNet).solver 0).imbs_used_fw
        (layerAt (InitPs 4 countingAlloc {} scenarioNet).solver 1).imbs_used_fw ∧
    (ids (layerAt (InitPs 4 countingAlloc {} scenarioNet).solver 0).imbs_to_release_fw) = [1] :=
  ⟨((C3_forward_release_lists 4 countingAlloc {} scenarioNet
      (InitPs 4 countingAlloc {} scenarioNet).solver rfl rfl 0 _ rfl).1 _
        (by decide) rfl).1, by decide⟩

/-- Claim C4. After `InitPs` the backward release list of every stage `L` that needs
backward is the list of the buffers of `L`'s backward usage set that are absent from the
backward usage set of the closest lower stage that needs backward, each with the keep flag
of `L`'s policy; when no lower stage needs backward every buffer `L` uses backward is
released at `L`.  Likewise for the gradients. -/
theorem C4_backward_release_lists (R : Nat) (alloc : HandleAlloc) (cfg : PsConfig) (net : Net)
    (s : Solver) (hno : cfg.no_ps = false) (h : (InitPs R alloc cfg net).outcome = .ok s)
    (L : Nat) (li : LayerInfo) (hli : s.layer_infos_[L]? = some li)
    (hnb : needsBackward net L = true) :
    (∀ j lower, j < L → needsBackward net j = true →
      (∀ i, j < i → i < L → needsBackward net i = false) →
      s.layer_infos_[j]? = some lower →
      li.imbs_to_release_bw = releaseEntries li.imbs_used_bw lower.imbs_used_bw ∧
      li.imb_diffs_to_release_bw =
        releaseEntries li.imb_diffs_used_bw lower.imb_diffs_used_bw) ∧
    ((∀ i, i < L → needsBackward net i = false) →
      li.imbs_to_release_bw = releaseEntries li.imbs_used_bw {} ∧
      li.imb_diffs_to_release_bw = releaseEntries li.imb_diffs_used_bw {} ∧
      ids li.imbs_to_release_bw = li.imbs_used_bw.keys ∧
      ids li.imb_diffs_to_release_bw = li.imb_diffs_used_bw.keys) := by
  have hlen := InitPs_length R alloc cfg net s hno h
  have hlt : L < net.layers.length := by
    rw [← hlen]; exact (List.getElem?_eq_some_iff.1 hli).1
  have hk : net.layers[L]? = some net.layers[L] := List.getElem?_eq_getElem hlt
  have f := InitPs_layer R alloc cfg net s hno h L _ hk
  have hat := layerAt_of_getElem? s L li hli
  have hT : net.layers[L].need_backward = true := by
    rw [← needBackward_getD net L _ hk]; exact hnb
  have r1 := f.release_bw hT
  have r2 := f.diff_release_bw hT
  rw [hat] at r1 r2
  refine ⟨?_, ?_⟩
  · intro j lower hj hjn hbetween hlow
    have hnext : nextBackwardLayer (net.layers.map Layer.need_backward) L = some j :=
      (nextBackwardLayer_some _ L j).2 ⟨hj, hjn, hbetween⟩
    have hl := layerAt_of_getElem? s j lower hlow
    simp only [bwLookahead, hnext, hl] at r1 r2
    exact ⟨r1, r2⟩
  · intro hnone
    have hnext : nextBackwardLayer (net.layers.map Layer.need_backward) L = none :=
      (nextBackwardLayer_none _ L).2 hnone
    simp only [bwLookahead, hnext] at r1 r2
    refine ⟨r1, r2, ?_, ?_⟩
    · rw [r1]; simp [ids, releaseEntries, IntSet.keys, IntSet.count]
    · rw [r2]; simp [ids, releaseEntries, IntSet.keys, IntSet.count]

/-- Claim C4 on the scenario graph: the loss stage (2) looks ahead to stage 1, and stage 1,
below which no stage needs backward, releases everything it uses. -/
theorem C4_backward_release_lists_witness :
    (layerAt (InitPs 4 countingAlloc {} scenarioNet).solver 2).imbs_to_release_bw =
      releaseEntries (layerAt (InitPs 4 countingAlloc {} scenarioNet).solver 2).imbs_used_bw
        (layerAt (InitPs 4 countingAlloc {} scenarioNet).solver 1).imbs_used_bw ∧
    ids (layerAt (InitPs 4 countingAlloc {} scenarioNet).solver 2).imbs_to_release_bw =
      [1, 2] :=
  ⟨((C4_backward_release_lists 4 countingAlloc {} scenarioNet
      (InitPs 4 countingAlloc {} scenarioNet).solver rfl rfl 2 _ rfl (by decide)).1 1 _
        (by decide) (by decide) (fun i h1 h2 => by omega) rfl).1, by decide⟩

/-- Claim C5. A stage that needs no backward has, after `InitPs`, four empty backward
lists, and no call of the run is made from the backward part of the virtual iteration of
that stage, in any slot. -/
theorem C5_skipped_stage_has_no_backward_entries (R : Nat) (alloc : HandleAlloc)
    (cfg : PsConfig) (net : Net) (s : Solver) (hno : cfg.no_ps = false)
    (h : (InitPs R alloc cfg net).outcome = .ok s)
    (k : Nat) (li : LayerInfo) (hli : s.layer_infos_[k]? = some li)
    (hnb : needsBackward net k = false) :
    li.imbs_to_access_bw = [] ∧ li.imbs_to_release_bw = [] ∧
    li.imb_diffs_to_access_bw = [] ∧ li.imb_diffs_to_release_bw = [] ∧
    ∀ op ∈ (InitPs R alloc cfg net).trace, ∀ batch_id, op.site ≠ Site.backward batch_id k := by
  have hlen := InitPs_length R alloc cfg net s hno h
  have hlt : k < net.layers.length := by
    rw [← hlen]; exact (List.getElem?_eq_some_iff.1 hli).1
  have hk : net.layers[k]? = some net.layers[k] := List.getElem?_eq_getElem hlt
  have f := InitPs_layer R alloc cfg net s hno h k _ hk
  have hat := layerAt_of_getElem? s k li hli
  have hF : net.layers[k].need_backward = false := by
    rw [← needBackward_getD net k _ hk]; exact hnb
  have e := f.skipped hF
  rw [hat] at e
  refine ⟨e.1, e.2.1, e.2.2.1, e.2.2.2, ?_⟩
  intro op hop b hs
  have := InitPs_sites R alloc cfg net op hop b k hs
  unfold needsBackward at hnb
  rw [hnb] at this
  cases this

/-- Claim C5 on the scenario graph, whose data stage (0) needs no backward. -/
theorem C5_skipped_stage_has_no_backward_entries_witness :
    (layerAt (InitPs 4 countingAlloc {} scenarioNet).solver 0).imbs_to_access_bw = [] ∧
    ∀ op ∈ (InitPs 4 countingAlloc {} scenarioNet).trace, op.site ≠ Site.backward 0 0 :=
  have c := C5_skipped_stage_has_no_backward_entries 4 countingAlloc {} scenarioNet
    (InitPs 4 countingAlloc {} scenarioNet).solver rfl rfl 0 _ rfl (by decide)
  ⟨c.1, fun op hop => c.2.2.2.2 op hop 0⟩

theorem allReleased_iff (s : Solver) :
    allReleased s = true ↔
      (∀ i ∈ s.imb_data_infos_, i.data_in_mem = false) ∧
      (∀ i ∈ s.imb_diff_infos_, i.data_in_mem = false) := by
  simp [allReleased, List.all_eq_true]

theorem InitPs_fatal_of_resident (R : Nat) (alloc : HandleAlloc) (cfg : PsConfig) (net : Net)
    (hno : cfg.no_ps = false) (s2 : Solver) (nt : Nat)
    (hl : listsOf R cfg net = .ok (s2, nt)) (hr : allReleased s2 = false) :
    (InitPs R alloc cfg net).outcome = .error .checkFailed ∧
      (InitPs R alloc cfg net).trace = [] := by
  have hp : plan R cfg net = .error .checkFailed := by
    unfold plan
    rw [hl]
    simp [hr]
  unfold InitPs
  simp [hno, hp]

/-- Claim C2. `InitPs` completes only if no data or gradient buffer is resident after the
forward and backward loops: when a residency flag is still set it stops with a fatal
error without having made any call on the table service (the client is not created,
no handle is registered); and whenever it completes every residency flag is false. -/
theorem C2_resident_buffer_is_fatal (R : Nat) (alloc : HandleAlloc) (cfg : PsConfig)
    (net : Net) (hno : cfg.no_ps = false) :
    (∀ s2 nt, listsOf R cfg net = .ok (s2, nt) →
      (∃ i ∈ s2.imb_data_infos_ ++ s2.imb_diff_infos_, i.data_in_mem = true) →
      (InitPs R alloc cfg net).outcome = .error .checkFailed ∧
        (InitPs R alloc cfg net).trace = []) ∧
    (∀ s, (InitPs R alloc cfg net).outcome = .ok s →
      (∀ i ∈ s.imb_data_infos_, i.data_in_mem = false) ∧
      (∀ i ∈ s.imb_diff_infos_, i.data_in_mem = false)) := by
  constructor
  · rintro s2 nt hl ⟨i, hi, hm⟩
    apply InitPs_fatal_of_resident R alloc cfg net hno s2 nt hl
    cases hall : allReleased s2 with
    | false => rfl
    | true =>
      obtain ⟨h1, h2⟩ := (allReleased_iff s2).1 hall
      rcases List.mem_append.1 hi with hi | hi
      · rw [h1 i hi] at hm; cases hm
      · rw [h2 i hi] at hm; cases hm
  · intro s h
    obtain ⟨s0, s1, s2, nt, -, -, -, hall, e1, e2, -⟩ := InitPs_ok R alloc cfg net s hno h
    rw [e1, e2]
    exact (allReleased_iff s2).1 hall

/-- Claim C2 on a graph that leaves buffers resident: the run is fatal and no call was
made on the table service. -/
theorem C2_resident_buffer_is_fatal_witness :
    (InitPs 4 countingAlloc {} stuckNet).outcome = .error .checkFailed ∧
      (InitPs 4 countingAlloc {} stuckNet).trace = [] :=
  (C2_resident_buffer_is_fatal 4 countingAlloc {} stuckNet rfl).1
    ((listsOf 4 {} stuckNet).toOption.getD default).1
    ((listsOf 4 {} stuckNet).toOption.getD default).2 rfl
    ⟨{ row_ids := [0, 1], num_vals := 8, data_in_mem := true, data_handle := -1 },
      by decide, rfl⟩

theorem assignImbRows_flags (R : Nat) (counts : List Nat) (r : Nat) :
    ∀ i ∈ (assignImbRows R counts r).1, i.data_in_mem = false := by
  induction counts generalizing r with
  | nil => simp [assignImbRows]
  | cons c cs ih =>
    simp only [assignImbRows, List.mem_cons]
    rintro i (rfl | hi)
    · rfl
    · exact ih _ i hi

theorem resident_zero (infos : List RowAccessInfo)
    (h : ∀ i ∈ infos, i.data_in_mem = false) (b : Nat) : resident infos b = 0 := by
  unfold resident
  cases hb : infos[b]? with
  | none => simp
  | some i =>
    obtain ⟨hlt, rfl⟩ := List.getElem?_eq_some_iff.1 hb
    have := h _ (List.getElem_mem hlt)
    simp [this]

theorem total_zero (infos : List LayerInfo) (sel : LayerInfo → List ImbInfo) (b : Nat)
    (h : ∀ li ∈ infos, sel li = []) : total infos sel b = 0 := by
  unfold total
  apply List.sum_eq_zero
  intro x hx
  obtain ⟨li, hli, rfl⟩ := List.mem_map.1 hx
  simp [h li hli, ids]

theorem initialState_balanced (R : Nat) (cfg : PsConfig) (net : Net) (s0 : Solver) (nt : Nat)
    (h : initialState R cfg net = .ok (s0, nt)) : Balanced s0 := by
  obtain ⟨len0, -, lay0⟩ := initialState_ok R cfg net s0 nt h
  have hempty : ∀ li ∈ s0.layer_infos_, clearFw li = li ∧ clearBw li = li := by
    intro li hli
    obtain ⟨k, hk, rfl⟩ := List.getElem_of_mem hli
    have hkn : k < net.layers.length := by rw [← len0]; exact hk
    obtain ⟨li0, fresh, hF0⟩ := lay0 k _ (List.getElem?_eq_getElem hkn)
    obtain ⟨-, cf0, cb0⟩ := fresh_layerUsage (netOutputSet net.net_output_blob_indices)
      _ li0 fresh
    rw [← hF0, layerAt_of_getElem? s0 k _ (List.getElem?_eq_getElem hk)] at cf0 cb0
    exact ⟨cf0, cb0⟩
  have hflags : (∀ i ∈ s0.imb_data_infos_, i.data_in_mem = false) ∧
      (∀ i ∈ s0.imb_diff_infos_, i.data_in_mem = false) := by
    unfold initialState at h
    simp only [] at h
    split at h
    · cases h
    · simp only [Except.ok.injEq, Prod.mk.injEq] at h
      obtain ⟨rfl, -⟩ := h
      exact ⟨assignImbRows_flags _ _ _, assignImbRows_flags _ _ _⟩
  intro b
  rw [resident_zero _ hflags.1, resident_zero _ hflags.2]
  rw [total_zero _ dataAccess, total_zero _ dataRelease, total_zero _ diffAccess,
    total_zero _ diffRelease]
  · exact ⟨rfl, rfl⟩
  · intro li hli
    obtain ⟨a, c⟩ := hempty li hli
    obtain ⟨-, -, -, e1⟩ := clearFw_self li a
    obtain ⟨-, -, -, e2⟩ := clearBw_self li c
    simp [diffRelease, e1, e2]
  · intro li hli
    obtain ⟨a, c⟩ := hempty li hli
    obtain ⟨-, -, e1, -⟩ := clearFw_self li a
    obtain ⟨-, -, e2, -⟩ := clearBw_self li c
    simp [diffAccess, e1, e2]
  · intro li hli
    obtain ⟨a, c⟩ := hempty li hli
    obtain ⟨-, e1, -, -⟩ := clearFw_self li a
    obtain ⟨-, e2, -, -⟩ := clearBw_self li c
    simp [dataRelease, e1, e2]
  · intro li hli
    obtain ⟨a, c⟩ := hempty li hli
    obtain ⟨e1, -, -, -⟩ := clearFw_self li a
    obtain ⟨e2, -, -, -⟩ := clearBw_self li c
    simp [dataAccess, e1, e2]

theorem find_empty (x : Nat) : (({} : LayerInfo).imbs_used_fw).find x = none := rfl

theorem usageOf_fw_find (net : Net) (layer : Layer) (x : Nat) :
    (usageOf net layer).imbs_used_fw.find x =
      if x ∈ layer.top_ids ∧ (netOutputSet net.net_output_blob_indices).count x = false then
        some ⟨false, true⟩
      else if x ∈ layer.bottom_ids ∧
          (netOutputSet net.net_output_blob_indices).count x = false then
        some ⟨true, true⟩
      else none := by
  unfold usageOf
  rw [layerUsage_fw, find_foldAssign, find_foldAssign]
  rfl

theorem usageOf_diff_fw_find (net : Net) (layer : Layer) (x : Nat) :
    (usageOf net layer).imb_diffs_used_fw.find x =
      if x ∈ layer.top_ids ∧ ((netOutputSet net.net_output_blob_indices).count x ||
          !(layer.type == "SoftmaxWithLoss")) = false then
        some ⟨false, true⟩
      else none := by
  unfold usageOf
  rw [layerUsage_diff_fw, find_foldAssign]
  rfl

theorem usageOf_bw_find (net : Net) (layer : Layer) (x : Nat) :
    (usageOf net layer).imbs_used_bw.find x =
      if x ∈ layer.top_ids ∧ ((netOutputSet net.net_output_blob_indices).count x ||
          !(usesTopBackward layer.type)) = false then
        some ⟨true, false⟩
      else if x ∈ layer.bottom_ids ∧ ((netOutputSet net.net_output_blob_indices).count x ||
          layer.type == "Data") = false then
        some ⟨true, false⟩
      else none := by
  unfold usageOf
  rw [layerUsage_bw, find_foldAssign, find_foldAssign]
  rfl

theorem usageOf_diff_bw_find (net : Net) (layer : Layer) (x : Nat) :
    (usageOf net layer).imb_diffs_used_bw.find x =
      if x ∈ layer.top_ids ∧ ((netOutputSet net.net_output_blob_indices).count x ||
          layer.type == "Data") = false then
        some ⟨true, false⟩
      else if x ∈ layer.bottom_ids ∧ ((netOutputSet net.net_output_blob_indices).count x ||
          layer.type == "Data") = false then
        some ⟨false, true⟩
      else none := by
  unfold usageOf
  rw [layerUsage_diff_bw, find_foldAssign, find_foldAssign]
  rfl

theorem netOutputSet_count_false (idxs : List Nat) (x : Nat) :
    (netOutputSet idxs).count x = false ↔ x ∉ idxs := by
  rw [← netOutputSet_count idxs x]
  simp

/-- Claim C7. For every stage and every output of it that is not a net output, the
forward data policy `InitPs` computes is (no fetch, keep); and in a `SoftmaxWithLoss`
stage the gradient of that output has the forward policy (no fetch, keep) too. -/
theorem C7_top_forward_policy (R : Nat) (alloc : HandleAlloc) (cfg : PsConfig) (net : Net)
    (s : Solver) (hno : cfg.no_ps = false) (h : (InitPs R alloc cfg net).outcome = .ok s)
    (k : Nat) (layer : Layer) (hk : net.layers[k]? = some layer)
    (li : LayerInfo) (hli : s.layer_infos_[k]? = some li)
    (t : Nat) (ht : t ∈ layer.top_ids) (hout : t ∉ net.net_output_blob_indices) :
    li.imbs_used_fw.find t = some ⟨false, true⟩ ∧
    (layer.type = "SoftmaxWithLoss" → li.imb_diffs_used_fw.find t = some ⟨false, true⟩) := by
  have f := InitPs_layer R alloc cfg net s hno h k layer hk
  have hat := layerAt_of_getElem? s k li hli
  obtain ⟨u1, u2, -, -⟩ := layerFacts_usage net s k layer f
  rw [hat] at u1 u2
  have hc := (netOutputSet_count_false net.net_output_blob_indices t).2 hout
  constructor
  · rw [u1, usageOf_fw_find, if_pos ⟨ht, hc⟩]
  · intro hty
    rw [u2, usageOf_diff_fw_find, if_pos]
    refine ⟨ht, ?_⟩
    rw [hc, hty]
    rfl

/-- Claim C7 on the scenario graph: output 2 of the stage with parameters. -/
theorem C7_top_forward_policy_witness :
    (layerAt (InitPs 4 countingAlloc {} scenarioNet).solver 1).imbs_used_fw.find 2 =
      some ⟨false, true⟩ :=
  (C7_top_forward_policy 4 countingAlloc {} scenarioNet
    (InitPs 4 countingAlloc {} scenarioNet).solver rfl rfl 1 _ rfl _ rfl 2
    (by decide) (by decide)).1

theorem ids_eq_nil (l : List ImbInfo) (h : ids l = []) : l = [] := by
  cases l with
  | nil => rfl
  | cons a l => simp [ids] at h

/-- Claim C9. Gradient buffers are used forward by loss stages only: after `InitPs` a
stage whose type is not `SoftmaxWithLoss` has an empty forward gradient usage set and empty
forward gradient access and release lists; the forward gradient usage set of a
`SoftmaxWithLoss` stage holds exactly its outputs that are not net outputs. -/
theorem C9_forward_gradients_only_in_loss_stages (R : Nat) (alloc : HandleAlloc)
    (cfg : PsConfig) (net : Net) (s : Solver) (hno : cfg.no_ps = false)
    (h : (InitPs R alloc cfg net).outcome = .ok s)
    (k : Nat) (layer : Layer) (hk : net.layers[k]? = some layer)
    (li : LayerInfo) (hli : s.layer_infos_[k]? = some li) :
    (layer.type ≠ "SoftmaxWithLoss" →
      li.imb_diffs_used_fw = {} ∧ li.imb_diffs_to_access_fw = [] ∧
      li.imb_diffs_to_release_fw = []) ∧
    (layer.type = "SoftmaxWithLoss" → ∀ b,
      li.imb_diffs_used_fw.count b = true ↔
        (b ∈ layer.top_ids ∧ b ∉ net.net_output_blob_indices)) := by
  have f := InitPs_layer R alloc cfg net s hno h k layer hk
  have hat := layerAt_of_getElem? s k li hli
  obtain ⟨-, u2, -, -⟩ := layerFacts_usage net s k layer f
  have a2 := f.diff_access_fw
  have r2 := f.diff_release_fw
  rw [hat] at u2 a2 r2
  constructor
  · intro hty
    have hbeq : (layer.type == "SoftmaxWithLoss") = false := beq_eq_false_iff_ne.2 hty
    have hu : li.imb_diffs_used_fw = {} := by
      rw [u2]
      unfold usageOf
      rw [layerUsage_diff_fw, foldAssign_skip]
      intro b
      simp [hbeq]
    refine ⟨hu, ?_, ?_⟩
    · rw [hu] at a2
      exact ids_eq_nil _ (List.eq_nil_of_sublist_nil a2)
    · rw [r2, hu]; rfl
  · intro hty b
    have hbeq : (layer.type == "SoftmaxWithLoss") = true := by rw [hty]; rfl
    rw [count_eq_isSome, u2, usageOf_diff_fw_find, hbeq,
      ← netOutputSet_count_false net.net_output_blob_indices b]
    by_cases hb : b ∈ layer.top_ids ∧
        (netOutputSet net.net_output_blob_indices).count b = false
    · have : b ∈ layer.top_ids ∧
          ((netOutputSet net.net_output_blob_indices).count b || !true) = false := by
        simpa using hb
      rw [if_pos this]
      simpa using hb
    · have : ¬ (b ∈ layer.top_ids ∧
          ((netOutputSet net.net_output_blob_indices).count b || !true) = false) := by
        simpa using hb
      rw [if_neg this]
      simpa using hb

/-- Claim C9 on a graph whose loss output (3) is not a net output: the stage with
parameters (1) uses no gradient forward, the loss stage (2) uses that of its output. -/
theorem C9_forward_gradients_only_in_loss_stages_witness :
    (layerAt (InitPs 4 countingAlloc {} lossFeedNet).solver 1).imb_diffs_used_fw = {} ∧
    (layerAt (InitPs 4 countingAlloc {} lossFeedNet).solver 2).imb_diffs_used_fw.count 3 =
      true :=
  ⟨((C9_forward_gradients_only_in_loss_stages 4 countingAlloc {} lossFeedNet
      (InitPs 4 countingAlloc {} lossFeedNet).solver rfl rfl 1 _ rfl _ rfl).1
        (by decide)).1,
   ((C9_forward_gradients_only_in_loss_stages 4 countingAlloc {} lossFeedNet
      (InitPs 4 countingAlloc {} lossFeedNet).solver rfl rfl 2 _ rfl _ rfl).2
        (by decide) 3).2 (by decide)⟩

theorem usageOf_no_output (net : Net) (layer : Layer) (b : Nat)
    (hb : b ∈ net.net_output_blob_indices) :
    (usageOf net layer).imbs_used_fw.count b = false ∧
    (usageOf net layer).imb_diffs_used_fw.count b = false ∧
    (usageOf net layer).imbs_used_bw.count b = false ∧
    (usageOf net layer).imb_diffs_used_bw.count b = false := by
  have hc := (netOutputSet_count net.net_output_blob_indices b).2 hb
  rw [count_eq_isSome, count_eq_isSome, count_eq_isSome, count_eq_isSome, usageOf_fw_find,
    usageOf_diff_fw_find, usageOf_bw_find, usageOf_diff_bw_find]
  simp [hc]

theorem not_mem_of_sublist_keys (l : List ImbInfo) (m : IntSet) (b : Nat)
    (h : (ids l).Sublist m.keys) (hc : m.count b = false) : b ∉ ids l := by
  intro hb
  have := (mem_keys_iff m b).1 (h.subset hb)
  rw [hc] at this
  cases this

/-- Claim C10. A net output is never streamed: for every graph the usage sets computed
for any stage hold no net output, and after `InitPs` no usage set and no access or release
list of any stage holds one. -/
theorem C10_net_outputs_are_not_streamed (R : Nat) (alloc : HandleAlloc) (cfg : PsConfig)
    (net : Net) (b : Nat) (hb : b ∈ net.net_output_blob_indices) :
    (∀ layer, (usageOf net layer).imbs_used_fw.count b = false ∧
      (usageOf net layer).imb_diffs_used_fw.count b = false ∧
      (usageOf net layer).imbs_used_bw.count b = false ∧
      (usageOf net layer).imb_diffs_used_bw.count b = false) ∧
    (∀ s, cfg.no_ps = false → (InitPs R alloc cfg net).outcome = .ok s →
      ∀ li ∈ s.layer_infos_,
        (li.imbs_used_fw.count b = false ∧ li.imb_diffs_used_fw.count b = false ∧
          li.imbs_used_bw.count b = false ∧ li.imb_diffs_used_bw.count b = false) ∧
        (b ∉ ids li.imbs_to_access_fw ∧ b ∉ ids li.imbs_to_release_fw ∧
          b ∉ ids li.imb_diffs_to_access_fw ∧ b ∉ ids li.imb_diffs_to_release_fw) ∧
        (b ∉ ids li.imbs_to_access_bw ∧ b ∉ ids li.imbs_to_release_bw ∧
          b ∉ ids li.imb_diffs_to_access_bw ∧ b ∉ ids li.imb_diffs_to_release_bw)) := by
  refine ⟨fun layer => usageOf_no_output net layer b hb, ?_⟩
  intro s hno h li hli
  obtain ⟨k, hk, rfl⟩ := List.getElem_of_mem hli
  have hlen := InitPs_length R alloc cfg net s hno h
  have hlt : k < net.layers.length := by rw [← hlen]; exact hk
  have f := InitPs_layer R alloc cfg net s hno h k _ (List.getElem?_eq_getElem hlt)
  have hat := layerAt_of_getElem? s k _ (List.getElem?_eq_getElem hk)
  obtain ⟨u1, u2, u3, u4⟩ := layerFacts_usage net s k _ f
  obtain ⟨n1, n2, n3, n4⟩ := usageOf_no_output net net.layers[k] b hb
  rw [← u1] at n1
  rw [← u2] at n2
  rw [← u3] at n3
  rw [← u4] at n4
  have a1 := f.access_fw
  have a2 := f.diff_access_fw
  have a3 := f.access_bw
  have a4 := f.diff_access_bw
  have r1 := f.release_fw
  have r2 := f.diff_release_fw
  have r3 := f.release_bw
  have r4 := f.diff_release_bw
  have sk := f.skipped
  rw [hat] at a1 a2 a3 a4 r1 r2 r3 r4 sk n1 n2 n3 n4
  refine ⟨⟨n1, n2, n3, n4⟩,
    ⟨not_mem_of_sublist_keys _ _ b a1 n1, ?_, not_mem_of_sublist_keys _ _ b a2 n2, ?_⟩,
    ⟨not_mem_of_sublist_keys _ _ b a3 n3, ?_, not_mem_of_sublist_keys _ _ b a4 n4, ?_⟩⟩
  · rw [r1]; exact fun hm => by
      have := (mem_keys_iff _ b).1 ((ids_releaseEntries _ _).subset hm)
      rw [n1] at this; cases this
  · rw [r2]; exact fun hm => by
      have := (mem_keys_iff _ b).1 ((ids_releaseEntries _ _).subset hm)
      rw [n2] at this; cases this
  · cases hT : net.layers[k].need_backward with
    | true =>
      rw [r3 hT]; exact fun hm => by
        have := (mem_keys_iff _ b).1 ((ids_releaseEntries _ _).subset hm)
        rw [n3] at this; cases this
    | false => rw [(sk hT).2.1]; simp [ids]
  · cases hT : net.layers[k].need_backward with
    | true =>
      rw [r4 hT]; exact fun hm => by
        have := (mem_keys_iff _ b).1 ((ids_releaseEntries _ _).subset hm)
        rw [n4] at this; cases this
    | false => rw [(sk hT).2.2.2]; simp [ids]

/-- Claim C10 on the scenario graph, whose net output is buffer 3, the output of the loss
stage (2). -/
theorem C10_net_outputs_are_not_streamed_witness :
    (layerAt (InitPs 4 countingAlloc {} scenarioNet).solver 2).imbs_used_fw.count 3 = false ∧
    3 ∉ ids (layerAt (InitPs 4 countingAlloc {} scenarioNet).solver 2).imbs_to_access_fw :=
  have c := (C10_net_outputs_are_not_streamed 4 countingAlloc {} scenarioNet 3
    (by decide)).2 (InitPs 4 countingAlloc {} scenarioNet).solver rfl rfl
      (layerAt (InitPs 4 countingAlloc {} scenarioNet).solver 2) (by decide)
  ⟨c.1.1, c.2.1.1⟩

theorem bottom_forward_policy_of_not_top (R : Nat) (alloc : HandleAlloc) (cfg : PsConfig)
    (net : Net) (s : Solver) (hno : cfg.no_ps = false)
    (h : (InitPs R alloc cfg net).outcome = .ok s)
    (k : Nat) (layer : Layer) (hk : net.layers[k]? = some layer)
    (li : LayerInfo) (hli : s.layer_infos_[k]? = some li)
    (b : Nat) (hb : b ∈ layer.bottom_ids) (hout : b ∉ net.net_output_blob_indices) :
    li.imbs_used_fw.find b =
      if b ∈ layer.top_ids then some ⟨false, true⟩ else some ⟨true, true⟩ := by
  have f := InitPs_layer R alloc cfg net s hno h k layer hk
  have hat := layerAt_of_getElem? s k li hli
  obtain ⟨u1, -, -, -⟩ := layerFacts_usage net s k layer f
  rw [hat] at u1
  have hc := (netOutputSet_count_false net.net_output_blob_indices b).2 hout
  rw [u1, usageOf_fw_find]
  by_cases ht : b ∈ layer.top_ids
  · rw [if_pos ⟨ht, hc⟩, if_pos ht]
  · rw [if_neg (fun hh => ht hh.1), if_pos ⟨hb, hc⟩, if_neg ht]

theorem bottom_backward_policies_of_not_top (R : Nat) (alloc : HandleAlloc) (cfg : PsConfig)
    (net : Net) (s : Solver) (hno : cfg.no_ps = false)
    (h : (InitPs R alloc cfg net).outcome = .ok s)
    (k : Nat) (layer : Layer) (hk : net.layers[k]? = some layer)
    (li : LayerInfo) (hli : s.layer_infos_[k]? = some li) (hty : layer.type ≠ "Data")
    (b : Nat) (hb : b ∈ layer.bottom_ids) (hout : b ∉ net.net_output_blob_indices) :
    li.imbs_used_bw.find b = some ⟨true, false⟩ ∧
    li.imb_diffs_used_bw.find b =
      if b ∈ layer.top_ids then some ⟨true, false⟩ else some ⟨false, true⟩ := by
  have f := InitPs_layer R alloc cfg net s hno h k layer hk
  have hat := layerAt_of_getElem? s k li hli
  obtain ⟨-, -, u3, u4⟩ := layerFacts_usage net s k layer f
  rw [hat] at u3 u4
  have hc := (netOutputSet_count_false net.net_output_blob_indices b).2 hout
  have hbeq : (layer.type == "Data") = false := beq_eq_false_iff_ne.2 hty
  have hg : ((netOutputSet net.net_output_blob_indices).count b ||
      layer.type == "Data") = false := by rw [hc, hbeq]; rfl
  constructor
  · rw [u3, usageOf_bw_find]
    by_cases ht : b ∈ layer.top_ids ∧
        ((netOutputSet net.net_output_blob_indices).count b ||
          !(usesTopBackward layer.type)) = false
    · rw [if_pos ht]
    · rw [if_neg ht, if_pos ⟨hb, hg⟩]
  · rw [u4, usageOf_diff_bw_find]
    by_cases ht : b ∈ layer.top_ids
    · rw [if_pos ⟨ht, hg⟩, if_pos ht]
    · rw [if_neg (fun hh => ht hh.1), if_pos ⟨hb, hg⟩, if_neg ht]

theorem assignParams_spec (blobs : List Nat) (nv g : Nat) :
    (assignParams blobs nv g).2.1 = nv + blobs.sum ∧
    (assignParams blobs nv g).2.2 = g + blobs.length ∧
    (assignParams blobs nv g).1.length = blobs.length ∧
    ∀ j, j < blobs.length → (assignParams blobs nv g).1[j]? =
      some { global_param_id := g + j, val_offset := nv + (blobs.take j).sum } := by
  induction blobs generalizing nv g with
  | nil => simp [assignParams]
  | cons c cs ih =>
    obtain ⟨h1, h2, h3, h4⟩ := ih (nv + c) (g + 1)
    simp only [assignParams, List.sum_cons, List.length_cons]
    refine ⟨by rw [h1]; omega, by rw [h2]; omega, by rw [h3], ?_⟩
    intro j hj
    cases j with
    | zero => simp
    | succ j =>
      have := h4 j (by omega)
      simp only [List.getElem?_cons_succ, this, List.take_succ_cons, List.sum_cons]
      congr 2 <;> omega

theorem paramRowsStep_counters (R : Nat) (c : RowCounters) (l : Layer) :
    (paramRowsStep R c l).2.total_num_params = c.total_num_params + l.blobs.length ∧
    (paramRowsStep R c l).2.table_id = c.table_id + (if hasParams l then 1 else 0) ∧
    (c.row_id = 0 → (paramRowsStep R c l).2.row_id = 0) ∧
    (paramRowsStep R c l).2.local_store_row_id = c.local_store_row_id + stageRows R l ∧
    (paramRowsStep R c l).2.global_param_id = c.global_param_id + l.blobs.length := by
  have e := assignParams_spec l.blobs 0 c.global_param_id
  by_cases hp : 0 < l.blobs.length
  · have hf : hasParams l = true := by simp [hasParams, hp]
    simp [paramRowsStep, hp, hf, stageRows, e.1, e.2.1]
  · have hf : hasParams l = false := by simp [hasParams, hp]
    have hz : l.blobs.length = 0 := by omega
    simp [paramRowsStep, hp, hf, stageRows, hz]

theorem assignParamRows_counters (R : Nat) (ls : List Layer) (c : RowCounters) :
    (assignParamRows R ls c).2.total_num_params =
      c.total_num_params + (ls.map (fun l => l.blobs.length)).sum ∧
    (assignParamRows R ls c).2.table_id = c.table_id + (ls.filter hasParams).length ∧
    (c.row_id = 0 → (assignParamRows R ls c).2.row_id = 0) ∧
    (assignParamRows R ls c).2.local_store_row_id =
      c.local_store_row_id + (ls.map (stageRows R)).sum ∧
    (assignParamRows R ls c).2.global_param_id =
      c.global_param_id + (ls.map (fun l => l.blobs.length)).sum := by
  induction ls generalizing c with
  | nil => simp [assignParamRows]
  | cons l ls ih =>
    obtain ⟨h1, h2, h3, h4, h5⟩ := ih (paramRowsStep R c l).2
    obtain ⟨p1, p2, p3, p4, p5⟩ := paramRowsStep_counters R c l
    simp only [assignParamRows, List.map_cons, List.sum_cons]
    rw [h1, h2, h4, h5, p1, p2, p4, p5]
    refine ⟨by omega, ?_, fun h => h3 (p3 h), by omega, by omega⟩
    cases hf : hasParams l
    · simp [List.filter_cons, hf]
    · simp [List.filter_cons, hf]; omega

theorem assignParamRows_getElem? (R : Nat) (ls : List Layer) (c : RowCounters) (k : Nat) :
    (assignParamRows R ls c).1[k]? =
      ls[k]?.map (fun layer =>
        (paramRowsStep R (assignParamRows R (ls.take k) c).2 layer).1) := by
  induction ls generalizing c k with
  | nil => simp [assignParamRows]
  | cons l ls ih =>
    cases k with
    | zero => simp [assignParamRows]
    | succ k =>
      simp only [assignParamRows, List.getElem?_cons_succ, List.take_succ_cons]
      exact ih _ k

theorem foldlM_invariant {σ ι : Type} (Inv : σ → Prop) (f : σ → ι → Except Fatal σ)
    (hf : ∀ s i s', Inv s → f s i = .ok s' → Inv s') (l : List ι) (s s' : σ)
    (h : l.foldlM f s = .ok s') (h0 : Inv s) : Inv s' := by
  induction l generalizing s with
  | nil => rw [foldlM_ok_nil] at h; subst h; exact h0
  | cons i l ih =>
    rw [foldlM_ok_cons] at h
    obtain ⟨s1, h1, h2⟩ := h
    exact ih s1 h2 (hf s i s1 h0 h1)

theorem set_self {α : Type} (l : List α) (i : Nat) (a : α) (h : l[i]? = some a) :
    l.set i a = l := by
  induction l generalizing i with
  | nil => rfl
  | cons x xs ih =>
    cases i with
    | zero => simp at h; simp [h]
    | succ i => simp at h; simp [ih i h]

theorem map_rowsOnly_set (infos : List RowAccessInfo) (i : Nat) (info : RowAccessInfo)
    (b : Bool) (h : infos[i]? = some info) :
    (infos.set i { info with data_in_mem := b }).map rowsOnly = infos.map rowsOnly := by
  rw [List.map_set]
  apply set_self
  simp [List.getElem?_map, h, rowsOnly]

theorem accessLoop_rows (used : List (Nat × FetchKeep)) (infos : List RowAccessInfo)
    (acc : List ImbInfo) (r : List RowAccessInfo × List ImbInfo)
    (h : accessLoop used infos acc = .ok r) : r.1.map rowsOnly = infos.map rowsOnly := by
  induction used generalizing infos acc with
  | nil => simp only [accessLoop, Except.ok.injEq] at h; subst h; rfl
  | cons p rest ih =>
    obtain ⟨imb_id, fk⟩ := p
    simp only [accessLoop] at h
    split at h
    · cases h
    · rename_i info hinfo
      split at h
      · rw [ih _ _ h, map_rowsOnly_set _ _ _ _ hinfo]
      · exact ih _ _ h

theorem releaseLoop_rows (next : IntSet) (used : List (Nat × FetchKeep))
    (infos : List RowAccessInfo) (acc : List ImbInfo) (r : List RowAccessInfo × List ImbInfo)
    (h : releaseLoop next used infos acc = .ok r) : r.1.map rowsOnly = infos.map rowsOnly := by
  induction used generalizing infos acc with
  | nil => simp only [releaseLoop, Except.ok.injEq] at h; subst h; rfl
  | cons p rest ih =>
    obtain ⟨imb_id, fk⟩ := p
    simp only [releaseLoop] at h
    split at h
    · split at h
      · cases h
      · rename_i info hinfo
        split at h
        · rw [ih _ _ h, map_rowsOnly_set _ _ _ _ hinfo]
        · cases h
    · exact ih _ _ h

theorem forwardLayer_rows (n : Nat) (s s' : Solver) (i : Nat)
    (h : forwardLayer n s i = .ok s') : imbRowsOf s' = imbRowsOf s := by
  obtain ⟨li, a, b, c, d, -, ha, hb, hc, hd, rfl⟩ := forwardLayer_ok n s s' i h
  simp only [imbRowsOf, releaseLoop_rows _ _ _ _ _ hc, releaseLoop_rows _ _ _ _ _ hd,
    accessLoop_rows _ _ _ _ ha, accessLoop_rows _ _ _ _ hb]

theorem backwardLayer_rows (nb : List Bool) (s s' : Solver) (i : Nat)
    (h : backwardLayer nb s i = .ok s') : imbRowsOf s' = imbRowsOf s := by
  cases hnb : nb.getD i false with
  | false =>
    rw [backwardLayer_skip nb s i hnb] at h
    cases h; rfl
  | true =>
    obtain ⟨li, a, b, c, d, -, ha, hb, hc, hd, rfl⟩ := backwardLayer_ok nb s s' i hnb h
    simp only [imbRowsOf, releaseLoop_rows _ _ _ _ _ hc, releaseLoop_rows _ _ _ _ _ hd,
      accessLoop_rows _ _ _ _ ha, accessLoop_rows _ _ _ _ hb]

theorem rowPart_of_planPart (a b : LayerInfo) (h : planPart a = planPart b) :
    rowPart a = rowPart b := by
  have e := congrArg rowPart h
  exact e

theorem rowPart_of_clearFw (a b : LayerInfo) (h : clearFw a = clearFw b) :
    rowPart a = rowPart b := by
  have e := congrArg rowPart h
  exact e

theorem rowPart_of_clearBw (a b : LayerInfo) (h : clearBw a = clearBw b) :
    rowPart a = rowPart b := by
  have e := congrArg rowPart h
  exact e

theorem rowPart_of_restPart (a b : LayerInfo) (h : restPart a = restPart b) :
    rowPart a = rowPart b := by
  have e := congrArg rowPart h
  exact e

theorem initialState_eq (R : Nat) (cfg : PsConfig) (net : Net) (s0 : Solver) (nt : Nat)
    (h : initialState R cfg net = .ok (s0, nt)) :
    (assignParamRows R net.layers {}).2.total_num_params = net.params.length ∧
    s0.layer_infos_ = computeUsage net (assignParamRows R net.layers {}).1 ∧
    s0.imb_data_infos_ = (assignImbRows R net.blobs
      (assignParamRows R net.layers {}).2.local_store_row_id).1 ∧
    s0.imb_diff_infos_ = (assignImbRows R net.blobs
      (assignImbRows R net.blobs
        (assignParamRows R net.layers {}).2.local_store_row_id).2).1 ∧
    nt = (if (assignParamRows R net.layers {}).2.row_id = 0 then
        (assignParamRows R net.layers {}).2.table_id
      else (assignParamRows R net.layers {}).2.table_id + 1) := by
  unfold initialState at h
  simp only [] at h
  split at h
  · cases h
  · rename_i hc
    simp only [Except.ok.injEq, Prod.mk.injEq] at h
    obtain ⟨rfl, rfl⟩ := h
    exact ⟨by simpa using hc, rfl, rfl, rfl, rfl⟩

theorem InitPs_rows (R : Nat) (alloc : HandleAlloc) (cfg : PsConfig) (net : Net) (s : Solver)
    (hno : cfg.no_ps = false) (h : (InitPs R alloc cfg net).outcome = .ok s) :
    (∀ k layer, net.layers[k]? = some layer →
      rowPart (layerAt s k) =
        rowPart (paramRowsStep R (assignParamRows R (net.layers.take k) {}).2 layer).1) ∧
    s.imb_data_infos_.map rowsOnly = (assignImbRows R net.blobs
      (net.layers.map (stageRows R)).sum).1.map rowsOnly ∧
    s.imb_diff_infos_.map rowsOnly = (assignImbRows R net.blobs
      (assignImbRows R net.blobs (net.layers.map (stageRows R)).sum).2).1.map rowsOnly := by
  obtain ⟨s0, s1, s2, nt, h0, hf, hb, -, e1, e2, sp⟩ := InitPs_ok R alloc cfg net s hno h
  obtain ⟨-, i2, i3, i4, -⟩ := initialState_eq R cfg net s0 nt h0
  obtain ⟨-, -, stF, -, -, -⟩ :=
    forwardFold net.layers.length _ s0 s1 hf (List.nodup_range _)
  obtain ⟨-, -, stB, -, -, -⟩ :=
    backwardFold (net.layers.map Layer.need_backward) _ s1 s2 hb
      (List.nodup_reverse.2 (List.nodup_range _))
  have hloc : (assignParamRows R net.layers {}).2.local_store_row_id =
      (net.layers.map (stageRows R)).sum := by
    rw [(assignParamRows_counters R net.layers {}).2.2.2.1]
    simp
  have r1 : imbRowsOf s1 = imbRowsOf s0 :=
    foldlM_invariant (fun x => imbRowsOf x = imbRowsOf s0) _
      (fun a i a' ha hs => (forwardLayer_rows _ a a' i hs).trans ha) _ s0 s1 hf rfl
  have r2 : imbRowsOf s2 = imbRowsOf s1 :=
    foldlM_invariant (fun x => imbRowsOf x = imbRowsOf s1) _
      (fun a i a' ha hs => (backwardLayer_rows _ a a' i hs).trans ha) _ s1 s2 hb rfl
  have r := r2.trans r1
  simp only [imbRowsOf, Prod.mk.injEq] at r
  refine ⟨?_, ?_, ?_⟩
  · intro k layer hk
    have hlt : k < net.layers.length := (List.getElem?_eq_some_iff.1 hk).1
    have q1 := rowPart_of_planPart _ _ (samePlan_layerAt s2 s sp k)
    have q2 := rowPart_of_clearBw _ _ (stB k)
    have q3 := rowPart_of_clearFw _ _ (stF k)
    rw [q1, q2, q3]
    have hl : layerAt s0 k = layerUsage (netOutputSet net.net_output_blob_indices) layer
        (paramRowsStep R (assignParamRows R (net.layers.take k) {}).2 layer).1 := by
      simp only [layerAt, i2, computeUsage, List.getD_eq_getElem?_getD, List.getElem?_zipWith,
        hk, assignParamRows_getElem?]
      rfl
    rw [hl]
    exact rowPart_of_restPart _ _ (layerUsage_parts _ _ _).2
  · rw [e1, r.1, i3, hloc]
  · rw [e2, r.2, i4, hloc]

theorem total_num_params_eq (R : Nat) (net : Net) :
    (assignParamRows R net.layers {}).2.total_num_params =
      (net.layers.map (fun l => l.blobs.length)).sum := by
  rw [(assignParamRows_counters R net.layers {}).1]
  simp

/-- Claim C16. `InitPs` is fatal whenever the number of parameter blobs summed over the
stages differs from the declared parameter count of the graph; it then stops before the
usage sets are built (the first part of `InitPs` yields no solver) and without any call on
the table service.  When the two counts agree the check passes. -/
theorem C16_parameter_count_mismatch_is_fatal (R : Nat) (alloc : HandleAlloc) (cfg : PsConfig)
    (net : Net) (hno : cfg.no_ps = false) :
    ((net.layers.map (fun l => l.blobs.length)).sum ≠ net.params.length →
      initialState R cfg net = .error .checkFailed ∧
      (InitPs R alloc cfg net).outcome = .error .checkFailed ∧
      (InitPs R alloc cfg net).trace = []) ∧
    ((net.layers.map (fun l => l.blobs.length)).sum = net.params.length →
      ∃ s0 nt, initialState R cfg net = .ok (s0, nt)) := by
  constructor
  · intro hne
    have h0 : initialState R cfg net = .error .checkFailed := by
      unfold initialState
      simp only [total_num_params_eq]
      rw [if_pos hne]
    refine ⟨h0, ?_⟩
    have hp : plan R cfg net = .error .checkFailed := by
      unfold plan listsOf
      rw [h0]
    unfold InitPs
    simp [hno, hp]
  · intro heq
    unfold initialState
    simp only [total_num_params_eq]
    rw [if_neg (fun hne => hne heq)]
    exact ⟨_, _, rfl⟩

/-- Claim C16 on a graph with two parameter blobs and a declared count of one. -/
theorem C16_parameter_count_mismatch_is_fatal_witness :
    (InitPs 4 countingAlloc {} miscountedNet).outcome = .error .checkFailed ∧
      (InitPs 4 countingAlloc {} miscountedNet).trace = [] :=
  ((C16_parameter_count_mismatch_is_fatal 4 countingAlloc {} miscountedNet rfl).1
    (by decide)).2

theorem ceil_formula (R n : Nat) (hR : 0 < R) :
    IsCeil R n ((n + R - 1) / R) ∧ (0 < n → ((n + R - 1) / R - 1) * R < n) := by
  have h1 : (n + R - 1) / R * R ≤ n + R - 1 := Nat.div_mul_le_self _ _
  have h2 : n + R - 1 < ((n + R - 1) / R + 1) * R := by
    have := Nat.lt_succ_self ((n + R - 1) / R)
    exact (Nat.div_lt_iff_lt_mul hR).1 this
  rw [Nat.add_mul, Nat.one_mul] at h2
  refine ⟨⟨by omega, ?_⟩, ?_⟩
  · intro r' hr'
    have : n + R - 1 < (r' + 1) * R := by
      rw [Nat.add_mul, Nat.one_mul]; omega
    exact Nat.lt_succ_iff.1 ((Nat.div_lt_iff_lt_mul hR).2 this)
  · intro hn
    rw [Nat.sub_mul, Nat.one_mul]
    omega

theorem paramRowsStep_rowPart (R : Nat) (c : RowCounters) (l : Layer)
    (hp : 0 < l.blobs.length) :
    rowPart (paramRowsStep R c l).1 =
      { table_id := c.table_id
        row_ids := List.range' c.row_id (stageRows R l)
        history_data_row_ids := List.range' c.local_store_row_id (stageRows R l)
        num_vals := l.blobs.sum
        param_infos := (assignParams l.blobs 0 c.global_param_id).1 } := by
  have e := assignParams_spec l.blobs 0 c.global_param_id
  simp [paramRowsStep, hp, stageRows, e.1, rowPart]

theorem paramRowsStep_rowPart_none (R : Nat) (c : RowCounters) (l : Layer)
    (hp : ¬ 0 < l.blobs.length) : rowPart (paramRowsStep R c l).1 = {} := by
  simp [paramRowsStep, hp, rowPart]

theorem assignImbRows_spec (R : Nat) (cs : List Nat) (r : Nat) :
    (assignImbRows R cs r).2 = r + (cs.map (imbRows R)).sum ∧
    (∀ i, ((assignImbRows R cs r).1.map rowsOnly)[i]? =
      cs[i]?.map (fun c =>
        (List.range' (r + ((cs.take i).map (imbRows R)).sum) (imbRows R c), c))) ∧
    ((assignImbRows R cs r).1.map RowAccessInfo.row_ids).flatten =
      List.range' r (cs.map (imbRows R)).sum := by
  induction cs generalizing r with
  | nil => simp [assignImbRows]
  | cons c cs ih =>
    obtain ⟨h1, h2, h3⟩ := ih (r + imbRows R c)
    have hu : assignImbRows R (c :: cs) r =
        ({ row_ids := List.range' r (imbRows R c), num_vals := c, data_in_mem := false,
           data_handle := -1 } :: (assignImbRows R cs (r + imbRows R c)).1,
         (assignImbRows R cs (r + imbRows R c)).2) := rfl
    rw [hu]
    refine ⟨?_, ?_, ?_⟩
    · simp only [h1, List.map_cons, List.sum_cons]; omega
    · intro i
      cases i with
      | zero => simp [rowsOnly]
      | succ i =>
        simp only [List.map_cons, List.getElem?_cons_succ, h2 i, List.take_succ_cons,
          List.sum_cons, Nat.add_assoc]
    · simp only [List.map_cons, List.flatten_cons, h3, List.sum_cons]
      have := List.range'_append r (imbRows R c) (cs.map (imbRows R)).sum 1
      rw [Nat.one_mul] at this
      rw [this, Nat.add_comm]

theorem history_flatten (R : Nat) (ls : List Layer) (c : RowCounters) :
    ((assignParamRows R ls c).1.map (fun li => (rowPart li).history_data_row_ids)).flatten =
      List.range' c.local_store_row_id (ls.map (stageRows R)).sum := by
  induction ls generalizing c with
  | nil => simp [assignParamRows]
  | cons l ls ih =>
    have hu : assignParamRows R (l :: ls) c =
        ((paramRowsStep R c l).1 :: (assignParamRows R ls (paramRowsStep R c l).2).1,
         (assignParamRows R ls (paramRowsStep R c l).2).2) := rfl
    rw [hu]
    simp only [List.map_cons, List.flatten_cons, ih, List.sum_cons,
      (paramRowsStep_counters R c l).2.2.2.1]
    have := List.range'_append c.local_store_row_id (stageRows R l)
      (ls.map (stageRows R)).sum 1
    rw [Nat.one_mul] at this
    rw [Nat.add_comm (stageRows R l), ← this]
    congr 1
    by_cases hp : 0 < l.blobs.length
    · rw [paramRowsStep_rowPart R c l hp]
    · rw [paramRowsStep_rowPart_none R c l hp]
      simp [stageRows, hp]

theorem rowPart_fields (a b : LayerInfo) (h : rowPart a = rowPart b) :
    a.table_id = b.table_id ∧ a.row_ids = b.row_ids ∧
    a.history_data_row_ids = b.history_data_row_ids ∧ a.num_vals = b.num_vals ∧
    a.param_infos = b.param_infos := by
  have e1 := congrArg LayerInfo.table_id h
  have e2 := congrArg LayerInfo.row_ids h
  have e3 := congrArg LayerInfo.history_data_row_ids h
  have e4 := congrArg LayerInfo.num_vals h
  have e5 := congrArg LayerInfo.param_infos h
  exact ⟨e1, e2, e3, e4, e5⟩

theorem InitPs_stage_rows (R : Nat) (alloc : HandleAlloc) (cfg : PsConfig) (net : Net)
    (s : Solver) (hno : cfg.no_ps = false) (h : (InitPs R alloc cfg net).outcome = .ok s)
    (k : Nat) (layer : Layer) (li : LayerInfo) (hk : net.layers[k]? = some layer)
    (hli : s.layer_infos_[k]? = some li) :
    (layer.blobs ≠ [] →
      li.table_id = ((net.layers.take k).filter hasParams).length ∧
      li.row_ids = List.range' 0 (stageRows R layer) ∧
      li.history_data_row_ids =
        List.range' ((net.layers.take k).map (stageRows R)).sum (stageRows R layer) ∧
      li.num_vals = layer.blobs.sum ∧
      li.param_infos = (assignParams layer.blobs 0
        ((net.layers.take k).map (fun l => l.blobs.length)).sum).1) ∧
    (layer.blobs = [] →
      li.row_ids = [] ∧ li.history_data_row_ids = [] ∧ li.num_vals = 0 ∧
      li.param_infos = []) := by
  have hr := (InitPs_rows R alloc cfg net s hno h).1 k layer hk
  rw [layerAt_of_getElem? s k li hli] at hr
  obtain ⟨c1, c2, c3, c4, c5⟩ := assignParamRows_counters R (net.layers.take k) {}
  have z1 : ({} : RowCounters).table_id = 0 := rfl
  have z2 : ({} : RowCounters).local_store_row_id = 0 := rfl
  have z3 : ({} : RowCounters).global_param_id = 0 := rfl
  rw [z1, Nat.zero_add] at c2
  rw [z2, Nat.zero_add] at c4
  rw [z3, Nat.zero_add] at c5
  have c3' := c3 rfl
  constructor
  · intro hb
    have hp : 0 < layer.blobs.length := List.length_pos.2 hb
    have e := paramRowsStep_rowPart R (assignParamRows R (net.layers.take k) {}).2 layer hp
    have e' : rowPart li = rowPart
        { table_id := (assignParamRows R (net.layers.take k) {}).2.table_id
          row_ids := List.range' (assignParamRows R (net.layers.take k) {}).2.row_id
            (stageRows R layer)
          history_data_row_ids :=
            List.range' (assignParamRows R (net.layers.take k) {}).2.local_store_row_id
              (stageRows R layer)
          num_vals := layer.blobs.sum
          param_infos := (assignParams layer.blobs 0
            (assignParamRows R (net.layers.take k) {}).2.global_param_id).1 } :=
      hr.trans e
    obtain ⟨f1, f2, f3, f4, f5⟩ := rowPart_fields _ _ e'
    simp only [c2, c3', c4, c5] at f1 f2 f3 f4 f5
    exact ⟨f1, f2, f3, f4, f5⟩
  · intro hb
    have hp : ¬ 0 < layer.blobs.length := by simp [hb]
    have e := paramRowsStep_rowPart_none R (assignParamRows R (net.layers.take k) {}).2
      layer hp
    have e' : rowPart li = rowPart {} := hr.trans e
    obtain ⟨-, f2, f3, f4, f5⟩ := rowPart_fields _ _ e'
    exact ⟨f2, f3, f4, f5⟩

theorem InitPs_imb_rows (R : Nat) (alloc : HandleAlloc) (cfg : PsConfig) (net : Net)
    (s : Solver) (hno : cfg.no_ps = false) (h : (InitPs R alloc cfg net).outcome = .ok s)
    (i : Nat) :
    (s.imb_data_infos_[i]?.map rowsOnly = net.blobs[i]?.map (fun c =>
      (List.range' ((net.layers.map (stageRows R)).sum +
        ((net.blobs.take i).map (imbRows R)).sum) (imbRows R c), c))) ∧
    (s.imb_diff_infos_[i]?.map rowsOnly = net.blobs[i]?.map (fun c =>
      (List.range' ((net.layers.map (stageRows R)).sum + (net.blobs.map (imbRows R)).sum +
        ((net.blobs.take i).map (imbRows R)).sum) (imbRows R c), c))) := by
  obtain ⟨-, d, g⟩ := InitPs_rows R alloc cfg net s hno h
  obtain ⟨a1, a2, -⟩ := assignImbRows_spec R net.blobs (net.layers.map (stageRows R)).sum
  obtain ⟨-, b2, -⟩ := assignImbRows_spec R net.blobs
    (assignImbRows R net.blobs (net.layers.map (stageRows R)).sum).2
  constructor
  · rw [← List.getElem?_map, d, a2]
  · rw [← List.getElem?_map, g, b2, a1]

/-- Claim C11. With a positive row capacity, after `InitPs` every stage with parameters
has `ceil(num_vals / ROW_DATA_SIZE)` table rows and as many history rows, `num_vals` being
the sum of the element counts of its parameters, and every intermediate buffer has
`ceil(count / ROW_DATA_SIZE)` data rows and as many gradient rows: the rows hold the
elements, and with one row less they would not. -/
theorem C11_row_counts_are_ceilings (R : Nat) (alloc : HandleAlloc) (cfg : PsConfig)
    (net : Net) (s : Solver) (hR : 0 < R) (hno : cfg.no_ps = false)
    (h : (InitPs R alloc cfg net).outcome = .ok s) :
    (∀ (k : Nat) (layer : Layer) (li : LayerInfo),
      net.layers[k]? = some layer → s.layer_infos_[k]? = some li → layer.blobs ≠ [] →
      li.num_vals = layer.blobs.sum ∧
      IsCeil R li.num_vals li.row_ids.length ∧
      li.history_data_row_ids.length = li.row_ids.length ∧
      (0 < li.num_vals → (li.row_ids.length - 1) * R < li.num_vals)) ∧
    (∀ (i count : Nat) (d g : RowAccessInfo),
      net.blobs[i]? = some count → s.imb_data_infos_[i]? = some d →
      s.imb_diff_infos_[i]? = some g →
      d.num_vals = count ∧ g.num_vals = count ∧
      IsCeil R count d.row_ids.length ∧
      g.row_ids.length = d.row_ids.length ∧
      (0 < count → (d.row_ids.length - 1) * R < count)) := by
  constructor
  · intro k layer li hk hli hb
    obtain ⟨-, f2, f3, f4, -⟩ := (InitPs_stage_rows R alloc cfg net s hno h k layer li hk hli).1 hb
    have hp : 0 < layer.blobs.length := List.length_pos.2 hb
    have hrows : stageRows R layer = (layer.blobs.sum + R - 1) / R := by
      simp [stageRows, hp]
    obtain ⟨q1, q2⟩ := ceil_formula R layer.blobs.sum hR
    rw [f2, f3, f4, List.length_range', List.length_range', hrows]
    exact ⟨rfl, q1, rfl, q2⟩
  · intro i count d g hc hd hg
    obtain ⟨e1, e2⟩ := InitPs_imb_rows R alloc cfg net s hno h i
    rw [hd, hc] at e1
    rw [hg, hc] at e2
    simp only [Option.map_some', Option.some.injEq, rowsOnly, Prod.mk.injEq] at e1 e2
    obtain ⟨q1, q2⟩ := ceil_formula R count hR
    rw [e1.1, e2.1, e1.2, e2.2, List.length_range', List.length_range']
    exact ⟨rfl, rfl, q1, rfl, q2⟩

/-- Claim C11 on the scenario graph with rows of 4 elements: buffer 0 has 8 elements and
2 rows, and the stage with parameters (6 + 2 elements) has 2 rows. -/
theorem C11_row_counts_are_ceilings_witness :
    IsCeil 4 8 (layerAt (InitPs 4 countingAlloc {} scenarioNet).solver 1).row_ids.length ∧
    (layerAt (InitPs 4 countingAlloc {} scenarioNet).solver 1).row_ids.length = 2 :=
  ⟨((C11_row_counts_are_ceilings 4 countingAlloc {} scenarioNet
      (InitPs 4 countingAlloc {} scenarioNet).solver (by decide) rfl rfl).1 1 _ _ rfl rfl
        (by decide)).2.1, by decide⟩

theorem InitPs_rowParts (R : Nat) (alloc : HandleAlloc) (cfg : PsConfig) (net : Net)
    (s : Solver) (hno : cfg.no_ps = false) (h : (InitPs R alloc cfg net).outcome = .ok s) :
    s.layer_infos_.map rowPart = (assignParamRows R net.layers {}).1.map rowPart := by
  have hlen := InitPs_length R alloc cfg net s hno h
  have hr := (InitPs_rows R alloc cfg net s hno h).1
  apply List.ext_getElem?
  intro k
  simp only [List.getElem?_map, assignParamRows_getElem?]
  by_cases hk : k < net.layers.length
  · have hk' : k < s.layer_infos_.length := by rw [hlen]; exact hk
    have e := hr k _ (List.getElem?_eq_getElem hk)
    rw [layerAt_of_getElem? s k _ (List.getElem?_eq_getElem hk')] at e
    simp only [List.getElem?_eq_getElem hk, List.getElem?_eq_getElem hk', Option.map_some', e]
  · have hk' : ¬ k < s.layer_infos_.length := by rw [hlen]; exact hk
    simp [List.getElem?_eq_none (Nat.le_of_not_lt hk),
      List.getElem?_eq_none (Nat.le_of_not_lt hk')]

theorem localGroups_flatten (R : Nat) (alloc : HandleAlloc) (cfg : PsConfig) (net : Net)
    (s : Solver) (hno : cfg.no_ps = false) (h : (InitPs R alloc cfg net).outcome = .ok s) :
    (localGroups s).flatten = List.range'  0
      ((net.layers.map (stageRows R)).sum + (net.blobs.map (imbRows R)).sum +
        (net.blobs.map (imbRows R)).sum) := by
  obtain ⟨-, d, g⟩ := InitPs_rows R alloc cfg net s hno h
  have hp := InitPs_rowParts R alloc cfg net s hno h
  obtain ⟨a1, -, a3⟩ := assignImbRows_spec R net.blobs (net.layers.map (stageRows R)).sum
  obtain ⟨-, -, b3⟩ := assignImbRows_spec R net.blobs
    (assignImbRows R net.blobs (net.layers.map (stageRows R)).sum).2
  have e1 : s.layer_infos_.map LayerInfo.history_data_row_ids =
      (assignParamRows R net.layers {}).1.map (fun li => (rowPart li).history_data_row_ids) := by
    have := congrArg (List.map LayerInfo.history_data_row_ids) hp
    simpa [List.map_map, Function.comp_def, rowPart] using this
  have e2 : s.imb_data_infos_.map RowAccessInfo.row_ids =
      (assignImbRows R net.blobs (net.layers.map (stageRows R)).sum).1.map
        RowAccessInfo.row_ids := by
    have := congrArg (List.map Prod.fst) d
    simpa [List.map_map, Function.comp_def, rowsOnly] using this
  have e3 : s.imb_diff_infos_.map RowAccessInfo.row_ids =
      (assignImbRows R net.blobs
        (assignImbRows R net.blobs (net.layers.map (stageRows R)).sum).2).1.map
        RowAccessInfo.row_ids := by
    have := congrArg (List.map Prod.fst) g
    simpa [List.map_map, Function.comp_def, rowsOnly] using this
  have z : ({} : RowCounters).local_store_row_id = 0 := rfl
  rw [a1] at b3
  simp only [localGroups, List.flatten_append, e1, e2, e3, a3, b3, history_flatten, a1, z]
  have r1 : List.range' 0 (net.layers.map (stageRows R)).sum ++
      List.range' (net.layers.map (stageRows R)).sum (net.blobs.map (imbRows R)).sum =
      List.range' 0 ((net.layers.map (stageRows R)).sum +
        (net.blobs.map (imbRows R)).sum) := by
    have := List.range'_append 0 (net.layers.map (stageRows R)).sum
      (net.blobs.map (imbRows R)).sum 1
    rw [Nat.one_mul, Nat.zero_add] at this
    rw [this, Nat.add_comm]
  have r2 : List.range' 0 ((net.layers.map (stageRows R)).sum +
        (net.blobs.map (imbRows R)).sum) ++
      List.range' ((net.layers.map (stageRows R)).sum + (net.blobs.map (imbRows R)).sum)
        (net.blobs.map (imbRows R)).sum =
      List.range' 0 ((net.layers.map (stageRows R)).sum +
        (net.blobs.map (imbRows R)).sum + (net.blobs.map (imbRows R)).sum) := by
    have := List.range'_append 0
      ((net.layers.map (stageRows R)).sum + (net.blobs.map (imbRows R)).sum)
      (net.blobs.map (imbRows R)).sum 1
    rw [Nat.one_mul, Nat.zero_add] at this
    rw [this, Nat.add_comm]
  rw [r1, r2]

theorem sum_take_succ_le (l : List Nat) (i c : Nat) (h : l[i]? = some c) :
    (l.take i).sum + c ≤ l.sum := by
  have e := List.sum_take_add_sum_drop l (i + 1)
  rw [List.take_succ, h] at e
  simp only [Option.toList_some, List.sum_append, List.sum_cons, List.sum_nil] at e
  omega

/-- Claim C15. After `InitPs` the rows of the local store are assigned without gap or
overlap: the groups (history rows of each stage, data rows and gradient rows of each
intermediate buffer), one after the other, are exactly the rows `0 .. T - 1`, `T` being
the sum of their row counts; every group is a run of consecutive rows, two different
groups have no row in common, and the data rows and the gradient rows of a buffer never
coincide. -/
theorem C15_local_rows_are_disjoint (R : Nat) (alloc : HandleAlloc) (cfg : PsConfig)
    (net : Net) (s : Solver) (hno : cfg.no_ps = false)
    (h : (InitPs R alloc cfg net).outcome = .ok s) :
    (localGroups s).flatten = List.range ((localGroups s).map List.length).sum ∧
    (∀ g ∈ localGroups s, ∃ a, g = List.range' a g.length) ∧
    (localGroups s).Pairwise List.Disjoint ∧
    (∀ (i : Nat) (d g : RowAccessInfo), s.imb_data_infos_[i]? = some d →
      s.imb_diff_infos_[i]? = some g → List.Disjoint d.row_ids g.row_ids) := by
  have hf := localGroups_flatten R alloc cfg net s hno h
  have hlen : ((localGroups s).map List.length).sum =
      (net.layers.map (stageRows R)).sum + (net.blobs.map (imbRows R)).sum +
        (net.blobs.map (imbRows R)).sum := by
    rw [← List.length_flatten, hf, List.length_range']
  have hnd : (localGroups s).flatten.Nodup := by
    rw [hf]; exact List.nodup_range' _ _
  refine ⟨by rw [hlen, hf, List.range_eq_range'], ?_, (List.nodup_flatten.1 hnd).2, ?_⟩
  · intro g hg
    simp only [localGroups, List.mem_append, List.mem_map] at hg
    rcases hg with (⟨li, hli, rfl⟩ | ⟨d, hd, rfl⟩) | ⟨d, hd, rfl⟩
    · obtain ⟨k, hk, rfl⟩ := List.getElem_of_mem hli
      have hn := InitPs_length R alloc cfg net s hno h
      have hk' : k < net.layers.length := by rw [← hn]; exact hk
      have e := InitPs_stage_rows R alloc cfg net s hno h k _ _
        (List.getElem?_eq_getElem hk') (List.getElem?_eq_getElem hk)
      by_cases hb : net.layers[k].blobs = []
      · exact ⟨0, by rw [(e.2 hb).2.1]; rfl⟩
      · rw [(e.1 hb).2.2.1]
        exact ⟨_, by rw [List.length_range']⟩
    · obtain ⟨i, hi, rfl⟩ := List.getElem_of_mem hd
      have e := (InitPs_imb_rows R alloc cfg net s hno h i).1
      rw [List.getElem?_eq_getElem hi] at e
      cases hc : net.blobs[i]? with
      | none => rw [hc] at e; cases e
      | some c =>
        rw [hc] at e
        simp only [Option.map_some', Option.some.injEq, rowsOnly, Prod.mk.injEq] at e
        rw [e.1]
        exact ⟨_, by rw [List.length_range']⟩
    · obtain ⟨i, hi, rfl⟩ := List.getElem_of_mem hd
      have e := (InitPs_imb_rows R alloc cfg net s hno h i).2
      rw [List.getElem?_eq_getElem hi] at e
      cases hc : net.blobs[i]? with
      | none => rw [hc] at e; cases e
      | some c =>
        rw [hc] at e
        simp only [Option.map_some', Option.some.injEq, rowsOnly, Prod.mk.injEq] at e
        rw [e.1]
        exact ⟨_, by rw [List.length_range']⟩
  · intro i d g hd hg
    obtain ⟨e1, e2⟩ := InitPs_imb_rows R alloc cfg net s hno h i
    rw [hd] at e1
    rw [hg] at e2
    cases hc : net.blobs[i]? with
    | none => rw [hc] at e1; cases e1
    | some c =>
      rw [hc] at e1 e2
      simp only [Option.map_some', Option.some.injEq, rowsOnly, Prod.mk.injEq] at e1 e2
      have hle := sum_take_succ_le (net.blobs.map (imbRows R)) i (imbRows R c)
        (by simp [List.getElem?_map, hc])
      rw [← List.map_take] at hle
      intro x hx hy
      rw [e1.1, List.mem_range'] at hx
      rw [e2.1, List.mem_range'] at hy
      obtain ⟨a, ha, rfl⟩ := hx
      obtain ⟨b, hb, hab⟩ := hy
      omega

/-- Claim C15 on the scenario graph with rows of 4 elements: 2 history rows, 5 data rows
and 5 gradient rows are the rows 0 to 11. -/
theorem C15_local_rows_are_disjoint_witness :
    (localGroups (InitPs 4 countingAlloc {} scenarioNet).solver).flatten = List.range 12 :=
  (C15_local_rows_are_disjoint 4 countingAlloc {} scenarioNet
    (InitPs 4 countingAlloc {} scenarioNet).solver rfl rfl).1.trans (by decide)

theorem take_lt_split {α : Type} (l : List α) (j j' : Nat) (c : α) (h : j < j')
    (hc : l[j]? = some c) : ∃ rest, l.take j' = l.take j ++ c :: rest := by
  obtain ⟨d, rfl⟩ : ∃ d, j' = (j + 1) + d := ⟨j' - (j + 1), by omega⟩
  rw [List.take_add, List.take_succ, hc]
  exact ⟨List.take d (List.drop (j + 1) l), by simp⟩

theorem table_lt_of_lt (layers : List Layer) (k k' : Nat) (layer : Layer) (h : k < k')
    (hk : layers[k]? = some layer) (hp : layer.blobs ≠ []) :
    ((layers.take k).filter hasParams).length < ((layers.take k').filter hasParams).length := by
  obtain ⟨rest, e⟩ := take_lt_split layers k k' layer h hk
  have hf : hasParams layer = true := by
    simp [hasParams, List.length_pos.2 hp]
  rw [e]
  simp only [List.filter_append, List.filter_cons, hf, if_true, List.length_append,
    List.length_cons]
  omega

theorem offset_lt_of_lt (blobs : List Nat) (j j' c : Nat) (h : j < j')
    (hc : blobs[j]? = some c) : (blobs.take j).sum + c ≤ (blobs.take j').sum := by
  obtain ⟨rest, e⟩ := take_lt_split blobs j j' c h hc
  rw [e]
  simp only [List.sum_append, List.sum_cons]
  omega

theorem paramTriple_eq (R : Nat) (alloc : HandleAlloc) (cfg : PsConfig) (net : Net)
    (s : Solver) (hR : 0 < R) (hno : cfg.no_ps = false)
    (h : (InitPs R alloc cfg net).outcome = .ok s)
    (k j i : Nat) (layer : Layer) (count : Nat) (hk : net.layers[k]? = some layer)
    (hj : layer.blobs[j]? = some count) (hi : i < count) :
    (layer.blobs.take j).sum + count ≤ layer.blobs.sum ∧
    ((layer.blobs.take j).sum + i) / R < stageRows R layer ∧
    paramTriple R s k j i =
      some (((net.layers.take k).filter hasParams).length,
        ((layer.blobs.take j).sum + i) / R, ((layer.blobs.take j).sum + i) % R) := by
  have hlen := InitPs_length R alloc cfg net s hno h
  have hlt : k < net.layers.length := (List.getElem?_eq_some_iff.1 hk).1
  have hjl : j < layer.blobs.length := (List.getElem?_eq_some_iff.1 hj).1
  have hb : layer.blobs ≠ [] := by
    intro hb; rw [hb] at hjl; simp at hjl
  have hk' : k < s.layer_infos_.length := by rw [hlen]; exact hlt
  obtain ⟨f1, f2, -, f4, f5⟩ := (InitPs_stage_rows R alloc cfg net s hno h k layer _ hk
    (List.getElem?_eq_getElem hk')).1 hb
  have hsum := sum_take_succ_le layer.blobs j count hj
  have hp : 0 < layer.blobs.length := List.length_pos.2 hb
  have hrows : stageRows R layer = (layer.blobs.sum + R - 1) / R := by
    simp [stageRows, hp]
  have hq : ((layer.blobs.take j).sum + i) / R < stageRows R layer := by
    rw [hrows]
    have h1 : ((layer.blobs.take j).sum + i + R) / R ≤ (layer.blobs.sum + R - 1) / R :=
      Nat.div_le_div_right (by omega)
    rw [Nat.add_div_right _ hR] at h1
    omega
  refine ⟨hsum, hq, ?_⟩
  have hpi := (assignParams_spec layer.blobs 0
    ((net.layers.take k).map (fun l => l.blobs.length)).sum).2.2.2 j hjl
  unfold paramTriple
  rw [List.getElem?_eq_getElem hk']
  simp only [f5, hpi, f2, f1, Nat.zero_add, List.getElem?_range' 0 1 hq, Nat.one_mul]

/-- Claim C13. With a positive row capacity, after `InitPs` the mapping of the elements of
the parameters to (table, row, offset) triples is well defined, every parameter lying
within the element count of its stage and every element within the rows of its stage, and
it sends different elements, of the same or of different parameters and stages, to
different triples. -/
theorem C13_parameter_elements_map_injectively (R : Nat) (alloc : HandleAlloc)
    (cfg : PsConfig) (net : Net) (s : Solver) (hR : 0 < R) (hno : cfg.no_ps = false)
    (h : (InitPs R alloc cfg net).outcome = .ok s) :
    (∀ (k j : Nat) (layer : Layer) (count : Nat) (li : LayerInfo) (p : ParamInfo),
      net.layers[k]? = some layer → layer.blobs[j]? = some count →
      s.layer_infos_[k]? = some li → li.param_infos[j]? = some p →
      p.val_offset + count ≤ li.num_vals ∧
      ∀ i, i < count → (p.val_offset + i) / R < li.row_ids.length) ∧
    (∀ k j i, IsParamElement net k j i → ∃ t, paramTriple R s k j i = some t) ∧
    (∀ k j i k' j' i', IsParamElement net k j i → IsParamElement net k' j' i' →
      paramTriple R s k j i = paramTriple R s k' j' i' → k = k' ∧ j = j' ∧ i = i') := by
  refine ⟨?_, ?_, ?_⟩
  · intro k j layer count li p hk hj hli hp
    have hjl : j < layer.blobs.length := (List.getElem?_eq_some_iff.1 hj).1
    have hb : layer.blobs ≠ [] := by
      intro hb; rw [hb] at hjl; simp at hjl
    obtain ⟨-, f2, -, f4, f5⟩ := (InitPs_stage_rows R alloc cfg net s hno h k layer li hk
      hli).1 hb
    have hpi := (assignParams_spec layer.blobs 0
      ((net.layers.take k).map (fun l => l.blobs.length)).sum).2.2.2 j hjl
    rw [f5, hpi] at hp
    simp only [Option.some.injEq] at hp
    subst hp
    simp only [Nat.zero_add, f4, f2, List.length_range']
    refine ⟨sum_take_succ_le layer.blobs j count hj, ?_⟩
    intro i hi
    exact (paramTriple_eq R alloc cfg net s hR hno h k j i layer count hk hj hi).2.1
  · rintro k j i ⟨layer, count, hk, hj, hi⟩
    exact ⟨_, (paramTriple_eq R alloc cfg net s hR hno h k j i layer count hk hj hi).2.2⟩
  · rintro k j i k' j' i' ⟨layer, count, hk, hj, hi⟩ ⟨layer', count', hk', hj', hi'⟩ heq
    rw [(paramTriple_eq R alloc cfg net s hR hno h k j i layer count hk hj hi).2.2,
      (paramTriple_eq R alloc cfg net s hR hno h k' j' i' layer' count' hk' hj' hi').2.2]
      at heq
    simp only [Option.some.injEq, Prod.mk.injEq] at heq
    obtain ⟨ht, hq, hm⟩ := heq
    have hb : layer.blobs ≠ [] := by
      intro hb; rw [hb] at hj; simp at hj
    have hb' : layer'.blobs ≠ [] := by
      intro hb; rw [hb] at hj'; simp at hj'
    have hkk : k = k' := by
      rcases Nat.lt_trichotomy k k' with hlt | heq | hgt
      · have := table_lt_of_lt net.layers k k' layer hlt hk hb
        omega
      · exact heq
      · have := table_lt_of_lt net.layers k' k layer' hgt hk' hb'
        omega
    subst hkk
    rw [hk] at hk'
    simp only [Option.some.injEq] at hk'
    subst hk'
    have he : (layer.blobs.take j).sum + i = (layer.blobs.take j').sum + i' := by
      rw [← Nat.div_add_mod ((layer.blobs.take j).sum + i) R,
        ← Nat.div_add_mod ((layer.blobs.take j').sum + i') R, hq, hm]
    have hjj : j = j' := by
      rcases Nat.lt_trichotomy j j' with hlt | heq | hgt
      · have := offset_lt_of_lt layer.blobs j j' count hlt hj
        omega
      · exact heq
      · have := offset_lt_of_lt layer.blobs j' j count' hgt hj'
        omega
    subst hjj
    exact ⟨rfl, rfl, by omega⟩

/-- Claim C13 on the scenario graph with rows of 4 elements: element 0 of the second
parameter of stage 1 lies at offset 2 of row 1 of table 0. -/
theorem C13_parameter_elements_map_injectively_witness :
    ∃ t, paramTriple 4 (InitPs 4 countingAlloc {} scenarioNet).solver 1 1 0 = some t :=
  (C13_parameter_elements_map_injectively 4 countingAlloc {} scenarioNet
    (InitPs 4 countingAlloc {} scenarioNet).solver (by decide) rfl rfl).2.1 1 1 0
      ⟨_, 2, rfl, rfl, by decide⟩

theorem handlesAt_set (l : List LayerInfo) (k b : Nat) (li : LayerInfo)
    (lh0 lh : LayerHandles) (hk : l[k]? = some li) (hb : li.layer_handles[b]? = some lh0)
    (k' b' : Nat) :
    handlesAt (l.set k { li with layer_handles := li.layer_handles.set b lh }) k' b' =
      if k' = k ∧ b' = b then some (li.param_infos.length, lh) else handlesAt l k' b' := by
  have hlt : k < l.length := (List.getElem?_eq_some_iff.1 hk).1
  have hlb : b < li.layer_handles.length := (List.getElem?_eq_some_iff.1 hb).1
  unfold handlesAt
  by_cases hk' : k' = k
  · subst hk'
    by_cases hb' : b' = b
    · subst hb'
      simp [List.getElem?_set, hlt, hlb]
    · have hb'' : ¬ b = b' := fun e => hb' e.symm
      simp [List.getElem?_set, hlt, hb', hb'', hk]
  · have hk'' : ¬ k = k' := fun e => hk' e.symm
    simp [List.getElem?_set, hk', hk'']

theorem map_set_same {α β : Type} (f : α → β) (l : List α) (i : Nat) (a b : α)
    (h : l[i]? = some b) (hf : f a = f b) : (l.set i a).map f = l.map f := by
  rw [List.map_set, hf]
  apply set_self
  simp [List.getElem?_map, h]

theorem handlesAt_none_shape (b : Nat) (li : LayerInfo)
    (hb : li.layer_handles[b]? = none) :
    ¬ b < (staticPart li).layer_handles.length := by
  simp only [staticPart, List.length_map]
  intro hlt
  rw [List.getElem?_eq_getElem hlt] at hb
  cases hb

theorem virtualForwardLayer_spec (alloc : HandleAlloc) (cfg : PsConfig) (nb : List Bool)
    (b k : Nat) (st : List LayerInfo × List PsOp) :
    StepSpec cfg nb (.forward b k) st (virtualForwardLayer alloc cfg b st k) := by
  unfold virtualForwardLayer
  split
  · rename_i hli
    exact ⟨[], by simp, by simp [siteOps, handlesAt, hli],
      by simp [siteShape, List.getElem?_map, hli], fun _ _ => rfl, rfl⟩
  · rename_i li hli
    split
    · rename_i hlh
      have := handlesAt_none_shape b li hlh
      exact ⟨[], by simp, by simp [siteOps, handlesAt, hli, hlh],
        by simp [siteShape, List.getElem?_map, hli, this], fun _ _ => rfl, rfl⟩
    · rename_i lh hlh
      have hlb : b < li.layer_handles.length := (List.getElem?_eq_some_iff.1 hlh).1
      split
      · rename_i hp
        refine ⟨_, by simp only [register, List.append_assoc]; rfl, ?_, ?_, ?_, ?_⟩
        · simp [siteOps, handlesAt_set st.1 k b li lh _ hli hlh, hp, forwardOps,
            counterpart, realCall, register]
        · simp [siteShape, List.getElem?_map, hli, staticPart, hlb, hp, forwardShape,
            eraseHandles, eraseCall]
        · intro σ' hσ
          cases σ' with
          | global => rfl
          | initial _ => rfl
          | forward b' k' =>
            have : ¬ (k' = k ∧ b' = b) := by
              rintro ⟨rfl, rfl⟩; exact hσ rfl
            simp [siteOps, handlesAt_set st.1 k b li lh _ hli hlh, this]
          | backward b' k' =>
            simp only [siteOps, handlesAt_set st.1 k b li lh _ hli hlh]
            by_cases hc : k' = k ∧ b' = b
            · obtain ⟨rfl, rfl⟩ := hc
              simp [handlesAt, hli, hlh, backwardOps]
            · simp [hc]
        · apply map_set_same staticPart _ _ _ _ hli
          simp only [staticPart, LayerInfo.mk.injEq, true_and, and_true]
          rw [List.map_set]
          exact set_self _ _ _ (by simp [List.getElem?_map, hlh, slotFrame])
      · rename_i hp
        have hp' : li.param_infos = [] := by simpa using hp
        exact ⟨[], by simp, by simp [siteOps, handlesAt, hli, hlh, hp],
          by simp [siteShape, List.getElem?_map, hli, staticPart, hp'], fun _ _ => rfl, rfl⟩

theorem virtualBackwardLayer_spec (alloc : HandleAlloc) (cfg : PsConfig) (nb : List Bool)
    (b k : Nat) (st : List LayerInfo × List PsOp) :
    StepSpec cfg nb (.backward b k) st (virtualBackwardLayer alloc cfg nb b st k) := by
  unfold virtualBackwardLayer
  split
  · rename_i hnb
    have hnb' : nb[k]?.getD false = false := by simpa using hnb
    exact ⟨[], by simp, by simp [siteOps, hnb'], by simp [siteShape, hnb'],
      fun _ _ => rfl, rfl⟩
  · rename_i hnb
    have hnb' : nb[k]?.getD false = true := by simpa using hnb
    split
    · rename_i hli
      exact ⟨[], by simp, by simp [siteOps, handlesAt, hli],
        by simp [siteShape, List.getElem?_map, hli], fun _ _ => rfl, rfl⟩
    · rename_i li hli
      split
      · rename_i hlh
        have := handlesAt_none_shape b li hlh
        exact ⟨[], by simp, by simp [siteOps, handlesAt, hli, hlh],
          by simp [siteShape, List.getElem?_map, hli, this], fun _ _ => rfl, rfl⟩
      · rename_i lh hlh
        have hlb : b < li.layer_handles.length := (List.getElem?_eq_some_iff.1 hlh).1
        split
        · rename_i hp
          refine ⟨_, by simp only [register, List.append_assoc]; rfl, ?_, ?_, ?_, ?_⟩
          · simp [siteOps, handlesAt_set st.1 k b li lh _ hli hlh, hp, backwardOps,
              counterpart, realCall, register, hnb']
          · simp [siteShape, List.getElem?_map, hli, staticPart, hlb, hp, backwardShape,
              eraseHandles, eraseCall, hnb']
          · intro σ' hσ
            cases σ' with
            | global => rfl
            | initial _ => rfl
            | backward b' k' =>
              have : ¬ (k' = k ∧ b' = b) := by
                rintro ⟨rfl, rfl⟩; exact hσ rfl
              simp [siteOps, handlesAt_set st.1 k b li lh _ hli hlh, this]
            | forward b' k' =>
              simp only [siteOps, handlesAt_set st.1 k b li lh _ hli hlh]
              by_cases hc : k' = k ∧ b' = b
              · obtain ⟨rfl, rfl⟩ := hc
                simp [handlesAt, hli, hlh, forwardOps]
              · simp [hc]
          · apply map_set_same staticPart _ _ _ _ hli
            simp only [staticPart, LayerInfo.mk.injEq, true_and, and_true]
            rw [List.map_set]
            exact set_self _ _ _ (by simp [List.getElem?_map, hlh, slotFrame])
        · rename_i hp
          have hp' : li.param_infos = [] := by simpa using hp
          exact ⟨[], by simp, by simp [siteOps, handlesAt, hli, hlh, hp],
            by simp [siteShape, List.getElem?_map, hli, staticPart, hp'],
            fun _ _ => rfl, rfl⟩

theorem virtualStep_spec (alloc : HandleAlloc) (cfg : PsConfig) (nb : List Bool)
    (σ : Site) (st : List LayerInfo × List PsOp) :
    StepSpec cfg nb σ st (virtualStep alloc cfg nb st σ) := by
  cases σ with
  | global => exact ⟨[], by simp [virtualStep], rfl, rfl, fun _ _ => rfl, rfl⟩
  | initial _ => exact ⟨[], by simp [virtualStep], rfl, rfl, fun _ _ => rfl, rfl⟩
  | forward b k => exact virtualForwardLayer_spec alloc cfg nb b k st
  | backward b k => exact virtualBackwardLayer_spec alloc cfg nb b k st

theorem virtualFold_spec (alloc : HandleAlloc) (cfg : PsConfig) (nb : List Bool)
    (sites : List Site) (hnd : sites.Nodup) (st : List LayerInfo × List PsOp) :
    ∃ ops, (sites.foldl (virtualStep alloc cfg nb) st).2 = st.2 ++ ops ∧
      ops.map counterpart =
        sites.flatMap (siteOps (sites.foldl (virtualStep alloc cfg nb) st).1 nb) ∧
      ops.map eraseHandles = sites.flatMap (siteShape cfg (st.1.map staticPart) nb) ∧
      (∀ σ, σ ∉ sites → siteOps (sites.foldl (virtualStep alloc cfg nb) st).1 nb σ =
        siteOps st.1 nb σ) ∧
      (sites.foldl (virtualStep alloc cfg nb) st).1.map staticPart = st.1.map staticPart := by
  induction sites generalizing st with
  | nil => exact ⟨[], by simp, rfl, rfl, fun _ _ => rfl, rfl⟩
  | cons σ rest ih =>
    obtain ⟨hσ, hrest⟩ := List.nodup_cons.1 hnd
    obtain ⟨ops1, a1, a2, a3, a4, a5⟩ := virtualStep_spec alloc cfg nb σ st
    obtain ⟨ops2, b1, b2, b3, b4, b5⟩ := ih hrest (virtualStep alloc cfg nb st σ)
    simp only [List.foldl_cons]
    refine ⟨ops1 ++ ops2, ?_, ?_, ?_, ?_, ?_⟩
    · rw [b1, a1, List.append_assoc]
    · rw [List.map_append, List.flatMap_cons, b2, b4 σ hσ, a2]
    · rw [List.map_append, List.flatMap_cons, b3, a5, a3]
    · intro σ' hσ'
      have h1 : σ' ≠ σ := fun e => hσ' (by rw [e]; exact List.mem_cons_self _ _)
      have h2 : σ' ∉ rest := fun e => hσ' (List.mem_cons_of_mem _ e)
      rw [b4 σ' h2, a4 σ' h1]
    · rw [b5, a5]

theorem foldl_flatMap {α β σ : Type} (l : List α) (f : α → List β) (g : σ → β → σ)
    (init : σ) :
    (l.flatMap f).foldl g init = l.foldl (fun acc a => (f a).foldl g acc) init := by
  induction l generalizing init with
  | nil => rfl
  | cons a l ih => rw [List.flatMap_cons, List.foldl_append, ih, List.foldl_cons]

theorem foldl_congr_inv {σ ι : Type} (Inv : σ → Prop) (f g : σ → ι → σ)
    (hf : ∀ st i, Inv st → Inv (f st i)) (hfg : ∀ st i, Inv st → f st i = g st i)
    (l : List ι) (st : σ) (h : Inv st) : l.foldl f st = l.foldl g st := by
  induction l generalizing st with
  | nil => rfl
  | cons i l ih =>
    rw [List.foldl_cons, List.foldl_cons, ← hfg st i h]
    exact ih (f st i) (hf st i h)

theorem virtualFold_length (alloc : HandleAlloc) (cfg : PsConfig) (nb : List Bool)
    (sites : List Site) (st : List LayerInfo × List PsOp) :
    (sites.foldl (virtualStep alloc cfg nb) st).1.length = st.1.length := by
  have key := foldl_invariant (fun (x : List LayerInfo × List PsOp) => x.1.length = st.1.length)
    (virtualStep alloc cfg nb) (by
      intro x σ hx
      obtain ⟨_, -, -, -, -, e⟩ := virtualStep_spec alloc cfg nb σ x
      have := congrArg List.length e
      simp only [List.length_map] at this
      rw [this, hx]) sites st rfl
  exact key

theorem virtualBatch_eq (alloc : HandleAlloc) (cfg : PsConfig) (nb : List Bool)
    (st : List LayerInfo × List PsOp) (b : Nat) :
    virtualBatch alloc cfg nb st b =
      (batchSites st.1.length b).foldl (virtualStep alloc cfg nb) st := by
  unfold virtualBatch batchSites
  rw [List.foldl_append, List.foldl_map, List.foldl_map]
  have hlen : ((List.range st.1.length).foldl (virtualForwardLayer alloc cfg b) st).1.length =
      st.1.length := by
    have := virtualFold_length alloc cfg nb ((List.range st.1.length).map (Site.forward b)) st
    rw [List.foldl_map] at this
    exact this
  simp only [hlen]
  rfl

theorem virtualIteration_eq (alloc : HandleAlloc) (cfg : PsConfig) (nb : List Bool)
    (st : List LayerInfo × List PsOp) :
    virtualIteration alloc cfg nb st =
      (((slotSites st.1.length cfg.batches_per_clock).foldl (virtualStep alloc cfg nb) st).1,
        ((slotSites st.1.length cfg.batches_per_clock).foldl (virtualStep alloc cfg nb) st).2 ++
          [{ site := .global, call := .virtual_clock },
           { site := .global, call := .finish_virtual_iteration }]) := by
  unfold virtualIteration slotSites
  rw [foldl_flatMap]
  have : (List.range cfg.batches_per_clock).foldl (virtualBatch alloc cfg nb) st =
      (List.range cfg.batches_per_clock).foldl
        (fun acc b => (batchSites st.1.length b).foldl (virtualStep alloc cfg nb) acc) st := by
    exact foldl_congr_inv (fun (x : List LayerInfo × List PsOp) => x.1.length = st.1.length)
      _ _ (by
        intro x b hx
        show (virtualBatch alloc cfg nb x b).1.length = st.1.length
        rw [virtualBatch_eq, virtualFold_length, hx]) (by
        intro x b hx
        show virtualBatch alloc cfg nb x b = _
        rw [virtualBatch_eq, hx]) _ st rfl
  simp only [this]

theorem mem_batchSites (n b : Nat) (σ : Site) :
    σ ∈ batchSites n b ↔ ∃ k, k < n ∧ (σ = .forward b k ∨ σ = .backward b k) := by
  unfold batchSites
  simp only [List.mem_append, List.mem_map, List.mem_range, List.mem_reverse]
  constructor
  · rintro (⟨k, hk, rfl⟩ | ⟨k, hk, rfl⟩)
    · exact ⟨k, hk, Or.inl rfl⟩
    · exact ⟨k, hk, Or.inr rfl⟩
  · rintro ⟨k, hk, rfl | rfl⟩
    · exact Or.inl ⟨k, hk, rfl⟩
    · exact Or.inr ⟨k, hk, rfl⟩

theorem mem_slotSites (n B : Nat) (σ : Site) :
    σ ∈ slotSites n B ↔ ∃ b k, b < B ∧ k < n ∧ (σ = .forward b k ∨ σ = .backward b k) := by
  unfold slotSites
  simp only [List.mem_flatMap, List.mem_range, mem_batchSites]
  constructor
  · rintro ⟨b, hb, k, hk, h⟩
    exact ⟨b, k, hb, hk, h⟩
  · rintro ⟨b, k, hb, hk, h⟩
    exact ⟨b, hb, k, hk, h⟩

theorem batchSites_nodup (n b : Nat) : (batchSites n b).Nodup := by
  unfold batchSites
  rw [List.nodup_append]
  refine ⟨?_, ?_, ?_⟩
  · exact (List.nodup_range n).map (fun _ _ e => by cases e; rfl)
  · exact (List.nodup_reverse.2 (List.nodup_range n)).map (fun _ _ e => by cases e; rfl)
  · intro σ h1 h2
    simp only [List.mem_map] at h1 h2
    obtain ⟨_, -, rfl⟩ := h1
    obtain ⟨_, -, e⟩ := h2
    cases e

theorem slotSites_nodup (n B : Nat) : (slotSites n B).Nodup := by
  unfold slotSites
  rw [List.nodup_flatMap]
  refine ⟨fun b _ => batchSites_nodup n b, ?_⟩
  apply (List.nodup_range B).imp
  intro b b' hbb σ h1 h2
  rw [mem_batchSites] at h1 h2
  obtain ⟨k, -, e1⟩ := h1
  obtain ⟨k', -, e2⟩ := h2
  rcases e1 with rfl | rfl <;> rcases e2 with e | e <;> cases e <;> exact hbb rfl

theorem plan_spec (R : Nat) (cfg : PsConfig) (net : Net) (sp : Solver) (nt : Nat)
    (h : plan R cfg net = .ok (sp, nt)) :
    ∃ s2 : Solver, sp = { s2 with
        layer_infos_ := s2.layer_infos_.map (resizeHandles cfg.batches_per_clock) } ∧
      s2.layer_infos_.length = net.layers.length ∧ s2.ps_config_ = cfg ∧
      nt = (net.layers.filter hasParams).length := by
  unfold plan at h
  split at h
  · cases h
  · rename_i s2 nt2 hl
    split at h
    · simp only [Except.ok.injEq, Prod.mk.injEq] at h
      obtain ⟨rfl, rfl⟩ := h
      unfold listsOf at hl
      split at hl
      · cases hl
      · rename_i s0 nt0 h0
        split at hl
        · cases hl
        · rename_i s2' hb
          simp only [Except.ok.injEq, Prod.mk.injEq] at hl
          obtain ⟨rfl, rfl⟩ := hl
          unfold buildLists at hb
          split at hb
          · cases hb
          · rename_i s1 hf
            obtain ⟨len0, cfg0, -⟩ := initialState_ok R cfg net s0 nt0 h0
            obtain ⟨lenF, cfgF, -, -, -, -⟩ :=
              forwardFold net.layers.length _ s0 s1 hf (List.nodup_range _)
            obtain ⟨lenB, cfgB, -, -, -, -⟩ :=
              backwardFold (net.layers.map Layer.need_backward) _ s1 s2' hb
                (List.nodup_reverse.2 (List.nodup_range _))
            obtain ⟨-, -, -, -, hnt⟩ := initialState_eq R cfg net s0 nt0 h0
            obtain ⟨-, c2, c3, -, -⟩ := assignParamRows_counters R net.layers {}
            refine ⟨s2', rfl, by rw [lenB, lenF, len0], by rw [cfgB, cfgF, cfg0], ?_⟩
            rw [hnt, c3 rfl, if_pos rfl, c2]
            simp
    · cases h

theorem setInitialValues_trace (cfg : PsConfig) (l : List LayerInfo) (trace : List PsOp) :
    ∃ inits, (setInitialValues cfg l trace).1 = trace ++ inits ∧
      ∀ op ∈ inits, ∃ k, op.site = .initial k := by
  unfold setInitialValues
  split
  · apply foldl_invariant (fun (acc : List PsOp × Except Fatal Unit) =>
      ∃ inits, acc.1 = trace ++ inits ∧ ∀ op ∈ inits, ∃ k, op.site = .initial k)
    · intro acc i hacc
      obtain ⟨inits, e, hs⟩ := hacc
      split
      · exact ⟨inits, e, hs⟩
      · split
        · exact ⟨inits, e, hs⟩
        · rename_i t ht
          simp only []
          unfold initialValuesStep at ht
          split at ht
          · cases ht
          · split at ht
            · cases ht
            · split at ht
              · simp only [Except.ok.injEq] at ht
                subst ht
                refine ⟨inits ++ _, by rw [e, List.append_assoc], ?_⟩
                intro op hop
                simp only [List.mem_append, List.mem_cons, List.mem_singleton,
                  List.not_mem_nil, or_false] at hop
                rcases hop with hop | rfl | rfl
                · exact hs op hop
                · exact ⟨_, rfl⟩
                · exact ⟨_, rfl⟩
              · simp only [Except.ok.injEq] at ht
                subst ht
                exact ⟨inits, e, hs⟩
    · exact ⟨[], by simp, by simp⟩
  · exact ⟨[], by simp, by simp⟩

theorem InitPs_trace (R : Nat) (alloc : HandleAlloc) (cfg : PsConfig) (net : Net) (s : Solver)
    (hno : cfg.no_ps = false) (h : (InitPs R alloc cfg net).outcome = .ok s) :
    ∃ (s2 : Solver) (regs inits : List PsOp),
      (InitPs R alloc cfg net).trace =
        [{ site := .global,
           call := .create cfg.worker_id (net.layers.filter hasParams).length },
         { site := .global, call := .thread_start }] ++ regs ++
        [{ site := .global, call := .virtual_clock },
         { site := .global, call := .finish_virtual_iteration }] ++ inits ++
        [{ site := .global, call := .iterate }, { site := .global, call := .start_opseq }] ∧
      regs.map counterpart = (slotSites net.layers.length cfg.batches_per_clock).flatMap
        (siteOps s.layer_infos_ (net.layers.map Layer.need_backward)) ∧
      regs.map eraseHandles = (slotSites net.layers.length cfg.batches_per_clock).flatMap
        (siteShape cfg (s.layer_infos_.map staticPart) (net.layers.map Layer.need_backward)) ∧
      (∀ op ∈ inits, ∃ k, op.site = .initial k) ∧
      s2.layer_infos_.length = net.layers.length ∧
      s.layer_infos_.map staticPart =
        (s2.layer_infos_.map (resizeHandles cfg.batches_per_clock)).map staticPart ∧
      s.ps_config_ = cfg := by
  unfold InitPs at h ⊢
  simp only [hno, Bool.false_eq_true, if_false] at h ⊢
  split at h
  · cases h
  · rename_i sp nt hp
    obtain ⟨s2, rfl, len2, cfg2, rfl⟩ := plan_spec R cfg net sp nt hp
    simp only [hp]
    split at h
    · cases h
    · rename_i hi
      simp only [hi]
      simp only [Except.ok.injEq] at h
      subst h
      rw [virtualIteration_eq] at hi ⊢
      simp only [List.length_map, len2] at hi ⊢
      obtain ⟨regs, r1, r2, r3, -, r5⟩ := virtualFold_spec alloc cfg
        (net.layers.map Layer.need_backward)
        (slotSites net.layers.length cfg.batches_per_clock) (slotSites_nodup _ _)
        (s2.layer_infos_.map (resizeHandles cfg.batches_per_clock),
          [{ site := .global,
             call := .create cfg.worker_id (net.layers.filter hasParams).length },
           { site := .global, call := .thread_start }])
      obtain ⟨inits, i1, i2⟩ := setInitialValues_trace cfg
        ((slotSites net.layers.length cfg.batches_per_clock).foldl
          (virtualStep alloc cfg (net.layers.map Layer.need_backward))
          (s2.layer_infos_.map (resizeHandles cfg.batches_per_clock),
            [{ site := .global,
               call := .create cfg.worker_id (net.layers.filter hasParams).length },
             { site := .global, call := .thread_start }])).1
        (((slotSites net.layers.length cfg.batches_per_clock).foldl
          (virtualStep alloc cfg (net.layers.map Layer.need_backward))
          (s2.layer_infos_.map (resizeHandles cfg.batches_per_clock),
            [{ site := .global,
               call := .create cfg.worker_id (net.layers.filter hasParams).length },
             { site := .global, call := .thread_start }])).2 ++
          [{ site := .global, call := .virtual_clock },
           { site := .global, call := .finish_virtual_iteration }])
      refine ⟨s2, regs, inits, ?_, r2, ?_, i2, len2, r5, cfg2⟩
      · rw [i1, r1]
      · rw [r3, r5]

theorem runBatch_eq (s : Solver) (net : Net) (test : Bool) (acc : Iteration) (b : Nat) :
    runBatch s net test acc b = (batchSites s.layer_infos_.length b).foldl
      (fun a σ => a.run (stageOps s net test σ)) acc := by
  unfold runBatch batchSites
  rw [List.foldl_append, List.foldl_map, List.foldl_map]
  rfl

theorem iteration_fold (s : Solver) (net : Net) (test : Bool) (acc : Iteration) (B : Nat) :
    (List.range B).foldl (runBatch s net test) acc = (slotSites s.layer_infos_.length B).foldl
      (fun a σ => a.run (stageOps s net test σ)) acc := by
  unfold slotSites
  rw [foldl_flatMap]
  congr 1
  funext a b
  exact runBatch_eq s net test a b

theorem InitPs_slots (R : Nat) (alloc : HandleAlloc) (cfg : PsConfig) (net : Net) (s : Solver)
    (hno : cfg.no_ps = false) (h : (InitPs R alloc cfg net).outcome = .ok s)
    (k : Nat) (li : LayerInfo) (hli : s.layer_infos_[k]? = some li) :
    ∃ li2, staticPart li = staticPart (resizeHandles cfg.batches_per_clock li2) := by
  obtain ⟨s2, _, _, -, -, -, -, -, e, -⟩ := InitPs_trace R alloc cfg net s hno h
  have := congrArg (fun l => l[k]?) e
  simp only [List.getElem?_map, hli, Option.map_some'] at this
  cases h2 : s2.layer_infos_[k]? with
  | none => rw [h2] at this; cases this
  | some li2 =>
    rw [h2] at this
    simp only [Option.map_some', Option.some.injEq] at this
    exact ⟨li2, this⟩

theorem InitPs_slot_count (R : Nat) (alloc : HandleAlloc) (cfg : PsConfig) (net : Net)
    (s : Solver) (hno : cfg.no_ps = false) (h : (InitPs R alloc cfg net).outcome = .ok s)
    (k : Nat) (li : LayerInfo) (hli : s.layer_infos_[k]? = some li) :
    li.layer_handles.length = cfg.batches_per_clock := by
  obtain ⟨li2, e⟩ := InitPs_slots R alloc cfg net s hno h k li hli
  have := congrArg (fun x => x.layer_handles.length) e
  simpa [staticPart, resizeHandles] using this

theorem handlesAt_some (R : Nat) (alloc : HandleAlloc) (cfg : PsConfig) (net : Net)
    (s : Solver) (hno : cfg.no_ps = false) (h : (InitPs R alloc cfg net).outcome = .ok s)
    (b k : Nat) (hb : b < cfg.batches_per_clock) (layer : Layer)
    (hk : net.layers[k]? = some layer) :
    ∃ li lh, s.layer_infos_[k]? = some li ∧ li.layer_handles[b]? = some lh ∧
      li.param_infos.length = layer.blobs.length ∧
      handlesAt s.layer_infos_ k b = some (layer.blobs.length, lh) := by
  have hlen := InitPs_length R alloc cfg net s hno h
  have hlt : k < net.layers.length := (List.getElem?_eq_some_iff.1 hk).1
  have hk' : k < s.layer_infos_.length := by rw [hlen]; exact hlt
  have hli : s.layer_infos_[k]? = some s.layer_infos_[k] := List.getElem?_eq_getElem hk'
  have hc := InitPs_slot_count R alloc cfg net s hno h k _ hli
  have hb' : b < s.layer_infos_[k].layer_handles.length := by rw [hc]; exact hb
  have hlh := List.getElem?_eq_getElem hb'
  have hp : s.layer_infos_[k].param_infos.length = layer.blobs.length := by
    obtain ⟨r1, r2⟩ := InitPs_stage_rows R alloc cfg net s hno h k layer _ hk hli
    by_cases hbl : layer.blobs = []
    · rw [(r2 hbl).2.2.2, hbl]; rfl
    · rw [(r1 hbl).2.2.2.2, (assignParams_spec _ _ _).2.2.1]
  refine ⟨_, _, hli, hlh, hp, ?_⟩
  simp [handlesAt, hli, hlh, hp]

theorem siteOps_site (l : List LayerInfo) (nb : List Bool) (σ : Site) (op : PsOp)
    (h : op ∈ siteOps l nb σ) : op.site = σ := by
  cases σ with
  | global => simp [siteOps] at h
  | initial _ => simp [siteOps] at h
  | forward b k =>
    simp only [siteOps] at h
    split at h
    · simp at h
    · split at h
      · simp only [forwardOps, List.mem_cons, List.mem_singleton, List.not_mem_nil,
          or_false] at h
        rcases h with rfl | rfl <;> rfl
      · simp at h
  | backward b k =>
    simp only [siteOps] at h
    split at h
    · simp at h
    · split at h
      · simp at h
      · split at h
        · simp only [backwardOps, List.mem_cons, List.mem_singleton, List.not_mem_nil,
            or_false] at h
          rcases h with rfl | rfl | rfl | rfl | rfl | rfl <;> rfl
        · simp at h

theorem siteShape_site (cfg : PsConfig) (l : List LayerInfo) (nb : List Bool) (σ : Site)
    (op : PsOp) (h : op ∈ siteShape cfg l nb σ) : op.site = σ := by
  cases σ with
  | global => simp [siteShape] at h
  | initial _ => simp [siteShape] at h
  | forward b k =>
    simp only [siteShape] at h
    split at h
    · simp at h
    · split at h
      · simp only [forwardShape, List.mem_cons, List.mem_singleton, List.not_mem_nil,
          or_false] at h
        rcases h with rfl | rfl <;> rfl
      · simp at h
  | backward b k =>
    simp only [siteShape] at h
    split at h
    · simp at h
    · split at h
      · simp at h
      · split at h
        · simp only [backwardShape, List.mem_cons, List.mem_singleton, List.not_mem_nil,
            or_false] at h
          rcases h with rfl | rfl | rfl | rfl | rfl | rfl <;> rfl
        · simp at h

theorem slotOf_of_mem (n B : Nat) (σ : Site) (h : σ ∈ slotSites n B) :
    (slotOf σ).isSome = true := by
  rw [mem_slotSites] at h
  obtain ⟨b, k, -, -, rfl | rfl⟩ := h <;> rfl

theorem filter_eq_self_of {α : Type} (p : α → Bool) (l : List α) (h : ∀ a ∈ l, p a = true) :
    l.filter p = l := List.filter_eq_self.2 h

theorem filter_eq_nil_of {α : Type} (p : α → Bool) (l : List α) (h : ∀ a ∈ l, p a = false) :
    l.filter p = [] := by
  rw [List.filter_eq_nil_iff]
  intro a ha
  simp [h a ha]

theorem InitPs_registrations (R : Nat) (alloc : HandleAlloc) (cfg : PsConfig) (net : Net)
    (s : Solver) (hno : cfg.no_ps = false) (h : (InitPs R alloc cfg net).outcome = .ok s) :
    (registrations (InitPs R alloc cfg net).trace).map counterpart =
      (slotSites net.layers.length cfg.batches_per_clock).flatMap
        (siteOps s.layer_infos_ (net.layers.map Layer.need_backward)) ∧
    (registrations (InitPs R alloc cfg net).trace).map eraseHandles =
      (slotSites net.layers.length cfg.batches_per_clock).flatMap
        (siteShape cfg (s.layer_infos_.map staticPart)
          (net.layers.map Layer.need_backward)) := by
  obtain ⟨s2, regs, inits, ht, r2, r3, hi, -, -, -⟩ := InitPs_trace R alloc cfg net s hno h
  have hregs : ∀ op ∈ regs, (slotOf op.site).isSome = true := by
    intro op hop
    have : counterpart op ∈ regs.map counterpart := List.mem_map_of_mem _ hop
    rw [r2, List.mem_flatMap] at this
    obtain ⟨σ, hσ, hm⟩ := this
    have e : op.site = σ := siteOps_site _ _ σ (counterpart op) hm
    rw [e]
    exact slotOf_of_mem _ _ σ hσ
  have hinits : ∀ op ∈ inits, (slotOf op.site).isSome = false := by
    intro op hop
    obtain ⟨k, e⟩ := hi op hop
    rw [e]; rfl
  have : registrations (InitPs R alloc cfg net).trace = regs := by
    rw [ht]
    unfold registrations
    simp only [List.filter_append]
    rw [filter_eq_self_of _ regs hregs, filter_eq_nil_of _ inits hinits]
    simp [slotOf]
  rw [this]
  exact ⟨r2, r3⟩

theorem filter_site_flatMap (f : Site → List PsOp) (p : Site → Bool)
    (hf : ∀ σ op, op ∈ f σ → op.site = σ) (sites : List Site) :
    (sites.flatMap f).filter (fun op => p op.site) = (sites.filter p).flatMap f := by
  induction sites with
  | nil => rfl
  | cons σ rest ih =>
    rw [List.flatMap_cons, List.filter_append, ih]
    cases hp : p σ
    · rw [List.filter_cons_of_neg (by simp [hp]),
        filter_eq_nil_of _ _ (fun op hop => by rw [hf σ op hop]; exact hp)]
      rfl
    · rw [List.filter_cons_of_pos (by simp [hp]), List.flatMap_cons,
        filter_eq_self_of _ _ (fun op hop => by rw [hf σ op hop]; exact hp)]

theorem slotSites_succ (n B : Nat) : slotSites n (B + 1) = slotSites n B ++ batchSites n B := by
  unfold slotSites
  rw [List.range_succ, List.flatMap_append]
  simp

theorem slotSites_filter (n B b : Nat) :
    (slotSites n B).filter (fun σ => slotOf σ == some b) =
      if b < B then batchSites n b else [] := by
  induction B with
  | zero => rfl
  | succ B ih =>
    rw [slotSites_succ, List.filter_append, ih]
    by_cases hb : b = B
    · subst hb
      rw [if_neg (Nat.lt_irrefl _), if_pos (Nat.lt_succ_self _), List.nil_append]
      apply filter_eq_self_of
      intro σ hσ
      rw [mem_batchSites] at hσ
      obtain ⟨k, -, rfl | rfl⟩ := hσ <;> simp [slotOf]
    · have : (batchSites n B).filter (fun σ => slotOf σ == some b) = [] := by
        apply filter_eq_nil_of
        intro σ hσ
        rw [mem_batchSites] at hσ
        have hb' : ¬ B = b := fun e => hb e.symm
        obtain ⟨k, -, rfl | rfl⟩ := hσ <;> simp [slotOf, hb']
      rw [this, List.append_nil]
      by_cases hlt : b < B
      · rw [if_pos hlt, if_pos (Nat.lt_succ_of_lt hlt)]
      · rw [if_neg hlt, if_neg (by omega)]

theorem slotOps_flatMap (f : Site → List PsOp) (hf : ∀ σ op, op ∈ f σ → op.site = σ)
    (n B b : Nat) :
    slotOps b ((slotSites n B).flatMap f) =
      if b < B then (batchSites n b).flatMap f else [] := by
  unfold slotOps
  rw [filter_site_flatMap f (fun σ => slotOf σ == some b) hf, slotSites_filter]
  split <;> rfl

theorem slotOps_registrations (b : Nat) (t : List PsOp) :
    slotOps b (registrations t) = slotOps b t := by
  unfold slotOps registrations
  rw [List.filter_filter]
  congr 1
  funext op
  cases hs : slotOf op.site <;> simp

theorem slotOps_map (f : PsOp → PsOp) (hf : ∀ op, (f op).site = op.site) (b : Nat)
    (t : List PsOp) : slotOps b (t.map f) = (slotOps b t).map f := by
  unfold slotOps
  rw [List.filter_map]
  congr 1
  apply List.filter_congr
  intro op _
  simp [hf]

theorem flatMap_congr_mem {α β : Type} (l : List α) (f g : α → List β)
    (h : ∀ a ∈ l, f a = g a) : l.flatMap f = l.flatMap g := by
  induction l with
  | nil => rfl
  | cons a l ih =>
    rw [List.flatMap_cons, List.flatMap_cons, h a (List.mem_cons_self _ _),
      ih (fun x hx => h x (List.mem_cons_of_mem _ hx))]

theorem flatMap_map_left {α β γ : Type} (l : List α) (f : α → β) (g : β → List γ) :
    (l.map f).flatMap g = l.flatMap (fun a => g (f a)) := by
  induction l with
  | nil => rfl
  | cons a l ih => simp [List.flatMap_cons, ih]

theorem run_fold_sublist (r : Site → Except Fatal (List PsOp)) (sites : List Site)
    (acc : Iteration) :
    ∃ ops, (sites.foldl (fun (a : Iteration) σ => a.run (r σ)) acc).trace = acc.trace ++ ops ∧
      ops.Sublist (sites.flatMap (fun σ => opsOf (r σ))) := by
  induction sites generalizing acc with
  | nil => exact ⟨[], by simp, List.Sublist.refl _⟩
  | cons σ rest ih =>
    have h1 : ∃ ops1, (acc.run (r σ)).trace = acc.trace ++ ops1 ∧
        ops1.Sublist (opsOf (r σ)) := by
      unfold Iteration.run
      split
      · exact ⟨[], by simp, List.nil_sublist _⟩
      · split
        · rename_i ops e
          exact ⟨ops, rfl, by rw [e]; exact List.Sublist.refl _⟩
        · exact ⟨[], by simp, List.nil_sublist _⟩
    obtain ⟨ops1, e1, s1⟩ := h1
    obtain ⟨ops2, e2, s2⟩ := ih (acc.run (r σ))
    refine ⟨ops1 ++ ops2, ?_, ?_⟩
    · rw [List.foldl_cons, e2, e1, List.append_assoc]
    · rw [List.flatMap_cons]
      exact List.Sublist.append s1 s2

theorem stageOps_site (s : Solver) (net : Net) (test : Bool) (σ : Site) (op : PsOp)
    (h : op ∈ opsOf (stageOps s net test σ)) : op.site = σ := by
  cases σ with
  | global => simp [stageOps, opsOf] at h
  | initial _ => simp [stageOps, opsOf] at h
  | forward b k =>
    simp only [stageOps, forwardStage] at h
    split at h
    · simp [opsOf] at h
    · split at h
      · simp [opsOf] at h
      · split at h
        · simp [opsOf] at h
        · split at h
          · simp only [opsOf, List.mem_cons, List.mem_singleton, List.not_mem_nil,
              or_false] at h
            rcases h with rfl | rfl <;> rfl
          · simp [opsOf] at h
  | backward b k =>
    simp only [stageOps, backwardStage] at h
    split at h
    · simp [opsOf] at h
    · split at h
      · simp [opsOf] at h
      · split at h
        · simp [opsOf] at h
        · split at h
          · simp [opsOf] at h
          · split at h
            · simp only [opsOf, List.mem_cons, List.mem_singleton, List.not_mem_nil,
                or_false] at h
              rcases h with rfl | rfl | rfl | rfl | rfl | rfl <;> rfl
            · simp [opsOf] at h

theorem slotSites_ordered (n B : Nat) : (slotSites n B).Pairwise SlotLe := by
  induction B with
  | zero => exact List.Pairwise.nil
  | succ B ih =>
    rw [slotSites_succ, List.pairwise_append]
    refine ⟨ih, ?_, ?_⟩
    · apply List.pairwise_of_forall_mem_list
      intro σ1 h1 σ2 h2 b1 b2 e1 e2
      rw [mem_batchSites] at h1 h2
      obtain ⟨k1, -, r1⟩ := h1
      obtain ⟨k2, -, r2⟩ := h2
      rcases r1 with rfl | rfl <;> rcases r2 with rfl | rfl <;>
        simp only [slotOf, Option.some.injEq] at e1 e2 <;> omega
    · intro σ1 h1 σ2 h2 b1 b2 e1 e2
      rw [mem_slotSites] at h1
      rw [mem_batchSites] at h2
      obtain ⟨b, k1, hb, -, r1⟩ := h1
      obtain ⟨k2, -, r2⟩ := h2
      rcases r1 with rfl | rfl <;> rcases r2 with rfl | rfl <;>
        simp only [slotOf, Option.some.injEq] at e1 e2 <;> omega

theorem flatMap_ordered (f : Site → List PsOp) (hf : ∀ σ op, op ∈ f σ → op.site = σ)
    (sites : List Site) (h : sites.Pairwise SlotLe) :
    SlotOrdered (sites.flatMap f) := by
  induction sites with
  | nil => exact List.Pairwise.nil
  | cons σ rest ih =>
    rw [List.pairwise_cons] at h
    unfold SlotOrdered
    rw [List.flatMap_cons, List.pairwise_append]
    refine ⟨?_, ih h.2, ?_⟩
    · apply List.pairwise_of_forall_mem_list
      intro o1 h1 o2 h2 b1 b2 e1 e2
      rw [hf σ o1 h1] at e1
      rw [hf σ o2 h2] at e2
      rw [e1] at e2
      cases e2
      exact Nat.le_refl _
    · intro o1 h1 o2 h2
      rw [List.mem_flatMap] at h2
      obtain ⟨σ', hσ', hm⟩ := h2
      rw [hf σ o1 h1, hf σ' o2 hm]
      exact h.1 σ' hσ'

/-- C18: within one iteration, training or test, whatever the solver and the graph, the
calls come slot by slot: a call of a slot is never followed by a call of an earlier slot,
so every call of slot `N`, its writes and releases included, is made before any call of
slot `N + depth` for every depth of at least one. -/
theorem C18_slots_run_one_after_another (s : Solver) (net : Net) (test : Bool) :
    SlotOrdered (ForwardBackwardUsingPs s net test).trace ∧
    ∀ (i j : Nat) (o1 o2 : PsOp) (N depth : Nat),
      (ForwardBackwardUsingPs s net test).trace[i]? = some o1 →
      (ForwardBackwardUsingPs s net test).trace[j]? = some o2 →
      slotOf o1.site = some (N + depth) → slotOf o2.site = some N → 1 ≤ depth → j < i := by
  have key : SlotOrdered (ForwardBackwardUsingPs s net test).trace := by
    have hfold : SlotOrdered ((List.range s.ps_config_.batches_per_clock).foldl
        (runBatch s net test) {}).trace := by
      rw [iteration_fold]
      obtain ⟨ops, e, hs⟩ := run_fold_sublist (stageOps s net test)
        (slotSites s.layer_infos_.length s.ps_config_.batches_per_clock) {}
      rw [e]
      have e0 : ({} : Iteration).trace = [] := rfl
      rw [e0, List.nil_append]
      exact List.Pairwise.sublist hs (flatMap_ordered _
        (fun σ op => stageOps_site s net test σ op) _ (slotSites_ordered _ _))
    unfold ForwardBackwardUsingPs
    simp only []
    split
    · exact hfold
    · split
      · exact hfold
      · unfold SlotOrdered
        rw [List.pairwise_append]
        refine ⟨hfold, List.pairwise_singleton _ _, ?_⟩
        intro o1 _ o2 h2 b1 b2 _ e2
        simp only [List.mem_singleton] at h2
        subst h2
        cases e2
  refine ⟨key, ?_⟩
  intro i j o1 o2 N depth h1 h2 e1 e2 hd
  have hi := (List.getElem?_eq_some_iff.1 h1)
  have hj := (List.getElem?_eq_some_iff.1 h2)
  obtain ⟨hi1, hi2⟩ := hi
  obtain ⟨hj1, hj2⟩ := hj
  by_contra hcon
  have hne : i ≠ j := by
    rintro rfl
    rw [hi2] at hj2
    subst hj2
    rw [e1] at e2
    simp only [Option.some.injEq] at e2
    omega
  have hlt : i < j := by omega
  have := (List.pairwise_iff_getElem.1 key) i j hi1 hj1 hlt (N + depth) N
    (by rw [hi2]; exact e1) (by rw [hj2]; exact e2)
  omega

theorem C18_slots_run_one_after_another_witness :
    SlotOrdered (ForwardBackwardUsingPs
      (InitPs 4 countingAlloc { batches_per_clock := 2 } scenarioNet).solver scenarioNet
      false).trace :=
  (C18_slots_run_one_after_another _ scenarioNet false).1

theorem slotFrame_lists (a b : LayerHandles) (h : slotFrame a = slotFrame b) :
    a.imbs_to_access_fw = b.imbs_to_access_fw ∧
    a.imbs_to_release_fw = b.imbs_to_release_fw ∧
    a.imb_diffs_to_access_fw = b.imb_diffs_to_access_fw ∧
    a.imb_diffs_to_release_fw = b.imb_diffs_to_release_fw ∧
    a.imbs_to_access_bw = b.imbs_to_access_bw ∧
    a.imbs_to_release_bw = b.imbs_to_release_bw ∧
    a.imb_diffs_to_access_bw = b.imb_diffs_to_access_bw ∧
    a.imb_diffs_to_release_bw = b.imb_diffs_to_release_bw := by
  simp only [slotFrame, LayerHandles.mk.injEq, true_and] at h
  exact h

theorem staticPart_lists (a b : LayerInfo) (h : staticPart a = staticPart b) :
    a.layer_handles.map slotFrame = b.layer_handles.map slotFrame ∧
    a.imbs_to_access_fw = b.imbs_to_access_fw ∧
    a.imbs_to_release_fw = b.imbs_to_release_fw ∧
    a.imb_diffs_to_access_fw = b.imb_diffs_to_access_fw ∧
    a.imb_diffs_to_release_fw = b.imb_diffs_to_release_fw ∧
    a.imbs_to_access_bw = b.imbs_to_access_bw ∧
    a.imbs_to_release_bw = b.imbs_to_release_bw ∧
    a.imb_diffs_to_access_bw = b.imb_diffs_to_access_bw ∧
    a.imb_diffs_to_release_bw = b.imb_diffs_to_release_bw := by
  simp only [staticPart, LayerInfo.mk.injEq] at h
  obtain ⟨-, -, -, -, -, -, -, -, -, h1, h2, h3, h4, h5, h6, h7, h8, h9, -⟩ := h
  exact ⟨h9, h1, h2, h3, h4, h5, h6, h7, h8⟩

theorem InitPs_handle_lists (R : Nat) (alloc : HandleAlloc) (cfg : PsConfig) (net : Net)
    (s : Solver) (hno : cfg.no_ps = false) (h : (InitPs R alloc cfg net).outcome = .ok s)
    (k : Nat) (li : LayerInfo) (hli : s.layer_infos_[k]? = some li) (lh : LayerHandles)
    (hlh : lh ∈ li.layer_handles) : HandleListsMatch li lh := by
  obtain ⟨li2, e⟩ := InitPs_slots R alloc cfg net s hno h k li hli
  obtain ⟨e0, e1, e2, e3, e4, e5, e6, e7, e8⟩ := staticPart_lists _ _ e
  have hm : slotFrame lh ∈ li.layer_handles.map slotFrame := List.mem_map_of_mem _ hlh
  rw [e0] at hm
  simp only [resizeHandles, List.map_replicate] at hm
  have hf := List.eq_of_mem_replicate hm
  obtain ⟨f1, f2, f3, f4, f5, f6, f7, f8⟩ := slotFrame_lists _ _ hf
  unfold HandleListsMatch
  rw [f1, f2, f3, f4, f5, f6, f7, f8, e1, e2, e3, e4, e5, e6, e7, e8]
  simp [resizeHandles]

theorem shape_slot_indep (R : Nat) (alloc : HandleAlloc) (cfg : PsConfig) (net : Net)
    (s : Solver) (hno : cfg.no_ps = false) (h : (InitPs R alloc cfg net).outcome = .ok s)
    (b : Nat) (hb : b < cfg.batches_per_clock) :
    ((batchSites net.layers.length b).flatMap
      (siteShape cfg (s.layer_infos_.map staticPart)
        (net.layers.map Layer.need_backward))).map (fun op => { op with site := stageSite op.site }) =
    ((batchSites net.layers.length 0).flatMap
      (siteShape cfg (s.layer_infos_.map staticPart)
        (net.layers.map Layer.need_backward))).map (fun op => { op with site := stageSite op.site }) := by
  have h0 : 0 < cfg.batches_per_clock := by omega
  unfold batchSites
  simp only [List.flatMap_append, List.map_append, flatMap_map_left, List.map_flatMap]
  congr 1
  · apply flatMap_congr_mem
    intro k hk
    have hk' : k < net.layers.length := List.mem_range.1 hk
    obtain ⟨li, lh, hli, -, -, -⟩ := handlesAt_some R alloc cfg net s hno h b k hb _
      (List.getElem?_eq_getElem hk')
    have hc := InitPs_slot_count R alloc cfg net s hno h k li hli
    by_cases hp : li.param_infos = []
    · simp [siteShape, List.getElem?_map, hli, staticPart, hp]
    · simp [siteShape, List.getElem?_map, hli, staticPart, hp, hc, hb, h0, forwardShape,
        stageSite]
  · apply flatMap_congr_mem
    intro k hk
    have hk' : k < net.layers.length := List.mem_range.1 (List.mem_reverse.1 hk)
    obtain ⟨li, lh, hli, -, -, -⟩ := handlesAt_some R alloc cfg net s hno h b k hb _
      (List.getElem?_eq_getElem hk')
    have hc := InitPs_slot_count R alloc cfg net s hno h k li hli
    cases hnb : net.layers[k].need_backward
    · simp [siteShape, List.getElem?_eq_getElem hk', hnb]
    · by_cases hp : li.param_infos = []
      · simp [siteShape, List.getElem?_map, hli, staticPart, hp]
      · simp [siteShape, List.getElem?_map, hli, staticPart, hp, hc, hb, h0, backwardShape,
          stageSite, List.getElem?_eq_getElem hk', hnb]

/-- C19: after a successful `InitPs` every stage has exactly `batches_per_clock` slots, in
every slot each of the eight handle vectors has the length of the stage's list of the same
name, and the registrations of the virtual iteration for a slot are, handles apart, the
forward and backward registrations read off the stage records, so that their shape (kind,
stage, table, rows, counts) is the same for every slot. -/
theorem C19_slots_have_identical_shape (R : Nat) (alloc : HandleAlloc) (cfg : PsConfig)
    (net : Net) (s : Solver) (hno : cfg.no_ps = false)
    (h : (InitPs R alloc cfg net).outcome = .ok s) :
    s.layer_infos_.length = net.layers.length ∧
    (∀ li, li ∈ s.layer_infos_ → li.layer_handles.length = cfg.batches_per_clock ∧
      ∀ lh, lh ∈ li.layer_handles → HandleListsMatch li lh) ∧
    (∀ b, b < cfg.batches_per_clock →
      (slotOps b (InitPs R alloc cfg net).trace).map eraseHandles =
        (batchSites net.layers.length b).flatMap
          (siteShape cfg (s.layer_infos_.map staticPart)
            (net.layers.map Layer.need_backward))) ∧
    (∀ b b', b < cfg.batches_per_clock → b' < cfg.batches_per_clock →
      (slotOps b (InitPs R alloc cfg net).trace).map shapeOf =
        (slotOps b' (InitPs R alloc cfg net).trace).map shapeOf) := by
  obtain ⟨-, hr⟩ := InitPs_registrations R alloc cfg net s hno h
  have hsite : ∀ op, (eraseHandles op).site = op.site := fun _ => rfl
  have hshape : ∀ b, b < cfg.batches_per_clock →
      (slotOps b (InitPs R alloc cfg net).trace).map eraseHandles =
        (batchSites net.layers.length b).flatMap
          (siteShape cfg (s.layer_infos_.map staticPart)
            (net.layers.map Layer.need_backward)) := by
    intro b hb
    rw [← slotOps_registrations, ← slotOps_map eraseHandles hsite, hr,
      slotOps_flatMap _ (fun σ op => siteShape_site _ _ _ σ op), if_pos hb]
  have hof : ∀ (t : List PsOp), t.map shapeOf =
      (t.map eraseHandles).map (fun op => { op with site := stageSite op.site }) := by
    intro t
    rw [List.map_map]
    rfl
  refine ⟨InitPs_length R alloc cfg net s hno h, ?_, hshape, ?_⟩
  · intro li hli
    obtain ⟨k, hk, e⟩ := List.getElem_of_mem hli
    have hli' : s.layer_infos_[k]? = some li := by rw [List.getElem?_eq_getElem hk, e]
    exact ⟨InitPs_slot_count R alloc cfg net s hno h k li hli',
      fun lh hlh => InitPs_handle_lists R alloc cfg net s hno h k li hli' lh hlh⟩
  · intro b b' hb hb'
    rw [hof, hof, hshape b hb, hshape b' hb', shape_slot_indep R alloc cfg net s hno h b hb,
      shape_slot_indep R alloc cfg net s hno h b' hb']

theorem C19_slots_have_identical_shape_witness :
    (slotOps 0 (InitPs 4 countingAlloc { batches_per_clock := 2 } scenarioNet).trace).map
        shapeOf =
      (slotOps 1 (InitPs 4 countingAlloc { batches_per_clock := 2 } scenarioNet).trace).map
        shapeOf :=
  (C19_slots_have_identical_shape 4 countingAlloc { batches_per_clock := 2 } scenarioNet
    (InitPs 4 countingAlloc { batches_per_clock := 2 } scenarioNet).solver rfl rfl).2.2.2
    0 1 (by decide) (by decide)

theorem disjoint_of_pairwise_map {α : Type} (l : List α) (f : α → List Nat)
    (hp : (l.map f).Pairwise List.Disjoint) (i j : Nat) (a b : α) (hi : l[i]? = some a)
    (hj : l[j]? = some b) (hne : i ≠ j) : List.Disjoint (f a) (f b) := by
  obtain ⟨hi1, hi2⟩ := List.getElem?_eq_some_iff.1 hi
  obtain ⟨hj1, hj2⟩ := List.getElem?_eq_some_iff.1 hj
  rw [List.pairwise_iff_getElem] at hp
  rcases Nat.lt_or_gt_of_ne hne with hlt | hgt
  · have := hp i j (by simpa using hi1) (by simpa using hj1) hlt
    simpa [hi2, hj2] using this
  · have := hp j i (by simpa using hj1) (by simpa using hi1) hgt
    have e : List.Disjoint (f b) (f a) := by simpa [hi2, hj2] using this
    exact e.symm

theorem localGroups_parts (R : Nat) (alloc : HandleAlloc) (cfg : PsConfig) (net : Net)
    (s : Solver) (hno : cfg.no_ps = false) (h : (InitPs R alloc cfg net).outcome = .ok s) :
    (s.layer_infos_.map LayerInfo.history_data_row_ids).Pairwise List.Disjoint ∧
    (s.imb_data_infos_.map RowAccessInfo.row_ids).Pairwise List.Disjoint ∧
    (s.imb_diff_infos_.map RowAccessInfo.row_ids).Pairwise List.Disjoint ∧
    (∀ li, li ∈ s.layer_infos_ → ∀ d, d ∈ s.imb_data_infos_ →
      List.Disjoint li.history_data_row_ids d.row_ids) ∧
    (∀ li, li ∈ s.layer_infos_ → ∀ g, g ∈ s.imb_diff_infos_ →
      List.Disjoint li.history_data_row_ids g.row_ids) ∧
    (∀ d, d ∈ s.imb_data_infos_ → ∀ g, g ∈ s.imb_diff_infos_ →
      List.Disjoint d.row_ids g.row_ids) := by
  have hf := localGroups_flatten R alloc cfg net s hno h
  have hnd : (localGroups s).flatten.Nodup := by
    rw [hf]; exact List.nodup_range' _ _
  have hp := (List.nodup_flatten.1 hnd).2
  unfold localGroups at hp
  rw [List.pairwise_append, List.pairwise_append] at hp
  obtain ⟨⟨h1, h2, h12⟩, h3, h123⟩ := hp
  refine ⟨h1, h2, h3, ?_, ?_, ?_⟩
  · intro li hli d hd
    exact h12 _ (List.mem_map_of_mem _ hli) _ (List.mem_map_of_mem _ hd)
  · intro li hli g hg
    exact h123 _ (List.mem_append_left _ (List.mem_map_of_mem _ hli)) _
      (List.mem_map_of_mem _ hg)
  · intro d hd g hg
    exact h123 _ (List.mem_append_right _ (List.mem_map_of_mem _ hd)) _
      (List.mem_map_of_mem _ hg)

theorem table_ne_of_ne (layers : List Layer) (k k' : Nat) (layer layer' : Layer)
    (hne : k ≠ k') (hk : layers[k]? = some layer) (hk' : layers[k']? = some layer')
    (hp : layer.blobs ≠ []) (hp' : layer'.blobs ≠ []) :
    ((layers.take k).filter hasParams).length ≠ ((layers.take k').filter hasParams).length := by
  rcases Nat.lt_or_gt_of_ne hne with hlt | hgt
  · exact Nat.ne_of_lt (table_lt_of_lt layers k k' layer hlt hk hp)
  · exact (Nat.ne_of_lt (table_lt_of_lt layers k' k layer' hgt hk' hp')).symm

/-- C12, counterexample: with rows of four elements the two parameters of the transform
stage of the scenario graph, of six and of two elements, share row 1 of table 0: element 4
of the first lies at offset 0 of that row and element 0 of the second at offset 2, in the
tail the first leaves unused. -/
theorem C12_counterexample :
    paramTriple 4 (InitPs 4 countingAlloc {} scenarioNet).solver 1 0 4 = some (0, 1, 0) ∧
    paramTriple 4 (InitPs 4 countingAlloc {} scenarioNet).solver 1 1 0 = some (0, 1, 2) := by
  decide

/-- C12, as the code has it: after a successful `InitPs` no two row groups share a row of
the same table, a row group being the parameters of one stage, the update history of one
stage, the data of one intermediate buffer or the gradient of one intermediate buffer:
stages with parameters have different tables, and the history, data and gradient groups
lie in pairwise disjoint rows of the local store.  The parameters of one stage are packed
back to back into the rows of the stage, each starting where the one before ends, so they
can share a row but never an element. -/
theorem C12_row_groups_do_not_share_rows (R : Nat) (alloc : HandleAlloc) (cfg : PsConfig)
    (net : Net) (s : Solver) (hno : cfg.no_ps = false)
    (h : (InitPs R alloc cfg net).outcome = .ok s) :
    (∀ (k k' : Nat) (layer layer' : Layer) (li li' : LayerInfo), k ≠ k' →
      net.layers[k]? = some layer → net.layers[k']? = some layer' →
      layer.blobs ≠ [] → layer'.blobs ≠ [] →
      s.layer_infos_[k]? = some li → s.layer_infos_[k']? = some li' →
      li.table_id ≠ li'.table_id) ∧
    (∀ (k k' : Nat) (li li' : LayerInfo), k ≠ k' →
      s.layer_infos_[k]? = some li → s.layer_infos_[k']? = some li' →
      List.Disjoint li.history_data_row_ids li'.history_data_row_ids) ∧
    (∀ (i i' : Nat) (d d' : RowAccessInfo), i ≠ i' →
      s.imb_data_infos_[i]? = some d → s.imb_data_infos_[i']? = some d' →
      List.Disjoint d.row_ids d'.row_ids) ∧
    (∀ (i i' : Nat) (g g' : RowAccessInfo), i ≠ i' →
      s.imb_diff_infos_[i]? = some g → s.imb_diff_infos_[i']? = some g' →
      List.Disjoint g.row_ids g'.row_ids) ∧
    (∀ (i i' : Nat) (d g : RowAccessInfo),
      s.imb_data_infos_[i]? = some d → s.imb_diff_infos_[i']? = some g →
      List.Disjoint d.row_ids g.row_ids) ∧
    (∀ (k i : Nat) (li : LayerInfo) (d : RowAccessInfo), s.layer_infos_[k]? = some li →
      (s.imb_data_infos_[i]? = some d ∨ s.imb_diff_infos_[i]? = some d) →
      List.Disjoint li.history_data_row_ids d.row_ids) ∧
    (∀ (k j j' : Nat) (layer : Layer) (li : LayerInfo) (p p' : ParamInfo) (count : Nat),
      net.layers[k]? = some layer → s.layer_infos_[k]? = some li → j < j' →
      layer.blobs[j]? = some count → li.param_infos[j]? = some p →
      li.param_infos[j']? = some p' → p.val_offset + count ≤ p'.val_offset) := by
  obtain ⟨g1, g2, g3, g4, g5, g6⟩ := localGroups_parts R alloc cfg net s hno h
  have mem : ∀ {α : Type} (l : List α) (i : Nat) (a : α), l[i]? = some a → a ∈ l := by
    intro α l i a hi
    obtain ⟨hi1, hi2⟩ := List.getElem?_eq_some_iff.1 hi
    rw [← hi2]
    exact List.getElem_mem _
  refine ⟨?_, ?_, ?_, ?_, ?_, ?_, ?_⟩
  · intro k k' layer layer' li li' hne hk hk' hp hp' hli hli'
    rw [((InitPs_stage_rows R alloc cfg net s hno h k layer li hk hli).1 hp).1,
      ((InitPs_stage_rows R alloc cfg net s hno h k' layer' li' hk' hli').1 hp').1]
    exact table_ne_of_ne net.layers k k' layer layer' hne hk hk' hp hp'
  · intro k k' li li' hne hli hli'
    exact disjoint_of_pairwise_map _ _ g1 k k' li li' hli hli' hne
  · intro i i' d d' hne hd hd'
    exact disjoint_of_pairwise_map _ _ g2 i i' d d' hd hd' hne
  · intro i i' g g' hne hg hg'
    exact disjoint_of_pairwise_map _ _ g3 i i' g g' hg hg' hne
  · intro i i' d g hd hg
    exact g6 d (mem _ i d hd) g (mem _ i' g hg)
  · intro k i li d hli hd
    rcases hd with hd | hd
    · exact g4 li (mem _ k li hli) d (mem _ i d hd)
    · exact g5 li (mem _ k li hli) d (mem _ i d hd)
  · intro k j j' layer li p p' count hk hli hjj hc hp hp'
    have hb : layer.blobs ≠ [] := by
      intro e; rw [e] at hc; cases hc
    have e := ((InitPs_stage_rows R alloc cfg net s hno h k layer li hk hli).1 hb).2.2.2.2
    have hj : j < layer.blobs.length := (List.getElem?_eq_some_iff.1 hc).1
    have hlen : li.param_infos.length = layer.blobs.length := by
      rw [e, (assignParams_spec _ _ _).2.2.1]
    have hj' : j' < layer.blobs.length := by
      rw [← hlen]; exact (List.getElem?_eq_some_iff.1 hp').1
    rw [e, (assignParams_spec _ _ _).2.2.2 j hj] at hp
    rw [e, (assignParams_spec _ _ _).2.2.2 j' hj'] at hp'
    simp only [Option.some.injEq] at hp hp'
    subst hp hp'
    simp only [Nat.zero_add]
    exact offset_lt_of_lt layer.blobs j j' count hjj hc

theorem C12_row_groups_do_not_share_rows_witness :
    ((InitPs 4 countingAlloc {} inPlaceNet).solver.layer_infos_.getD 1 {}).table_id ≠
      ((InitPs 4 countingAlloc {} inPlaceNet).solver.layer_infos_.getD 3 {}).table_id :=
  (C12_row_groups_do_not_share_rows 4 countingAlloc {} inPlaceNet
    (InitPs 4 countingAlloc {} inPlaceNet).solver rfl rfl).1 1 3 _ _ _ _ (by decide)
    rfl rfl (by decide) (by decide) rfl rfl

theorem take_all_filter_le (layers : List Layer) (k : Nat) (layer : Layer)
    (hk : layers[k]? = some layer) (hp : layer.blobs ≠ []) :
    ((layers.take k).filter hasParams).length < (layers.filter hasParams).length := by
  have hlt : k < layers.length := (List.getElem?_eq_some_iff.1 hk).1
  have := table_lt_of_lt layers k layers.length layer hlt hk hp
  rw [List.take_length] at this
  exact this

/-- C14: after a successful `InitPs` a stage with parameters has as table id the number of
stages with parameters before it in the order of the stages, and as rows the row ids
`0 .. rows - 1` of that table; two different stages with parameters have different tables;
the first call on the table service creates it with as many tables as there are stages
with parameters, and every table id of a stage with parameters is smaller than that
number. -/
theorem C14_tables_follow_stage_order (R : Nat) (alloc : HandleAlloc) (cfg : PsConfig)
    (net : Net) (s : Solver) (hno : cfg.no_ps = false)
    (h : (InitPs R alloc cfg net).outcome = .ok s) :
    (∀ (k : Nat) (layer : Layer) (li : LayerInfo), net.layers[k]? = some layer →
      layer.blobs ≠ [] → s.layer_infos_[k]? = some li →
      li.table_id = ((net.layers.take k).filter hasParams).length ∧
      li.row_ids = List.range (stageRows R layer) ∧
      li.table_id < (net.layers.filter hasParams).length) ∧
    (∀ (k k' : Nat) (layer layer' : Layer) (li li' : LayerInfo), k ≠ k' →
      net.layers[k]? = some layer → net.layers[k']? = some layer' →
      layer.blobs ≠ [] → layer'.blobs ≠ [] →
      s.layer_infos_[k]? = some li → s.layer_infos_[k']? = some li' →
      li.table_id ≠ li'.table_id) ∧
    (InitPs R alloc cfg net).trace.head? =
      some { site := .global,
             call := .create cfg.worker_id (net.layers.filter hasParams).length } := by
  refine ⟨?_, ?_, ?_⟩
  · intro k layer li hk hp hli
    obtain ⟨e1, e2, -⟩ := (InitPs_stage_rows R alloc cfg net s hno h k layer li hk hli).1 hp
    refine ⟨e1, by rw [e2, List.range_eq_range'], ?_⟩
    rw [e1]
    exact take_all_filter_le net.layers k layer hk hp
  · intro k k' layer layer' li li' hne hk hk' hp hp' hli hli'
    rw [((InitPs_stage_rows R alloc cfg net s hno h k layer li hk hli).1 hp).1,
      ((InitPs_stage_rows R alloc cfg net s hno h k' layer' li' hk' hli').1 hp').1]
    exact table_ne_of_ne net.layers k k' layer layer' hne hk hk' hp hp'
  · obtain ⟨_, _, _, ht, -⟩ := InitPs_trace R alloc cfg net s hno h
    rw [ht]
    rfl

theorem C14_tables_follow_stage_order_witness :
    ((InitPs 4 countingAlloc {} inPlaceNet).solver.layer_infos_.getD 3 {}).table_id =
        ((inPlaceNet.layers.take 3).filter hasParams).length ∧
    ((InitPs 4 countingAlloc {} inPlaceNet).solver.layer_infos_.getD 3 {}).row_ids =
        List.range (stageRows 4 (inPlaceNet.layers.getD 3 { type := "" })) ∧
    ((InitPs 4 countingAlloc {} inPlaceNet).solver.layer_infos_.getD 3 {}).table_id <
        (inPlaceNet.layers.filter hasParams).length :=
  (C14_tables_follow_stage_order 4 countingAlloc {} inPlaceNet
    (InitPs 4 countingAlloc {} inPlaceNet).solver rfl rfl).1 3 _ _ rfl (by decide) rfl

theorem initialFold_error (L : List LayerInfo) (l : List Nat) (t : List PsOp) (e : Fatal) :
    initialFold L l (t, .error e) = (t, .error e) := by
  induction l with
  | nil => rfl
  | cons k l ih =>
    unfold initialFold at ih ⊢
    rw [List.foldl_cons]
    exact ih

theorem initialValuesStep_ok (L : List LayerInfo) (t t' : List PsOp) (k : Nat)
    (h : initialValuesStep L t k = .ok t') :
    t' = t ++ initialOps L k ∧
    ∃ li lh, L[k]? = some li ∧ li.layer_handles[0]? = some lh := by
  unfold initialValuesStep at h
  split at h
  · cases h
  · rename_i li hli
    split at h
    · cases h
    · rename_i lh hlh
      refine ⟨?_, li, lh, hli, hlh⟩
      simp only [initialOps, hli, hlh]
      split at h
      · rename_i hp
        simp only [Except.ok.injEq] at h
        rw [if_pos hp, ← h]
      · rename_i hp
        simp only [Except.ok.injEq] at h
        rw [if_neg hp, ← h, List.append_nil]

theorem initialValuesStep_prefix (L : List LayerInfo) (t : List PsOp) (k : Nat) :
    (∃ e, initialValuesStep L t k = .error e) ∨
      initialValuesStep L t k = .ok (t ++ initialOps L k) := by
  cases h : initialValuesStep L t k with
  | error e => exact Or.inl ⟨e, rfl⟩
  | ok t' => right; rw [(initialValuesStep_ok L t t' k h).1]

theorem initialFold_spec (L : List LayerInfo) (l : List Nat) (t : List PsOp) :
    (∃ pre, pre <+: l ∧ (initialFold L l (t, .ok ())).1 = t ++ pre.flatMap (initialOps L)) ∧
    ((initialFold L l (t, .ok ())).2 = .ok () →
      (initialFold L l (t, .ok ())).1 = t ++ l.flatMap (initialOps L) ∧
      ∀ k, k ∈ l → ∃ li lh, L[k]? = some li ∧ li.layer_handles[0]? = some lh) := by
  induction l generalizing t with
  | nil => exact ⟨⟨[], List.prefix_refl _, by simp [initialFold]⟩,
      fun _ => ⟨by simp [initialFold], by simp⟩⟩
  | cons k l ih =>
    have hstep : initialFold L (k :: l) (t, .ok ()) =
        initialFold L l (match initialValuesStep L t k with
          | .error e => (t, .error e)
          | .ok t' => (t', .ok ())) := by
      unfold initialFold
      rw [List.foldl_cons]
    rw [hstep]
    cases h : initialValuesStep L t k with
    | error e =>
      simp only []
      rw [initialFold_error]
      exact ⟨⟨[], List.nil_prefix, by simp⟩, fun hc => by cases hc⟩
    | ok t' =>
      simp only []
      obtain ⟨e1, e2⟩ := initialValuesStep_ok L t t' k h
      obtain ⟨⟨pre, hpre, hp⟩, hok⟩ := ih t'
      constructor
      · refine ⟨k :: pre, ?_, ?_⟩
        · obtain ⟨r, hr⟩ := hpre
          exact ⟨r, by rw [← hr]; rfl⟩
        · rw [hp, e1, List.flatMap_cons, List.append_assoc]
      · intro hc
        obtain ⟨a, b⟩ := hok hc
        refine ⟨by rw [a, e1, List.flatMap_cons, List.append_assoc], ?_⟩
        intro k' hk'
        rcases List.mem_cons.1 hk' with rfl | hk'
        · exact e2
        · exact b k' hk'

theorem setInitialValues_eq (cfg : PsConfig) (L : List LayerInfo) (t : List PsOp) :
    setInitialValues cfg L t =
      if cfg.worker_id = 0 then initialFold L (List.range L.length) (t, .ok ())
      else (t, .ok ()) := rfl

theorem initialOps_facts (L : List LayerInfo) (k : Nat) (op : PsOp) (h : op ∈ initialOps L k) :
    op.site = .initial k ∧ isRegistration op.call = false ∧ isRealOp op.call = true ∧
      op.call ≠ .virtual_clock ∧ op.call ≠ .finish_virtual_iteration ∧
      op.call ≠ .iterate := by
  unfold initialOps at h
  split at h
  · cases h
  · split at h
    · cases h
    · split at h
      · simp only [List.mem_cons, List.mem_singleton, List.not_mem_nil, or_false] at h
        rcases h with rfl | rfl <;>
          exact ⟨rfl, rfl, rfl, by simp, by simp, by simp⟩
      · cases h

theorem InitPs_unfold (R : Nat) (alloc : HandleAlloc) (cfg : PsConfig) (net : Net)
    (sp : Solver) (nt : Nat) (hno : cfg.no_ps = false) (hp : plan R cfg net = .ok (sp, nt)) :
    (InitPs R alloc cfg net).trace =
      (setInitialValues cfg
        (virtualIteration alloc cfg (net.layers.map Layer.need_backward) (sp.layer_infos_,
          [{ site := .global, call := .create cfg.worker_id nt },
           { site := .global, call := .thread_start }])).1
        (virtualIteration alloc cfg (net.layers.map Layer.need_backward) (sp.layer_infos_,
          [{ site := .global, call := .create cfg.worker_id nt },
           { site := .global, call := .thread_start }])).2).1 ++
      (match (setInitialValues cfg
        (virtualIteration alloc cfg (net.layers.map Layer.need_backward) (sp.layer_infos_,
          [{ site := .global, call := .create cfg.worker_id nt },
           { site := .global, call := .thread_start }])).1
        (virtualIteration alloc cfg (net.layers.map Layer.need_backward) (sp.layer_infos_,
          [{ site := .global, call := .create cfg.worker_id nt },
           { site := .global, call := .thread_start }])).2).2 with
      | .ok _ => [{ site := .global, call := .iterate }, { site := .global, call := .start_opseq }]
      | .error _ => []) := by
  unfold InitPs
  simp only [hno, Bool.false_eq_true, if_false, hp]
  split <;> rename_i hi <;> simp only [hi, List.append_nil]

theorem eraseCall_registration (c : PsCall) :
    isRegistration (eraseCall c) = isRegistration c := by
  cases c <;> rfl

theorem siteShape_registration (cfg : PsConfig) (l : List LayerInfo) (nb : List Bool)
    (σ : Site) (op : PsOp) (h : op ∈ siteShape cfg l nb σ) :
    isRegistration op.call = true := by
  cases σ with
  | global => simp [siteShape] at h
  | initial _ => simp [siteShape] at h
  | forward b k =>
    simp only [siteShape] at h
    split at h
    · simp at h
    · split at h
      · simp only [forwardShape, List.mem_cons, List.mem_singleton, List.not_mem_nil,
          or_false] at h
        rcases h with rfl | rfl <;> rfl
      · simp at h
  | backward b k =>
    simp only [siteShape] at h
    split at h
    · simp at h
    · split at h
      · simp at h
      · split at h
        · simp only [backwardShape, List.mem_cons, List.mem_singleton, List.not_mem_nil,
            or_false] at h
          rcases h with rfl | rfl | rfl | rfl | rfl | rfl <;> rfl
        · simp at h

theorem registration_facts (c : PsCall) (h : isRegistration c = true) :
    isRealOp c = false ∧ c ≠ .virtual_clock ∧ c ≠ .finish_virtual_iteration ∧
      (∀ x, c ≠ .preinc_batch x) ∧ (∀ x, c ≠ .inc_batch x) := by
  cases c <;> simp [isRegistration] at h <;> simp [isRealOp]

theorem InitPs_shape (R : Nat) (alloc : HandleAlloc) (cfg : PsConfig) (net : Net)
    (sp : Solver) (nt : Nat) (hno : cfg.no_ps = false) (hp : plan R cfg net = .ok (sp, nt)) :
    ∃ (L : List LayerInfo) (regs : List PsOp) (ks : List Nat) (tail : List PsOp),
      (InitPs R alloc cfg net).trace =
        [{ site := .global, call := .create cfg.worker_id nt },
         { site := .global, call := .thread_start }] ++ regs ++
        [{ site := .global, call := .virtual_clock },
         { site := .global, call := .finish_virtual_iteration }] ++
        ks.flatMap (initialOps L) ++ tail ∧
      (∀ op ∈ regs, isRegistration op.call = true ∧ (slotOf op.site).isSome = true) ∧
      (tail = [] ∨ tail = [{ site := .global, call := .iterate },
        { site := .global, call := .start_opseq }]) ∧
      (∀ s, (InitPs R alloc cfg net).outcome = .ok s → L = s.layer_infos_ ∧
        ks = (if cfg.worker_id = 0 then List.range L.length else []) ∧
        tail = [{ site := .global, call := .iterate }, { site := .global, call := .start_opseq }] ∧
        ∀ k, k ∈ ks → ∃ li lh, L[k]? = some li ∧ li.layer_handles[0]? = some lh) := by
  have hu := InitPs_unfold R alloc cfg net sp nt hno hp
  rw [virtualIteration_eq] at hu
  simp only [] at hu
  obtain ⟨regs, r1, -, r3, -, -⟩ := virtualFold_spec alloc cfg
    (net.layers.map Layer.need_backward)
    (slotSites sp.layer_infos_.length cfg.batches_per_clock) (slotSites_nodup _ _)
    (sp.layer_infos_,
      [{ site := .global, call := .create cfg.worker_id nt },
       { site := .global, call := .thread_start }])
  have hregs : ∀ op ∈ regs, isRegistration op.call = true ∧ (slotOf op.site).isSome = true := by
    intro op hop
    have : eraseHandles op ∈ regs.map eraseHandles := List.mem_map_of_mem _ hop
    rw [r3, List.mem_flatMap] at this
    obtain ⟨σ, hσ, hm⟩ := this
    have e : op.site = σ := siteShape_site _ _ _ σ (eraseHandles op) hm
    have c := siteShape_registration _ _ _ σ (eraseHandles op) hm
    refine ⟨by rw [← eraseCall_registration]; exact c, ?_⟩
    rw [e]
    exact slotOf_of_mem _ _ σ hσ
  generalize hL : ((slotSites sp.layer_infos_.length cfg.batches_per_clock).foldl
    (virtualStep alloc cfg (net.layers.map Layer.need_backward)) (sp.layer_infos_,
      [{ site := .global, call := .create cfg.worker_id nt },
       { site := .global, call := .thread_start }])) = fin at hu r1
  have hout : ∀ s, (InitPs R alloc cfg net).outcome = .ok s →
      s.layer_infos_ = fin.1 ∧ (setInitialValues cfg fin.1 (fin.2 ++
        [{ site := .global, call := .virtual_clock },
         { site := .global, call := .finish_virtual_iteration }])).2 = .ok () := by
    intro s hs
    unfold InitPs at hs
    simp only [hno, Bool.false_eq_true, if_false, hp] at hs
    rw [virtualIteration_eq] at hs
    simp only [hL] at hs
    split at hs
    · cases hs
    · rename_i hi
      simp only [Except.ok.injEq] at hs
      subst hs
      exact ⟨rfl, hi⟩
  rw [setInitialValues_eq] at hu
  by_cases hw : cfg.worker_id = 0
  · rw [if_pos hw] at hu
    obtain ⟨⟨pre, hpre, hpe⟩, hok⟩ := initialFold_spec fin.1 (List.range fin.1.length)
      (fin.2 ++ [{ site := .global, call := .virtual_clock },
        { site := .global, call := .finish_virtual_iteration }])
    cases hr : (initialFold fin.1 (List.range fin.1.length) (fin.2 ++
        [{ site := .global, call := .virtual_clock },
         { site := .global, call := .finish_virtual_iteration }], Except.ok ())).2 with
    | error e =>
      rw [hr] at hu
      refine ⟨fin.1, regs, pre, [], ?_, hregs, Or.inl rfl, ?_⟩
      · rw [hu, hpe, r1]
      · intro s hs
        obtain ⟨-, c⟩ := hout s hs
        rw [setInitialValues_eq, if_pos hw, hr] at c
        cases c
    | ok u =>
      rw [hr] at hu
      obtain ⟨a, b⟩ := hok hr
      refine ⟨fin.1, regs, List.range fin.1.length, _, ?_, hregs, Or.inr rfl, ?_⟩
      · rw [hu, a, r1]
      · intro s hs
        obtain ⟨c, -⟩ := hout s hs
        exact ⟨c.symm, by rw [if_pos hw], rfl, b⟩
  · rw [if_neg hw] at hu
    simp only [] at hu
    refine ⟨fin.1, regs, [], _, ?_, hregs, Or.inr rfl, ?_⟩
    · rw [hu, r1]; simp
    · intro s hs
      obtain ⟨c, -⟩ := hout s hs
      exact ⟨c.symm, by rw [if_neg hw], rfl, by simp⟩

theorem plan_of_planned (R : Nat) (cfg : PsConfig) (net : Net) (h : planned R cfg net = true) :
    ∃ sp nt, plan R cfg net = .ok (sp, nt) := by
  unfold planned at h
  split at h
  · rename_i p hp
    exact ⟨p.1, p.2, hp⟩
  · cases h

theorem plan_of_InitPs (R : Nat) (alloc : HandleAlloc) (cfg : PsConfig) (net : Net)
    (s : Solver) (hno : cfg.no_ps = false) (h : (InitPs R alloc cfg net).outcome = .ok s) :
    ∃ sp nt, plan R cfg net = .ok (sp, nt) := by
  unfold InitPs at h
  simp only [hno, Bool.false_eq_true, if_false] at h
  split at h
  · cases h
  · rename_i sp nt hp
    exact ⟨sp, nt, hp⟩

/-- C23: whenever planning passes, whatever the number of slots, the calls of `InitPs` are
a first part without any real store operation, which holds the creation of the client and
every registration of every slot, then exactly one `virtual_clock` immediately followed by
`finish_virtual_iteration`, then a last part that holds no registration and no call made
from a slot; so the clock end is issued exactly once. -/
theorem C23_one_clock_end_after_registrations (R : Nat) (alloc : HandleAlloc)
    (cfg : PsConfig) (net : Net) (hno : cfg.no_ps = false)
    (hp : planned R cfg net = true) :
    ∃ pre post, (InitPs R alloc cfg net).trace =
        pre ++ [{ site := .global, call := .virtual_clock },
          { site := .global, call := .finish_virtual_iteration }] ++ post ∧
      (∀ op ∈ pre, isRealOp op.call = false ∧ op.call ≠ .virtual_clock ∧
        op.call ≠ .finish_virtual_iteration) ∧
      (∀ op ∈ post, isRegistration op.call = false ∧ slotOf op.site = none ∧
        op.call ≠ .virtual_clock ∧ op.call ≠ .finish_virtual_iteration) ∧
      (InitPs R alloc cfg net).trace.countP (fun op => op.call == .virtual_clock) = 1 := by
  obtain ⟨sp, nt, hpl⟩ := plan_of_planned R cfg net hp
  obtain ⟨L, regs, ks, tail, ht, hregs, htail, -⟩ := InitPs_shape R alloc cfg net sp nt hno hpl
  have hpre : ∀ op ∈ [{ site := .global, call := .create cfg.worker_id nt },
      ({ site := .global, call := .thread_start } : PsOp)] ++ regs,
      isRealOp op.call = false ∧ op.call ≠ .virtual_clock ∧
        op.call ≠ .finish_virtual_iteration := by
    intro op hop
    simp only [List.mem_append, List.mem_cons, List.mem_singleton, List.not_mem_nil,
      or_false] at hop
    rcases hop with (rfl | rfl) | hop
    · exact ⟨rfl, by simp, by simp⟩
    · exact ⟨rfl, by simp, by simp⟩
    · obtain ⟨a, b, c, -, -⟩ := registration_facts op.call (hregs op hop).1
      exact ⟨a, b, c⟩
  have hpost : ∀ op ∈ ks.flatMap (initialOps L) ++ tail,
      isRegistration op.call = false ∧ slotOf op.site = none ∧
        op.call ≠ .virtual_clock ∧ op.call ≠ .finish_virtual_iteration := by
    intro op hop
    rw [List.mem_append, List.mem_flatMap] at hop
    rcases hop with ⟨k, -, hm⟩ | hop
    · obtain ⟨a, b, -, c, d, -⟩ := initialOps_facts L k op hm
      exact ⟨b, by rw [a]; rfl, c, d⟩
    · rcases htail with e | e
      · rw [e] at hop; cases hop
      · rw [e] at hop
        simp only [List.mem_cons, List.mem_singleton, List.not_mem_nil, or_false] at hop
        rcases hop with rfl | rfl
        · exact ⟨rfl, rfl, by simp, by simp⟩
        · exact ⟨rfl, rfl, by simp, by simp⟩
  refine ⟨_, _, by rw [ht, List.append_assoc _ (List.flatMap _ _) tail], hpre, hpost, ?_⟩
  rw [ht, List.append_assoc _ (List.flatMap _ _) tail, List.countP_append, List.countP_append]
  have z1 : List.countP (fun (op : PsOp) => op.call == .virtual_clock)
      ([{ site := .global, call := .create cfg.worker_id nt },
        ({ site := .global, call := .thread_start } : PsOp)] ++ regs) = 0 := by
    rw [List.countP_eq_zero]
    intro op hop
    simpa using (hpre op hop).2.1
  have z2 : List.countP (fun (op : PsOp) => op.call == .virtual_clock)
      (ks.flatMap (initialOps L) ++ tail) = 0 := by
    rw [List.countP_eq_zero]
    intro op hop
    simpa using (hpost op hop).2.2.1
  rw [z1, z2]
  rfl

theorem C23_one_clock_end_after_registrations_witness :
    (InitPs 4 countingAlloc { batches_per_clock := 2 } scenarioNet).trace.countP
      (fun op => op.call == .virtual_clock) = 1 :=
  (C23_one_clock_end_after_registrations 4 countingAlloc { batches_per_clock := 2 }
    scenarioNet rfl rfl).elim (fun _ h => h.elim (fun _ h' => h'.2.2.2))

theorem initialOps_eq (R : Nat) (alloc : HandleAlloc) (cfg : PsConfig) (net : Net)
    (s : Solver) (hno : cfg.no_ps = false) (h : (InitPs R alloc cfg net).outcome = .ok s)
    (k : Nat) (hk : k < net.layers.length)
    (hs : ∃ li lh, s.layer_infos_[k]? = some li ∧ li.layer_handles[0]? = some lh) :
    initialOps s.layer_infos_ k =
      if (net.layers.map hasParams).getD k false then
        [{ site := .initial k,
           call := .preinc_batch
             ((s.layer_infos_.getD k {}).layer_handles.getD 0 {}).prewrite_handle },
         { site := .initial k,
           call := .inc_batch
             ((s.layer_infos_.getD k {}).layer_handles.getD 0 {}).write_handle }]
      else [] := by
  obtain ⟨li, lh, hli, hlh⟩ := hs
  have hc := InitPs_slot_count R alloc cfg net s hno h k li hli
  have hB : 0 < cfg.batches_per_clock := by
    rw [← hc]; exact (List.getElem?_eq_some_iff.1 hlh).1
  have hkl := List.getElem?_eq_getElem hk
  obtain ⟨li', lh', hli', hlh', hp, -⟩ := handlesAt_some R alloc cfg net s hno h 0 k hB _ hkl
  rw [hli] at hli'
  cases hli'
  by_cases hb : 0 < net.layers[k].blobs.length
  · have hb' : net.layers[k].blobs.length ≠ 0 := by omega
    simp [initialOps, hli, hlh, hp, hkl, hasParams, hb, hb']
  · have hb' : net.layers[k].blobs.length = 0 := by omega
    simp [initialOps, hli, hlh, hp, hkl, hasParams, hb']

/-- C24: in a run of `InitPs` that completes, the calls made from the initial write are,
for worker 0, exactly one pre-write and write pair per stage with parameters, in stage
order, each through the pre-write and write handles of slot 0 of the stage, and for every
other worker there is none; `InitPs` makes no other pre-write or write. -/
theorem C24_initial_write_by_worker_zero (R : Nat) (alloc : HandleAlloc) (cfg : PsConfig)
    (net : Net) (s : Solver) (hno : cfg.no_ps = false)
    (h : (InitPs R alloc cfg net).outcome = .ok s) :
    (cfg.worker_id = 0 →
      (InitPs R alloc cfg net).trace.filter (fun op => isInitialSite op.site) =
        initialWrites s net) ∧
    (cfg.worker_id ≠ 0 →
      (InitPs R alloc cfg net).trace.filter (fun op => isInitialSite op.site) = []) ∧
    (∀ op ∈ (InitPs R alloc cfg net).trace,
      (∃ x, op.call = .preinc_batch x ∨ op.call = .inc_batch x) →
        isInitialSite op.site = true) := by
  obtain ⟨sp, nt, hpl⟩ := plan_of_InitPs R alloc cfg net s hno h
  obtain ⟨L, regs, ks, tail, ht, hregs, -, hout⟩ := InitPs_shape R alloc cfg net sp nt hno hpl
  obtain ⟨rfl, hks, rfl, hslots⟩ := hout s h
  have hlen := InitPs_length R alloc cfg net s hno h
  have hfilter : (InitPs R alloc cfg net).trace.filter (fun op => isInitialSite op.site) =
      ks.flatMap (initialOps s.layer_infos_) := by
    rw [ht]
    simp only [List.filter_append]
    rw [filter_eq_nil_of _ regs (fun op hop => by
        have := (hregs op hop).2
        cases hs : op.site <;> simp [hs, slotOf] at this <;> rfl),
      filter_eq_self_of _ (ks.flatMap (initialOps s.layer_infos_)) (fun op hop => by
        rw [List.mem_flatMap] at hop
        obtain ⟨k, -, hm⟩ := hop
        rw [(initialOps_facts _ k op hm).1]; rfl)]
    simp [isInitialSite]
  refine ⟨?_, ?_, ?_⟩
  · intro hw
    rw [hfilter, hks, if_pos hw, hlen]
    unfold initialWrites
    apply flatMap_congr_mem
    intro k hk
    have hk' : k < net.layers.length := List.mem_range.1 hk
    exact initialOps_eq R alloc cfg net s hno h k hk'
      (hslots k (by rw [hks, if_pos hw, hlen]; exact hk))
  · intro hw
    rw [hfilter, hks, if_neg hw]
    rfl
  · intro op hop hcall
    rw [ht] at hop
    simp only [List.mem_append, List.mem_cons, List.mem_singleton, List.not_mem_nil,
      or_false, List.mem_flatMap] at hop
    obtain ⟨x, hx⟩ := hcall
    rcases hop with (((((rfl | rfl) | hop) | (rfl | rfl)) | ⟨k, -, hm⟩) | (rfl | rfl))
    · rcases hx with hx | hx <;> cases hx
    · rcases hx with hx | hx <;> cases hx
    · obtain ⟨-, -, -, a, b⟩ := registration_facts op.call (hregs op hop).1
      rcases hx with hx | hx
      · exact absurd hx (a x)
      · exact absurd hx (b x)
    · rcases hx with hx | hx <;> cases hx
    · rcases hx with hx | hx <;> cases hx
    · rw [(initialOps_facts _ k op hm).1]; rfl
    · rcases hx with hx | hx <;> cases hx
    · rcases hx with hx | hx <;> cases hx

theorem C24_initial_write_by_worker_zero_witness :
    (InitPs 4 countingAlloc {} scenarioNet).trace.filter (fun op => isInitialSite op.site) =
      initialWrites (InitPs 4 countingAlloc {} scenarioNet).solver scenarioNet :=
  (C24_initial_write_by_worker_zero 4 countingAlloc {} scenarioNet
    (InitPs 4 countingAlloc {} scenarioNet).solver rfl rfl).1 rfl

theorem forwardLayer_fetch (n : Nat) (s s' : Solver) (i : Nat)
    (h : forwardLayer n s i = .ok s') (hs : FetchByPolicy s) : FetchByPolicy s' := by
  obtain ⟨-, hlt, hne, -, -⟩ := forwardLayer_frame n s s' i h
  obtain ⟨li, a, b, c, d, hli, ha, hb, -, -, rfl⟩ := forwardLayer_ok n s s' i h
  have hat : layerAt s i = li := layerAt_of_getElem? s i li hli
  obtain ⟨ea, ha1, -, ha3, -⟩ := accessLoop_append _ _ _ _ ha
  obtain ⟨eb, hb1, -, hb3, -⟩ := accessLoop_append _ _ _ _ hb
  intro j
  by_cases hj : j = i
  · subst hj
    have e : layerAt { s with
        imb_data_infos_ := c.1
        imb_diff_infos_ := d.1
        layer_infos_ := s.layer_infos_.set j { li with
          imbs_to_access_fw := a.2
          imb_diffs_to_access_fw := b.2
          imbs_to_release_fw := c.2
          imb_diffs_to_release_fw := d.2 } } j = { li with
          imbs_to_access_fw := a.2
          imb_diffs_to_access_fw := b.2
          imbs_to_release_fw := c.2
          imb_diffs_to_release_fw := d.2 } := by
      simp [layerAt, List.getD_eq_getElem?_getD, List.getElem?_set, hlt]
    rw [e]
    simp only []
    obtain ⟨h1, h2⟩ := hs j
    rw [hat] at h1 h2
    constructor
    · intro x hx
      rw [ha1, List.mem_append] at hx
      rcases hx with hx | hx
      · exact h1 x hx
      · exact (ha3 x hx).2
    · intro x hx
      rw [hb1, List.mem_append] at hx
      rcases hx with hx | hx
      · exact h2 x hx
      · exact (hb3 x hx).2
  · rw [hne j hj]
    exact hs j

theorem find_of_mem_entries (m : IntSet) (x : Nat) (fk : FetchKeep)
    (hs : m.keys.Pairwise (· < ·)) (h : (x, fk) ∈ m.entries) : m.find x = some fk := by
  obtain ⟨l⟩ := m
  unfold IntSet.find IntSet.keys at *
  simp only [] at *
  induction l with
  | nil => cases h
  | cons p rest ih =>
    obtain ⟨k, v⟩ := p
    rw [List.map_cons, List.pairwise_cons] at hs
    rcases List.mem_cons.1 h with e | e
    · cases e
      simp [List.find?_cons]
    · have hk : k < x := hs.1 x (List.mem_map_of_mem Prod.fst e)
      have hne : (k == x) = false := by simp; omega
      simp only [List.find?_cons, hne]
      exact ih hs.2 e

theorem InitPs_fetch (R : Nat) (alloc : HandleAlloc) (cfg : PsConfig) (net : Net) (s : Solver)
    (hno : cfg.no_ps = false) (h : (InitPs R alloc cfg net).outcome = .ok s) :
    FetchByPolicy s := by
  obtain ⟨s0, s1, s2, nt, h0, hf, hb, -, -, -, sp⟩ := InitPs_ok R alloc cfg net s hno h
  obtain ⟨len0, -, lay0⟩ := initialState_ok R cfg net s0 nt h0
  obtain ⟨-, -, stB, -, -, -⟩ :=
    backwardFold (net.layers.map Layer.need_backward) _ s1 s2 hb
      (List.nodup_reverse.2 (List.nodup_range _))
  have f0 : FetchByPolicy s0 := by
    intro j
    by_cases hj : j < net.layers.length
    · obtain ⟨li0, fresh, hF0⟩ := lay0 j _ (List.getElem?_eq_getElem hj)
      obtain ⟨-, cf0, -⟩ := fresh_layerUsage (netOutputSet net.net_output_blob_indices)
        _ li0 fresh
      rw [← hF0] at cf0
      obtain ⟨z1, -, z2, -⟩ := clearFw_self _ cf0
      rw [z1, z2]
      exact ⟨fun _ hx => (by cases hx), fun _ hx => (by cases hx)⟩
    · have : layerAt s0 j = {} := by
        simp [layerAt, List.getD_eq_getElem?_getD,
          List.getElem?_eq_none (by rw [len0]; omega : s0.layer_infos_.length ≤ j)]
      rw [this]
      exact ⟨fun _ hx => (by cases hx), fun _ hx => (by cases hx)⟩
  have f1 : FetchByPolicy s1 :=
    foldlM_invariant FetchByPolicy (forwardLayer net.layers.length)
      (fun a i b ha hab => forwardLayer_fetch _ a b i hab ha) _ s0 s1 hf f0
  intro j
  obtain ⟨u, a1, -, a2, -, -, -, -, -⟩ := planPart_fields _ _ (samePlan_layerAt s2 s sp j)
  obtain ⟨u', b1, -, b2, -⟩ := clearBw_fields _ _ (stB j)
  obtain ⟨c1, c2, -, -⟩ := usagePart_fields _ _ (u.trans u')
  rw [a1, a2, b1, b2, c1, c2]
  exact f1 j

/-- C21, counterexample: in the scenario graph the top of the loss stage, buffer 3, is the
net output, and over all stages the forward gradient access lists hold no entry for it,
not one; in the graph whose loss top feeds a further stage the one entry for the loss top
has fetch = false. -/
theorem C21_counterexample :
    ((InitPs 4 countingAlloc { batches_per_clock := 1 } scenarioNet).outcome =
      .ok (InitPs 4 countingAlloc { batches_per_clock := 1 } scenarioNet).solver ∧
    total (InitPs 4 countingAlloc { batches_per_clock := 1 } scenarioNet).solver.layer_infos_
      LayerInfo.imb_diffs_to_access_fw 3 = 0) ∧
    (InitPs 4 countingAlloc { batches_per_clock := 1 } lossFeedNet).solver.layer_infos_.map
      LayerInfo.imb_diffs_to_access_fw =
        [[], [], [{ global_imb_id := 3, fetch := false, keep := false }], []] :=
  ⟨⟨rfl, by decide⟩, by decide⟩

/-- C21, as the code has it: after a run of `InitPs` that completes, over all stages the
forward gradient access lists hold no entry for a net output, which is the case of the
loss top of the scenario; no forward gradient access entry has its fetch flag set; and a
loss stage has the forward gradient policy (no fetch, keep) for a top that is not a net
output. -/
theorem C21_loss_top_gradient_is_not_fetched_forward (R : Nat) (alloc : HandleAlloc)
    (cfg : PsConfig) (net : Net) (s : Solver) (hno : cfg.no_ps = false)
    (h : (InitPs R alloc cfg net).outcome = .ok s) :
    (∀ t, t ∈ net.net_output_blob_indices →
      total s.layer_infos_ LayerInfo.imb_diffs_to_access_fw t = 0) ∧
    (∀ li, li ∈ s.layer_infos_ → ∀ e, e ∈ li.imb_diffs_to_access_fw → e.fetch = false) ∧
    (∀ (k : Nat) (layer : Layer) (li : LayerInfo) (t : Nat), net.layers[k]? = some layer →
      s.layer_infos_[k]? = some li → layer.type = "SoftmaxWithLoss" → t ∈ layer.top_ids →
      t ∉ net.net_output_blob_indices → li.imb_diffs_used_fw.find t = some ⟨false, true⟩) := by
  have hlen := InitPs_length R alloc cfg net s hno h
  have facts : ∀ (k : Nat) (li : LayerInfo), s.layer_infos_[k]? = some li →
      ∃ layer, net.layers[k]? = some layer ∧ LayerFacts net s k layer ∧ layerAt s k = li := by
    intro k li hli
    have hk : k < net.layers.length := by
      rw [← hlen]; exact (List.getElem?_eq_some_iff.1 hli).1
    exact ⟨_, List.getElem?_eq_getElem hk,
      InitPs_layer R alloc cfg net s hno h k _ (List.getElem?_eq_getElem hk),
      layerAt_of_getElem? s k li hli⟩
  refine ⟨?_, ?_, ?_⟩
  · intro t ht
    unfold total
    apply List.sum_eq_zero
    intro x hx
    rw [List.mem_map] at hx
    obtain ⟨li, hli, rfl⟩ := hx
    obtain ⟨k, hk, rfl⟩ := List.getElem_of_mem hli
    obtain ⟨layer, -, f, e⟩ := facts k _ (List.getElem?_eq_getElem hk)
    rw [List.count_eq_zero]
    have hd := f.diff_access_fw
    rw [(layerFacts_usage net s k layer f).2.1, e] at hd
    exact not_mem_of_sublist_keys _ _ t hd (usageOf_no_output net layer t ht).2.1
  · intro li hli e he
    obtain ⟨k, hk, rfl⟩ := List.getElem_of_mem hli
    obtain ⟨layer, -, f, hat⟩ := facts k _ (List.getElem?_eq_getElem hk)
    obtain ⟨fk, hm, hfk⟩ := ((InitPs_fetch R alloc cfg net s hno h) k).2 e (by rw [hat]; exact he)
    rw [(layerFacts_usage net s k layer f).2.1] at hm
    have hfind := find_of_mem_entries _ _ fk (usageOf_sorted net layer).2.1 hm
    rw [usageOf_diff_fw_find] at hfind
    split at hfind
    · cases hfind
      exact hfk
    · cases hfind
  · intro k layer li t hk hli hty ht hno'
    obtain ⟨layer', hk', f, hat⟩ := facts k li hli
    rw [hk] at hk'
    cases hk'
    rw [← hat, (layerFacts_usage net s k layer f).2.1, usageOf_diff_fw_find, if_pos]
    refine ⟨ht, ?_⟩
    have : (netOutputSet net.net_output_blob_indices).count t = false := by
      rw [netOutputSet_count_false]; exact hno'
    simp [this, hty]

theorem C21_loss_top_gradient_is_not_fetched_forward_witness :
    total (InitPs 4 countingAlloc {} scenarioNet).solver.layer_infos_
      LayerInfo.imb_diffs_to_access_fw 3 = 0 :=
  (C21_loss_top_gradient_is_not_fetched_forward 4 countingAlloc {} scenarioNet
    (InitPs 4 countingAlloc {} scenarioNet).solver rfl rfl).1 3 (by decide)

theorem forwardLayer_config (n : Nat) (s : Solver) (k : Nat) (c : PsConfig) :
    forwardLayer n (withConfig c s) k = (forwardLayer n s k).map (withConfig c) := by
  unfold forwardLayer withConfig
  simp only []
  cases s.layer_infos_[k]? with
  | none => rfl
  | some li =>
    simp only [bind, Except.bind, pure, Except.pure, Except.map]
    cases accessLoop li.imbs_used_fw.entries s.imb_data_infos_ li.imbs_to_access_fw with
    | error e => rfl
    | ok a =>
      simp only []
      cases accessLoop li.imb_diffs_used_fw.entries s.imb_diff_infos_
          li.imb_diffs_to_access_fw with
      | error e => rfl
      | ok b =>
        simp only []
        split
        · rfl
        · split <;> rfl

theorem backwardLayer_config (nb : List Bool) (s : Solver) (k : Nat) (c : PsConfig) :
    backwardLayer nb (withConfig c s) k = (backwardLayer nb s k).map (withConfig c) := by
  unfold backwardLayer withConfig
  simp only []
  split
  · rfl
  · cases s.layer_infos_[k]? with
    | none => rfl
    | some li =>
      simp only [bind, Except.bind, pure, Except.pure, Except.map]
      cases accessLoop li.imbs_used_bw.entries s.imb_data_infos_ li.imbs_to_access_bw with
      | error e => rfl
      | ok a =>
        simp only []
        cases accessLoop li.imb_diffs_used_bw.entries s.imb_diff_infos_
            li.imb_diffs_to_access_bw with
        | error e => rfl
        | ok b =>
          simp only []
          split
          · rfl
          · split <;> rfl

theorem foldlM_map_comm {σ ι : Type} (f : σ → ι → Except Fatal σ) (g : σ → σ)
    (h : ∀ s i, f (g s) i = (f s i).map g) (l : List ι) (s : σ) :
    l.foldlM f (g s) = (l.foldlM f s).map g := by
  induction l generalizing s with
  | nil => rfl
  | cons i l ih =>
    simp only [List.foldlM_cons, bind, Except.bind]
    rw [h]
    cases f s i with
    | error e => rfl
    | ok s1 => exact ih s1

theorem initialState_config (R : Nat) (cfg cfg' : PsConfig) (net : Net) :
    initialState R cfg' net =
      (initialState R cfg net).map (fun p => (withConfig cfg' p.1, p.2)) := by
  unfold initialState withConfig
  simp only []
  split <;> rfl

theorem buildLists_config (net : Net) (s : Solver) (c : PsConfig) :
    buildLists net (withConfig c s) = (buildLists net s).map (withConfig c) := by
  unfold buildLists forwardPass
  rw [foldlM_map_comm _ _ (fun s i => forwardLayer_config _ s i c)]
  cases List.foldlM (forwardLayer net.layers.length) s (List.range net.layers.length) with
  | error e => rfl
  | ok s1 =>
    simp only [Except.map]
    unfold backwardPass
    exact foldlM_map_comm _ _ (fun s i => backwardLayer_config _ s i c) _ s1

theorem plan_config (R : Nat) (cfg cfg' : PsConfig) (net : Net)
    (hB : cfg'.batches_per_clock = cfg.batches_per_clock) :
    plan R cfg' net = (plan R cfg net).map (fun p => (withConfig cfg' p.1, p.2)) := by
  unfold plan listsOf
  rw [initialState_config R cfg cfg' net]
  cases initialState R cfg net with
  | error e => rfl
  | ok p =>
    obtain ⟨s0, nt⟩ := p
    simp only [Except.map]
    rw [buildLists_config]
    cases buildLists net s0 with
    | error e => rfl
    | ok s2 =>
      simp only [Except.map]
      have : allReleased (withConfig cfg' s2) = allReleased s2 := rfl
      rw [this, hB]
      split <;> rfl

theorem InitPs_static (R : Nat) (alloc : HandleAlloc) (cfg : PsConfig) (net : Net)
    (s sp : Solver) (nt : Nat) (hno : cfg.no_ps = false)
    (h : (InitPs R alloc cfg net).outcome = .ok s) (hp : plan R cfg net = .ok (sp, nt)) :
    s.layer_infos_.map staticPart = sp.layer_infos_.map staticPart ∧
    s.imb_data_infos_ = sp.imb_data_infos_ ∧ s.imb_diff_infos_ = sp.imb_diff_infos_ := by
  unfold InitPs at h
  simp only [hno, Bool.false_eq_true, if_false, hp] at h
  split at h
  · cases h
  · simp only [Except.ok.injEq] at h
    subst h
    rw [virtualIteration_eq]
    obtain ⟨_, -, -, -, -, r5⟩ := virtualFold_spec alloc cfg
      (net.layers.map Layer.need_backward)
      (slotSites sp.layer_infos_.length cfg.batches_per_clock) (slotSites_nodup _ _)
      (sp.layer_infos_,
        [{ site := .global, call := .create cfg.worker_id nt },
         { site := .global, call := .thread_start }])
    exact ⟨r5, rfl, rfl⟩

theorem siteShape_slack (cfg cfg' : PsConfig) (l : List LayerInfo) (nb : List Bool)
    (σ : Site) :
    (siteShape cfg l nb σ).map (fun op => { op with call := eraseSlack op.call }) =
      (siteShape cfg' l nb σ).map (fun op => { op with call := eraseSlack op.call }) := by
  cases σ with
  | global => rfl
  | initial _ => rfl
  | forward b k =>
    simp only [siteShape]
    split
    · rfl
    · split <;> rfl
  | backward b k =>
    simp only [siteShape]
    split
    · rfl
    · split
      · rfl
      · split <;> rfl

theorem planPart_static (l l' : List LayerInfo)
    (h : l.map staticPart = l'.map staticPart) : l.map planPart = l'.map planPart := by
  have e : ∀ (x : List LayerInfo), x.map planPart = (x.map staticPart).map planPart := by
    intro x
    rw [List.map_map]
    rfl
  rw [e l, e l', h]

/-- C28: two runs of `InitPs` on the same graph with the same number of slots that
complete, whatever their worker ids, worker counts, staleness bounds and the handles the
client returns, leave the same usage sets, access and release lists and row assignments,
and issue the same sequence of registrations as to kind, stage, direction, slot, table,
rows and counts; and planning passes in the one exactly when it passes in the other. -/
theorem C28_planning_ignores_worker_and_slack (R : Nat) (alloc alloc' : HandleAlloc)
    (cfg cfg' : PsConfig) (net : Net)
    (hB : cfg'.batches_per_clock = cfg.batches_per_clock) :
    planned R cfg' net = planned R cfg net ∧
    ∀ (s s' : Solver), cfg.no_ps = false → cfg'.no_ps = false →
      (InitPs R alloc cfg net).outcome = .ok s →
      (InitPs R alloc' cfg' net).outcome = .ok s' →
      s'.layer_infos_.map planPart = s.layer_infos_.map planPart ∧
      s'.imb_data_infos_ = s.imb_data_infos_ ∧ s'.imb_diff_infos_ = s.imb_diff_infos_ ∧
      (registrations (InitPs R alloc' cfg' net).trace).map regShape =
        (registrations (InitPs R alloc cfg net).trace).map regShape := by
  constructor
  · unfold planned
    rw [plan_config R cfg cfg' net hB]
    cases plan R cfg net <;> rfl
  intro s s' hno hno' h h'
  obtain ⟨sp, nt, hp⟩ := plan_of_InitPs R alloc cfg net s hno h
  have hp' : plan R cfg' net = .ok (withConfig cfg' sp, nt) := by
    rw [plan_config R cfg cfg' net hB, hp]; rfl
  obtain ⟨a1, a2, a3⟩ := InitPs_static R alloc cfg net s sp nt hno h hp
  obtain ⟨b1, b2, b3⟩ := InitPs_static R alloc' cfg' net s' _ nt hno' h' hp'
  have hst : s'.layer_infos_.map staticPart = s.layer_infos_.map staticPart := by
    rw [a1, b1]; rfl
  obtain ⟨-, r⟩ := InitPs_registrations R alloc cfg net s hno h
  obtain ⟨-, r'⟩ := InitPs_registrations R alloc' cfg' net s' hno' h'
  have hof : ∀ (t : List PsOp), t.map regShape =
      (t.map eraseHandles).map (fun op => { op with call := eraseSlack op.call }) := by
    intro t
    rw [List.map_map]
    rfl
  refine ⟨planPart_static _ _ hst, by rw [a2, b2]; rfl, by rw [a3, b3]; rfl, ?_⟩
  rw [hof, hof, r, r', hst, hB, List.map_flatMap, List.map_flatMap]
  apply flatMap_congr_mem
  intro σ _
  exact siteShape_slack cfg' cfg _ _ σ

theorem C28_planning_ignores_worker_and_slack_witness :
    (registrations (InitPs 4 countingAlloc { worker_id := 1, num_workers := 2, slack := 3 }
        scenarioNet).trace).map regShape =
      (registrations (InitPs 4 countingAlloc {} scenarioNet).trace).map regShape :=
  ((C28_planning_ignores_worker_and_slack 4 countingAlloc countingAlloc {}
    { worker_id := 1, num_workers := 2, slack := 3 } scenarioNet rfl).2
    (InitPs 4 countingAlloc {} scenarioNet).solver
    (InitPs 4 countingAlloc { worker_id := 1, num_workers := 2, slack := 3 }
      scenarioNet).solver rfl rfl rfl rfl).2.2.2

theorem foldlM_ok_of_inv {σ ι : Type} (Inv : σ → Prop) (f : σ → ι → Except Fatal σ)
    (l : List ι) (hstep : ∀ s i, i ∈ l → Inv s → ∃ s', f s i = .ok s' ∧ Inv s')
    (s : σ) (h : Inv s) : ∃ s', l.foldlM f s = .ok s' ∧ Inv s' := by
  induction l generalizing s with
  | nil => exact ⟨s, rfl, h⟩
  | cons i l ih =>
    obtain ⟨s1, e1, h1⟩ := hstep s i (List.mem_cons_self _ _) h
    obtain ⟨s2, e2, h2⟩ := ih (fun s j hj hs => hstep s j (List.mem_cons_of_mem _ hj) hs) s1 h1
    refine ⟨s2, ?_, h2⟩
    rw [foldlM_ok_cons]
    exact ⟨s1, e1, e2⟩

theorem Init_passes (R : Nat) (alloc : HandleAlloc) (env : Scaffold) (param : SolverParameter)
    (cfg : PsConfig) (plan : Solver) (n : Nat) (hroot : env.root_solver = true)
    (hav : 1 ≤ param.average_loss) (htrain : InitTrainNet param = .ok ())
    (htest : InitTestNets true param = .ok n)
    (hplan : (InitPs R alloc cfg env.train_net).outcome = .ok plan) :
    Init R alloc env param cfg =
      { trace := (InitPs R alloc cfg env.train_net).trace,
        outcome := .ok { plan := plan, param_ := param, net_ := env.train_net,
                         test_nets_ := (List.range n).map env.test_net,
                         iter_ := 0, requested_early_exit_ := false } } := by
  simp only [Init, hroot, hav, htrain, htest, hplan]
  simp

theorem construct_fatal_of_check (R : Nat) (alloc : HandleAlloc) (env : Scaffold)
    (cls : SolverClass) (param : SolverParameter) (cfg : PsConfig)
    (h : constructor_sanity_check cls param = .error .checkFailed) :
    ∃ e, (construct R alloc env cls param cfg).outcome = .error e := by
  unfold construct
  cases hb : (Init R alloc env param cfg).outcome with
  | error e => exact ⟨e, by simp [hb]⟩
  | ok o => exact ⟨.checkFailed, by simp only [hb, h]⟩

/-- C27, counterexample: asked for AdaGrad with momentum 1 on the scenario graph, the
construction stops on the failed check of the constructor, and by then `InitPs` has built
its plan and made all its sixteen calls on the table service, the eight registrations of the
virtual iteration, the initial write and the clock advance among them. -/
theorem C27_counterexample :
    (GetSolver 4 countingAlloc scenarioScaffold adagradWithMomentum {}).fatal =
      some .checkFailed ∧
    (InitPs 4 countingAlloc {} scenarioNet).outcome =
      .ok (InitPs 4 countingAlloc {} scenarioNet).solver ∧
    (GetSolver 4 countingAlloc scenarioScaffold adagradWithMomentum {}).trace =
      (InitPs 4 countingAlloc {} scenarioNet).trace ∧
    (GetSolver 4 countingAlloc scenarioScaffold adagradWithMomentum {}).trace.length = 16 ∧
    ((GetSolver 4 countingAlloc scenarioScaffold adagradWithMomentum {}).trace.filter
      (fun op => isRegistration op.call)).length = 8 ∧
    ((GetSolver 4 countingAlloc scenarioScaffold adagradWithMomentum {}).trace.filter
      (fun op => isRealOp op.call)).length = 3 :=
  ⟨by decide, rfl, by decide, by decide, by decide, by decide⟩

/-- C27, as the code has it: an AdaGrad solver with non-zero momentum is always rejected
with a fatal stop and no solver is returned, `GetSolver` included; the check that rejects
it is in the body of the constructor of `AdaGradSolver` and runs after the constructor of
`Solver`, so whenever the checks of `Init` and the planning of `InitPs` pass, the
construction has made every call of `InitPs` on the table service before it stops on the
failed check. -/
theorem C27_adagrad_momentum_rejected_after_planning (R : Nat) (alloc : HandleAlloc)
    (env : Scaffold) (param : SolverParameter) (cfg : PsConfig)
    (hm : param.momentum ≠ 0) :
    (∃ e, (construct R alloc env .AdaGradSolver param cfg).outcome = .error e) ∧
    (param.solver_type = .ADAGRAD →
      GetSolver R alloc env param cfg = construct R alloc env .AdaGradSolver param cfg) ∧
    (∀ (plan : Solver) (n : Nat), env.root_solver = true → 1 ≤ param.average_loss →
      InitTrainNet param = .ok () → InitTestNets true param = .ok n →
      (InitPs R alloc cfg env.train_net).outcome = .ok plan →
      construct R alloc env .AdaGradSolver param cfg =
        { trace := (InitPs R alloc cfg env.train_net).trace,
          outcome := .error .checkFailed }) := by
  have hc : constructor_sanity_check .AdaGradSolver param = .error .checkFailed := by
    have h0 : ¬ (0 : Rat) = param.momentum := fun h => hm h.symm
    simp [constructor_sanity_check, h0]
  refine ⟨construct_fatal_of_check R alloc env _ param cfg hc, ?_, ?_⟩
  · intro ht
    simp [GetSolver, ht]
  · intro plan n hroot hav htrain htest hplan
    unfold construct
    rw [Init_passes R alloc env param cfg plan n hroot hav htrain htest hplan]
    simp [hc]

theorem C27_adagrad_momentum_rejected_after_planning_witness :
    adagradWithMomentum.momentum ≠ 0 ∧
    GetSolver 4 countingAlloc scenarioScaffold adagradWithMomentum {} =
      { trace := (InitPs 4 countingAlloc {} scenarioNet).trace,
        outcome := .error .checkFailed } :=
  ⟨by decide,
   ((C27_adagrad_momentum_rejected_after_planning 4 countingAlloc scenarioScaffold
      adagradWithMomentum {} (by decide)).2.1 rfl).trans
    ((C27_adagrad_momentum_rejected_after_planning 4 countingAlloc scenarioScaffold
      adagradWithMomentum {} (by decide)).2.2
        (InitPs 4 countingAlloc {} scenarioNet).solver 0 rfl (by decide) rfl rfl rfl)⟩

theorem InitPs_no_ps (R : Nat) (alloc : HandleAlloc) (cfg : PsConfig) (net : Net)
    (h : cfg.no_ps = true) :
    InitPs R alloc cfg net = { trace := [], outcome := .ok { ps_config_ := cfg } } := by
  simp [InitPs, h]

theorem Init_trace_no_ps (R : Nat) (alloc : HandleAlloc) (env : Scaffold)
    (param : SolverParameter) (cfg : PsConfig) (h : cfg.no_ps = true) :
    (Init R alloc env param cfg).trace = [] ∧
    ∀ o, (Init R alloc env param cfg).outcome = .ok o → o.plan = { ps_config_ := cfg } := by
  unfold Init
  rw [InitPs_no_ps R alloc cfg env.train_net h]
  by_cases h1 : env.root_solver = true
  · by_cases h2 : 1 ≤ param.average_loss
    · cases h3 : InitTrainNet param with
      | error e => simp [h1, h2]
      | ok u =>
        cases h4 : InitTestNets env.root_solver param with
        | error e => simp [h1, h2]
        | ok n =>
          simp only [h1, h2, not_true_eq_false, if_false]
          refine ⟨trivial, ?_⟩
          intro o ho
          injection ho with ho
          rw [← ho]
    · simp [h1, h2]
  · simp [h1]

theorem construct_trace (R : Nat) (alloc : HandleAlloc) (env : Scaffold) (cls : SolverClass)
    (param : SolverParameter) (cfg : PsConfig) :
    (construct R alloc env cls param cfg).trace = (Init R alloc env param cfg).trace ∧
    ∀ o, (construct R alloc env cls param cfg).outcome = .ok o →
      constructor_sanity_check cls param = .ok () ∧ o.solver_class = cls ∧
      ∃ b, (Init R alloc env param cfg).outcome = .ok b ∧ o.plan = b.plan := by
  unfold construct
  cases hb : (Init R alloc env param cfg).outcome with
  | error e =>
    simp only [hb]
    refine ⟨trivial, ?_⟩
    intro o ho
    cases ho
  | ok b =>
    cases hc : constructor_sanity_check cls param with
    | error e =>
      simp only [hb, hc]
      refine ⟨trivial, ?_⟩
      intro o ho
      cases ho
    | ok u =>
      simp only [hb, hc]
      refine ⟨trivial, ?_⟩
      intro o ho
      injection ho with ho
      subst ho
      exact ⟨trivial, rfl, b, by simp, rfl⟩

theorem construct_returns (R : Nat) (alloc : HandleAlloc) (env : Scaffold) (cls : SolverClass)
    (param : SolverParameter) (cfg : PsConfig) (b : SolverObject)
    (hb : (Init R alloc env param cfg).outcome = .ok b)
    (hc : constructor_sanity_check cls param = .ok ()) :
    (construct R alloc env cls param cfg).outcome = .ok { b with solver_class := cls } := by
  unfold construct
  simp only [hb, hc]

theorem GetSolver_cases (R : Nat) (alloc : HandleAlloc) (env : Scaffold)
    (param : SolverParameter) (cfg : PsConfig) :
    (param.solver_type ∉ typesWithPsConfig ∧
      GetSolver R alloc env param cfg = { trace := [], outcome := .error .logFatal }) ∨
    (param.solver_type ∈ typesWithPsConfig ∧
      ∃ cls, classOfType param.solver_type = some cls ∧
        GetSolver R alloc env param cfg = construct R alloc env cls param cfg) := by
  unfold GetSolver typesWithPsConfig
  cases h : param.solver_type with
  | SGD => exact Or.inr ⟨by simp, _, rfl, rfl⟩
  | NESTEROV => exact Or.inr ⟨by simp, _, rfl, rfl⟩
  | ADAGRAD => exact Or.inr ⟨by simp, _, rfl, rfl⟩
  | RMSPROP => exact Or.inl ⟨by simp, rfl⟩
  | ADADELTA => exact Or.inl ⟨by simp, rfl⟩
  | ADAM => exact Or.inl ⟨by simp, rfl⟩
  | other v => exact Or.inl ⟨by simp, rfl⟩

theorem GetSolver_withoutPsConfig_cases (R : Nat) (alloc : HandleAlloc) (env : Scaffold)
    (param : SolverParameter) (worker_id num_workers : Int) :
    (param.solver_type ∉ typesWithoutPsConfig ∧
      GetSolver.withoutPsConfig R alloc env param worker_id num_workers =
        { trace := [], outcome := .error .logFatal }) ∨
    (param.solver_type ∈ typesWithoutPsConfig ∧
      ∃ cls, classOfType param.solver_type = some cls ∧
        GetSolver.withoutPsConfig R alloc env param worker_id num_workers =
          construct R alloc env cls param (localConfig worker_id num_workers)) := by
  unfold GetSolver.withoutPsConfig typesWithoutPsConfig
  cases h : param.solver_type with
  | SGD => exact Or.inr ⟨by simp, _, rfl, rfl⟩
  | NESTEROV => exact Or.inr ⟨by simp, _, rfl, rfl⟩
  | ADAGRAD => exact Or.inr ⟨by simp, _, rfl, rfl⟩
  | RMSPROP => exact Or.inr ⟨by simp, _, rfl, rfl⟩
  | ADADELTA => exact Or.inr ⟨by simp, _, rfl, rfl⟩
  | ADAM => exact Or.inr ⟨by simp, _, rfl, rfl⟩
  | other v => exact Or.inl ⟨by simp, rfl⟩

/-- C26, counterexample: asked for SGD with `average_loss` 0, `GetSolver` with a
`PsConfig` is fatal on the check of `Init` and returns no solver although the type is SGD,
and so is `GetSolver` without a `PsConfig`. -/
theorem C26_counterexample :
    sgdAverageZero.solver_type = .SGD ∧
    (GetSolver 4 countingAlloc scenarioScaffold sgdAverageZero {}).returned = none ∧
    (GetSolver 4 countingAlloc scenarioScaffold sgdAverageZero {}).fatal =
      some .checkFailed ∧
    (GetSolver.withoutPsConfig 4 countingAlloc scenarioScaffold sgdAverageZero 0 1).returned =
      none :=
  ⟨rfl, rfl, by decide, rfl⟩

/-- C26, as the code has it: `GetSolver` rejects an unsupported optimizer with the fatal
stop of `LOG(FATAL)` before any solver or plan is constructed and without a call on the
table service.  Called with a `PsConfig` it constructs a solver exactly when the type is
SGD, NESTEROV or ADAGRAD, of the class of that type, and returns it exactly when moreover
the construction itself, the checks of `Init`, `InitPs` and the check of the constructor,
is not fatal.  Called without a `PsConfig` it names exactly SGD, NESTEROV, ADAGRAD,
RMSPROP, ADADELTA and ADAM, constructs the solver with `no_ps` set, makes no call on the
table service, and every solver it returns has `no_ps` set and an empty plan. -/
theorem C26_GetSolver_rejects_unsupported_before_construction (R : Nat)
    (alloc : HandleAlloc) (env : Scaffold) (param : SolverParameter) (cfg : PsConfig)
    (worker_id num_workers : Int) :
    (param.solver_type ∉ typesWithPsConfig →
      GetSolver R alloc env param cfg = { trace := [], outcome := .error .logFatal }) ∧
    (param.solver_type ∈ typesWithPsConfig →
      ∃ cls, classOfType param.solver_type = some cls ∧
        GetSolver R alloc env param cfg = construct R alloc env cls param cfg) ∧
    ((∃ o, (GetSolver R alloc env param cfg).outcome = .ok o) ↔
      param.solver_type ∈ typesWithPsConfig ∧
      ∃ cls, classOfType param.solver_type = some cls ∧
        (∃ b, (Init R alloc env param cfg).outcome = .ok b) ∧
        constructor_sanity_check cls param = .ok ()) ∧
    (∀ o, (GetSolver R alloc env param cfg).outcome = .ok o →
      classOfType param.solver_type = some o.solver_class) ∧
    (param.solver_type ∉ typesWithoutPsConfig →
      GetSolver.withoutPsConfig R alloc env param worker_id num_workers =
        { trace := [], outcome := .error .logFatal }) ∧
    (param.solver_type ∈ typesWithoutPsConfig →
      ∃ cls, classOfType param.solver_type = some cls ∧
        GetSolver.withoutPsConfig R alloc env param worker_id num_workers =
          construct R alloc env cls param (localConfig worker_id num_workers)) ∧
    (localConfig worker_id num_workers).no_ps = true ∧
    (GetSolver.withoutPsConfig R alloc env param worker_id num_workers).trace = [] ∧
    (∀ o, (GetSolver.withoutPsConfig R alloc env param worker_id num_workers).outcome = .ok o →
      param.solver_type ∈ typesWithoutPsConfig ∧
      classOfType param.solver_type = some o.solver_class ∧
      o.plan = { ps_config_ := localConfig worker_id num_workers }) := by
  have hw := GetSolver_cases R alloc env param cfg
  have hn := GetSolver_withoutPsConfig_cases R alloc env param worker_id num_workers
  refine ⟨?_, ?_, ?_, ?_, ?_, ?_, rfl, ?_, ?_⟩
  · intro h
    rcases hw with ⟨_, e⟩ | ⟨h', _⟩
    · exact e
    · exact absurd h' h
  · intro h
    rcases hw with ⟨h', _⟩ | ⟨_, e⟩
    · exact absurd h h'
    · exact e
  · rcases hw with ⟨h', e⟩ | ⟨h', cls, hc, e⟩
    · rw [e]
      constructor
      · rintro ⟨o, ho⟩
        cases ho
      · rintro ⟨h, _⟩
        exact absurd h h'
    · rw [e]
      constructor
      · rintro ⟨o, ho⟩
        obtain ⟨h1, _, b, hb, _⟩ := (construct_trace R alloc env cls param cfg).2 o ho
        exact ⟨h', cls, hc, ⟨b, hb⟩, h1⟩
      · rintro ⟨_, cls', hc', ⟨b, hb⟩, h1⟩
        rw [hc] at hc'
        injection hc' with hc'
        subst hc'
        exact ⟨_, construct_returns R alloc env cls param cfg b hb h1⟩
  · intro o ho
    rcases hw with ⟨_, e⟩ | ⟨_, cls, hc, e⟩
    · rw [e] at ho
      cases ho
    · rw [e] at ho
      rw [hc, ((construct_trace R alloc env cls param cfg).2 o ho).2.1]
  · intro h
    rcases hn with ⟨_, e⟩ | ⟨h', _⟩
    · exact e
    · exact absurd h' h
  · intro h
    rcases hn with ⟨h', _⟩ | ⟨_, e⟩
    · exact absurd h h'
    · exact e
  · rcases hn with ⟨_, e⟩ | ⟨_, cls, _, e⟩
    · rw [e]
    · rw [e, (construct_trace R alloc env cls param _).1]
      exact (Init_trace_no_ps R alloc env param _ rfl).1
  · intro o ho
    rcases hn with ⟨_, e⟩ | ⟨h', cls, hc, e⟩
    · rw [e] at ho
      cases ho
    · rw [e] at ho
      obtain ⟨_, h2, b, hb, hp⟩ := (construct_trace R alloc env cls param _).2 o ho
      refine ⟨h', by rw [hc, h2], ?_⟩
      rw [hp]
      exact (Init_trace_no_ps R alloc env param _ rfl).2 b hb

theorem C26_GetSolver_rejects_unsupported_before_construction_witness :
    GetSolver 4 countingAlloc scenarioScaffold adamParameter {} =
      { trace := [], outcome := .error .logFatal } ∧
    (GetSolver.withoutPsConfig 4 countingAlloc scenarioScaffold adamParameter 0 1).trace = [] ∧
    ((GetSolver.withoutPsConfig 4 countingAlloc scenarioScaffold adamParameter 0 1).returned.map
      (fun o => (o.solver_class, o.plan.ps_config_.no_ps))) = some (.AdamSolver, true) :=
  ⟨(C26_GetSolver_rejects_unsupported_before_construction 4 countingAlloc scenarioScaffold
      adamParameter {} 0 1).1 (by decide),
   (C26_GetSolver_rejects_unsupported_before_construction 4 countingAlloc scenarioScaffold
      adamParameter {} 0 1).2.2.2.2.2.2.2.1,
   by decide⟩

/-- C29, the code at the failing input: the callback answers STOP at the poll after the
first iteration of a call `Step(2)`; `Step` takes the answer and goes on: it runs the
second iteration, with its clock advance, and returns with `iter_` at 2 and the early-exit
flag still false. -/
theorem C29_stop_after_an_iteration_is_dropped :
    stopAfterFirst.run.fatal = none ∧
    stopAfterFirst.run.requests = [] ∧
    stopAfterFirst.run.solver.iter_ = 2 ∧
    stopAfterFirst.run.solver.requested_early_exit_ = false ∧
    clockAdvances stopAfterFirst.run.trace = 2 ∧
    stopAfterFirst.losses.length = 1 :=
  ⟨by decide, by decide, by decide, by decide, by decide, by decide⟩

/-- C25, the code at the failing input: with `no_ps` set `InitPs` returns at once, with no
call, no client and an empty plan, whatever the graph; `ForwardBackwardUsingPs` then runs
no stage and ends on `ps_->iterate()`, a call on the client that was never created; and
the first iteration of `Step` on the solver `GetSolver(param)` built stops there, fatally,
with `iter_` still 0. -/
theorem C25_no_ps_iteration_calls_the_missing_client (R : Nat) (alloc : HandleAlloc)
    (cfg : PsConfig) (net net' : Net) (test : Bool) :
    InitPs R alloc { cfg with no_ps := true } net =
      { trace := [], outcome := .ok { ps_config_ := { cfg with no_ps := true } } } ∧
    ForwardBackwardUsingPs { ps_config_ := { cfg with no_ps := true } } net' test =
      { trace := [], outcome := .error .nullClient } ∧
    stepWithoutPs.run.fatal = some .nullClient ∧
    stepWithoutPs.run.trace = [] ∧
    stepWithoutPs.run.solver.iter_ = 0 := by
  refine ⟨InitPs_no_ps R alloc _ net rfl, ?_, by decide, by decide, by decide⟩
  have hb : ∀ (l : List Nat) (it : Iteration),
      l.foldl (runBatch { ps_config_ := { cfg with no_ps := true } } net' test) it = it := by
    intro l
    induction l with
    | nil => intro it; rfl
    | cons b l ih =>
      intro it
      rw [List.foldl_cons, ih]
      simp [runBatch]
  simp [ForwardBackwardUsingPs, hb]

theorem assignParams_ids (blobs : List Nat) (nv g : Nat) :
    (assignParams blobs nv g).1.map ParamInfo.global_param_id = List.range' g blobs.length := by
  induction blobs generalizing nv g with
  | nil => rfl
  | cons c rest ih =>
    simp only [assignParams, List.map_cons, List.length_cons, List.range'_succ]
    rw [ih]

theorem assignParamRows_ids (R : Nat) (ls : List Layer) (c : RowCounters) :
    globalParamIds (assignParamRows R ls c).1 =
      List.range' c.global_param_id (ls.map (fun l => l.blobs.length)).sum := by
  induction ls generalizing c with
  | nil => rfl
  | cons l rest ih =>
    have hc := (paramRowsStep_counters R c l).2.2.2.2
    simp only [assignParamRows, globalParamIds, List.flatMap_cons, List.map_cons,
      List.sum_cons]
    have ih' := ih (paramRowsStep R c l).2
    unfold globalParamIds at ih'
    rw [ih', hc]
    by_cases hp : 0 < l.blobs.length
    · have : (paramRowsStep R c l).1.param_infos =
          (assignParams l.blobs 0 c.global_param_id).1 := by
        simp [paramRowsStep, hp]
      rw [this, assignParams_ids, List.range'_append_1, Nat.add_comm]
    · have h0 : l.blobs.length = 0 := by omega
      have : (paramRowsStep R c l).1.param_infos = [] := by
        simp [paramRowsStep, h0]
      rw [this, h0]
      simp

/-- C36: the global ids lines 253-258 assign, read in stage-then-parameter order, are
0, 1, 2, ... without gaps, as many as the stages have parameters, whether or not planning
passes afterwards; in a run of `InitPs` that completes they are exactly the numbers below
the declared parameter count of the graph, so that the `j`-th parameter has id `j` and
distinct parameters have distinct ids; and the `j`-th parameter of stage `k` has the id
that counts the parameters of the stages before `k` plus `j`, and as `val_offset` the sum
of the element counts of the parameters `0 .. j - 1` of its stage. -/
theorem C36_global_param_ids_enumerate_parameters (R : Nat) (alloc : HandleAlloc)
    (cfg : PsConfig) (net : Net) :
    globalParamIds (assignParamRows R net.layers {}).1 =
      List.range (net.layers.map (fun l => l.blobs.length)).sum ∧
    ∀ s : Solver, cfg.no_ps = false → (InitPs R alloc cfg net).outcome = .ok s →
      globalParamIds s.layer_infos_ = List.range net.params.length ∧
      (globalParamIds s.layer_infos_).Nodup ∧
      ∀ (k : Nat) (layer : Layer) (li : LayerInfo), net.layers[k]? = some layer →
        s.layer_infos_[k]? = some li →
        li.param_infos.length = layer.blobs.length ∧
        ∀ j, j < layer.blobs.length → li.param_infos[j]? =
          some { global_param_id := ((net.layers.take k).map (fun l => l.blobs.length)).sum + j,
                 val_offset := (layer.blobs.take j).sum } := by
  have hall : globalParamIds (assignParamRows R net.layers {}).1 =
      List.range (net.layers.map (fun l => l.blobs.length)).sum := by
    rw [assignParamRows_ids, List.range_eq_range']
  refine ⟨hall, ?_⟩
  intro s hno h
  have hids : globalParamIds s.layer_infos_ =
      globalParamIds (assignParamRows R net.layers {}).1 := by
    have e : ∀ l : List LayerInfo, globalParamIds l = globalParamIds (l.map rowPart) := by
      intro l
      simp only [globalParamIds, List.flatMap_map]
      rfl
    rw [e, e (assignParamRows R net.layers {}).1, InitPs_rowParts R alloc cfg net s hno h]
  obtain ⟨s0, s1, s2, nt, h0, -⟩ := InitPs_ok R alloc cfg net s hno h
  have hP : (net.layers.map (fun l => l.blobs.length)).sum = net.params.length := by
    rw [← total_num_params_eq R net]
    exact (initialState_eq R cfg net s0 nt h0).1
  have hrange : globalParamIds s.layer_infos_ = List.range net.params.length := by
    rw [hids, hall, hP]
  refine ⟨hrange, by rw [hrange]; exact List.nodup_range _, ?_⟩
  intro k layer li hk hli
  obtain ⟨hne, he⟩ := InitPs_stage_rows R alloc cfg net s hno h k layer li hk hli
  by_cases hb : layer.blobs = []
  · rw [(he hb).2.2.2, hb]
    exact ⟨rfl, fun j hj => absurd hj (by simp)⟩
  · rw [(hne hb).2.2.2.2]
    obtain ⟨-, -, h3, h4⟩ := assignParams_spec layer.blobs 0
      ((net.layers.take k).map (fun l => l.blobs.length)).sum
    refine ⟨h3, fun j hj => ?_⟩
    rw [h4 j hj, Nat.zero_add]

theorem C36_global_param_ids_enumerate_parameters_witness :
    globalParamIds (InitPs 4 countingAlloc {} twoParamNet).solver.layer_infos_ =
      [0, 1, 2, 3, 4] ∧
    ((InitPs 4 countingAlloc {} twoParamNet).solver.layer_infos_.map
      (fun li => li.param_infos.map ParamInfo.val_offset)) = [[], [0, 6], [], [0, 8, 10], []] :=
  ⟨((C36_global_param_ids_enumerate_parameters 4 countingAlloc {} twoParamNet).2
      (InitPs 4 countingAlloc {} twoParamNet).solver rfl rfl).1,
   by decide⟩

theorem axpby_zero (a : Rat) (g : List Rat) :
    caffe_cpu_axpby a g 0 (List.replicate g.length 0) = g.map (fun x => a * x) := by
  induction g with
  | nil => rfl
  | cons x rest ih =>
    simp only [List.length_cons, List.replicate_succ, caffe_cpu_axpby, List.zipWith_cons_cons,
      List.map_cons]
    unfold caffe_cpu_axpby at ih
    rw [ih]
    simp

theorem axpby_one_zero (h : List Rat) (u : List Rat) (hl : u.length = h.length) :
    caffe_cpu_axpby (1 + 0) h (-0) u = h := by
  induction h generalizing u with
  | nil => cases u <;> rfl
  | cons x rest ih =>
    cases u with
    | nil => simp at hl
    | cons y us =>
      simp only [caffe_cpu_axpby, List.zipWith_cons_cons]
      have := ih us (by simpa using hl)
      unfold caffe_cpu_axpby at this
      rw [this]
      simp

/-- C38, the code at the failing input and in general: with momentum 0 and zero history,
`SGDSolver::ComputeUpdateValue` leaves minus rate times `lr_mult` times the gradient in the
diff, element by element, and `NesterovSolver::ComputeUpdateValue` leaves plus rate times
`lr_mult` times the gradient, the opposite update; for the gradient 1 with rate 1 and
`lr_mult` 1 the diffs are -1 and 1. -/
theorem C38_nesterov_update_has_the_opposite_sign (lr_mult rate : Rat) (g : List Rat) :
    (SGDSolver.ComputeUpdateValue 0 lr_mult rate (freshBlobs g)).diff =
      g.map (fun x => -rate * lr_mult * x) ∧
    nesterovDiff true 0 lr_mult rate (freshBlobs g) =
      some (g.map (fun x => rate * lr_mult * x)) ∧
    (SGDSolver.ComputeUpdateValue 0 1 1 (freshBlobs [1])).diff = [-1] ∧
    nesterovDiff true 0 1 1 (freshBlobs [1]) = some [1] := by
  refine ⟨?_, ?_, ?_, ?_⟩
  · simp only [SGDSolver.ComputeUpdateValue, freshBlobs, caffe_copy]
    exact axpby_zero _ g
  · simp only [nesterovDiff, NesterovSolver.ComputeUpdateValue, freshBlobs, caffe_copy,
      not_true_eq_false, if_false]
    rw [axpby_zero, axpby_one_zero _ _ (by simp)]
  · norm_num [SGDSolver.ComputeUpdateValue, freshBlobs, caffe_copy, caffe_cpu_axpby]
  · norm_num [nesterovDiff, NesterovSolver.ComputeUpdateValue, freshBlobs, caffe_copy,
      caffe_cpu_axpby]

theorem sameObject_refl (t : Training) : SameObject t t := ⟨rfl, rfl, rfl, rfl, rfl⟩

theorem sameObject_trans (a b c : Training) (h1 : SameObject a b) (h2 : SameObject b c) :
    SameObject a c :=
  ⟨h2.1.trans h1.1, h2.2.1.trans h1.2.1, h2.2.2.1.trans h1.2.2.1,
   h2.2.2.2.1.trans h1.2.2.2.1, h2.2.2.2.2.trans h1.2.2.2.2⟩

theorem GetRequestedAction_same (t : Training) : SameObject t (GetRequestedAction t).2 := by
  unfold GetRequestedAction
  cases t.requests <;> exact sameObject_refl _

theorem Snapshot_same (root_solver : Bool) (t : Training) :
    SameObject t (Snapshot root_solver t) := by
  unfold Snapshot
  split
  · exact sameObject_refl _
  · split <;> exact sameObject_refl _

theorem ite_same (c : Prop) [Decidable c] (t a b : Training) (ha : SameObject t a)
    (hb : SameObject t b) : SameObject t (if c then a else b) := by
  split
  · exact ha
  · exact hb

theorem poll_same (root_solver : Bool) (fuel : Nat) (request : SolverAction) (t : Training) :
    SameObject t (Test.poll root_solver fuel request t) := by
  induction fuel generalizing request t with
  | zero => exact sameObject_refl _
  | succ fuel ih =>
    unfold Test.poll
    dsimp only
    have hacted : SameObject t (if request = .SNAPSHOT then Snapshot root_solver t
        else if request = .STOP then
          { t with solver := { t.solver with requested_early_exit_ := true } }
        else t) :=
      ite_same _ _ _ _ (Snapshot_same _ _)
        (ite_same _ _ _ _ (sameObject_refl _) (sameObject_refl _))
    apply ite_same _ _ _ _ (sameObject_refl _)
    apply ite_same _ _ _ _ hacted
    exact sameObject_trans _ _ _ hacted
      (sameObject_trans _ _ _ (GetRequestedAction_same _) (ih _ _))

theorem testLoop_same (root_solver : Bool) (test_net : Net) (n : Nat) (t : Training) :
    SameObject t (Test.loop root_solver test_net n t) := by
  induction n generalizing t with
  | zero => exact sameObject_refl _
  | succ n ih =>
    unfold Test.loop
    dsimp only
    have hp : SameObject t (Test.poll root_solver ((GetRequestedAction t).2.requests.length + 2)
        (GetRequestedAction t).1 (GetRequestedAction t).2) :=
      sameObject_trans _ _ _ (GetRequestedAction_same t) (poll_same _ _ _ _)
    apply ite_same _ _ _ _ hp
    apply ite_same _ _ _ _ hp
    split
    · exact hp
    · exact sameObject_trans _ _ _ hp (ih _)

theorem Test_same (root_solver : Bool) (id : Nat) (t : Training) :
    SameObject t (Test root_solver id t) := by
  unfold Test
  split
  · exact sameObject_refl _
  · split
    · exact testLoop_same _ _ _ _
    · exact sameObject_refl _

theorem TestAll_same (root_solver : Bool) (t : Training) :
    SameObject t (TestAll root_solver t) := by
  unfold TestAll
  have key := foldl_invariant (fun (x : Training) => SameObject t x)
    (fun acc test_net_id =>
      if acc.fatal.isSome then acc
      else if acc.solver.requested_early_exit_ then acc
      else Test root_solver test_net_id acc)
    (by
      intro st i hst
      simp only
      split
      · exact hst
      · split
        · exact hst
        · exact sameObject_trans _ _ _ hst (Test_same _ _ _))
    (List.range t.solver.test_nets_.length) t (sameObject_refl t)
  exact key

theorem smooth_step (loss : Int → Rat) (start_iter : Int) (A n : Nat) (hA : 1 ≤ A)
    (f : StepFrame) (h : Smoothed loss start_iter A n f.losses f.smoothed_loss) :
    ∃ r, Step.smooth (A : Int) (start_iter + (n : Int)) start_iter
        (loss (start_iter + (n : Int))) f = .ok r ∧
      Smoothed loss start_iter A (n + 1) r.1 r.2 := by
  obtain ⟨hlen, hidx, hsum⟩ := h
  unfold Step.smooth
  by_cases hn : n < A
  · have hmin : min n A = n := by omega
    have hmin' : min (n + 1) A = n + 1 := by omega
    have hlt : (f.losses.length : Int) < (A : Int) := by rw [hlen, hmin]; exact_mod_cast hn
    simp only [hlt, if_true]
    refine ⟨_, rfl, ?_, ?_, ?_⟩
    · simp [hlen, hmin, hmin']
    · intro m _ hm
      have hmA : m % A = m := Nat.mod_eq_of_lt (by omega)
      rw [hmA]
      by_cases hmn : m < n
      · have := hidx m (by omega) hmn
        rw [Nat.mod_eq_of_lt (by omega)] at this
        rw [List.getElem?_append_left (by rw [hlen, hmin]; exact hmn)]
        exact this
      · have hmn' : m = n := by omega
        subst hmn'
        rw [List.getElem?_append_right (by rw [hlen, hmin])]
        simp [hlen, hmin]
    · rw [hmin] at hsum
      simp only [lastLosses, hmin, hmin', Nat.sub_self] at hsum ⊢
      rw [List.range'_concat, List.map_append, List.sum_append, ← hsum]
      have hne : ((n : Rat) + 1) ≠ 0 := by positivity
      simp only [List.length_append, List.length_singleton, hlen, hmin, List.map_cons,
        List.map_nil, List.sum_cons, List.sum_nil]
      push_cast
      field_simp
  · have hmin : min n A = A := by omega
    have hmin' : min (n + 1) A = A := by omega
    have hlt : ¬ (f.losses.length : Int) < (A : Int) := by
      rw [hlen, hmin]; exact lt_irrefl _
    have hidxv : (start_iter + (n : Int) - start_iter).tmod (A : Int) = ((n % A : Nat) : Int) := by
      rw [add_sub_cancel_left, Int.tmod_eq_emod (by positivity) (by positivity)]
      norm_cast
    have hold : f.losses[n % A]? = some (loss (start_iter + ((n - A : Nat) : Int))) := by
      have := hidx (n - A) (by omega) (by omega)
      have e : (n - A) % A = n % A := by
        conv_rhs => rw [show n = (n - A) + A by omega]
        rw [Nat.add_mod_right]
      rwa [e] at this
    simp only [hlt, if_false, hidxv]
    have hnn : ¬ (((n % A : Nat) : Int) < 0) := by omega
    simp only [hnn, if_false, Int.toNat_ofNat, hold]
    refine ⟨_, rfl, ?_, ?_, ?_⟩
    · simp [hlen, hmin, hmin']
    · intro m hm1 hm2
      rw [hmin'] at hm1
      simp only
      by_cases hmn : m = n
      · subst hmn
        rw [List.getElem?_set_self (by rw [hlen, hmin]; exact Nat.mod_lt _ (by omega))]
      · have hne : n % A ≠ m % A := by
          intro e
          have h1 : (n - m) % A = 0 := by
            have := Nat.sub_mod_eq_zero_of_mod_eq e
            exact this
          have h2 : n - m < A := by omega
          rw [Nat.mod_eq_of_lt h2] at h1
          omega
        rw [List.getElem?_set_ne hne]
        exact hidx m (by omega) (by omega)
    · rw [hmin] at hsum
      simp only [lastLosses, hmin, hmin'] at hsum ⊢
      obtain ⟨a, rfl⟩ : ∃ a, A = a + 1 := ⟨A - 1, by omega⟩
      rw [List.range'_succ, List.map_cons, List.sum_cons] at hsum
      rw [List.range'_concat, List.map_append, List.sum_append]
      have e1 : n + 1 - (a + 1) = n - (a + 1) + 1 := by omega
      have e2 : n + 1 - (a + 1) + a = n := by omega
      rw [e1] at *
      have e3 : n - (a + 1) + 1 + a = n := by omega
      simp only [List.map_cons, List.map_nil, List.sum_cons, List.sum_nil, Nat.one_mul, e3]
      have hne : (((a + 1 : Nat) : Int) : Rat) ≠ 0 := by positivity
      have hne' : ((a + 1 : Nat) : Rat) ≠ 0 := by positivity
      push_cast at hsum ⊢
      field_simp
      linarith

theorem saved_iter (root_solver : Bool) (c : Bool) (counted : Training) :
    (if c = true then Snapshot root_solver (GetRequestedAction counted).2
      else (GetRequestedAction counted).2).solver.iter_ = counted.solver.iter_ :=
  (ite_same _ _ _ _ (sameObject_trans _ _ _ (GetRequestedAction_same counted)
    (Snapshot_same root_solver _)) (GetRequestedAction_same counted)).1

theorem iteration_spec (root_solver : Bool) (loss : Int → Rat) (start_iter : Int) (A : Nat)
    (hA : 1 ≤ A) (f : StepFrame) (tested : Training)
    (hs : tested.solver.iter_ = f.run.solver.iter_)
    (h : StepInv loss start_iter A f) :
    StepInv loss start_iter A
      (Step.iteration root_solver loss (A : Int) start_iter f tested).1 ∧
    ((Step.iteration root_solver loss (A : Int) start_iter f tested).2 = true →
      (Step.iteration root_solver loss (A : Int) start_iter f tested).1.run.solver.iter_ =
        f.run.solver.iter_ + 1) := by
  obtain ⟨n, hn, hsm⟩ := h
  have keep : ∀ r : Training, r.solver.iter_ = f.run.solver.iter_ →
      StepInv loss start_iter A { f with run := r } :=
    fun r hr => ⟨n, hr.trans hn, hsm⟩
  unfold Step.iteration
  dsimp only
  by_cases hsz : tested.solver.param_.iter_size = 1
  · simp only [hsz, not_true_eq_false, if_false]
    cases hit : (ForwardBackwardUsingPs tested.solver.plan tested.solver.net_ false).outcome with
    | error e => exact ⟨keep _ hs, fun hc => by simp at hc⟩
    | ok u =>
      obtain ⟨r, hr, hr'⟩ := smooth_step loss start_iter A n hA f hsm
      have hiter : tested.solver.iter_ = start_iter + (n : Int) := hs.trans hn
      simp only [hiter, hr]
      refine ⟨⟨n + 1, ?_, hr'⟩, fun _ => ?_⟩
      · refine (saved_iter root_solver _ _).trans ?_
        simp only [Nat.cast_add, Nat.cast_one]
        ring
      · refine (saved_iter root_solver _ _).trans ?_
        simp only [hn]
  · simp only [hsz, not_false_eq_true, if_true]
    exact ⟨keep _ hs, fun hc => by simp at hc⟩

theorem turn_spec (root_solver : Bool) (loss : Int → Rat) (start_iter : Int) (A : Nat)
    (hA : 1 ≤ A) (f : StepFrame) (h : StepInv loss start_iter A f) :
    StepInv loss start_iter A (Step.turn root_solver loss (A : Int) start_iter f).1 ∧
    ((Step.turn root_solver loss (A : Int) start_iter f).2 = true →
      (Step.turn root_solver loss (A : Int) start_iter f).1.run.solver.iter_ =
        f.run.solver.iter_ + 1) := by
  have keep : ∀ r : Training, r.solver.iter_ = f.run.solver.iter_ →
      StepInv loss start_iter A { f with run := r } := by
    intro r hr
    obtain ⟨n, hn, hsm⟩ := h
    exact ⟨n, hr.trans hn, hsm⟩
  unfold Step.turn
  dsimp only
  split
  · have hs := (TestAll_same root_solver f.run).1
    split
    · exact ⟨keep _ hs, fun hc => by simp at hc⟩
    · split
      · exact ⟨keep _ hs, fun hc => by simp at hc⟩
      · exact iteration_spec root_solver loss start_iter A hA f _ hs h
  · split
    · exact ⟨keep _ rfl, fun hc => by simp at hc⟩
    · split
      · exact ⟨keep _ rfl, fun hc => by simp at hc⟩
      · exact iteration_spec root_solver loss start_iter A hA f _ rfl h

theorem loop_inv (root_solver : Bool) (loss : Int → Rat) (start_iter stop_iter : Int)
    (A : Nat) (hA : 1 ≤ A) (fuel : Nat) (f : StepFrame) (h : StepInv loss start_iter A f) :
    StepInv loss start_iter A
      (Step.loop root_solver loss (A : Int) start_iter stop_iter fuel f) := by
  induction fuel generalizing f with
  | zero => exact h
  | succ fuel ih =>
    unfold Step.loop
    dsimp only
    split
    · exact h
    · split
      · exact ih _ (turn_spec root_solver loss start_iter A hA f h).1
      · exact (turn_spec root_solver loss start_iter A hA f h).1

theorem loop_fuel (root_solver : Bool) (loss : Int → Rat) (start_iter stop_iter : Int)
    (A : Nat) (hA : 1 ≤ A) (fuel : Nat) (f : StepFrame) (h : StepInv loss start_iter A f)
    (hf : (stop_iter - f.run.solver.iter_).toNat ≤ fuel) :
    Step.loop root_solver loss (A : Int) start_iter stop_iter (fuel + 1) f =
      Step.loop root_solver loss (A : Int) start_iter stop_iter fuel f := by
  induction fuel generalizing f with
  | zero =>
    have : ¬ f.run.solver.iter_ < stop_iter := by omega
    simp [Step.loop, this]
  | succ fuel ih =>
    rw [Step.loop, Step.loop.eq_def _ _ _ _ _ (fuel + 1)]
    dsimp only
    by_cases hlt : f.run.solver.iter_ < stop_iter
    · simp only [hlt, not_true_eq_false, if_false]
      obtain ⟨hinv, hit⟩ := turn_spec root_solver loss start_iter A hA f h
      by_cases hgo : (Step.turn root_solver loss (A : Int) start_iter f).2 = true
      · simp only [hgo, if_true]
        exact ih _ hinv (by rw [hit hgo]; omega)
      · simp [hgo]
    · simp only [hlt, not_false_eq_true, if_true]

theorem stepInv_start (loss : Int → Rat) (A : Nat) (t : Training) :
    StepInv loss t.solver.iter_ A { run := t } := by
  refine ⟨0, by simp, ?_, ?_, ?_⟩
  · simp
  · intro m _ hm
    omega
  · simp [lastLosses]

theorem mean_of_inv (loss : Int → Rat) (start_iter : Int) (A : Nat) (hA : 1 ≤ A)
    (f : StepFrame) (h : StepInv loss start_iter A f) (n : Nat) (hn : 1 ≤ n)
    (hi : f.run.solver.iter_ = start_iter + (n : Int)) :
    f.smoothed_loss = meanOfLast loss start_iter n A := by
  obtain ⟨n', hn', -, -, hsum⟩ := h
  have e : n' = n := by
    have := hn'.symm.trans hi
    omega
  subst e
  have hpos : ((min n' A : Nat) : Rat) ≠ 0 := by
    have : 1 ≤ min n' A := by omega
    positivity
  unfold meanOfLast
  rw [← hsum]
  field_simp

/-- C37: in a call of `Step` with `average_loss = A ≥ 1`, over exact arithmetic, whenever
`iter_` has advanced by `n ≥ 1`, that is after the `n`-th iteration, `smoothed_loss` is the
arithmetic mean of the losses of the last `min n A` iterations of the call: after any
number of turns of the loop, and when `Step` returns or stops; and more turns than `iters`
never change what the loop leaves, so `Step` makes all the turns there are. -/
theorem C37_smoothed_loss_is_mean_of_last_losses (root_solver : Bool) (loss : Int → Rat)
    (t : Training) (A : Nat) (hA : 1 ≤ A)
    (hav : t.solver.param_.average_loss = (A : Int)) :
    (∀ (stop_iter : Int) (turns n : Nat), 1 ≤ n →
      (Step.loop root_solver loss (A : Int) t.solver.iter_ stop_iter turns
        { run := t }).run.solver.iter_ = t.solver.iter_ + (n : Int) →
      (Step.loop root_solver loss (A : Int) t.solver.iter_ stop_iter turns
        { run := t }).smoothed_loss = meanOfLast loss t.solver.iter_ n A) ∧
    (∀ (iters : Int) (n : Nat), 1 ≤ n →
      (Step root_solver loss iters t).run.solver.iter_ = t.solver.iter_ + (n : Int) →
      (Step root_solver loss iters t).smoothed_loss = meanOfLast loss t.solver.iter_ n A) ∧
    (∀ (iters : Int) (more : Nat),
      Step.loop root_solver loss (A : Int) t.solver.iter_ (t.solver.iter_ + iters)
          (iters.toNat + more) { run := t } =
        Step.loop root_solver loss (A : Int) t.solver.iter_ (t.solver.iter_ + iters)
          iters.toNat { run := t }) := by
  have h0 := stepInv_start loss A t
  refine ⟨?_, ?_, ?_⟩
  · intro stop_iter turns n hn hi
    exact mean_of_inv loss _ A hA _
      (loop_inv root_solver loss _ stop_iter A hA turns _ h0) n hn hi
  · intro iters n hn hi
    have hl := loop_inv root_solver loss t.solver.iter_ (t.solver.iter_ + iters) A hA
      iters.toNat _ h0
    unfold Step at hi ⊢
    rw [hav] at hi ⊢
    dsimp only at hi ⊢
    split at hi
    · rw [if_pos (by assumption)]
      exact mean_of_inv loss _ A hA _ hl n hn hi
    · rw [if_neg (by assumption)]
      split at hi
      · rw [if_pos (by assumption)]
        exact mean_of_inv loss _ A hA _ hl n hn hi
      · rw [if_neg (by assumption)]
        exact mean_of_inv loss _ A hA _ hl n hn hi
  · intro iters more
    induction more with
    | zero => rfl
    | succ k ih =>
      rw [← ih, ← Nat.add_assoc]
      exact loop_fuel root_solver loss _ _ A hA _ _ h0 (by simp)

theorem C37_smoothed_loss_is_mean_of_last_losses_witness :
    (1 ≤ 2 ∧ smoothingRun.solver.param_.average_loss = ((2 : Nat) : Int)) ∧
    (Step true (fun i => (i : Rat)) 3 smoothingRun).run.solver.iter_ =
      smoothingRun.solver.iter_ + ((3 : Nat) : Int) ∧
    (Step true (fun i => (i : Rat)) 3 smoothingRun).smoothed_loss =
      meanOfLast (fun i => (i : Rat)) smoothingRun.solver.iter_ 3 2 :=
  ⟨⟨by decide, by decide⟩, by decide,
   (C37_smoothed_loss_is_mean_of_last_losses true (fun i => (i : Rat)) smoothingRun 2
      (by decide) (by decide)).2.1 3 3 (by decide) (by decide)⟩

theorem resident_cases (infos : List RowAccessInfo) (b : Nat) :
    resident infos b = 0 ∨ resident infos b = 1 := by
  unfold resident
  split
  · exact Or.inr rfl
  · exact Or.inl rfl

theorem resident_of_get (infos : List RowAccessInfo) (i : Nat) (info : RowAccessInfo)
    (h : infos[i]? = some info) : resident infos i = if info.data_in_mem then 1 else 0 := by
  unfold resident
  simp [h]

theorem resident_one_lt (infos : List RowAccessInfo) (b : Nat) (h : resident infos b = 1) :
    b < infos.length := by
  unfold resident at h
  by_contra hb
  rw [List.getElem?_eq_none (by omega)] at h
  simp at h

theorem accessLoop_flags (used : List (Nat × FetchKeep)) (infos : List RowAccessInfo)
    (acc : List ImbInfo) (r : List RowAccessInfo × List ImbInfo)
    (h : accessLoop used infos acc = .ok r) (b : Nat) :
    resident r.1 b = 1 ↔ (b ∈ used.map Prod.fst ∨ resident infos b = 1) := by
  induction used generalizing infos acc with
  | nil =>
    simp only [accessLoop, Except.ok.injEq] at h
    subst h
    simp
  | cons p rest ih =>
    obtain ⟨imb_id, fk⟩ := p
    simp only [accessLoop] at h
    split at h
    · cases h
    · rename_i info hinfo
      have hlt : imb_id < infos.length := (List.getElem?_eq_some_iff.1 hinfo).1
      have hres := resident_of_get infos imb_id info hinfo
      split at h
      · rw [ih _ _ h, resident_set _ _ _ _ hlt]
        simp only [List.map_cons, List.mem_cons]
        by_cases hb : b = imb_id
        · simp [hb]
        · simp [hb]
      · rename_i hmem
        rw [ih _ _ h]
        simp only [List.map_cons, List.mem_cons]
        by_cases hb : b = imb_id
        · subst hb
          have : info.data_in_mem = true := by simpa using hmem
          rw [hres, this]
          simp
        · simp [hb]

theorem accessLoop_entries (used : List (Nat × FetchKeep)) (infos : List RowAccessInfo)
    (acc : List ImbInfo) (r : List RowAccessInfo × List ImbInfo)
    (hnd : (used.map Prod.fst).Nodup)
    (h : accessLoop used infos acc = .ok r) :
    r.2 = acc ++ (used.filter (fun e => resident infos e.1 == 0)).map
      (fun e => ({ global_imb_id := e.1, fetch := e.2.fetch } : ImbInfo)) := by
  induction used generalizing infos acc with
  | nil =>
    simp only [accessLoop, Except.ok.injEq] at h
    subst h
    simp
  | cons p rest ih =>
    obtain ⟨imb_id, fk⟩ := p
    simp only [List.map_cons, List.nodup_cons] at hnd
    simp only [accessLoop] at h
    split at h
    · cases h
    · rename_i info hinfo
      have hlt : imb_id < infos.length := (List.getElem?_eq_some_iff.1 hinfo).1
      have hres := resident_of_get infos imb_id info hinfo
      split at h
      · rename_i hmem
        have hf : info.data_in_mem = false := by simpa using hmem
        rw [ih _ _ hnd.2 h]
        have hsame : rest.filter (fun e => resident
            (infos.set imb_id { info with data_in_mem := true }) e.1 == 0) =
            rest.filter (fun e => resident infos e.1 == 0) := by
          apply List.filter_congr
          intro e he
          have hne : e.1 ≠ imb_id := by
            intro heq
            exact hnd.1 (heq ▸ List.mem_map_of_mem Prod.fst he)
          rw [resident_set _ _ _ _ hlt, if_neg hne]
        rw [hsame]
        have h0 : resident infos imb_id = 0 := by rw [hres, hf]; rfl
        simp [List.filter_cons, h0]
      · rename_i hmem
        have ht : info.data_in_mem = true := by simpa using hmem
        rw [ih _ _ hnd.2 h]
        have h1 : resident infos imb_id = 1 := by rw [hres, ht]; rfl
        simp [List.filter_cons, h1]

theorem accessLoop_total (used : List (Nat × FetchKeep)) (infos : List RowAccessInfo)
    (acc : List ImbInfo) (hv : ∀ e ∈ used, e.1 < infos.length) :
    ∃ r, accessLoop used infos acc = .ok r := by
  induction used generalizing infos acc with
  | nil => exact ⟨_, rfl⟩
  | cons p rest ih =>
    obtain ⟨imb_id, fk⟩ := p
    have hlt : imb_id < infos.length := hv (imb_id, fk) (List.mem_cons_self _ _)
    have hrest : ∀ e ∈ rest, e.1 < infos.length :=
      fun e he => hv e (List.mem_cons_of_mem _ he)
    simp only [accessLoop, List.getElem?_eq_getElem hlt]
    split
    · exact ih _ _ (fun e he => by rw [List.length_set]; exact hrest e he)
    · exact ih _ _ hrest

theorem accessLoop_error (used : List (Nat × FetchKeep)) (infos : List RowAccessInfo)
    (acc : List ImbInfo) (e : Fatal) (h : accessLoop used infos acc = .error e) :
    e = .outOfRange := by
  induction used generalizing infos acc with
  | nil => simp [accessLoop] at h
  | cons p rest ih =>
    obtain ⟨imb_id, fk⟩ := p
    simp only [accessLoop] at h
    split at h
    · cases h
      rfl
    · split at h
      · exact ih _ _ h
      · exact ih _ _ h

theorem releaseLoop_flags (next : IntSet) (used : List (Nat × FetchKeep))
    (infos : List RowAccessInfo) (acc : List ImbInfo)
    (r : List RowAccessInfo × List ImbInfo)
    (h : releaseLoop next used infos acc = .ok r) (b : Nat) :
    resident r.1 b = 1 ↔
      (resident infos b = 1 ∧ ¬ (b ∈ used.map Prod.fst ∧ next.count b = false)) := by
  induction used generalizing infos acc with
  | nil =>
    simp only [releaseLoop, Except.ok.injEq] at h
    subst h
    simp
  | cons p rest ih =>
    obtain ⟨imb_id, fk⟩ := p
    simp only [releaseLoop] at h
    split at h
    · rename_i hnext
      have hn : next.count imb_id = false := by simpa using hnext
      split at h
      · cases h
      · rename_i info hinfo
        have hlt : imb_id < infos.length := (List.getElem?_eq_some_iff.1 hinfo).1
        split at h
        · rw [ih _ _ h, resident_set _ _ _ _ hlt]
          simp only [List.map_cons, List.mem_cons]
          by_cases hb : b = imb_id
          · subst hb
            simp [hn]
          · simp [hb]
        · cases h
    · rename_i hnext
      have hn : next.count imb_id = true := by simpa using hnext
      rw [ih _ _ h]
      simp only [List.map_cons, List.mem_cons]
      by_cases hb : b = imb_id
      · subst hb
        simp [hn]
      · simp [hb]

theorem releaseLoop_total (next : IntSet) (used : List (Nat × FetchKeep))
    (infos : List RowAccessInfo) (acc : List ImbInfo)
    (hnd : (used.map Prod.fst).Nodup)
    (hr : ∀ e ∈ used, next.count e.1 = false → resident infos e.1 = 1) :
    ∃ r, releaseLoop next used infos acc = .ok r := by
  induction used generalizing infos acc with
  | nil => exact ⟨_, rfl⟩
  | cons p rest ih =>
    obtain ⟨imb_id, fk⟩ := p
    simp only [List.map_cons, List.nodup_cons] at hnd
    simp only [releaseLoop]
    by_cases hn : next.count imb_id = true
    · simp only [hn, Bool.not_true, Bool.false_eq_true, if_false]
      exact ih _ _ hnd.2 (fun e he => hr e (List.mem_cons_of_mem _ he))
    · have hn' : next.count imb_id = false := by simpa using hn
      have h1 := hr (imb_id, fk) (List.mem_cons_self _ _) hn'
      have hlt := resident_one_lt _ _ h1
      have hres := resident_of_get infos imb_id _ (List.getElem?_eq_getElem hlt)
      have hflag : (infos[imb_id]).data_in_mem = true := by
        rw [h1] at hres
        by_contra hc
        simp [hc] at hres
      simp only [hn', Bool.not_false, if_true, List.getElem?_eq_getElem hlt, hflag]
      apply ih _ _ hnd.2
      intro e he hne
      have hne' : e.1 ≠ imb_id := by
        intro heq
        exact hnd.1 (heq ▸ List.mem_map_of_mem Prod.fst he)
      rw [resident_set _ _ _ _ hlt, if_neg hne']
      exact hr e (List.mem_cons_of_mem _ he) hne

theorem stage_residency (used next : IntSet) (infos : List RowAccessInfo)
    (acc acc' : List ImbInfo) (a c : List RowAccessInfo × List ImbInfo)
    (ha : accessLoop used.entries infos acc = .ok a)
    (hc : releaseLoop next used.entries a.1 acc' = .ok c) :
    (∀ b ∈ used.keys, resident a.1 b = 1) ∧ StageResidency used next infos c.1 := by
  constructor
  · intro b hb
    exact (accessLoop_flags _ _ _ _ ha b).2 (Or.inl hb)
  · intro b
    rw [releaseLoop_flags _ _ _ _ _ hc b, accessLoop_flags _ _ _ _ ha b]
    have e : b ∈ used.entries.map Prod.fst ↔ used.count b = true := mem_keys_iff used b
    rw [e]

theorem stage_release_ok (used next : IntSet) (infos : List RowAccessInfo)
    (acc acc' : List ImbInfo) (a : List RowAccessInfo × List ImbInfo)
    (hnd : used.keys.Nodup)
    (ha : accessLoop used.entries infos acc = .ok a) :
    ∃ c, releaseLoop next used.entries a.1 acc' = .ok c := by
  apply releaseLoop_total next used.entries a.1 acc' hnd
  intro e he _
  exact (accessLoop_flags _ _ _ _ ha e.1).2 (Or.inl (List.mem_map_of_mem Prod.fst he))

theorem forwardLayer_resident (n : Nat) (s s' : Solver) (i : Nat)
    (h : forwardLayer n s i = .ok s') :
    StageResidency (layerAt s i).imbs_used_fw (fwLookahead n s i).1
      s.imb_data_infos_ s'.imb_data_infos_ ∧
    StageResidency (layerAt s i).imb_diffs_used_fw (fwLookahead n s i).2
      s.imb_diff_infos_ s'.imb_diff_infos_ ∧
    (DistinctKeys (layerAt s i) →
      (layerAt s' i).imbs_to_access_fw = (layerAt s i).imbs_to_access_fw ++
        firstAccesses (layerAt s i).imbs_used_fw s.imb_data_infos_ ∧
      (layerAt s' i).imb_diffs_to_access_fw = (layerAt s i).imb_diffs_to_access_fw ++
        firstAccesses (layerAt s i).imb_diffs_used_fw s.imb_diff_infos_) := by
  obtain ⟨li, a, b, c, d, hli, ha, hb, hc, hd, rfl⟩ := forwardLayer_ok n s s' i h
  have hlt : i < s.layer_infos_.length := (List.getElem?_eq_some_iff.1 hli).1
  have hat : layerAt s i = li := layerAt_of_getElem? s i li hli
  rw [hat]
  refine ⟨(stage_residency _ _ _ _ _ _ _ ha hc).2, (stage_residency _ _ _ _ _ _ _ hb hd).2, ?_⟩
  intro hk
  simp only [layerAt, List.getD_eq_getElem?_getD, List.getElem?_set, hlt, if_true,
    Option.getD_some]
  exact ⟨accessLoop_entries _ _ _ _ hk.1 ha, accessLoop_entries _ _ _ _ hk.2.1 hb⟩

theorem backwardLayer_resident (nb : List Bool) (s s' : Solver) (i : Nat)
    (hnb : nb.getD i false = true) (h : backwardLayer nb s i = .ok s') :
    StageResidency (layerAt s i).imbs_used_bw (bwLookahead nb s i).1
      s.imb_data_infos_ s'.imb_data_infos_ ∧
    StageResidency (layerAt s i).imb_diffs_used_bw (bwLookahead nb s i).2
      s.imb_diff_infos_ s'.imb_diff_infos_ ∧
    (DistinctKeys (layerAt s i) →
      (layerAt s' i).imbs_to_access_bw = (layerAt s i).imbs_to_access_bw ++
        firstAccesses (layerAt s i).imbs_used_bw s.imb_data_infos_ ∧
      (layerAt s' i).imb_diffs_to_access_bw = (layerAt s i).imb_diffs_to_access_bw ++
        firstAccesses (layerAt s i).imb_diffs_used_bw s.imb_diff_infos_) := by
  obtain ⟨li, a, b, c, d, hli, ha, hb, hc, hd, rfl⟩ := backwardLayer_ok nb s s' i hnb h
  have hlt : i < s.layer_infos_.length := (List.getElem?_eq_some_iff.1 hli).1
  have hat : layerAt s i = li := layerAt_of_getElem? s i li hli
  rw [hat]
  refine ⟨(stage_residency _ _ _ _ _ _ _ ha hc).2, (stage_residency _ _ _ _ _ _ _ hb hd).2, ?_⟩
  intro hk
  simp only [layerAt, List.getD_eq_getElem?_getD, List.getElem?_set, hlt, if_true,
    Option.getD_some]
  exact ⟨accessLoop_entries _ _ _ _ hk.2.2.1 ha, accessLoop_entries _ _ _ _ hk.2.2.2 hb⟩

theorem stage_outcome (used next : IntSet) (infos : List RowAccessInfo)
    (acc acc' : List ImbInfo) (hnd : used.keys.Nodup) :
    (∃ a c, accessLoop used.entries infos acc = .ok a ∧
      releaseLoop next used.entries a.1 acc' = .ok c ∧ c.1.length = infos.length) ∨
    (accessLoop used.entries infos acc = .error .outOfRange ∧
      ∃ b ∈ used.keys, infos.length ≤ b) := by
  cases ha : accessLoop used.entries infos acc with
  | ok a =>
    obtain ⟨c, hc⟩ := stage_release_ok used next infos acc acc' a hnd ha
    refine Or.inl ⟨a, c, rfl, hc, ?_⟩
    rw [(releaseLoop_eq _ _ _ _ _ hc).2, (accessLoop_append _ _ _ _ ha).choose_spec.2.2.2]
  | error e =>
    have := accessLoop_error _ _ _ _ ha
    subst this
    refine Or.inr ⟨rfl, ?_⟩
    by_contra hall
    have hv : ∀ e ∈ used.entries, e.1 < infos.length := by
      intro e he
      by_contra hc
      exact hall ⟨e.1, List.mem_map_of_mem Prod.fst he, by omega⟩
    obtain ⟨r, hr⟩ := accessLoop_total used.entries infos acc hv
    rw [hr] at ha
    cases ha

theorem accessLoop_error_key (used : IntSet) (infos : List RowAccessInfo)
    (acc : List ImbInfo) (e : Fatal) (h : accessLoop used.entries infos acc = .error e) :
    e = .outOfRange ∧ ∃ b ∈ used.keys, infos.length ≤ b := by
  refine ⟨accessLoop_error _ _ _ _ h, ?_⟩
  by_contra hall
  have hv : ∀ x ∈ used.entries, x.1 < infos.length := by
    intro x hx
    by_contra hc
    exact hall ⟨x.1, List.mem_map_of_mem Prod.fst hx, by omega⟩
  obtain ⟨r, hr⟩ := accessLoop_total used.entries infos acc hv
  rw [hr] at h
  cases h

theorem forwardLayer_error (n : Nat) (s : Solver) (i : Nat) (li : LayerInfo)
    (hli : s.layer_infos_[i]? = some li) (hk : DistinctKeys li) (e : Fatal)
    (h : forwardLayer n s i = .error e) :
    e = .outOfRange ∧
    ((∃ b ∈ li.imbs_used_fw.keys, s.imb_data_infos_.length ≤ b) ∨
     (∃ b ∈ li.imb_diffs_used_fw.keys, s.imb_diff_infos_.length ≤ b)) := by
  have hx := fun next acc' a ha => stage_release_ok li.imbs_used_fw next s.imb_data_infos_
    li.imbs_to_access_fw acc' a hk.1 ha
  have hy := fun next acc' a ha => stage_release_ok li.imb_diffs_used_fw next
    s.imb_diff_infos_ li.imb_diffs_to_access_fw acc' a hk.2.1 ha
  unfold forwardLayer at h
  rw [hli] at h
  simp only [bind, Except.bind, pure, Except.pure] at h
  split at h
  · rename_i e' ha
    cases h
    obtain ⟨h1, h2⟩ := accessLoop_error_key _ _ _ _ ha
    exact ⟨h1, Or.inl h2⟩
  · rename_i a ha
    split at h
    · rename_i e' hb
      cases h
      obtain ⟨h1, h2⟩ := accessLoop_error_key _ _ _ _ hb
      exact ⟨h1, Or.inr h2⟩
    · rename_i b hb
      split at h
      · rename_i e' hc
        rw [(hx _ _ a ha).choose_spec] at hc
        cases hc
      · split at h
        · rename_i e' hd
          rw [(hy _ _ b hb).choose_spec] at hd
          cases hd
        · cases h

theorem backwardLayer_error (nb : List Bool) (s : Solver) (i : Nat) (li : LayerInfo)
    (hli : s.layer_infos_[i]? = some li) (hk : DistinctKeys li) (e : Fatal)
    (h : backwardLayer nb s i = .error e) :
    e = .outOfRange ∧
    ((∃ b ∈ li.imbs_used_bw.keys, s.imb_data_infos_.length ≤ b) ∨
     (∃ b ∈ li.imb_diffs_used_bw.keys, s.imb_diff_infos_.length ≤ b)) := by
  have hx := fun next acc' a ha => stage_release_ok li.imbs_used_bw next s.imb_data_infos_
    li.imbs_to_access_bw acc' a hk.2.2.1 ha
  have hy := fun next acc' a ha => stage_release_ok li.imb_diffs_used_bw next
    s.imb_diff_infos_ li.imb_diffs_to_access_bw acc' a hk.2.2.2 ha
  unfold backwardLayer at h
  split at h
  · cases h
  · rw [hli] at h
    simp only [bind, Except.bind, pure, Except.pure] at h
    split at h
    · rename_i e' ha
      cases h
      obtain ⟨h1, h2⟩ := accessLoop_error_key _ _ _ _ ha
      exact ⟨h1, Or.inl h2⟩
    · rename_i a ha
      split at h
      · rename_i e' hb
        cases h
        obtain ⟨h1, h2⟩ := accessLoop_error_key _ _ _ _ hb
        exact ⟨h1, Or.inr h2⟩
      · rename_i b hb
        split at h
        · rename_i e' hc
          rw [(hx _ _ a ha).choose_spec] at hc
          cases hc
        · split at h
          · rename_i e' hd
            rw [(hy _ _ b hb).choose_spec] at hd
            cases hd
          · cases h

theorem foldAssign_count (g : Nat → Bool) (v : FetchKeep) (bs : List Nat) (m : IntSet)
    (x : Nat) (h : (foldAssign g v bs m).count x = true) : x ∈ bs ∨ m.count x = true := by
  rw [count_eq_isSome, find_foldAssign] at h
  by_cases hx : x ∈ bs ∧ g x = false
  · exact Or.inl hx.1
  · rw [if_neg hx] at h
    rw [count_eq_isSome]
    exact Or.inr h

theorem empty_count (x : Nat) : ({} : IntSet).count x = false := rfl

theorem usageOf_keys (net : Net) (layer : Layer) (x : Nat) :
    ((usageOf net layer).imbs_used_fw.count x = true → x ∈ layer.bottom_ids ++ layer.top_ids) ∧
    ((usageOf net layer).imb_diffs_used_fw.count x = true →
      x ∈ layer.bottom_ids ++ layer.top_ids) ∧
    ((usageOf net layer).imbs_used_bw.count x = true → x ∈ layer.bottom_ids ++ layer.top_ids) ∧
    ((usageOf net layer).imb_diffs_used_bw.count x = true →
      x ∈ layer.bottom_ids ++ layer.top_ids) := by
  unfold usageOf
  rw [layerUsage_fw, layerUsage_diff_fw, layerUsage_bw, layerUsage_diff_bw]
  refine ⟨?_, ?_, ?_, ?_⟩
  · intro h
    rcases foldAssign_count _ _ _ _ _ h with h | h
    · exact List.mem_append_right _ h
    · rcases foldAssign_count _ _ _ _ _ h with h | h
      · exact List.mem_append_left _ h
      · cases h
  · intro h
    rcases foldAssign_count _ _ _ _ _ h with h | h
    · exact List.mem_append_right _ h
    · cases h
  · intro h
    rcases foldAssign_count _ _ _ _ _ h with h | h
    · exact List.mem_append_right _ h
    · rcases foldAssign_count _ _ _ _ _ h with h | h
      · exact List.mem_append_left _ h
      · cases h
  · intro h
    rcases foldAssign_count _ _ _ _ _ h with h | h
    · exact List.mem_append_right _ h
    · rcases foldAssign_count _ _ _ _ _ h with h | h
      · exact List.mem_append_left _ h
      · cases h

theorem assignImbRows_length (R : Nat) (cs : List Nat) (r : Nat) :
    (assignImbRows R cs r).1.length = cs.length := by
  induction cs generalizing r with
  | nil => rfl
  | cons c rest ih => simp [assignImbRows, ih]

theorem nodup_of_sorted (l : List Nat) (h : l.Pairwise (· < ·)) : l.Nodup :=
  h.imp (fun hab => Nat.ne_of_lt hab)

theorem layerAt_default (s : Solver) (j : Nat) (h : s.layer_infos_.length ≤ j) :
    layerAt s j = {} := by
  simp [layerAt, List.getD_eq_getElem?_getD, List.getElem?_eq_none h]

theorem distinctKeys_default : DistinctKeys {} :=
  ⟨List.nodup_nil, List.nodup_nil, List.nodup_nil, List.nodup_nil⟩

theorem initialState_facts (R : Nat) (cfg : PsConfig) (net : Net) (s0 : Solver) (nt : Nat)
    (h : initialState R cfg net = .ok (s0, nt)) :
    s0.layer_infos_.length = net.layers.length ∧
    s0.imb_data_infos_.length = net.blobs.length ∧
    s0.imb_diff_infos_.length = net.blobs.length ∧
    (∀ b, resident s0.imb_data_infos_ b = 0 ∧ resident s0.imb_diff_infos_ b = 0) ∧
    (∀ j, DistinctKeys (layerAt s0 j) ∧ clearFw (layerAt s0 j) = layerAt s0 j ∧
      clearBw (layerAt s0 j) = layerAt s0 j) ∧
    (∀ j layer, net.layers[j]? = some layer →
      usagePart (layerAt s0 j) = usageOf net layer) := by
  obtain ⟨hlen, -, hl⟩ := initialState_ok R cfg net s0 nt h
  obtain ⟨-, -, hd, hg, -⟩ := initialState_eq R cfg net s0 nt h
  have husage : ∀ j layer, net.layers[j]? = some layer →
      usagePart (layerAt s0 j) = usageOf net layer ∧
      clearFw (layerAt s0 j) = layerAt s0 j ∧ clearBw (layerAt s0 j) = layerAt s0 j := by
    intro j layer hj
    obtain ⟨li0, hf, he⟩ := hl j layer hj
    rw [he]
    exact fresh_layerUsage _ layer li0 hf
  refine ⟨hlen, by rw [hd, assignImbRows_length], by rw [hg, assignImbRows_length], ?_, ?_, ?_⟩
  · intro b
    exact ⟨resident_zero _ (by rw [hd]; exact assignImbRows_flags _ _ _) b,
      resident_zero _ (by rw [hg]; exact assignImbRows_flags _ _ _) b⟩
  · intro j
    by_cases hj : j < net.layers.length
    · obtain ⟨h1, h2, h3⟩ := husage j _ (List.getElem?_eq_getElem hj)
      have u1 : (layerAt s0 j).imbs_used_fw = (usageOf net net.layers[j]).imbs_used_fw := by
        have e := congrArg LayerInfo.imbs_used_fw h1
        exact e
      have u2 : (layerAt s0 j).imb_diffs_used_fw =
          (usageOf net net.layers[j]).imb_diffs_used_fw := by
        have e := congrArg LayerInfo.imb_diffs_used_fw h1
        exact e
      have u3 : (layerAt s0 j).imbs_used_bw = (usageOf net net.layers[j]).imbs_used_bw := by
        have e := congrArg LayerInfo.imbs_used_bw h1
        exact e
      have u4 : (layerAt s0 j).imb_diffs_used_bw =
          (usageOf net net.layers[j]).imb_diffs_used_bw := by
        have e := congrArg LayerInfo.imb_diffs_used_bw h1
        exact e
      obtain ⟨s1, s2, s3, s4⟩ := usageOf_sorted net net.layers[j]
      refine ⟨⟨?_, ?_, ?_, ?_⟩, h2, h3⟩
      · rw [u1]; exact nodup_of_sorted _ s1
      · rw [u2]; exact nodup_of_sorted _ s2
      · rw [u3]; exact nodup_of_sorted _ s3
      · rw [u4]; exact nodup_of_sorted _ s4
    · rw [layerAt_default s0 j (by omega)]
      exact ⟨distinctKeys_default, rfl, rfl⟩
  · intro j layer hj
    exact (husage j layer hj).1

theorem foldlM_error_of_inv {σ ι : Type} (Inv : σ → Prop) (f : σ → ι → Except Fatal σ)
    (hf : ∀ s i s', Inv s → f s i = .ok s' → Inv s') (l : List ι) (s : σ) (e : Fatal)
    (h0 : Inv s) (h : l.foldlM f s = .error e) :
    ∃ s' i, i ∈ l ∧ Inv s' ∧ f s' i = .error e := by
  induction l generalizing s with
  | nil => cases h
  | cons i l ih =>
    rw [List.foldlM_cons] at h
    cases hfi : f s i with
    | error e' =>
      rw [hfi] at h
      cases h
      exact ⟨s, i, List.mem_cons_self _ _, h0, hfi⟩
    | ok s1 =>
      rw [hfi] at h
      obtain ⟨s', j, hj, h1, h2⟩ := ih s1 (hf s i s1 h0 hfi) h
      exact ⟨s', j, List.mem_cons_of_mem _ hj, h1, h2⟩

theorem passState_refl (s0 : Solver) : PassState s0 s0 := ⟨rfl, fun _ => rfl, rfl, rfl⟩

theorem forwardLayer_pass (n : Nat) (s0 s s' : Solver) (i : Nat)
    (hp : PassState s0 s) (h : forwardLayer n s i = .ok s') : PassState s0 s' := by
  obtain ⟨h1, h2, h3, h4⟩ := hp
  have hfr := forwardLayer_frame n s s' i h
  have hst := forwardLayer_static n s s' i h
  obtain ⟨li, a, b, c, d, hli, ha, hb, hc, hd, rfl⟩ := forwardLayer_ok n s s' i h
  refine ⟨hfr.1.trans h1, fun j => ((clearFw_fields _ _ (hst j)).1).trans (h2 j), ?_, ?_⟩
  · show c.1.length = _
    rw [(releaseLoop_eq _ _ _ _ _ hc).2, (accessLoop_append _ _ _ _ ha).choose_spec.2.2.2, h3]
  · show d.1.length = _
    rw [(releaseLoop_eq _ _ _ _ _ hd).2, (accessLoop_append _ _ _ _ hb).choose_spec.2.2.2, h4]

theorem backwardLayer_pass (nb : List Bool) (s0 s s' : Solver) (i : Nat)
    (hp : PassState s0 s) (h : backwardLayer nb s i = .ok s') : PassState s0 s' := by
  cases hnb : nb.getD i false with
  | false =>
    rw [backwardLayer_skip nb s i hnb] at h
    cases h
    exact hp
  | true =>
    obtain ⟨h1, h2, h3, h4⟩ := hp
    have hfr := backwardLayer_frame nb s s' i h
    have hst := backwardLayer_static nb s s' i h
    obtain ⟨li, a, b, c, d, hli, ha, hb, hc, hd, rfl⟩ := backwardLayer_ok nb s s' i hnb h
    refine ⟨hfr.1.trans h1, fun j => ((clearBw_fields _ _ (hst j)).1).trans (h2 j), ?_, ?_⟩
    · show c.1.length = _
      rw [(releaseLoop_eq _ _ _ _ _ hc).2, (accessLoop_append _ _ _ _ ha).choose_spec.2.2.2,
        h3]
    · show d.1.length = _
      rw [(releaseLoop_eq _ _ _ _ _ hd).2, (accessLoop_append _ _ _ _ hb).choose_spec.2.2.2,
        h4]

theorem distinctKeys_of_usage (a b : LayerInfo) (h : usagePart a = usagePart b)
    (hb : DistinctKeys b) : DistinctKeys a := by
  obtain ⟨u1, u2, u3, u4⟩ := usagePart_fields _ _ h
  unfold DistinctKeys
  rw [u1, u2, u3, u4]
  exact hb

theorem keysBelow_of_usage (m : Nat) (a b : LayerInfo) (h : usagePart a = usagePart b)
    (hb : KeysBelow m b) : KeysBelow m a := by
  obtain ⟨u1, u2, u3, u4⟩ := usagePart_fields _ _ h
  unfold KeysBelow
  rw [u1, u2, u3, u4]
  exact hb

theorem forwardLayer_step (n : Nat) (s0 s : Solver) (i : Nat)
    (hk : ∀ j, DistinctKeys (layerAt s0 j)) (hp : PassState s0 s)
    (hi : i < s0.layer_infos_.length) :
    (∀ e, forwardLayer n s i = .error e → e = .outOfRange) ∧
    (KeysBelow s0.imb_data_infos_.length (layerAt s0 i) →
      s0.imb_diff_infos_.length = s0.imb_data_infos_.length →
      ∃ s', forwardLayer n s i = .ok s') := by
  have hli := getElem?_of_lt s i (by rw [hp.1]; exact hi)
  have hd := distinctKeys_of_usage _ _ (hp.2.1 i) (hk i)
  refine ⟨fun e he => (forwardLayer_error n s i _ hli hd e he).1, ?_⟩
  intro hv hlen
  have hv' := keysBelow_of_usage _ _ _ (hp.2.1 i) hv
  cases hf : forwardLayer n s i with
  | ok s' => exact ⟨s', rfl⟩
  | error e =>
    rcases (forwardLayer_error n s i _ hli hd e hf).2 with ⟨b, hb, hle⟩ | ⟨b, hb, hle⟩
    · have := hv'.1 b hb
      rw [hp.2.2.1] at hle
      omega
    · have := hv'.2.1 b hb
      rw [hp.2.2.2, hlen] at hle
      omega

theorem backwardLayer_step (nb : List Bool) (s0 s : Solver) (i : Nat)
    (hk : ∀ j, DistinctKeys (layerAt s0 j)) (hp : PassState s0 s)
    (hi : i < s0.layer_infos_.length) :
    (∀ e, backwardLayer nb s i = .error e → e = .outOfRange) ∧
    (KeysBelow s0.imb_data_infos_.length (layerAt s0 i) →
      s0.imb_diff_infos_.length = s0.imb_data_infos_.length →
      ∃ s', backwardLayer nb s i = .ok s') := by
  have hli := getElem?_of_lt s i (by rw [hp.1]; exact hi)
  have hd := distinctKeys_of_usage _ _ (hp.2.1 i) (hk i)
  refine ⟨fun e he => (backwardLayer_error nb s i _ hli hd e he).1, ?_⟩
  intro hv hlen
  have hv' := keysBelow_of_usage _ _ _ (hp.2.1 i) hv
  cases hf : backwardLayer nb s i with
  | ok s' => exact ⟨s', rfl⟩
  | error e =>
    rcases (backwardLayer_error nb s i _ hli hd e hf).2 with ⟨b, hb, hle⟩ | ⟨b, hb, hle⟩
    · have := hv'.2.2.1 b hb
      rw [hp.2.2.1] at hle
      omega
    · have := hv'.2.2.2 b hb
      rw [hp.2.2.2, hlen] at hle
      omega

theorem passes_outcome (net : Net) (s0 : Solver)
    (hn : s0.layer_infos_.length = net.layers.length)
    (hk : ∀ j, DistinctKeys (layerAt s0 j)) :
    (∀ e, buildLists net s0 = .error e → e = .outOfRange) ∧
    ((∀ j, KeysBelow s0.imb_data_infos_.length (layerAt s0 j)) →
      s0.imb_diff_infos_.length = s0.imb_data_infos_.length →
      ∃ s1 s2, forwardPass net.layers.length s0 = .ok s1 ∧
        backwardPass (net.layers.map Layer.need_backward) s1 = .ok s2 ∧
        buildLists net s0 = .ok s2 ∧ PassState s0 s1 ∧ PassState s0 s2) := by
  have hfw : ∀ s i s', PassState s0 s → forwardLayer net.layers.length s i = .ok s' →
      PassState s0 s' := fun s i s' hp h => forwardLayer_pass _ s0 s s' i hp h
  have hbw : ∀ s i s', PassState s0 s →
      backwardLayer (net.layers.map Layer.need_backward) s i = .ok s' → PassState s0 s' :=
    fun s i s' hp h => backwardLayer_pass _ s0 s s' i hp h
  constructor
  · intro e he
    unfold buildLists at he
    cases hf : forwardPass net.layers.length s0 with
    | error e1 =>
      rw [hf] at he
      cases he
      obtain ⟨s', i, hi, hp, hfi⟩ := foldlM_error_of_inv (PassState s0) _ hfw _ s0 e
        (passState_refl s0) hf
      exact (forwardLayer_step _ s0 s' i hk hp
        (by rw [hn]; exact List.mem_range.1 hi)).1 e hfi
    | ok s1 =>
      rw [hf] at he
      have hp1 : PassState s0 s1 :=
        foldlM_invariant (PassState s0) _ hfw _ s0 s1 hf (passState_refl s0)
      obtain ⟨s', i, hi, hp, hfi⟩ := foldlM_error_of_inv (PassState s0) _ hbw _ s1 e hp1 he
      refine (backwardLayer_step _ s0 s' i hk hp ?_).1 e hfi
      rw [List.mem_reverse, List.mem_range, hp1.1] at hi
      exact hi
  · intro hv hlen
    obtain ⟨s1, h1, hp1⟩ := foldlM_ok_of_inv (PassState s0)
      (forwardLayer net.layers.length) (List.range net.layers.length)
      (fun s i hi hp => by
        obtain ⟨s', hs'⟩ := (forwardLayer_step _ s0 s i hk hp
          (by rw [hn]; exact List.mem_range.1 hi)).2 (hv i) hlen
        exact ⟨s', hs', hfw s i s' hp hs'⟩) s0 (passState_refl s0)
    obtain ⟨s2, h2, hp2⟩ := foldlM_ok_of_inv (PassState s0)
      (backwardLayer (net.layers.map Layer.need_backward))
      (List.range s1.layer_infos_.length).reverse
      (fun s i hi hp => by
        rw [List.mem_reverse, List.mem_range, hp1.1] at hi
        obtain ⟨s', hs'⟩ := (backwardLayer_step _ s0 s i hk hp hi).2 (hv i) hlen
        exact ⟨s', hs', hbw s i s' hp hs'⟩) s1 hp1
    refine ⟨s1, s2, h1, h2, ?_, hp1, hp2⟩
    unfold buildLists
    rw [show forwardPass net.layers.length s0 = .ok s1 from h1]
    exact h2

theorem firstAccesses_eq (used previous : IntSet) (infos : List RowAccessInfo)
    (h : ∀ b, used.count b = true → (resident infos b = 1 ↔ previous.count b = true)) :
    firstAccesses used infos = accessEntries used previous := by
  unfold firstAccesses accessEntries
  congr 1
  apply List.filter_congr
  intro e he
  have hc : used.count e.1 = true :=
    (mem_keys_iff used e.1).1 (List.mem_map_of_mem Prod.fst he)
  have := h e.1 hc
  rcases resident_cases infos e.1 with h0 | h1
  · have hp : previous.count e.1 = false := by
      cases hpc : previous.count e.1 with
      | false => rfl
      | true => rw [this.2 hpc] at h0; cases h0
    simp [h0, hp]
  · simp [h1, this.1 h1]

theorem stage_after (used next : IntSet) (before after : List RowAccessInfo)
    (hs : StageResidency used next before after)
    (hsub : ∀ b, resident before b = 1 → used.count b = true) (b : Nat) :
    resident after b = 1 ↔ (used.count b && next.count b) = true := by
  rw [hs b]
  constructor
  · rintro ⟨h1, h2⟩
    have hu : used.count b = true := by
      rcases h1 with h1 | h1
      · exact h1
      · exact hsub b h1
    have hn : next.count b = true := by
      cases hc : next.count b with
      | true => rfl
      | false => exact absurd ⟨hu, hc⟩ h2
    simp [hu, hn]
  · intro h
    simp only [Bool.and_eq_true] at h
    exact ⟨Or.inl h.1, fun hc => by rw [h.2] at hc; cases hc.2⟩

theorem fwInv_start (n : Nat) (s0 : Solver)
    (hz : ∀ b, resident s0.imb_data_infos_ b = 0 ∧ resident s0.imb_diff_infos_ b = 0) :
    FwInv n s0 0 s0 := by
  refine ⟨passState_refl s0, fun _ => rfl, fun _ _ => rfl, ?_, ?_, ?_⟩
  · intro b
    simp [fwResident, (hz b).1]
  · intro b
    simp [fwResident, (hz b).2]
  · intro j hj
    omega

theorem fwInv_step (n : Nat) (s0 s s' : Solver) (k : Nat)
    (hk : ∀ j, DistinctKeys (layerAt s0 j))
    (he : ∀ j, clearFw (layerAt s0 j) = layerAt s0 j)
    (hlt : k < n) (hinv : FwInv n s0 k s) (h : forwardLayer n s k = .ok s') :
    FwInv n s0 (k + 1) s' := by
  obtain ⟨hp, hcl, hun, hrd, hrg, hacc⟩ := hinv
  have hfr := forwardLayer_frame n s s' k h
  have hst := forwardLayer_static n s s' k h
  obtain ⟨r1, r2, r3⟩ := forwardLayer_resident n s s' k h
  have hsk : layerAt s k = layerAt s0 k := hun k (Nat.le_refl k)
  have hlook : fwLookahead n s k = fwLookahead n s0 k := fwLookahead_congr n s0 s k hcl
  rw [hsk, hlook] at r1 r2
  rw [hsk] at r3
  have hlists := clearFw_self (layerAt s0 k) (he k)
  have hsub1 : ∀ b, resident s.imb_data_infos_ b = 1 →
      (layerAt s0 k).imbs_used_fw.count b = true := by
    intro b hb
    have := (hrd b).1 hb
    cases k with
    | zero => simp [fwResident] at this
    | succ k' =>
      have hk' : k' < n - 1 := by omega
      simp only [fwResident, fwLookahead, hk', if_true, Bool.and_eq_true] at this
      exact this.2
  have hsub2 : ∀ b, resident s.imb_diff_infos_ b = 1 →
      (layerAt s0 k).imb_diffs_used_fw.count b = true := by
    intro b hb
    have := (hrg b).1 hb
    cases k with
    | zero => simp [fwResident] at this
    | succ k' =>
      have hk' : k' < n - 1 := by omega
      simp only [fwResident, fwLookahead, hk', if_true, Bool.and_eq_true] at this
      exact this.2
  have hprev1 : ∀ b, (layerAt s0 k).imbs_used_fw.count b = true →
      (resident s.imb_data_infos_ b = 1 ↔ (fwPrevious s0 k).1.count b = true) := by
    intro b hb
    rw [hrd b]
    cases k with
    | zero => simp [fwResident, fwPrevious, empty_count]
    | succ k' =>
      have hk' : k' < n - 1 := by omega
      simp only [fwResident, fwPrevious, fwLookahead, hk', if_true, Bool.and_eq_true, hb,
        and_true]
  have hprev2 : ∀ b, (layerAt s0 k).imb_diffs_used_fw.count b = true →
      (resident s.imb_diff_infos_ b = 1 ↔ (fwPrevious s0 k).2.count b = true) := by
    intro b hb
    rw [hrg b]
    cases k with
    | zero => simp [fwResident, fwPrevious, empty_count]
    | succ k' =>
      have hk' : k' < n - 1 := by omega
      simp only [fwResident, fwPrevious, fwLookahead, hk', if_true, Bool.and_eq_true, hb,
        and_true]
  refine ⟨forwardLayer_pass n s0 s s' k hp h, fun j => (hst j).trans (hcl j), ?_, ?_, ?_, ?_⟩
  · intro j hj
    rw [hfr.2.2.1 j (by omega)]
    exact hun j (by omega)
  · intro b
    exact stage_after _ _ _ _ r1 hsub1 b
  · intro b
    exact stage_after _ _ _ _ r2 hsub2 b
  · intro j hj
    by_cases hjk : j = k
    · subst hjk
      obtain ⟨a1, a2⟩ := r3 (hk j)
      rw [a1, a2, hlists.1, hlists.2.2.1, List.nil_append, List.nil_append,
        firstAccesses_eq _ _ _ hprev1, firstAccesses_eq _ _ _ hprev2]
      exact ⟨rfl, rfl⟩
    · rw [hfr.2.2.1 j hjk]
      exact hacc j (by omega)

theorem fw_prefix (n : Nat) (s0 : Solver)
    (hk : ∀ j, DistinctKeys (layerAt s0 j))
    (he : ∀ j, clearFw (layerAt s0 j) = layerAt s0 j)
    (hz : ∀ b, resident s0.imb_data_infos_ b = 0 ∧ resident s0.imb_diff_infos_ b = 0)
    (k : Nat) (hkn : k ≤ n) (sk : Solver)
    (h : (List.range k).foldlM (forwardLayer n) s0 = .ok sk) : FwInv n s0 k sk := by
  induction k generalizing sk with
  | zero =>
    simp only [List.range_zero] at h
    cases h
    exact fwInv_start n s0 hz
  | succ k ih =>
    rw [List.range_succ, foldlM_ok_append] at h
    obtain ⟨s1, h1, h2⟩ := h
    rw [foldlM_ok_cons] at h2
    obtain ⟨s2, h3, h4⟩ := h2
    rw [foldlM_ok_nil] at h4
    subst h4
    exact fwInv_step n s0 s1 s2 k hk he (by omega) (ih (by omega) s1 h1) h3

theorem nextBackwardLayer_succ (nb : List Bool) (i : Nat) :
    nextBackwardLayer nb (i + 1) =
      if nb.getD i false then some i else nextBackwardLayer nb i := rfl

theorem bwInv_step (nb : List Bool) (s1 s s' : Solver) (i : Nat)
    (hinv : BwInv nb s1 (i + 1) s) (h : backwardLayer nb s i = .ok s') :
    BwInv nb s1 i s' := by
  obtain ⟨hp, hd, hg⟩ := hinv
  cases hnb : nb.getD i false with
  | false =>
    rw [backwardLayer_skip nb s i hnb] at h
    cases h
    have e : bwLookahead nb s1 (i + 1) = bwLookahead nb s1 i := by
      simp only [bwLookahead, nextBackwardLayer_succ, hnb, Bool.false_eq_true, if_false]
    rw [e] at hd hg
    exact ⟨hp, hd, hg⟩
  | true =>
    have e : bwLookahead nb s1 (i + 1) =
        ((layerAt s1 i).imbs_used_bw, (layerAt s1 i).imb_diffs_used_bw) := by
      simp only [bwLookahead, nextBackwardLayer_succ, hnb, if_true]
    rw [e] at hd hg
    obtain ⟨r1, r2, -⟩ := backwardLayer_resident nb s s' i hnb h
    obtain ⟨-, -, u3, u4⟩ := usagePart_fields _ _ (hp.2.1 i)
    have hl : bwLookahead nb s i = bwLookahead nb s1 i := bwLookahead_usage nb s1 s i hp.2.1
    rw [u3, hl] at r1
    rw [u4, hl] at r2
    refine ⟨backwardLayer_pass nb s1 s s' i hp h, ?_, ?_⟩
    · intro b hb
      have := (stage_after _ _ _ _ r1 hd b).1 hb
      simp only [Bool.and_eq_true] at this
      exact this.2
    · intro b hb
      have := (stage_after _ _ _ _ r2 hg b).1 hb
      simp only [Bool.and_eq_true] at this
      exact this.2

theorem bw_suffix (nb : List Bool) (s1 : Solver) (k : Nat) (s s' : Solver)
    (hinv : BwInv nb s1 k s)
    (h : (List.range k).reverse.foldlM (backwardLayer nb) s = .ok s') :
    BwInv nb s1 0 s' := by
  induction k generalizing s with
  | zero =>
    simp only [List.range_zero, List.reverse_nil] at h
    cases h
    exact hinv
  | succ k ih =>
    rw [List.range_succ, List.reverse_append, List.reverse_singleton, List.singleton_append,
      foldlM_ok_cons] at h
    obtain ⟨s2, h1, h2⟩ := h
    exact ih s2 (bwInv_step nb s1 s s2 k hinv h1) h2

theorem flags_of_resident (infos : List RowAccessInfo)
    (h : ∀ b, resident infos b ≠ 1) : ∀ i ∈ infos, i.data_in_mem = false := by
  intro i hi
  obtain ⟨b, hb, rfl⟩ := List.getElem_of_mem hi
  have hr := resident_of_get infos b _ (List.getElem?_eq_getElem hb)
  cases hf : (infos[b]).data_in_mem with
  | false => rfl
  | true =>
    rw [hf] at hr
    exact absurd hr (h b)

theorem bwInv_zero (nb : List Bool) (s1 s : Solver) (h : BwInv nb s1 0 s) :
    allReleased s = true := by
  rw [allReleased_iff]
  constructor
  · apply flags_of_resident
    intro b hb
    have := h.2.1 b hb
    simp [bwLookahead, nextBackwardLayer, empty_count] at this
  · apply flags_of_resident
    intro b hb
    have := h.2.2 b hb
    simp [bwLookahead, nextBackwardLayer, empty_count] at this

theorem fwPrevious_usage (s s0 : Solver)
    (h : ∀ j, usagePart (layerAt s j) = usagePart (layerAt s0 j)) (k : Nat) :
    fwPrevious s k = fwPrevious s0 k := by
  cases k with
  | zero => rfl
  | succ k =>
    obtain ⟨u1, u2, -, -⟩ := usagePart_fields _ _ (h k)
    simp only [fwPrevious, u1, u2]

theorem InitPs_forward_access (R : Nat) (alloc : HandleAlloc) (cfg : PsConfig) (net : Net)
    (s : Solver) (hno : cfg.no_ps = false) (h : (InitPs R alloc cfg net).outcome = .ok s)
    (k : Nat) (hk : k < net.layers.length) :
    (layerAt s k).imbs_to_access_fw =
      accessEntries (layerAt s k).imbs_used_fw (fwPrevious s k).1 ∧
    (layerAt s k).imb_diffs_to_access_fw =
      accessEntries (layerAt s k).imb_diffs_used_fw (fwPrevious s k).2 := by
  obtain ⟨s0, s1, s2, nt, h0, hf, hb, -, -, -, sp⟩ := InitPs_ok R alloc cfg net s hno h
  obtain ⟨-, -, -, hz, hfacts, -⟩ := initialState_facts R cfg net s0 nt h0
  obtain ⟨-, -, stB, -, -, -⟩ :=
    backwardFold (net.layers.map Layer.need_backward) _ s1 s2 hb
      (List.nodup_reverse.2 (List.nodup_range _))
  obtain ⟨hp, hcl, -, -, -, hacc⟩ := fw_prefix net.layers.length s0
    (fun j => (hfacts j).1) (fun j => (hfacts j).2.1) hz net.layers.length (Nat.le_refl _) s1 hf
  have pl := samePlan_layerAt s2 s sp
  have U : ∀ j, usagePart (layerAt s j) = usagePart (layerAt s0 j) := fun j =>
    (planPart_fields _ _ (pl j)).1.trans
      ((clearBw_fields _ _ (stB j)).1.trans (clearFw_fields _ _ (hcl j)).1)
  obtain ⟨ufw, udfw, -, -⟩ := usagePart_fields _ _ (U k)
  obtain ⟨-, p3, -, p4, -, -, -, -, -⟩ := planPart_fields _ _ (pl k)
  obtain ⟨-, c3, -, c4, -⟩ := clearBw_fields _ _ (stB k)
  obtain ⟨a1, a2⟩ := hacc k hk
  rw [p3, c3, a1, p4, c4, a2, ufw, udfw, fwPrevious_usage s s0 U k]
  exact ⟨rfl, rfl⟩

theorem ids_accessEntries (used previous : IntSet) :
    (ids (accessEntries used previous)).Sublist used.keys := by
  unfold ids accessEntries IntSet.keys
  rw [List.map_map]
  exact (List.filter_sublist _).map _

theorem accessEntries_empty (used : IntSet) :
    accessEntries used {} =
      used.entries.map (fun e => { global_imb_id := e.1, fetch := e.2.fetch }) := by
  unfold accessEntries
  rw [List.filter_eq_self.2 (fun e _ => by simp [empty_count])]

theorem mem_accessEntries (used previous : IntSet) (b : Nat) (hu : used.count b = true)
    (hp : previous.count b = false) : b ∈ ids (accessEntries used previous) := by
  obtain ⟨e, he, rfl⟩ := List.mem_map.1 ((mem_keys_iff used b).2 hu)
  unfold ids accessEntries
  rw [List.map_map]
  exact List.mem_map.2 ⟨e, List.mem_filter.2 ⟨he, by simp [hp]⟩, rfl⟩

/-- C31: in a run of `InitPs` that completes, the forward access list of stage 0 is its
whole forward usage set, and the forward access list of every stage `k ≥ 1` is the list of
the buffers of the forward usage set of `k` that the forward usage set of stage `k - 1`
does not hold, in the order of the usage set, which is ascending in the buffer id, each
with the fetch flag of the policy of `k`; so a buffer that stage `k` uses and stage `k - 1`
does not is accessed at `k`, whatever happened to it before.  The same holds for the
gradients. -/
theorem C31_forward_access_lists (R : Nat) (alloc : HandleAlloc) (cfg : PsConfig) (net : Net)
    (s : Solver) (hno : cfg.no_ps = false) (h : (InitPs R alloc cfg net).outcome = .ok s)
    (k : Nat) (li : LayerInfo) (hli : s.layer_infos_[k]? = some li) :
    (k = 0 →
      li.imbs_to_access_fw =
        li.imbs_used_fw.entries.map (fun e => { global_imb_id := e.1, fetch := e.2.fetch }) ∧
      li.imb_diffs_to_access_fw =
        li.imb_diffs_used_fw.entries.map
          (fun e => { global_imb_id := e.1, fetch := e.2.fetch })) ∧
    (∀ before, 1 ≤ k → s.layer_infos_[k - 1]? = some before →
      li.imbs_to_access_fw = accessEntries li.imbs_used_fw before.imbs_used_fw ∧
      li.imb_diffs_to_access_fw =
        accessEntries li.imb_diffs_used_fw before.imb_diffs_used_fw ∧
      (∀ b, li.imbs_used_fw.count b = true → before.imbs_used_fw.count b = false →
        b ∈ ids li.imbs_to_access_fw) ∧
      (∀ b, li.imb_diffs_used_fw.count b = true → before.imb_diffs_used_fw.count b = false →
        b ∈ ids li.imb_diffs_to_access_fw)) ∧
    (ids li.imbs_to_access_fw).Pairwise (· < ·) ∧
    (ids li.imb_diffs_to_access_fw).Pairwise (· < ·) := by
  have hlen := InitPs_length R alloc cfg net s hno h
  have hlt : k < net.layers.length := by
    rw [← hlen]; exact (List.getElem?_eq_some_iff.1 hli).1
  have hat := layerAt_of_getElem? s k li hli
  obtain ⟨a1, a2⟩ := InitPs_forward_access R alloc cfg net s hno h k hlt
  rw [hat] at a1 a2
  have f := InitPs_layer R alloc cfg net s hno h k _ (List.getElem?_eq_getElem hlt)
  obtain ⟨u1, u2, -, -⟩ := layerFacts_usage net s k _ f
  obtain ⟨s1, s2, -, -⟩ := usageOf_sorted net net.layers[k]
  rw [hat] at u1 u2
  refine ⟨?_, ?_, ?_, ?_⟩
  · intro h0
    subst h0
    rw [a1, a2]
    exact ⟨accessEntries_empty _, accessEntries_empty _⟩
  · intro before h1 hb
    obtain ⟨k', rfl⟩ : ∃ k', k = k' + 1 := ⟨k - 1, by omega⟩
    have hbefore := layerAt_of_getElem? s k' before hb
    simp only [fwPrevious, hbefore] at a1 a2
    refine ⟨a1, a2, ?_, ?_⟩
    · intro b hu hp
      rw [a1]
      exact mem_accessEntries _ _ b hu hp
    · intro b hu hp
      rw [a2]
      exact mem_accessEntries _ _ b hu hp
  · rw [a1]
    exact List.Pairwise.sublist (ids_accessEntries _ _) (by rw [u1]; exact s1)
  · rw [a2]
    exact List.Pairwise.sublist (ids_accessEntries _ _) (by rw [u2]; exact s2)

theorem C31_forward_access_lists_witness :
    ids (layerAt (InitPs 4 countingAlloc {} scenarioNet).solver 2).imbs_to_access_fw = [1] ∧
    (layerAt (InitPs 4 countingAlloc {} scenarioNet).solver 2).imbs_to_access_fw =
      accessEntries (layerAt (InitPs 4 countingAlloc {} scenarioNet).solver 2).imbs_used_fw
        (layerAt (InitPs 4 countingAlloc {} scenarioNet).solver 1).imbs_used_fw :=
  ⟨by decide,
   ((C31_forward_access_lists 4 countingAlloc {} scenarioNet
      (InitPs 4 countingAlloc {} scenarioNet).solver rfl rfl 2 _ rfl).2.1 _
        (by decide) rfl).1⟩

theorem keysBelow_initial (R : Nat) (cfg : PsConfig) (net : Net) (s0 : Solver) (nt : Nat)
    (h : initialState R cfg net = .ok (s0, nt)) (hv : ValidIds net) (j : Nat) :
    KeysBelow s0.imb_data_infos_.length (layerAt s0 j) := by
  obtain ⟨hlen, hd, -, -, -, husage⟩ := initialState_facts R cfg net s0 nt h
  rw [hd]
  by_cases hj : j < net.layers.length
  · have h1 := husage j _ (List.getElem?_eq_getElem hj)
    have u1 : (layerAt s0 j).imbs_used_fw = (usageOf net net.layers[j]).imbs_used_fw := by
      have e := congrArg LayerInfo.imbs_used_fw h1
      exact e
    have u2 : (layerAt s0 j).imb_diffs_used_fw =
        (usageOf net net.layers[j]).imb_diffs_used_fw := by
      have e := congrArg LayerInfo.imb_diffs_used_fw h1
      exact e
    have u3 : (layerAt s0 j).imbs_used_bw = (usageOf net net.layers[j]).imbs_used_bw := by
      have e := congrArg LayerInfo.imbs_used_bw h1
      exact e
    have u4 : (layerAt s0 j).imb_diffs_used_bw =
        (usageOf net net.layers[j]).imb_diffs_used_bw := by
      have e := congrArg LayerInfo.imb_diffs_used_bw h1
      exact e
    have hmem := hv net.layers[j] (List.getElem_mem _)
    unfold KeysBelow
    rw [u1, u2, u3, u4]
    refine ⟨?_, ?_, ?_, ?_⟩
    · intro b hb
      exact hmem b ((usageOf_keys net _ b).1 ((mem_keys_iff _ b).1 hb))
    · intro b hb
      exact hmem b ((usageOf_keys net _ b).2.1 ((mem_keys_iff _ b).1 hb))
    · intro b hb
      exact hmem b ((usageOf_keys net _ b).2.2.1 ((mem_keys_iff _ b).1 hb))
    · intro b hb
      exact hmem b ((usageOf_keys net _ b).2.2.2 ((mem_keys_iff _ b).1 hb))
  · rw [layerAt_default s0 j (by omega)]
    exact ⟨fun b hb => (by cases hb), fun b hb => (by cases hb), fun b hb => (by cases hb),
      fun b hb => (by cases hb)⟩

theorem buildLists_ok (net : Net) (s0 s2 : Solver) (h : buildLists net s0 = .ok s2) :
    ∃ s1, forwardPass net.layers.length s0 = .ok s1 ∧
      (List.range s1.layer_infos_.length).reverse.foldlM
        (backwardLayer (net.layers.map Layer.need_backward)) s1 = .ok s2 := by
  unfold buildLists at h
  cases hf : forwardPass net.layers.length s0 with
  | error e =>
    rw [hf] at h
    cases h
  | ok s1 =>
    rw [hf] at h
    exact ⟨s1, rfl, h⟩

theorem passes_released (R : Nat) (cfg : PsConfig) (net : Net) (s0 s2 : Solver) (nt : Nat)
    (h0 : initialState R cfg net = .ok (s0, nt)) (hb : buildLists net s0 = .ok s2)
    (hne : net.layers ≠ [])
    (hlast : needsBackward net (net.layers.length - 1) = true) :
    allReleased s2 = true := by
  obtain ⟨hlen, -, -, hz, hfacts, -⟩ := initialState_facts R cfg net s0 nt h0
  obtain ⟨s1, hf, hb⟩ := buildLists_ok net s0 s2 hb
  have hfw := fw_prefix net.layers.length s0 (fun j => (hfacts j).1)
    (fun j => (hfacts j).2.1) hz net.layers.length (Nat.le_refl _) s1 hf
  obtain ⟨hp, -, -, hrd, hrg, -⟩ := hfw
  have hpos : net.layers.length ≠ 0 := fun h => hne (List.length_eq_zero.1 h)
  obtain ⟨n, hn⟩ : ∃ n, net.layers.length = n + 1 := ⟨net.layers.length - 1, by omega⟩
  have hnb : (net.layers.map Layer.need_backward).getD n false = true := by
    have := hlast
    rw [hn] at this
    exact this
  have hlook : bwLookahead (net.layers.map Layer.need_backward) s1 (n + 1) =
      ((layerAt s0 n).imbs_used_bw, (layerAt s0 n).imb_diffs_used_bw) := by
    obtain ⟨-, -, u3, u4⟩ := usagePart_fields _ _ (hp.2.1 n)
    simp only [bwLookahead, nextBackwardLayer_succ, hnb, if_true, u3, u4]
  have hnot : ¬ n < n + 1 - 1 := by omega
  rw [hn] at hrd hrg
  have hstart : BwInv (net.layers.map Layer.need_backward) s1 (n + 1) s1 := by
    refine ⟨passState_refl s1, ?_, ?_⟩
    · intro b hb1
      have := (hrd b).1 hb1
      simp only [fwResident, fwLookahead, hnot, if_false, Bool.and_eq_true] at this
      rw [hlook]
      exact this.2
    · intro b hb1
      have := (hrg b).1 hb1
      simp only [fwResident, fwLookahead, hnot, if_false, Bool.and_eq_true] at this
      rw [hlook]
      exact this.2
  have hlen1 : s1.layer_infos_.length = n + 1 := by rw [hp.1, hlen, hn]
  rw [hlen1] at hb
  exact bwInv_zero _ s1 s2 (bw_suffix _ s1 (n + 1) s1 s2 hstart hb)

theorem passes_balanced (R : Nat) (cfg : PsConfig) (net : Net) (s0 s2 : Solver) (nt : Nat)
    (h0 : initialState R cfg net = .ok (s0, nt)) (hb : buildLists net s0 = .ok s2) :
    Balanced s2 := by
  obtain ⟨s1, hf, hb⟩ := buildLists_ok net s0 s2 hb
  have b0 := initialState_balanced R cfg net s0 nt h0
  have b1 := (forwardFold net.layers.length _ s0 s1 hf (List.nodup_range _)).2.2.2.2.2 b0
  exact (backwardFold (net.layers.map Layer.need_backward) _ s1 s2 hb
    (List.nodup_reverse.2 (List.nodup_range _))).2.2.2.2.2 b1

/-- C34: for a graph with at least one stage whose last stage takes part in the backward
pass, whenever the forward and the backward pass of `InitPs` (lines 580-736) return they
leave no data and no gradient buffer resident, so the check of lines 737-743 passes, and
every buffer has as many access entries as release entries over both directions; and when
the buffer ids of the graph are valid the passes do return, so planning passes all its
checks once the parameter count has been accepted. -/
theorem C34_passes_leave_no_buffer_resident (R : Nat) (cfg : PsConfig) (net : Net)
    (hne : net.layers ≠ [])
    (hlast : needsBackward net (net.layers.length - 1) = true) :
    (∀ s2 nt, listsOf R cfg net = .ok (s2, nt) →
      allReleased s2 = true ∧
      (∀ i ∈ s2.imb_data_infos_ ++ s2.imb_diff_infos_, i.data_in_mem = false) ∧
      ∀ b, total s2.layer_infos_ dataAccess b = total s2.layer_infos_ dataRelease b ∧
        total s2.layer_infos_ diffAccess b = total s2.layer_infos_ diffRelease b) ∧
    (ValidIds net → ∀ s0 nt, initialState R cfg net = .ok (s0, nt) →
      (∃ s2, listsOf R cfg net = .ok (s2, nt)) ∧ planned R cfg net = true) := by
  have key : ∀ s0 s2 nt, initialState R cfg net = .ok (s0, nt) →
      buildLists net s0 = .ok s2 → allReleased s2 = true :=
    fun s0 s2 nt h0 hb => passes_released R cfg net s0 s2 nt h0 hb hne hlast
  constructor
  · intro s2 nt hl
    unfold listsOf at hl
    cases h0 : initialState R cfg net with
    | error e =>
      rw [h0] at hl
      cases hl
    | ok p =>
      obtain ⟨s0, nt0⟩ := p
      rw [h0] at hl
      simp only at hl
      cases hb : buildLists net s0 with
      | error e =>
        rw [hb] at hl
        cases hl
      | ok s2' =>
        rw [hb] at hl
        simp only [Except.ok.injEq, Prod.mk.injEq] at hl
        obtain ⟨rfl, rfl⟩ := hl
        have hall := key s0 s2' nt0 h0 hb
        obtain ⟨f1, f2⟩ := (allReleased_iff s2').1 hall
        refine ⟨hall, ?_, ?_⟩
        · intro i hi
          rcases List.mem_append.1 hi with hi | hi
          · exact f1 i hi
          · exact f2 i hi
        · intro b
          obtain ⟨e1, e2⟩ := passes_balanced R cfg net s0 s2' nt0 h0 hb b
          rw [resident_zero _ f1, Nat.add_zero] at e1
          rw [resident_zero _ f2, Nat.add_zero] at e2
          exact ⟨e1, e2⟩
  · intro hv s0 nt h0
    obtain ⟨hlen, hd, hg, -, hfacts, -⟩ := initialState_facts R cfg net s0 nt h0
    obtain ⟨s1, s2, -, -, hb, -, -⟩ := (passes_outcome net s0 hlen (fun j => (hfacts j).1)).2
      (keysBelow_initial R cfg net s0 nt h0 hv) (by rw [hd, hg])
    have hl : listsOf R cfg net = .ok (s2, nt) := by
      unfold listsOf
      rw [h0]
      simp only
      rw [hb]
    refine ⟨⟨s2, hl⟩, ?_⟩
    unfold planned plan
    rw [hl]
    simp only [key s0 s2 nt h0 hb, if_true]

theorem C34_passes_leave_no_buffer_resident_witness :
    (scenarioNet.layers ≠ [] ∧
      needsBackward scenarioNet (scenarioNet.layers.length - 1) = true) ∧
    allReleased scenarioLists.1 = true ∧ planned 4 {} scenarioNet = true :=
  ⟨⟨by decide, by decide⟩,
   ((C34_passes_leave_no_buffer_resident 4 {} scenarioNet (by decide) (by decide)).1
      scenarioLists.1 scenarioLists.2 rfl).1,
   by decide⟩

/-- C33: at the compute point of a stage, after the access loops of the stage and before
its release loops, in the forward pass and in the backward pass, every buffer of the usage
set of the stage for that direction is resident, data and gradients, whatever the state the
pass has reached; so from the state lines 231-399 leave, the forward and the backward pass
never stop on one of the residency checks that guard the releases: they can only stop on a
buffer id outside the vectors, and with valid buffer ids they return. -/
theorem C33_used_buffers_are_resident_at_compute_points (R : Nat) (cfg : PsConfig)
    (net : Net) :
    (∀ (s : Solver) (k : Nat) (p : List RowAccessInfo × List RowAccessInfo),
      forwardComputePoint s k = .ok p →
      (∀ b, (layerAt s k).imbs_used_fw.count b = true → resident p.1 b = 1) ∧
      (∀ b, (layerAt s k).imb_diffs_used_fw.count b = true → resident p.2 b = 1)) ∧
    (∀ (s : Solver) (k : Nat) (p : List RowAccessInfo × List RowAccessInfo),
      backwardComputePoint s k = .ok p →
      (∀ b, (layerAt s k).imbs_used_bw.count b = true → resident p.1 b = 1) ∧
      (∀ b, (layerAt s k).imb_diffs_used_bw.count b = true → resident p.2 b = 1)) ∧
    (∀ s0 nt, initialState R cfg net = .ok (s0, nt) →
      (∀ e, buildLists net s0 = .error e → e = .outOfRange) ∧
      buildLists net s0 ≠ .error .checkFailed ∧
      (ValidIds net → ∃ s2, buildLists net s0 = .ok s2)) := by
  refine ⟨?_, ?_, ?_⟩
  · intro s k p hp
    unfold forwardComputePoint at hp
    split at hp
    · cases hp
    · rename_i li hli
      rw [layerAt_of_getElem? s k li hli]
      split at hp
      · cases hp
      · rename_i a ha
        split at hp
        · cases hp
        · rename_i b hb
          cases hp
          exact ⟨fun x hx => (accessLoop_flags _ _ _ _ ha x).2
              (Or.inl ((mem_keys_iff _ x).2 hx)),
            fun x hx => (accessLoop_flags _ _ _ _ hb x).2
              (Or.inl ((mem_keys_iff _ x).2 hx))⟩
  · intro s k p hp
    unfold backwardComputePoint at hp
    split at hp
    · cases hp
    · rename_i li hli
      rw [layerAt_of_getElem? s k li hli]
      split at hp
      · cases hp
      · rename_i a ha
        split at hp
        · cases hp
        · rename_i b hb
          cases hp
          exact ⟨fun x hx => (accessLoop_flags _ _ _ _ ha x).2
              (Or.inl ((mem_keys_iff _ x).2 hx)),
            fun x hx => (accessLoop_flags _ _ _ _ hb x).2
              (Or.inl ((mem_keys_iff _ x).2 hx))⟩
  · intro s0 nt h0
    obtain ⟨hlen, hd, hg, -, hfacts, -⟩ := initialState_facts R cfg net s0 nt h0
    obtain ⟨herr, htot⟩ := passes_outcome net s0 hlen (fun j => (hfacts j).1)
    refine ⟨herr, ?_, ?_⟩
    · intro hc
      have := herr _ hc
      cases this
    · intro hv
      obtain ⟨s1, s2, -, -, hb, -, -⟩ :=
        htot (keysBelow_initial R cfg net s0 nt h0 hv) (by rw [hd, hg])
      exact ⟨s2, hb⟩

theorem C33_used_buffers_are_resident_at_compute_points_witness :
    forwardComputePoint (scenarioForwardState 2) 2 = .ok scenarioComputePoint ∧
    (layerAt (scenarioForwardState 2) 2).imbs_used_fw.count 1 = true ∧
    scenarioComputePoint.1.map RowAccessInfo.data_in_mem = [false, true, true, false] ∧
    resident scenarioComputePoint.1 1 = 1 :=
  ⟨rfl, by decide, by decide,
   ((C33_used_buffers_are_resident_at_compute_points 4 {} scenarioNet).1
      (scenarioForwardState 2) 2 scenarioComputePoint rfl).1 1 (by decide)⟩

theorem alternate_append (r : Bool) (l1 l2 : List Bool) :
    alternate r (l1 ++ l2) = (alternate r l1).bind (fun m => alternate m l2) := by
  induction l1 generalizing r with
  | nil => rfl
  | cons e rest ih =>
    simp only [List.cons_append, alternate]
    split
    · rfl
    · exact ih e

theorem alternate_chain (r m t : Bool) (l1 l2 : List Bool)
    (h1 : alternate r l1 = some m) (h2 : alternate m l2 = some t) :
    alternate r (l1 ++ l2) = some t := by
  rw [alternate_append, h1]
  exact h2

theorem bool_ne_not (e r : Bool) (h : ¬ e = r) : e = !r := by
  revert h
  cases e <;> cases r <;> decide

theorem alternate_pattern (r t : Bool) (l : List Bool) (h : alternate r l = some t) :
    l = alternating (!r) l.length := by
  induction l generalizing r with
  | nil => rfl
  | cons e rest ih =>
    simp only [alternate] at h
    split at h
    · cases h
    · rename_i hne
      have he : e = !r := bool_ne_not e r hne
      have := ih e h
      simp only [List.length_cons, alternating]
      rw [← he, ← this]

theorem eventsOf_append (b : Nat) (l1 l2 : List (Nat × Bool)) :
    eventsOf b (l1 ++ l2) = eventsOf b l1 ++ eventsOf b l2 := by
  simp [eventsOf]

theorem eventsOf_cons (b i : Nat) (k : Bool) (l : List (Nat × Bool)) :
    eventsOf b ((i, k) :: l) = if i = b then k :: eventsOf b l else eventsOf b l := by
  by_cases h : i = b
  · simp [eventsOf, h]
  · simp [eventsOf, h]

theorem isResident_set (infos : List RowAccessInfo) (i b : Nat) (x : RowAccessInfo)
    (hi : i < infos.length) :
    isResident (infos.set i x) b = if b = i then x.data_in_mem else isResident infos b := by
  unfold isResident
  rw [resident_set infos i b x hi]
  by_cases hb : b = i
  · simp only [hb, if_true]
    cases x.data_in_mem <;> simp
  · simp only [hb, if_false]

theorem isResident_of_get (infos : List RowAccessInfo) (i : Nat) (info : RowAccessInfo)
    (h : infos[i]? = some info) : isResident infos i = info.data_in_mem := by
  unfold isResident
  rw [resident_of_get infos i info h]
  cases info.data_in_mem <;> simp

theorem accessLoop_walk (used : List (Nat × FetchKeep)) (infos : List RowAccessInfo)
    (acc : List ImbInfo) (r : List RowAccessInfo × List ImbInfo)
    (h : accessLoop used infos acc = .ok r) :
    ∃ extra, r.2 = acc ++ extra ∧ ∀ b,
      alternate (isResident infos b)
        (eventsOf b (extra.map (fun e => (e.global_imb_id, true)))) =
          some (isResident r.1 b) := by
  induction used generalizing infos acc with
  | nil =>
    simp only [accessLoop, Except.ok.injEq] at h
    subst h
    exact ⟨[], by simp, fun b => rfl⟩
  | cons p rest ih =>
    obtain ⟨imb_id, fk⟩ := p
    simp only [accessLoop] at h
    split at h
    · cases h
    · rename_i info hinfo
      have hlt : imb_id < infos.length := (List.getElem?_eq_some_iff.1 hinfo).1
      split at h
      · rename_i hflag
        obtain ⟨extra, h1, h2⟩ := ih _ _ h
        refine ⟨{ global_imb_id := imb_id, fetch := fk.fetch } :: extra, ?_, ?_⟩
        · rw [h1]
          simp
        · intro b
          have hb := h2 b
          rw [isResident_set _ _ _ _ hlt] at hb
          simp only [List.map_cons, eventsOf_cons]
          by_cases hbi : b = imb_id
          · subst hbi
            have hf : isResident infos b = false := by
              rw [isResident_of_get infos b info hinfo]
              simpa using hflag
            simp only [if_true] at hb
            simp only [if_true, hf, alternate, Bool.true_eq_false, if_false]
            exact hb
          · have hbi' : ¬ imb_id = b := fun e => hbi e.symm
            simp only [hbi, if_false] at hb
            simp only [hbi', if_false]
            exact hb
      · exact ih _ _ h

theorem releaseLoop_walk (next : IntSet) (used : List (Nat × FetchKeep))
    (infos : List RowAccessInfo) (acc : List ImbInfo)
    (r : List RowAccessInfo × List ImbInfo)
    (h : releaseLoop next used infos acc = .ok r) :
    ∃ extra, r.2 = acc ++ extra ∧ ∀ b,
      alternate (isResident infos b)
        (eventsOf b (extra.map (fun e => (e.global_imb_id, false)))) =
          some (isResident r.1 b) := by
  induction used generalizing infos acc with
  | nil =>
    simp only [releaseLoop, Except.ok.injEq] at h
    subst h
    exact ⟨[], by simp, fun b => rfl⟩
  | cons p rest ih =>
    obtain ⟨imb_id, fk⟩ := p
    simp only [releaseLoop] at h
    split at h
    · split at h
      · cases h
      · rename_i info hinfo
        have hlt : imb_id < infos.length := (List.getElem?_eq_some_iff.1 hinfo).1
        split at h
        · rename_i hflag
          obtain ⟨extra, h1, h2⟩ := ih _ _ h
          refine ⟨{ global_imb_id := imb_id, keep := fk.keep } :: extra, ?_, ?_⟩
          · rw [h1]
            simp
          · intro b
            have hb := h2 b
            rw [isResident_set _ _ _ _ hlt] at hb
            simp only [List.map_cons, eventsOf_cons]
            by_cases hbi : b = imb_id
            · subst hbi
              have hf : isResident infos b = true := by
                rw [isResident_of_get infos b info hinfo]
                exact hflag
              simp only [if_true] at hb
              simp only [if_true, hf, alternate, Bool.false_eq_true, if_false]
              exact hb
            · have hbi' : ¬ imb_id = b := fun e => hbi e.symm
              simp only [hbi, if_false] at hb
              simp only [hbi', if_false]
              exact hb
        · cases h
    · exact ih _ _ h

theorem stage_walk (used : List (Nat × FetchKeep)) (next : IntSet)
    (infos : List RowAccessInfo) (a c : List RowAccessInfo × List ImbInfo)
    (ha : accessLoop used infos [] = .ok a)
    (hc : releaseLoop next used a.1 [] = .ok c) (b : Nat) :
    alternate (isResident infos b) (eventsOf b (stageEvents a.2 c.2)) =
      some (isResident c.1 b) := by
  obtain ⟨ea, ha1, ha2⟩ := accessLoop_walk _ _ _ _ ha
  obtain ⟨ec, hc1, hc2⟩ := releaseLoop_walk _ _ _ _ _ hc
  rw [ha1, hc1]
  simp only [stageEvents, List.nil_append, eventsOf_append]
  exact alternate_chain _ _ _ _ _ (ha2 b) (hc2 b)

theorem forwardLayer_walk (n : Nat) (s s' : Solver) (i : Nat)
    (h : forwardLayer n s i = .ok s')
    (hcl : clearFw (layerAt s i) = layerAt s i) (b : Nat) :
    alternate (isResident s.imb_data_infos_ b) (eventsOf b (fwDataEvents (layerAt s' i))) =
      some (isResident s'.imb_data_infos_ b) ∧
    alternate (isResident s.imb_diff_infos_ b) (eventsOf b (fwDiffEvents (layerAt s' i))) =
      some (isResident s'.imb_diff_infos_ b) := by
  obtain ⟨li, a, b', c, d, hli, ha, hb, hc, hd, rfl⟩ := forwardLayer_ok n s s' i h
  have hlt : i < s.layer_infos_.length := (List.getElem?_eq_some_iff.1 hli).1
  have hat : layerAt s i = li := layerAt_of_getElem? s i li hli
  rw [hat] at hcl
  obtain ⟨e1, e2, e3, e4⟩ := clearFw_self li hcl
  rw [e1] at ha
  rw [e2] at hc
  rw [e3] at hb
  rw [e4] at hd
  simp only [layerAt, List.getD_eq_getElem?_getD, List.getElem?_set, hlt, if_true,
    Option.getD_some, fwDataEvents, fwDiffEvents]
  exact ⟨stage_walk _ _ _ _ _ ha hc b, stage_walk _ _ _ _ _ hb hd b⟩

theorem backwardLayer_walk (nb : List Bool) (s s' : Solver) (i : Nat)
    (hnb : nb.getD i false = true) (h : backwardLayer nb s i = .ok s')
    (hcl : clearBw (layerAt s i) = layerAt s i) (b : Nat) :
    alternate (isResident s.imb_data_infos_ b) (eventsOf b (bwDataEvents (layerAt s' i))) =
      some (isResident s'.imb_data_infos_ b) ∧
    alternate (isResident s.imb_diff_infos_ b) (eventsOf b (bwDiffEvents (layerAt s' i))) =
      some (isResident s'.imb_diff_infos_ b) := by
  obtain ⟨li, a, b', c, d, hli, ha, hb, hc, hd, rfl⟩ := backwardLayer_ok nb s s' i hnb h
  have hlt : i < s.layer_infos_.length := (List.getElem?_eq_some_iff.1 hli).1
  have hat : layerAt s i = li := layerAt_of_getElem? s i li hli
  rw [hat] at hcl
  obtain ⟨e1, e2, e3, e4⟩ := clearBw_self li hcl
  rw [e1] at ha
  rw [e2] at hc
  rw [e3] at hb
  rw [e4] at hd
  simp only [layerAt, List.getD_eq_getElem?_getD, List.getElem?_set, hlt, if_true,
    Option.getD_some, bwDataEvents, bwDiffEvents]
  exact ⟨stage_walk _ _ _ _ _ ha hc b, stage_walk _ _ _ _ _ hb hd b⟩

theorem forwardFold_walk (n : Nat) (is : List Nat) (s s' : Solver)
    (h : is.foldlM (forwardLayer n) s = .ok s') (hnd : is.Nodup)
    (hcl : ∀ j ∈ is, clearFw (layerAt s j) = layerAt s j) (b : Nat) :
    alternate (isResident s.imb_data_infos_ b)
        (eventsOf b (is.flatMap (fun k => fwDataEvents (layerAt s' k)))) =
      some (isResident s'.imb_data_infos_ b) ∧
    alternate (isResident s.imb_diff_infos_ b)
        (eventsOf b (is.flatMap (fun k => fwDiffEvents (layerAt s' k)))) =
      some (isResident s'.imb_diff_infos_ b) := by
  induction is generalizing s with
  | nil =>
    rw [foldlM_ok_nil] at h
    subst h
    exact ⟨rfl, rfl⟩
  | cons i is ih =>
    rw [foldlM_ok_cons] at h
    obtain ⟨s1, h1, h2⟩ := h
    have hnd' := List.nodup_cons.1 hnd
    obtain ⟨-, -, fr1, -, -⟩ := forwardLayer_frame n s s1 i h1
    obtain ⟨-, -, -, keep, -, -⟩ := forwardFold n is s1 s' h2 hnd'.2
    have hcl1 : ∀ j ∈ is, clearFw (layerAt s1 j) = layerAt s1 j := by
      intro j hj
      have hji : j ≠ i := fun e => hnd'.1 (e ▸ hj)
      rw [fr1 j hji]
      exact hcl j (List.mem_cons_of_mem _ hj)
    obtain ⟨w1, w2⟩ := forwardLayer_walk n s s1 i h1 (hcl i (List.mem_cons_self _ _)) b
    obtain ⟨r1, r2⟩ := ih s1 h2 hnd'.2 hcl1
    simp only [List.flatMap_cons, eventsOf_append, keep i hnd'.1]
    exact ⟨alternate_chain _ _ _ _ _ w1 r1, alternate_chain _ _ _ _ _ w2 r2⟩

theorem backwardFold_walk (nb : List Bool) (is : List Nat) (s s' : Solver)
    (h : is.foldlM (backwardLayer nb) s = .ok s') (hnd : is.Nodup)
    (hcl : ∀ j ∈ is, clearBw (layerAt s j) = layerAt s j) (b : Nat) :
    alternate (isResident s.imb_data_infos_ b)
        (eventsOf b ((is.filter (fun k => nb.getD k false)).flatMap
          (fun k => bwDataEvents (layerAt s' k)))) =
      some (isResident s'.imb_data_infos_ b) ∧
    alternate (isResident s.imb_diff_infos_ b)
        (eventsOf b ((is.filter (fun k => nb.getD k false)).flatMap
          (fun k => bwDiffEvents (layerAt s' k)))) =
      some (isResident s'.imb_diff_infos_ b) := by
  induction is generalizing s with
  | nil =>
    rw [foldlM_ok_nil] at h
    subst h
    exact ⟨rfl, rfl⟩
  | cons i is ih =>
    rw [foldlM_ok_cons] at h
    obtain ⟨s1, h1, h2⟩ := h
    have hnd' := List.nodup_cons.1 hnd
    obtain ⟨-, fr1, -, skip, -⟩ := backwardLayer_frame nb s s1 i h1
    obtain ⟨-, -, -, keep, -, -⟩ := backwardFold nb is s1 s' h2 hnd'.2
    have hcl1 : ∀ j ∈ is, clearBw (layerAt s1 j) = layerAt s1 j := by
      intro j hj
      have hji : j ≠ i := fun e => hnd'.1 (e ▸ hj)
      rw [fr1 j hji]
      exact hcl j (List.mem_cons_of_mem _ hj)
    obtain ⟨r1, r2⟩ := ih s1 h2 hnd'.2 hcl1
    cases hnb : nb.getD i false with
    | false =>
      have e := skip hnb
      subst e
      simp only [List.filter_cons, hnb, Bool.false_eq_true, if_false]
      exact ⟨r1, r2⟩
    | true =>
      obtain ⟨w1, w2⟩ :=
        backwardLayer_walk nb s s1 i hnb h1 (hcl i (List.mem_cons_self _ _)) b
      simp only [List.filter_cons, hnb, if_true, List.flatMap_cons, eventsOf_append,
        keep i (Or.inl hnd'.1)]
      exact ⟨alternate_chain _ _ _ _ _ w1 r1, alternate_chain _ _ _ _ _ w2 r2⟩

theorem isResident_initial (infos : List RowAccessInfo) (b : Nat)
    (h : resident infos b = 0) : isResident infos b = false := by
  unfold isResident
  rw [h]
  rfl

theorem passes_walk (R : Nat) (cfg : PsConfig) (net : Net) (s0 s1 s2 s : Solver) (nt : Nat)
    (h0 : initialState R cfg net = .ok (s0, nt))
    (hf : forwardPass net.layers.length s0 = .ok s1)
    (hb : (List.range s1.layer_infos_.length).reverse.foldlM
      (backwardLayer (net.layers.map Layer.need_backward)) s1 = .ok s2)
    (hs : ∀ j, planPart (layerAt s j) = planPart (layerAt s2 j)) (b : Nat) :
    alternate false (eventsOf b (dataEvents net s)) =
      some (isResident s2.imb_data_infos_ b) ∧
    alternate false (eventsOf b (diffEvents net s)) =
      some (isResident s2.imb_diff_infos_ b) := by
  obtain ⟨hlen, -, -, hz, hfacts, -⟩ := initialState_facts R cfg net s0 nt h0
  obtain ⟨l1, -, stF, -, -, -⟩ :=
    forwardFold net.layers.length _ s0 s1 hf (List.nodup_range _)
  obtain ⟨-, -, stB, -, -, -⟩ :=
    backwardFold (net.layers.map Layer.need_backward) _ s1 s2 hb
      (List.nodup_reverse.2 (List.nodup_range _))
  have hcl1 : ∀ j, clearBw (layerAt s1 j) = layerAt s1 j := by
    intro j
    obtain ⟨-, c1, c2, c3, c4⟩ := clearFw_fields _ _ (stF j)
    obtain ⟨z1, z2, z3, z4⟩ := clearBw_self _ (hfacts j).2.2
    simp only [clearBw, c1, c2, c3, c4, z1, z2, z3, z4]
    cases hl : layerAt s1 j
    rw [hl] at c1 c2 c3 c4
    simp only at c1 c2 c3 c4
    simp only [c1, c2, c3, c4, z1, z2, z3, z4]
  obtain ⟨f1, f2⟩ := forwardFold_walk net.layers.length _ s0 s1 hf (List.nodup_range _)
    (fun j _ => (hfacts j).2.1) b
  have l1' : s1.layer_infos_.length = net.layers.length := l1.trans hlen
  rw [l1'] at hb
  obtain ⟨g1, g2⟩ := backwardFold_walk (net.layers.map Layer.need_backward) _ s1 s2 hb
    (List.nodup_reverse.2 (List.nodup_range _)) (fun j _ => hcl1 j) b
  rw [isResident_initial _ b (hz b).1] at f1
  rw [isResident_initial _ b (hz b).2] at f2
  have efw : ∀ k, fwDataEvents (layerAt s k) = fwDataEvents (layerAt s1 k) ∧
      fwDiffEvents (layerAt s k) = fwDiffEvents (layerAt s1 k) := by
    intro k
    obtain ⟨-, p1, p2, p3, p4, -⟩ := planPart_fields _ _ (hs k)
    obtain ⟨-, c1, c2, c3, c4⟩ := clearBw_fields _ _ (stB k)
    simp only [fwDataEvents, fwDiffEvents, p1, p2, p3, p4, c1, c2, c3, c4]
    exact ⟨trivial, trivial⟩
  have ebw : ∀ k, bwDataEvents (layerAt s k) = bwDataEvents (layerAt s2 k) ∧
      bwDiffEvents (layerAt s k) = bwDiffEvents (layerAt s2 k) := by
    intro k
    obtain ⟨-, -, -, -, -, p5, p6, p7, p8⟩ := planPart_fields _ _ (hs k)
    simp only [bwDataEvents, bwDiffEvents, p5, p6, p7, p8]
    exact ⟨trivial, trivial⟩
  have hfil : (fun k => needsBackward net k) =
      (fun k => (net.layers.map Layer.need_backward).getD k false) := rfl
  simp only [dataEvents, diffEvents, eventsOf_append, hfil, efw, ebw]
  exact ⟨alternate_chain _ _ _ _ _ f1 g1, alternate_chain _ _ _ _ _ f2 g2⟩

theorem listsOf_ok (R : Nat) (cfg : PsConfig) (net : Net) (s2 : Solver) (nt : Nat)
    (hl : listsOf R cfg net = .ok (s2, nt)) :
    ∃ s0, initialState R cfg net = .ok (s0, nt) ∧ buildLists net s0 = .ok s2 := by
  unfold listsOf at hl
  cases h0 : initialState R cfg net with
  | error e =>
    rw [h0] at hl
    cases hl
  | ok p =>
    obtain ⟨s0, nt0⟩ := p
    rw [h0] at hl
    simp only at hl
    cases hb : buildLists net s0 with
    | error e =>
      rw [hb] at hl
      cases hl
    | ok s2' =>
      rw [hb] at hl
      simp only [Except.ok.injEq, Prod.mk.injEq] at hl
      obtain ⟨rfl, rfl⟩ := hl
      exact ⟨s0, rfl, hb⟩

theorem listsOf_of (R : Nat) (cfg : PsConfig) (net : Net) (s0 s2 : Solver) (nt : Nat)
    (h0 : initialState R cfg net = .ok (s0, nt)) (hb : buildLists net s0 = .ok s2) :
    listsOf R cfg net = .ok (s2, nt) := by
  unfold listsOf
  rw [h0]
  simp only
  rw [hb]

theorem isResident_released (s : Solver) (h : allReleased s = true) (b : Nat) :
    isResident s.imb_data_infos_ b = false ∧ isResident s.imb_diff_infos_ b = false := by
  obtain ⟨f1, f2⟩ := (allReleased_iff s).1 h
  exact ⟨isResident_initial _ b (resident_zero _ f1 b),
    isResident_initial _ b (resident_zero _ f2 b)⟩

/-- C32: in the planned order of the events, stages `0 .. N - 1` forward and then the
stages that take part in the backward pass `N - 1 .. 0`, all accesses of a stage before all
its releases, the events of every buffer, data and gradients apart, alternate and start
with an access: no buffer gets an access entry while resident or a release entry while not
resident, and the residency flag the passes leave is the one the events give.  This holds
for every graph on which the passes of `InitPs` (lines 580-736) return; in the solver a
completed `InitPs` leaves, the events of every buffer end with it released; and with valid
buffer ids the passes do return. -/
theorem C32_buffer_events_alternate (R : Nat) (cfg : PsConfig) (net : Net) :
    (∀ s2 nt, listsOf R cfg net = .ok (s2, nt) → ∀ b,
      (alternate false (eventsOf b (dataEvents net s2)) =
          some (isResident s2.imb_data_infos_ b) ∧
        eventsOf b (dataEvents net s2) =
          alternating true (eventsOf b (dataEvents net s2)).length) ∧
      (alternate false (eventsOf b (diffEvents net s2)) =
          some (isResident s2.imb_diff_infos_ b) ∧
        eventsOf b (diffEvents net s2) =
          alternating true (eventsOf b (diffEvents net s2)).length)) ∧
    (∀ (alloc : HandleAlloc) (s : Solver), cfg.no_ps = false →
      (InitPs R alloc cfg net).outcome = .ok s → ∀ b,
      (alternate false (eventsOf b (dataEvents net s)) = some false ∧
        eventsOf b (dataEvents net s) =
          alternating true (eventsOf b (dataEvents net s)).length) ∧
      (alternate false (eventsOf b (diffEvents net s)) = some false ∧
        eventsOf b (diffEvents net s) =
          alternating true (eventsOf b (diffEvents net s)).length)) ∧
    (ValidIds net → ∀ s0 nt, initialState R cfg net = .ok (s0, nt) →
      ∃ s2, listsOf R cfg net = .ok (s2, nt)) := by
  refine ⟨?_, ?_, ?_⟩
  · intro s2 nt hl b
    obtain ⟨s0, h0, hb⟩ := listsOf_ok R cfg net s2 nt hl
    obtain ⟨s1, hf, hb⟩ := buildLists_ok net s0 s2 hb
    obtain ⟨w1, w2⟩ := passes_walk R cfg net s0 s1 s2 s2 nt h0 hf hb (fun _ => rfl) b
    exact ⟨⟨w1, alternate_pattern _ _ _ w1⟩, ⟨w2, alternate_pattern _ _ _ w2⟩⟩
  · intro alloc s hno h b
    obtain ⟨s0, s1, s2, nt, h0, hf, hb, hall, -, -, sp⟩ := InitPs_ok R alloc cfg net s hno h
    obtain ⟨w1, w2⟩ := passes_walk R cfg net s0 s1 s2 s nt h0 hf hb
      (samePlan_layerAt s2 s sp) b
    obtain ⟨z1, z2⟩ := isResident_released s2 hall b
    rw [z1] at w1
    rw [z2] at w2
    exact ⟨⟨w1, alternate_pattern _ _ _ w1⟩, ⟨w2, alternate_pattern _ _ _ w2⟩⟩
  · intro hv s0 nt h0
    obtain ⟨hlen, hd, hg, -, hfacts, -⟩ := initialState_facts R cfg net s0 nt h0
    obtain ⟨s1, s2, -, -, hb, -, -⟩ := (passes_outcome net s0 hlen (fun j => (hfacts j).1)).2
      (keysBelow_initial R cfg net s0 nt h0 hv) (by rw [hd, hg])
    exact ⟨s2, listsOf_of R cfg net s0 s2 nt h0 hb⟩

theorem C32_buffer_events_alternate_witness :
    listsOf 4 {} scenarioNet = .ok scenarioLists ∧
    eventsOf 1 (dataEvents scenarioNet scenarioLists.1) = [true, false, true, false] ∧
    alternate false (eventsOf 1 (dataEvents scenarioNet scenarioLists.1)) =
      some (isResident scenarioLists.1.imb_data_infos_ 1) :=
  ⟨rfl, by decide,
   (((C32_buffer_events_alternate 4 {} scenarioNet).1
      scenarioLists.1 scenarioLists.2 rfl) 1).1.1⟩

/-- C35, the code at the failing input: on the graph whose first stage with parameters
(stage 1) needs no backward while the stage above it (stage 2) is trained, `InitPs`
completes; the virtual iteration registers the two forward handles of stage 1 and nothing
at its backward site, and the forward and the six backward handles of stage 2; the initial
write of worker 0 then pre-writes and writes the rows of stage 1 through `prewrite_handle`
and `write_handle`, which were never assigned, and a test iteration makes all six backward
calls of stage 1 through handles that were never assigned, while a training iteration makes
none of them; the same calls of stage 2 all carry the handles that were registered. -/
theorem C35_unregistered_handles_are_consumed :
    (InitPs 4 countingAlloc {} frozenNet).outcome =
      .ok frozenSolver ∧
    (registrations (InitPs 4 countingAlloc {} frozenNet).trace).map (fun op => op.site) =
      [.forward 0 1, .forward 0 1, .forward 0 2, .forward 0 2, .backward 0 2, .backward 0 2,
       .backward 0 2, .backward 0 2, .backward 0 2, .backward 0 2] ∧
    callsAt (.initial 1) (InitPs 4 countingAlloc {} frozenNet).trace =
      [.preinc_batch none, .inc_batch none] ∧
    callsAt (.backward 0 1)
        (ForwardBackwardUsingPs frozenSolver frozenNet true).trace =
      [.preinc_batch none, .read_batch none, .localaccess_batch none, .inc_batch none,
       .postread_batch none, .postlocalaccess_batch none] ∧
    callsAt (.backward 0 1)
        (ForwardBackwardUsingPs frozenSolver frozenNet false).trace =
      [] ∧
    callsAt (.forward 0 1)
        (ForwardBackwardUsingPs frozenSolver frozenNet true).trace =
      [.read_batch (some 2), .postread_batch (some 3)] ∧
    callsAt (.initial 2) (InitPs 4 countingAlloc {} frozenNet).trace =
      [.preinc_batch (some 6), .inc_batch (some 9)] ∧
    callsAt (.backward 0 2)
        (ForwardBackwardUsingPs frozenSolver frozenNet true).trace =
      [.preinc_batch (some 6), .read_batch (some 7), .localaccess_batch (some 8),
       .inc_batch (some 9), .postread_batch (some 10), .postlocalaccess_batch (some 11)] :=
  ⟨rfl, by decide, by decide, by decide, by decide, by decide, by decide, by decide⟩

/-- C6 as stated fails at an in-place stage: the ReLU stage (2) of `inPlaceNet` is not a
data stage, its input is buffer 2, not a net output, and the forward policy `InitPs`
computes for it is (no fetch, keep), the policy of an output, not (fetch, keep): buffer 2 is
also the output of the stage, and the policy of an output is assigned after the policy of
an input.  On this graph the forward data lists of the stage are empty. -/
theorem C6_counterexample :
    (InitPs 4 countingAlloc {} inPlaceNet).outcome =
      .ok (InitPs 4 countingAlloc {} inPlaceNet).solver ∧
    inPlaceNet.layers[2]? = some { type := "ReLU", bottom_ids := [2], top_ids := [2] } ∧
    2 ∉ inPlaceNet.net_output_blob_indices ∧
    (layerAt (InitPs 4 countingAlloc {} inPlaceNet).solver 2).imbs_used_fw.find 2 =
      some ⟨false, true⟩ ∧
    (layerAt (InitPs 4 countingAlloc {} inPlaceNet).solver 2).imbs_used_fw.find 2 ≠
      some ⟨true, true⟩ ∧
    (layerAt (InitPs 4 countingAlloc {} inPlaceNet).solver 2).imbs_to_access_fw = [] ∧
    (layerAt (InitPs 4 countingAlloc {} inPlaceNet).solver 2).imbs_to_release_fw = [] := by
  refine ⟨rfl, ?_, ?_, ?_, ?_, ?_, ?_⟩ <;> decide

/-- C6, amended: in a run of `InitPs` that completes, for every stage and every input
buffer of it that is not a net output, the forward usage set gives the data of the buffer
the policy (fetch, keep) when the buffer is not also an output of the stage, and the policy
of an output, (no fetch, keep), when it is: lines 366-373 assign the outputs after lines
346-353 have assigned the inputs. -/
theorem C6_bottom_forward_policy (R : Nat) (alloc : HandleAlloc) (cfg : PsConfig)
    (net : Net) (s : Solver) (hno : cfg.no_ps = false)
    (h : (InitPs R alloc cfg net).outcome = .ok s)
    (k : Nat) (layer : Layer) (hk : net.layers[k]? = some layer)
    (li : LayerInfo) (hli : s.layer_infos_[k]? = some li)
    (b : Nat) (hb : b ∈ layer.bottom_ids) (hout : b ∉ net.net_output_blob_indices) :
    (b ∉ layer.top_ids → li.imbs_used_fw.find b = some ⟨true, true⟩) ∧
    (b ∈ layer.top_ids → li.imbs_used_fw.find b = some ⟨false, true⟩) := by
  have e := bottom_forward_policy_of_not_top R alloc cfg net s hno h k layer hk li hli b hb hout
  constructor
  · intro ht
    rw [e, if_neg ht]
  · intro ht
    rw [e, if_pos ht]

/-- C6, amended, on the graph with the in-place stage: buffer 2 is an input only of the
inner product stage (3), with the policy (fetch, keep), and input and output of the ReLU
stage (2), with the policy (no fetch, keep). -/
theorem C6_bottom_forward_policy_witness :
    (layerAt (InitPs 4 countingAlloc {} inPlaceNet).solver 3).imbs_used_fw.find 2 =
      some ⟨true, true⟩ ∧
    (layerAt (InitPs 4 countingAlloc {} inPlaceNet).solver 2).imbs_used_fw.find 2 =
      some ⟨false, true⟩ :=
  ⟨(C6_bottom_forward_policy 4 countingAlloc {} inPlaceNet
      (InitPs 4 countingAlloc {} inPlaceNet).solver rfl rfl 3 _ rfl _ rfl 2
      (by decide) (by decide)).1 (by decide),
   (C6_bottom_forward_policy 4 countingAlloc {} inPlaceNet
      (InitPs 4 countingAlloc {} inPlaceNet).solver rfl rfl 2 _ rfl _ rfl 2
      (by decide) (by decide)).2 (by decide)⟩

/-- C8 as stated fails at an in-place stage: for the input (buffer 2, not a net output) of
the ReLU stage (2) of `inPlaceNet`, not a data stage, the backward policy of the data is
(fetch, no keep), as stated, but the backward policy of the gradient is (fetch, no keep),
the policy of the gradient of an output, not (no fetch, keep): buffer 2 is also the output of
the stage, whose gradient the stage reads.  On this graph the backward gradient lists of
the stage are empty. -/
theorem C8_counterexample :
    (InitPs 4 countingAlloc {} inPlaceNet).outcome =
      .ok (InitPs 4 countingAlloc {} inPlaceNet).solver ∧
    inPlaceNet.layers[2]? = some { type := "ReLU", bottom_ids := [2], top_ids := [2] } ∧
    2 ∉ inPlaceNet.net_output_blob_indices ∧
    (layerAt (InitPs 4 countingAlloc {} inPlaceNet).solver 2).imbs_used_bw.find 2 =
      some ⟨true, false⟩ ∧
    (layerAt (InitPs 4 countingAlloc {} inPlaceNet).solver 2).imb_diffs_used_bw.find 2 =
      some ⟨true, false⟩ ∧
    (layerAt (InitPs 4 countingAlloc {} inPlaceNet).solver 2).imb_diffs_used_bw.find 2 ≠
      some ⟨false, true⟩ ∧
    (layerAt (InitPs 4 countingAlloc {} inPlaceNet).solver 2).imb_diffs_to_access_bw = [] ∧
    (layerAt (InitPs 4 countingAlloc {} inPlaceNet).solver 2).imb_diffs_to_release_bw = [] := by
  refine ⟨rfl, ?_, ?_, ?_, ?_, ?_, ?_, ?_⟩ <;> decide

/-- C8, amended: in a run of `InitPs` that completes, for every stage that is not a data
stage and every input buffer of it that is not a net output, the backward usage sets give
the data of the buffer the policy (fetch, no keep), and give its gradient the policy
(no fetch, keep) when the buffer is not also an output of the stage, and the policy of the
gradient of an output, (fetch, no keep), when it is: lines 379-391 assign the outputs after
lines 354-365 have assigned the inputs. -/
theorem C8_bottom_backward_policies (R : Nat) (alloc : HandleAlloc) (cfg : PsConfig)
    (net : Net) (s : Solver) (hno : cfg.no_ps = false)
    (h : (InitPs R alloc cfg net).outcome = .ok s)
    (k : Nat) (layer : Layer) (hk : net.layers[k]? = some layer)
    (li : LayerInfo) (hli : s.layer_infos_[k]? = some li) (hty : layer.type ≠ "Data")
    (b : Nat) (hb : b ∈ layer.bottom_ids) (hout : b ∉ net.net_output_blob_indices) :
    li.imbs_used_bw.find b = some ⟨true, false⟩ ∧
    (b ∉ layer.top_ids → li.imb_diffs_used_bw.find b = some ⟨false, true⟩) ∧
    (b ∈ layer.top_ids → li.imb_diffs_used_bw.find b = some ⟨true, false⟩) := by
  obtain ⟨e1, e2⟩ := bottom_backward_policies_of_not_top R alloc cfg net s hno h k layer hk
    li hli hty b hb hout
  refine ⟨e1, ?_, ?_⟩
  · intro ht
    rw [e2, if_neg ht]
  · intro ht
    rw [e2, if_pos ht]

/-- C8, amended, on the graph with the in-place stage: at the inner product stage (3)
the data of its input, buffer 2, has the policy (fetch, no keep) and its gradient
(no fetch, keep); at the ReLU stage (2), where buffer 2 is input and output, the gradient
has the policy (fetch, no keep). -/
theorem C8_bottom_backward_policies_witness :
    ((layerAt (InitPs 4 countingAlloc {} inPlaceNet).solver 3).imbs_used_bw.find 2 =
        some ⟨true, false⟩ ∧
      (layerAt (InitPs 4 countingAlloc {} inPlaceNet).solver 3).imb_diffs_used_bw.find 2 =
        some ⟨false, true⟩) ∧
    (layerAt (InitPs 4 countingAlloc {} inPlaceNet).solver 2).imb_diffs_used_bw.find 2 =
      some ⟨true, false⟩ :=
  have a := C8_bottom_backward_policies 4 countingAlloc {} inPlaceNet
    (InitPs 4 countingAlloc {} inPlaceNet).solver rfl rfl 3 _ rfl _ rfl (by decide) 2
    (by decide) (by decide)
  have b := C8_bottom_backward_policies 4 countingAlloc {} inPlaceNet
    (InitPs 4 countingAlloc {} inPlaceNet).solver rfl rfl 2 _ rfl _ rfl (by decide) 2
    (by decide) (by decide)
  ⟨⟨a.1, a.2.1 (by decide)⟩, b.2.2 (by decide)⟩

end Caffe
